import Mathlib

/-! MO3 module loader (`soundlib/Load_mo3.cpp`).

A shallow embedding of the built-in MO3 decoder: the control-bit reader
(`READ_CTRL_BIT`, `DECODE_CTRL_BITS`), the LZ decompressor `UnpackMO3Data`,
the pattern (track) translator and the record parsing done by
`CSoundFile::ReadMO3`, followed by theorems about them.

Conventions.
* Bytes and unsigned machine integers are `Nat`, signed ones are `Int`; every
  operation that can leave the range of its C++ type is followed by an explicit
  reduction (`% 2 ^ w`, `wrap32`).
* Loops whose trip count is not known structurally take a `fuel` argument and
  return `none` when it runs out; the entry points compute a fuel bound from
  their input and are proved never to return `none`.
* `FileReader` and the other parts of the code base that `Load_mo3.cpp` only uses are
  modelled (their doc comments say so) or taken as parameters (`Constants`,
  `Environment`).
-/

namespace MO3

/-! ## Machine integers -/

/-- Value of an `int32` converted to `uint32` (`static_cast<uint32>`). -/
def toU32 (x : Int) : Nat := (x % 4294967296).toNat

/-- Value of a `uint32` bit pattern read as `int32`. -/
def toI32 (n : Nat) : Int :=
  if n % 4294967296 < 2147483648 then ((n % 4294967296 : Nat) : Int)
  else ((n % 4294967296 : Nat) : Int) - 4294967296

/-- Result of an `int32` computation: the exact value reduced to 32-bit two's complement. -/
def wrap32 (x : Int) : Int := (x + 2147483648) % 4294967296 - 2147483648

/-! ## FileReader -/

/-- Modelled from the spec: `FileReader` (soundlib/FileReader.h) is not among the
sources. It is the "underlying byte stream": a byte buffer with a read cursor.
`pos ≤ data.length` is kept by every operation below. -/
structure FileReader where
  data : List Nat
  pos : Nat
deriving DecidableEq, Repr

namespace FileReader

/-- Number of bytes between the cursor and the end of the data. -/
def BytesLeft (f : FileReader) : Nat := f.data.length - f.pos

/-- Modelled from the spec: `FileReader::CanRead(n)`, true iff `n` more bytes can be read. -/
def CanRead (f : FileReader) (n : Nat) : Bool := decide (n ≤ f.BytesLeft)

/-- Modelled from the spec: `FileReader::Rewind()`. -/
def Rewind (f : FileReader) : FileReader := { f with pos := 0 }

/-- Modelled from the spec: `FileReader::ReadUint8()`. The source uses the returned
`uint8` directly and has no failure channel, and `while(musicChunk.ReadUint8() != 0);`
in `ReadMO3` relies on a read at the end of the data yielding 0: when a byte is left
it is returned and the cursor advances, otherwise the result is 0 and the cursor stays. -/
def ReadUint8 (f : FileReader) : Nat × FileReader :=
  if f.pos < f.data.length then (f.data.getD f.pos 0 % 256, { f with pos := f.pos + 1 })
  else (0, f)

end FileReader

/-! ## Control-bit reader -/

/-- The locals shared by the unpack macros: the stream, the pending bit buffer
`data` (`uint16`) and the last bit shifted out, `carry` (`int8`). -/
structure BitState where
  file : FileReader
  data : Nat
  carry : Nat
deriving DecidableEq, Repr

/-- The macro `READ_CTRL_BIT(n)`. -/
def READ_CTRL_BIT (n : Nat) (s : BitState) : BitState :=
  let data := (s.data <<< 1) % 65536
  let carry := if data ≥ 1 <<< n then 1 else 0
  let data := data &&& ((1 <<< n) - 1)
  if data = 0 then
    let r := s.file.ReadUint8
    let data := ((r.1 <<< 1) + 1) % 65536
    let carry := if data ≥ 1 <<< n then 1 else 0
    let data := data &&& ((1 <<< n) - 1)
    { file := r.2, data := data, carry := carry }
  else
    { file := s.file, data := data, carry := carry }

/-- The `do { ... } while(carry)` loop of `DECODE_CTRL_BITS`. -/
def decodeCtrlLoop : Nat → BitState → Int → Option (BitState × Int)
  | 0, _, _ => none
  | fuel + 1, s, strLen =>
    let s1 := READ_CTRL_BIT 8 s
    let strLen1 := wrap32 (wrap32 (strLen * 2) + s1.carry)
    let s2 := READ_CTRL_BIT 8 s1
    if s2.carry ≠ 0 then decodeCtrlLoop fuel s2 strLen1 else some (s2, strLen1)

/-- The macro `DECODE_CTRL_BITS`: `strLen++` followed by the pair loop. -/
def DECODE_CTRL_BITS (fuel : Nat) (s : BitState) (strLen : Int) : Option (BitState × Int) :=
  decodeCtrlLoop fuel s (wrap32 (strLen + 1))

/-! ## UnpackMO3Data -/

/-- Locals of `UnpackMO3Data` that live across loop iterations. `out` holds the bytes
written so far, so `dst - initDst = out.length`. -/
structure LZState where
  bs : BitState
  strLen : Int
  previousPtr : Nat
  size : Nat
  out : List Nat
deriving DecidableEq, Repr

/-- What the match branch computes before the copy (source lines 478-511): the bit
reader afterwards, the decoded length code, the adjustment `ebp`, the offset, the
length before and after the adjustment, and the stored previous pointer. -/
structure MatchHeader where
  bs : BitState
  code : Int
  ebp : Nat
  strOffset : Int
  refined : Int
  strLen : Int
  previousPtr : Nat
deriving DecidableEq, Repr

/-- Source lines 480-498: from the decoded length code to the offset, the length
adjustment `ebp` and the stored previous pointer.
Returns `(file, strLen, strOffset, ebp, previousPtr)`. -/
def matchOffset (file : FileReader) (code : Int) (previousPtr : Nat) :
    FileReader × Int × Int × Nat × Nat :=
  let strLen := wrap32 (code - 3)
  if strLen < 0 then
    (file, wrap32 (strLen + 1), toI32 previousPtr, 0, previousPtr)
  else
    let r := file.ReadUint8
    let strOffset := toI32 (((toU32 strLen <<< 8) % 4294967296) ||| r.1)
    let strOffset := ~~~strOffset
    let ebp := if strOffset < -1280 then 1 else 0
    let ebp := ebp + 1
    let ebp := if strOffset < -32000 then ebp + 1 else ebp
    (r.2, 0, strOffset, ebp, toU32 strOffset)

/-- Source lines 500-510: the two low length bits and, when they are both 0, the
extended length plus 2 (the length before the adjustment `ebp` is added). -/
def refineLength (fuel : Nat) (s : BitState) (strLen : Int) : Option (BitState × Int) :=
  let s1 := READ_CTRL_BIT 8 s
  let strLen := wrap32 (wrap32 (strLen * 2) + s1.carry)
  let s2 := READ_CTRL_BIT 8 s1
  let strLen := wrap32 (wrap32 (strLen * 2) + s2.carry)
  if strLen = 0 then
    match DECODE_CTRL_BITS fuel s2 strLen with
    | none => none
    | some (s3, strLen) => some (s3, wrap32 (strLen + 2))
  else
    some (s2, strLen)

/-- Source lines 478-511: the whole match header, starting after the control bit 1.
The last step is `strLen = strLen + ebp`, computed in `uint32` and stored as `int32`. -/
def decodeMatch (fuel : Nat) (s : BitState) (strLen : Int) (previousPtr : Nat) :
    Option MatchHeader :=
  match DECODE_CTRL_BITS fuel s strLen with
  | none => none
  | some (s1, code) =>
    let r := matchOffset s1.file code previousPtr
    match refineLength fuel { s1 with file := r.1 } r.2.1 with
    | none => none
    | some (s2, refined) =>
      some { bs := s2, code := code, ebp := r.2.2.2.1, strOffset := r.2.2.1, refined := refined,
             strLen := toI32 (toU32 refined + r.2.2.2.1), previousPtr := r.2.2.2.2 }

/-- The copy loop `while(strLen > 0) { *dst++ = *string++; strLen--; }` run `n` times
with `string = initDst + src`. -/
def copyString : Nat → Nat → List Nat → List Nat
  | 0, _, out => out
  | n + 1, src, out => copyString n (src + 1) (out ++ [out.getD src 0])

/-- Outcome of one iteration of the main loop. -/
inductive LZStep where
  | next (st : LZState)
  | stop (st : LZState)
deriving DecidableEq, Repr

/-- One iteration of `while(size > 0)` (source lines 469-529); `stop` is `break`. -/
def unpackStep (fuel : Nat) (st : LZState) : Option LZStep :=
  let bs := READ_CTRL_BIT 8 st.bs
  if bs.carry = 0 then
    let r := bs.file.ReadUint8
    some (.next { st with bs := { bs with file := r.2 }, out := st.out ++ [r.1],
                          size := st.size - 1 })
  else
    match decodeMatch fuel bs st.strLen st.previousPtr with
    | none => none
    | some h =>
      let st1 : LZState := { st with bs := h.bs, strLen := h.strLen, previousPtr := h.previousPtr }
      if st.size ≥ toU32 h.strLen then
        let string : Int := (st.out.length : Int) + h.strOffset
        if string < 0 ∨ string ≥ (st.out.length : Int) then
          some (.stop st1)
        else
          some (.next { st1 with size := st.size - toU32 h.strLen,
                                 out := copyString h.strLen.toNat string.toNat st.out,
                                 strLen := min h.strLen 0 })
      else
        some (.stop st1)

/-- How the main loop was left: its condition `size > 0` failed, or by `break`. -/
inductive LZExit where
  | finished (st : LZState)
  | aborted (st : LZState)
deriving DecidableEq, Repr

/-- The locals when the loop was left. -/
def LZExit.state : LZExit → LZState
  | .finished st => st
  | .aborted st => st

/-- The main loop `while(size > 0)`. `fuel` bounds the iterations, `dfuel` the pair loops. -/
def unpackLoop (dfuel : Nat) : Nat → LZState → Option LZExit
  | 0, _ => none
  | fuel + 1, st =>
    if st.size > 0 then
      match unpackStep dfuel st with
      | none => none
      | some (.stop st1) => some (.aborted st1)
      | some (.next st1) => unpackLoop dfuel fuel st1
    else some (.finished st)

/-- The locals at the start of iteration `k` (counted from 0) of the main loop started
in `st`, when the loop gets that far. -/
def stateAt (dfuel : Nat) : Nat → LZState → Option LZState
  | 0, st => some st
  | k + 1, st =>
    if st.size > 0 then
      match unpackStep dfuel st with
      | some (.next st1) => stateAt dfuel k st1
      | _ => none
    else none

/-- State on entry to the main loop: the first byte has been copied. -/
def unpackInit (file : FileReader) (size : Nat) : LZState :=
  let r := file.ReadUint8
  { bs := { file := r.2, data := 0, carry := 0 }, strLen := 0, previousPtr := 0,
    size := size - 1, out := [r.1] }

/-- Fuel that suffices for every loop of one `UnpackMO3Data` call. -/
def unpackFuel (file : FileReader) (size : Nat) : Nat := size + 9 * file.BytesLeft + 2

/-- Result of `UnpackMO3Data`: the returned flag, the bytes written to `dst`
(`dst[0 .. out.length)`) and the stream afterwards. -/
structure UnpackResult where
  ok : Bool
  out : List Nat
  file : FileReader
deriving DecidableEq, Repr

/-- The function `static bool UnpackMO3Data(FileReader &file, uint8 *dst, uint32 size)`. -/
def UnpackMO3Data (file : FileReader) (size : Nat) : Option UnpackResult :=
  if size = 0 then some { ok := false, out := [], file := file }
  else
    match unpackLoop (unpackFuel file size) (unpackFuel file size) (unpackInit file size) with
    | none => none
    | some e =>
      some { ok := decide (e.state.out.length = size), out := e.state.out,
             file := e.state.bs.file }

/-! ## Measures used for termination -/

/-- Number of set bits among the low `k` bits. -/
def onesBelow : Nat → Nat → Nat
  | 0, _ => 0
  | k + 1, d => d % 2 + onesBelow k (d / 2)

/-- Weight of the pending bit buffer: its number of set bits, and 1 for the empty buffer. -/
def dataWeight (d : Nat) : Nat := if d = 0 then 1 else onesBelow 8 d

/-- Bound on the 1 bits the reader can still deliver. -/
def BitState.weight (s : BitState) : Nat := 9 * s.file.BytesLeft + dataWeight s.data

/-- The bit reader `t` is a later state of `s`: same stream, buffer in range, no more weight. -/
def BitState.Follows (t s : BitState) : Prop :=
  t.data < 256 ∧ t.weight ≤ s.weight ∧ t.file.data = s.file.data

/-- What one iteration does to the quantities the loop invariants speak about. -/
def StepOk (st : LZState) : LZStep → Prop
  | .next st1 => st1.bs.Follows st.bs ∧ st1.size + st1.bs.weight < st.size + st.bs.weight ∧
      st1.out.length + st1.size ≤ st.out.length + st.size ∧ st.out <+: st1.out
  | .stop st1 => st1.bs.Follows st.bs ∧ st1.out = st.out ∧ st1.size = st.size


/-- The literal bytes `lits` as they are laid out in a stream whose control bits are
all 0. `k` is the number of literals the current control byte still covers; when it is
0 a control byte 0x00 comes first and covers the next 8 literals. `literalGroups 0 lits`
is the sequence of groups "one 0x00 control byte, then up to 8 literal bytes". -/
def literalGroups : Nat → List Nat → List Nat
  | _, [] => []
  | 0, l :: ls => 0 :: l :: literalGroups 7 ls
  | k + 1, l :: ls => l :: literalGroups k ls

/-- The copy loop of `copyString` with every read `*string` checked against the bytes
written so far: `none` as soon as a read would fall outside `[0, dst - initDst)`. -/
def copyStringChecked : Nat → Nat → List Nat → Option (List Nat)
  | 0, _, out => some out
  | n + 1, src, out =>
    match out[src]? with
    | none => none
    | some b => copyStringChecked n (src + 1) (out ++ [b])

/-- The locals at the start of iteration `k` of the main loop of the call
`UnpackMO3Data(file, dst, size)`. -/
def callStateAt (file : FileReader) (size k : Nat) : Option LZState :=
  stateAt (unpackFuel file size) k (unpackInit file size)

/-! ## Streams that read alike -/

/-- The byte the `j`-th next `ReadUint8` returns. -/
def FileReader.peek (f : FileReader) (j : Nat) : Nat :=
  if f.pos + j < f.data.length then f.data.getD (f.pos + j) 0 % 256 else 0

/-- Two readers that deliver the same bytes from now on. -/
def FileReader.Same (f g : FileReader) : Prop := ∀ j, f.peek j = g.peek j

/-- Two bit readers with equal buffers over streams that read alike. -/
def BitState.Same (s t : BitState) : Prop :=
  s.data = t.data ∧ s.carry = t.carry ∧ s.file.Same t.file

/-- Two loop states that differ at most in streams that read alike. -/
def LZState.Same (s t : LZState) : Prop :=
  s.bs.Same t.bs ∧ s.strLen = t.strLen ∧ s.previousPtr = t.previousPtr ∧
  s.size = t.size ∧ s.out = t.out

/-- Two match headers that differ at most in streams that read alike. -/
def MatchHeader.Same (a b : MatchHeader) : Prop :=
  a.bs.Same b.bs ∧ a.code = b.code ∧ a.ebp = b.ebp ∧ a.strOffset = b.strOffset ∧
  a.refined = b.refined ∧ a.strLen = b.strLen ∧ a.previousPtr = b.previousPtr

/-- Two iteration outcomes of the same kind over states that read alike. -/
def LZStep.Same : LZStep → LZStep → Prop
  | .next a, .next b => a.Same b
  | .stop a, .stop b => a.Same b
  | _, _ => False

/-- Two loop exits of the same kind over states that read alike. -/
def LZExit.Same : LZExit → LZExit → Prop
  | .finished a, .finished b => a.Same b
  | .aborted a, .aborted b => a.Same b
  | _, _ => False

/-! ## Pattern commands -/

/-- Modelled from the spec: the effect and volume-column command enumerators of
`ModCommand` (soundlib/modcommand.h, not among the sources). `CMD_*` and `VOLCMD_*`
are values of the same byte type `ModCommand::COMMAND`, which is how the table
`effTrans` holds both; each name stands for its own value. -/
inductive COMMAND where
  | CMD_NONE | CMD_ARPEGGIO | CMD_PORTAMENTOUP | CMD_PORTAMENTODOWN | CMD_TONEPORTAMENTO
  | CMD_VIBRATO | CMD_TONEPORTAVOL | CMD_VIBRATOVOL | CMD_TREMOLO | CMD_PANNING8
  | CMD_OFFSET | CMD_VOLUMESLIDE | CMD_POSITIONJUMP | CMD_VOLUME | CMD_PATTERNBREAK
  | CMD_MODCMDEX | CMD_TEMPO | CMD_TREMOR | CMD_GLOBALVOLUME | CMD_GLOBALVOLSLIDE
  | CMD_KEYOFF | CMD_SETENVPOSITION | CMD_PANNINGSLIDE | CMD_RETRIG | CMD_XFINEPORTAUPDOWN
  | CMD_SPEED | CMD_FINEVIBRATO | CMD_CHANNELVOLUME | CMD_CHANNELVOLSLIDE | CMD_S3MCMDEX
  | CMD_PANBRELLO | CMD_MIDI
  | VOLCMD_NONE | VOLCMD_VOLUME | VOLCMD_PANNING | VOLCMD_VOLSLIDEUP | VOLCMD_VOLSLIDEDOWN
  | VOLCMD_FINEVOLUP | VOLCMD_FINEVOLDOWN | VOLCMD_VIBRATOSPEED | VOLCMD_VIBRATODEPTH
  | VOLCMD_PANSLIDELEFT | VOLCMD_PANSLIDERIGHT | VOLCMD_TONEPORTAMENTO | VOLCMD_PORTAUP
  | VOLCMD_PORTADOWN
deriving DecidableEq, Repr

open COMMAND

/-- The module dialects `m_nType` can take in `ReadMO3`. -/
inductive MODTYPE where
  | MOD_TYPE_IT | MOD_TYPE_S3M | MOD_TYPE_MOD | MOD_TYPE_MTM | MOD_TYPE_XM
deriving DecidableEq, Repr

open MODTYPE

/-- Modelled from the spec: the pattern cell `ModCommand` (soundlib/modcommand.h, not
among the sources): note, instrument, volume-column command and value, effect command
and value; the numeric fields are bytes. -/
structure ModCommand where
  note : Nat
  instr : Nat
  volcmd : COMMAND
  vol : Nat
  command : COMMAND
  param : Nat
deriving DecidableEq, Repr

/-- Modelled from the spec: `ModCommand::Empty()`, the cell with no note, no instrument
and no commands. -/
def ModCommand.Empty : ModCommand :=
  { note := 0, instr := 0, volcmd := VOLCMD_NONE, vol := 0, command := CMD_NONE, param := 0 }

/-- Constants, tables and helpers the loader uses that are declared outside the
sources; they are parameters of the embedding. `Convert` stands for
`ModCommand::Convert(MOD_TYPE_MOD, MOD_TYPE_S3M, ...)`, which is applied only when
`MODPLUG_TRACKER` is defined. -/
structure Constants where
  NOTE_MIN : Nat
  NOTE_KEYOFF : Nat
  NOTE_NOTECUT : Nat
  NOTE_FADE : Nat
  ImpulseTrackerPortaVolCmd : List Nat
  MAX_INSTRUMENTS : Nat
  MAX_SAMPLES : Nat
  MODPLUG_TRACKER : Bool
  Convert : ModCommand → ModCommand

/-- The table `effTrans` (source lines 985-1000). -/
def effTrans : List COMMAND :=
  [ CMD_NONE,             CMD_NONE,             CMD_NONE,             CMD_ARPEGGIO,
    CMD_PORTAMENTOUP,     CMD_PORTAMENTODOWN,   CMD_TONEPORTAMENTO,   CMD_VIBRATO,
    CMD_TONEPORTAVOL,     CMD_VIBRATOVOL,       CMD_TREMOLO,          CMD_PANNING8,
    CMD_OFFSET,           CMD_VOLUMESLIDE,      CMD_POSITIONJUMP,     CMD_VOLUME,
    CMD_PATTERNBREAK,     CMD_MODCMDEX,         CMD_TEMPO,            CMD_TREMOR,
    VOLCMD_VOLSLIDEUP,    VOLCMD_FINEVOLUP,     CMD_GLOBALVOLUME,     CMD_GLOBALVOLSLIDE,
    CMD_KEYOFF,           CMD_SETENVPOSITION,   CMD_PANNINGSLIDE,     VOLCMD_PANSLIDELEFT,
    CMD_RETRIG,           CMD_XFINEPORTAUPDOWN, CMD_XFINEPORTAUPDOWN, VOLCMD_VIBRATOSPEED,
    VOLCMD_VIBRATODEPTH,  CMD_SPEED,            CMD_VOLUMESLIDE,      CMD_PORTAMENTODOWN,
    CMD_PORTAMENTOUP,     CMD_TREMOR,           CMD_RETRIG,           CMD_FINEVIBRATO,
    CMD_CHANNELVOLUME,    CMD_CHANNELVOLSLIDE,  CMD_PANNINGSLIDE,     CMD_S3MCMDEX,
    CMD_TEMPO,            CMD_GLOBALVOLSLIDE,   CMD_PANBRELLO,        CMD_MIDI,
    VOLCMD_FINEVOLUP,     VOLCMD_PORTADOWN,     VOLCMD_PORTAUP ]

/-- The `uint8 noteOffset` of source lines 1002-1006. -/
def noteOffset (K : Constants) (type : MODTYPE) : Nat :=
  if type = MOD_TYPE_MTM then (13 + K.NOTE_MIN) % 256
  else if type ≠ MOD_TYPE_IT then (12 + K.NOTE_MIN) % 256
  else K.NOTE_MIN % 256

/-- The `for(uint8 i = 0; i < 10; i++)` search of the tone-portamento case: the first
index below 10 whose table entry equals the operand. -/
def portaVolIndex (K : Constants) (operand : Nat) : Option Nat :=
  (List.range 10).find? (fun i => K.ImpulseTrackerPortaVolCmd.getD i 0 = operand)

/-- The `switch(cmd[0])` of source lines 1033-1207 applied to the working cell `m`
with `cmd[0] = code` and `cmd[1] = operand`. -/
def applyCommand (K : Constants) (type : MODTYPE) (m : ModCommand)
    (code operand : Nat) : ModCommand :=
  if code = 0x01 then
    if operand < 120 then { m with note := (operand + noteOffset K type) % 256 }
    else if operand = 0xFF then { m with note := K.NOTE_KEYOFF }
    else if operand = 0xFE then { m with note := K.NOTE_NOTECUT }
    else { m with note := K.NOTE_FADE }
  else if code = 0x02 then { m with instr := (operand + 1) % 256 }
  else if code = 0x06 then
    if m.volcmd = VOLCMD_NONE ∧ type = MOD_TYPE_XM ∧ operand &&& 0x0F = 0 then
      { m with volcmd := VOLCMD_TONEPORTAMENTO, vol := operand >>> 4 }
    else if m.volcmd = VOLCMD_NONE ∧ type = MOD_TYPE_IT then
      match portaVolIndex K operand with
      | some i => { m with volcmd := VOLCMD_TONEPORTAMENTO, vol := i }
      | none => { m with command := CMD_TONEPORTAMENTO, param := operand }
    else { m with command := CMD_TONEPORTAMENTO, param := operand }
  else if code = 0x07 then
    if m.volcmd = VOLCMD_NONE ∧ operand < 10 ∧ type = MOD_TYPE_IT then
      { m with volcmd := VOLCMD_VIBRATODEPTH, vol := operand }
    else { m with command := CMD_VIBRATO, param := operand }
  else if code = 0x0B then
    if m.volcmd = VOLCMD_NONE ∧ type = MOD_TYPE_IT ∧ operand = 0xFF then
      { m with volcmd := VOLCMD_PANNING, vol := 64 }
    else if m.volcmd = VOLCMD_NONE ∧
        ((type = MOD_TYPE_IT ∧ operand &&& 0x03 = 0) ∨
         (type = MOD_TYPE_XM ∧ operand &&& 0x0F = 0)) then
      { m with volcmd := VOLCMD_PANNING, vol := operand / 4 }
    else { m with command := CMD_PANNING8, param := operand }
  else if code = 0x0F then
    if type ≠ MOD_TYPE_MOD ∧ m.volcmd = VOLCMD_NONE ∧ operand ≤ 64 then
      { m with volcmd := VOLCMD_VOLUME, vol := operand }
    else { m with command := CMD_VOLUME, param := operand }
  else if code = 0x10 then
    if type ≠ MOD_TYPE_IT then
      { m with command := CMD_PATTERNBREAK,
               param := ((operand >>> 4) * 10 + (operand &&& 0x0F)) % 256 }
    else { m with command := CMD_PATTERNBREAK, param := operand }
  else if code = 0x12 then
    if operand < 0x20 then { m with param := operand, command := CMD_SPEED }
    else { m with param := operand, command := CMD_TEMPO }
  else if code = 0x14 ∨ code = 0x15 then
    if operand &&& 0xF0 ≠ 0 then
      { m with volcmd := if code = 0x14 then VOLCMD_VOLSLIDEUP else VOLCMD_FINEVOLUP,
               vol := operand >>> 4 }
    else
      { m with volcmd := if code = 0x14 then VOLCMD_VOLSLIDEDOWN else VOLCMD_FINEVOLDOWN,
               vol := operand &&& 0x0F }
  else if code = 0x1B then
    if operand &&& 0xF0 ≠ 0 then { m with volcmd := VOLCMD_PANSLIDERIGHT, vol := operand >>> 4 }
    else { m with volcmd := VOLCMD_PANSLIDELEFT, vol := operand &&& 0x0F }
  else if code = 0x1D then { m with command := CMD_XFINEPORTAUPDOWN, param := 0x10 ||| operand }
  else if code = 0x1E then { m with command := CMD_XFINEPORTAUPDOWN, param := 0x20 ||| operand }
  else if code = 0x1F ∨ code = 0x20 then
    { m with volcmd := effTrans.getD code CMD_NONE, vol := operand }
  else if code = 0x22 then
    if m.command = CMD_TONEPORTAMENTO then { m with command := CMD_TONEPORTAVOL, param := operand }
    else if m.command = CMD_VIBRATO then { m with command := CMD_VIBRATOVOL, param := operand }
    else { m with command := CMD_VOLUMESLIDE, param := operand }
  else if code = 0x30 then
    if operand < 10 then { m with vol := operand % 10, volcmd := VOLCMD_FINEVOLUP }
    else if operand < 20 then { m with vol := operand % 10, volcmd := VOLCMD_FINEVOLDOWN }
    else if operand < 30 then { m with vol := operand % 10, volcmd := VOLCMD_VOLSLIDEUP }
    else if operand < 40 then { m with vol := operand % 10, volcmd := VOLCMD_VOLSLIDEDOWN }
    else { m with vol := operand % 10 }
  else if code = 0x31 ∨ code = 0x32 then
    { m with volcmd := effTrans.getD code CMD_NONE, vol := operand }
  else if code < effTrans.length then
    { m with command := effTrans.getD code CMD_NONE, param := operand }
  else m

/-- Modelled from the spec: `FileReader::ReadArray` into `uint8 cmd[2]`: both bytes are
read and the cursor advances by 2 when 2 bytes are left; otherwise the array is zeroed
and the cursor stays. -/
def FileReader.ReadArray2 (f : FileReader) : (Nat × Nat) × FileReader :=
  if f.pos + 2 ≤ f.data.length then
    ((f.data.getD f.pos 0 % 256, f.data.getD (f.pos + 1) 0 % 256), { f with pos := f.pos + 2 })
  else ((0, 0), f)

/-- The loop `for(uint8 i = 0; i < numCommands; i++)` of source lines 1027-1208. -/
def readCommands (K : Constants) (type : MODTYPE) :
    Nat → FileReader → ModCommand → ModCommand × FileReader
  | 0, track, m => (m, track)
  | n + 1, track, m =>
    let r := track.ReadArray2
    readCommands K type n r.2 (applyCommand K type m r.1.1 r.1.2)

/-- The loop `while(row < targetRow) { *patData = m; patData += numChannels; row++; }`
run `n` times on one channel's column of cells. -/
def fillRows (m : ModCommand) : Nat → Nat → List ModCommand → List ModCommand
  | 0, _, col => col
  | n + 1, row, col => fillRows m n (row + 1) (col.set row m)

/-- The loop `while(row < numRows)` of source lines 1019-1220 for one channel; `col`
is that channel's column of the pattern. -/
def decodeTrackLoop (K : Constants) (type : MODTYPE) (numRows : Nat) :
    Nat → FileReader → Nat → List ModCommand → Option (List ModCommand)
  | 0, _, _, _ => none
  | fuel + 1, track, row, col =>
    if row < numRows then
      let r := track.ReadUint8
      if r.1 = 0 then some col
      else
        let numCommands := r.1 &&& 0x0F
        let rep := r.1 >>> 4
        let c := readCommands K type numCommands r.2 ModCommand.Empty
        let m := if K.MODPLUG_TRACKER ∧ type = MOD_TYPE_MTM then K.Convert c.1 else c.1
        let targetRow := min (row + rep) numRows
        decodeTrackLoop K type numRows fuel c.2 targetRow (fillRows m (targetRow - row) row col)
    else some col

/-- One channel of one pattern (source lines 1015-1220): the track is rewound and
decoded into the channel's column, which `Patterns.Insert` created with `numRows`
empty cells. -/
def decodeChannel (K : Constants) (type : MODTYPE) (numRows : Nat)
    (track : FileReader) : Option (List ModCommand) :=
  decodeTrackLoop K type numRows (track.data.length + 1) track.Rewind 0
    (List.replicate numRows ModCommand.Empty)

/-- The values OpenMPT gives the constants, used in worked examples; a library build
(`MODPLUG_TRACKER` not defined). -/
def openmptConstants : Constants :=
  { NOTE_MIN := 1, NOTE_KEYOFF := 0xFF, NOTE_NOTECUT := 0xFE, NOTE_FADE := 0xFD,
    ImpulseTrackerPortaVolCmd := [0x00, 0x01, 0x04, 0x08, 0x10, 0x20, 0x40, 0x60, 0x80, 0xFF],
    MAX_INSTRUMENTS := 256, MAX_SAMPLES := 4000, MODPLUG_TRACKER := false, Convert := id }

/-- The cell built by the event at the cursor of `track`: the pairs counted by the low
nibble of the control byte applied to an empty cell (and converted in an MTM tracker
build). -/
def eventCell (K : Constants) (type : MODTYPE) (track : FileReader) : ModCommand :=
  let r := track.ReadUint8
  let c := readCommands K type (r.1 &&& 0x0F) r.2 ModCommand.Empty
  if K.MODPLUG_TRACKER ∧ type = MOD_TYPE_MTM then K.Convert c.1 else c.1

/-- The cell the example events build: only the note is set, to `0x3C` plus the
dialect's origin offset (and converted in an MTM tracker build). -/
def exampleNoteCell (K : Constants) (type : MODTYPE) : ModCommand :=
  if K.MODPLUG_TRACKER ∧ type = .MOD_TYPE_MTM then
    K.Convert { ModCommand.Empty with note := (0x3C + noteOffset K type) % 256 }
  else { ModCommand.Empty with note := (0x3C + noteOffset K type) % 256 }


/-! ## More of FileReader -/

namespace FileReader

/-- Modelled from the spec: a fixed-size read (`FileReader::Read`, used by
`ReadConvertEndianness`, `ReadUint16LE`, `ReadUint32LE`): when `n` bytes are left they
are returned and the cursor advances by `n`; otherwise nothing is read and the cursor
stays. No byte outside the data is touched. -/
def ReadBytes (f : FileReader) (n : Nat) : Option (List Nat) × FileReader :=
  if n ≤ f.BytesLeft then
    (some (((f.data.drop f.pos).take n).map (· % 256)), { f with pos := f.pos + n })
  else (none, f)

/-- Little-endian value of a byte list. -/
def leValue : List Nat → Nat
  | [] => 0
  | b :: bs => b + 256 * leValue bs

/-- Modelled from the spec: `FileReader::ReadUint16LE()`; 0 when fewer than 2 bytes are left. -/
def ReadUint16LE (f : FileReader) : Nat × FileReader :=
  match f.ReadBytes 2 with
  | (some bs, g) => (leValue bs, g)
  | (none, g) => (0, g)

/-- Modelled from the spec: `FileReader::ReadUint32LE()`; 0 when fewer than 4 bytes are left. -/
def ReadUint32LE (f : FileReader) : Nat × FileReader :=
  match f.ReadBytes 4 with
  | (some bs, g) => (leValue bs, g)
  | (none, g) => (0, g)

/-- Modelled from the spec: `FileReader::ReadMagic`: true and the cursor past the magic
when the next bytes equal it, false and the cursor unchanged otherwise. -/
def ReadMagic (f : FileReader) (magic : List Nat) : Bool × FileReader :=
  match f.ReadBytes magic.length with
  | (some bs, g) => if bs = magic then (true, g) else (false, f)
  | (none, _) => (false, f)

/-- Modelled from the spec: `FileReader::ReadNullString`: the bytes up to the next NUL
(or to the end of the data); the cursor ends after the NUL terminator. -/
def ReadNullString (f : FileReader) : List Nat × FileReader :=
  let rest := (f.data.drop f.pos).map (· % 256)
  let s := rest.takeWhile (· ≠ 0)
  (s, { f with pos := f.pos + min (s.length + 1) rest.length })

/-- Modelled from the spec: `FileReader::Skip(n)`: the cursor advances by `n`, at most
to the end of the data. -/
def Skip (f : FileReader) (n : Nat) : FileReader :=
  { f with pos := f.pos + min n f.BytesLeft }

/-- Modelled from the spec: `FileReader::ReadChunk(n)`: a reader over the next `n` bytes
(fewer when the data ends earlier), past which the cursor advances. -/
def ReadChunk (f : FileReader) (n : Nat) : FileReader × FileReader :=
  (⟨(f.data.drop f.pos).take n, 0⟩, f.Skip n)

/-- Modelled from the spec: `FileReader::Seek(p)`: the cursor moves to `p` when `p` lies
within the data and stays otherwise. -/
def Seek (f : FileReader) (p : Nat) : FileReader :=
  if p ≤ f.data.length then { f with pos := p } else f

end FileReader

/-! ## Delta sample decoders -/

/-- The template argument of the delta decoders: `MO3Delta8BitParams` or
`MO3Delta16BitParams`. `bits` is the width of `sample_t`/`unsigned_t`; `narrow` says
whether `Decode` has the three-read path for `dh < 5`. -/
structure DeltaParams where
  bits : Nat
  shift : Nat
  dhInit : Nat
  narrow : Bool
deriving DecidableEq, Repr

/-- The parameters `struct MO3Delta8BitParams`. -/
def MO3Delta8BitParams : DeltaParams := { bits := 8, shift := 7, dhInit := 4, narrow := false }

/-- The parameters `struct MO3Delta16BitParams`. -/
def MO3Delta16BitParams : DeltaParams := { bits := 16, shift := 15, dhInit := 8, narrow := true }

/-- A `w`-bit pattern read as a signed value (`sample_t`). -/
def toSigned (w : Nat) (v : Nat) : Int :=
  if v % 2 ^ w < 2 ^ (w - 1) then ((v % 2 ^ w : Nat) : Int) else ((v % 2 ^ w : Nat) : Int) - 2 ^ w

/-- A signed value converted to `w` bits (`unsigned_t`). -/
def toUnsigned (w : Nat) (x : Int) : Nat := (x % 2 ^ w).toNat

/-- The `do { READ; val = (val << 1) + carry; READ } while(carry)` loop of `Decode`. -/
def deltaDecodeLoop (P : DeltaParams) : Nat → BitState → Nat → Option (BitState × Nat)
  | 0, _, _ => none
  | fuel + 1, s, val =>
    let s1 := READ_CTRL_BIT 8 s
    let val1 := ((val <<< 1) + s1.carry) % 2 ^ P.bits
    let s2 := READ_CTRL_BIT 8 s1
    if s2.carry ≠ 0 then deltaDecodeLoop P fuel s2 val1 else some (s2, val1)

/-- The three-read loop of `MO3Delta16BitParams::Decode` taken when `dh < 5`. -/
def deltaDecodeLoopNarrow (P : DeltaParams) : Nat → BitState → Nat → Option (BitState × Nat)
  | 0, _, _ => none
  | fuel + 1, s, val =>
    let s1 := READ_CTRL_BIT 8 s
    let val1 := ((val <<< 1) + s1.carry) % 2 ^ P.bits
    let s2 := READ_CTRL_BIT 8 s1
    let val2 := ((val1 <<< 1) + s2.carry) % 2 ^ P.bits
    let s3 := READ_CTRL_BIT 8 s2
    if s3.carry ≠ 0 then deltaDecodeLoopNarrow P fuel s3 val2 else some (s3, val2)

/-- The function `Properties::Decode(file, carry, data, dh, val)`. -/
def deltaDecode (P : DeltaParams) (fuel : Nat) (s : BitState) (dh val : Nat) :
    Option (BitState × Nat) :=
  if P.narrow ∧ dh < 5 then deltaDecodeLoopNarrow P fuel s val else deltaDecodeLoop P fuel s val

/-- The loop `while(cl > 0) { READ_CTRL_BIT(8); val = (val << 1) + carry; cl--; }`. -/
def readLowBits (P : DeltaParams) : Nat → BitState → Nat → BitState × Nat
  | 0, s, val => (s, val)
  | cl + 1, s, val =>
    let s1 := READ_CTRL_BIT 8 s
    readLowBits P cl s1 (((val <<< 1) + s1.carry) % 2 ^ P.bits)

/-- The loop `while(((1 << cl) & val) == 0 && cl > 1) cl--;` started at `cl`. -/
def highBitScan (val : Nat) : Nat → Nat
  | 0 => 0
  | cl + 1 => if ((1 <<< (cl + 1)) &&& val) = 0 ∧ cl + 1 > 1 then highBitScan val cl else cl + 1

/-- Source lines 610-616 (and 658-664): the extra length `cl` of a raw code. -/
def extraLength (P : DeltaParams) (val : Nat) : Nat :=
  if val ≥ 4 then highBitScan val P.shift else 1

/-- Source lines 619-622: the `unsigned_t` delta of a raw code (sign bit dropped, the
magnitude complemented when the sign bit is 0). -/
def rawDelta (P : DeltaParams) (val : Nat) : Nat :=
  if val &&& 1 = 0 then (2 ^ P.bits - 1 - (val >>> 1) % 2 ^ P.bits) else (val >>> 1) % 2 ^ P.bits

/-- Locals of the delta decoders that live across samples and channels. -/
structure DeltaState where
  bs : BitState
  dh : Nat
  previous : Int
  next : Int
deriving DecidableEq, Repr

/-- Source lines 601-618: one raw code and the width update; returns the bit reader,
the new `dh` and the raw code. -/
def deltaCode (P : DeltaParams) (fuel : Nat) (s : BitState) (dh : Nat) :
    Option (BitState × Nat × Nat) :=
  match deltaDecode P fuel s dh 0 with
  | none => none
  | some (s1, val) =>
    let r := readLowBits P dh s1 val
    let cl := extraLength P r.2
    some (r.1, ((dh + cl) % 256) >>> 1, r.2)

/-- One iteration of the sample loop of `UnpackMO3DeltaSample`; returns the value stored. -/
def deltaSampleStep (P : DeltaParams) (fuel : Nat) (st : DeltaState) :
    Option (DeltaState × Int) :=
  match deltaCode P fuel st.bs st.dh with
  | none => none
  | some (s, dh, raw) =>
    let val := (rawDelta P raw + toUnsigned P.bits st.previous) % 2 ^ P.bits
    let v := toSigned P.bits val
    let s1 : BitState := { s with carry := raw &&& 1 }
    some ({ st with bs := s1, dh := dh, previous := v }, v)

/-- One iteration of the sample loop of `UnpackMO3DeltaPredictionSample`. -/
def deltaPredictionStep (P : DeltaParams) (fuel : Nat) (st : DeltaState) :
    Option (DeltaState × Int) :=
  match deltaCode P fuel st.bs st.dh with
  | none => none
  | some (s, dh, raw) =>
    let delta := toSigned P.bits (rawDelta P raw)
    let val := (rawDelta P raw + toUnsigned P.bits st.next) % 2 ^ P.bits
    let sval := toSigned P.bits val
    let next := wrap32 (wrap32 (sval * 2 + (delta >>> 1)) - st.previous)
    let next := max (-(2 ^ (P.bits - 1) : Int)) (min next (2 ^ (P.bits - 1) - 1))
    let s1 : BitState := { s with carry := raw &&& 1 }
    some ({ bs := s1, dh := dh, previous := sval, next := next }, sval)

/-- The loop `while(p < pEnd)` for one channel: `n` samples stored at
`dst[chn + k * numChannels]`. -/
def deltaChannel (step : DeltaState → Option (DeltaState × Int)) (numChannels chn : Nat) :
    Nat → Nat → DeltaState → List Int → Option (DeltaState × List Int)
  | 0, _, st, dst => some (st, dst)
  | n + 1, k, st, dst =>
    match step st with
    | none => none
    | some (st1, v) =>
      deltaChannel step numChannels chn n (k + 1) st1 (dst.set (chn + k * numChannels) v)

/-- The loop `for(uint8 chn = 0; chn < numChannels; chn++)` over `n` remaining channels. -/
def deltaChannels (step : DeltaState → Option (DeltaState × Int)) (length numChannels : Nat) :
    Nat → Nat → DeltaState → List Int → Option (DeltaState × List Int)
  | 0, _, st, dst => some (st, dst)
  | n + 1, chn, st, dst =>
    match deltaChannel step numChannels chn length 0 st dst with
    | none => none
    | some (st1, dst1) => deltaChannels step length numChannels n (chn + 1) st1 dst1

/-- Fuel that suffices for every pair loop over the stream `file`. -/
def deltaFuel (file : FileReader) : Nat := 9 * file.BytesLeft + 2

/-- State of a delta decoder on entry. -/
def deltaInit (P : DeltaParams) (file : FileReader) : DeltaState :=
  { bs := { file := file, data := 0, carry := 0 }, dh := P.dhInit, previous := 0, next := 0 }

/-- The function `UnpackMO3DeltaSample<Properties>(file, dst, length, numChannels)`; `dst` is the
zero-initialised buffer of `length * numChannels` samples. Returns the buffer. -/
def UnpackMO3DeltaSample (P : DeltaParams) (file : FileReader) (length numChannels : Nat) :
    Option (List Int) :=
  match deltaChannels (deltaSampleStep P (deltaFuel file)) length numChannels numChannels 0
      (deltaInit P file) (List.replicate (length * numChannels) 0) with
  | none => none
  | some r => some r.2

/-- The function `UnpackMO3DeltaPredictionSample<Properties>(file, dst, length, numChannels)`. -/
def UnpackMO3DeltaPredictionSample (P : DeltaParams) (file : FileReader)
    (length numChannels : Nat) : Option (List Int) :=
  match deltaChannels (deltaPredictionStep P (deltaFuel file)) length numChannels numChannels 0
      (deltaInit P file) (List.replicate (length * numChannels) 0) with
  | none => none
  | some r => some r.2

/-! ## Structured records -/

/-- Byte `i` of a record. -/
def u8At (bs : List Nat) (i : Nat) : Nat := bs.getD i 0 % 256

/-- Little-endian `uint16` at offset `i` of a record. -/
def u16At (bs : List Nat) (i : Nat) : Nat := u8At bs i + 256 * u8At bs (i + 1)

/-- Little-endian `uint32` at offset `i` of a record. -/
def u32At (bs : List Nat) (i : Nat) : Nat := u16At bs i + 65536 * u16At bs (i + 2)

/-- The fields of `struct MO3FileHeader` (422 bytes, packed) that `ReadMO3` uses for
the module layout; the channel tables and MIDI macros stay in `raw`. -/
structure MO3FileHeader where
  numChannels : Nat
  numOrders : Nat
  restartPos : Nat
  numPatterns : Nat
  numTracks : Nat
  numInstruments : Nat
  numSamples : Nat
  defaultSpeed : Nat
  defaultTempo : Nat
  flags : Nat
  globalVol : Nat
  panSeparation : Nat
  sampleVolume : Int
  raw : List Nat
deriving DecidableEq, Repr

/-- The constant `sizeof(MO3FileHeader)`. -/
def sizeofMO3FileHeader : Nat := 422

/-- The constant `sizeof(MO3Instrument)`. -/
def sizeofMO3Instrument : Nat := 826

/-- The constant `sizeof(MO3Sample)`. -/
def sizeofMO3Sample : Nat := 41

/-- The packed layout of `MO3FileHeader` after `ConvertEndianness`. -/
def parseFileHeader (bs : List Nat) : MO3FileHeader :=
  { numChannels := u8At bs 0, numOrders := u16At bs 1, restartPos := u16At bs 3,
    numPatterns := u16At bs 5, numTracks := u16At bs 7, numInstruments := u16At bs 9,
    numSamples := u16At bs 11, defaultSpeed := u8At bs 13, defaultTempo := u8At bs 14,
    flags := u32At bs 15, globalVol := u8At bs 19, panSeparation := u8At bs 20,
    sampleVolume := toSigned 8 (u8At bs 21), raw := bs }

/-- Bits of `MO3FileHeader::MO3HeaderFlags`. -/
def MO3FileHeader.isS3M : Nat := 0x0002
/-- Bit `isMTM`. -/
def MO3FileHeader.isMTM : Nat := 0x0008
/-- Bit `isMOD`. -/
def MO3FileHeader.isMOD : Nat := 0x0080
/-- Bit `isIT`. -/
def MO3FileHeader.isIT : Nat := 0x0100
/-- Bit `instrumentMode`. -/
def MO3FileHeader.instrumentMode : Nat := 0x0200

/-- Source lines 830-839: the dialect chosen from the header flags. -/
def chooseType (flags : Nat) : MODTYPE :=
  if flags &&& MO3FileHeader.isIT ≠ 0 then MOD_TYPE_IT
  else if flags &&& MO3FileHeader.isS3M ≠ 0 then MOD_TYPE_S3M
  else if flags &&& MO3FileHeader.isMOD ≠ 0 then MOD_TYPE_MOD
  else if flags &&& MO3FileHeader.isMTM ≠ 0 then MOD_TYPE_MTM
  else MOD_TYPE_XM

/-- The fields of `struct MO3Sample` (41 bytes, packed). -/
structure MO3Sample where
  freqFinetune : Int
  transpose : Int
  defaultVolume : Nat
  panning : Nat
  length : Nat
  loopStart : Nat
  loopEnd : Nat
  flags : Nat
  vibType : Nat
  vibSweep : Nat
  vibDepth : Nat
  vibRate : Nat
  globalVol : Nat
  sustainStart : Nat
  sustainEnd : Nat
  compressedSize : Int
  encoderDelay : Nat
deriving DecidableEq, Repr

/-- The packed layout of `MO3Sample` after `ConvertEndianness`. -/
def parseSample (bs : List Nat) : MO3Sample :=
  { freqFinetune := toI32 (u32At bs 0), transpose := toSigned 8 (u8At bs 4),
    defaultVolume := u8At bs 5, panning := u16At bs 6, length := u32At bs 8,
    loopStart := u32At bs 12, loopEnd := u32At bs 16, flags := u16At bs 20,
    vibType := u8At bs 22, vibSweep := u8At bs 23, vibDepth := u8At bs 24,
    vibRate := u8At bs 25, globalVol := u8At bs 26, sustainStart := u32At bs 27,
    sustainEnd := u32At bs 31, compressedSize := toI32 (u32At bs 35),
    encoderDelay := u16At bs 39 }

/-- Bits of `MO3Sample::MO3SampleFlags`. -/
def MO3Sample.smp16Bit : Nat := 0x01
/-- Bit `smpStereo`. -/
def MO3Sample.smpStereo : Nat := 0x400
/-- Value `smpSharedOGG`. -/
def MO3Sample.smpSharedOGG : Nat := 0x1000 ||| 0x2000 ||| 0x4000
/-- Value `smpDeltaCompression`. -/
def MO3Sample.smpDeltaCompression : Nat := 0x2000
/-- Value `smpDeltaPrediction`. -/
def MO3Sample.smpDeltaPrediction : Nat := 0x4000
/-- Mask `smpCompressionMask`. -/
def MO3Sample.smpCompressionMask : Nat := 0x1000 ||| 0x2000 ||| 0x4000

/-- Modelled from the spec: the part of `ModSample` (soundlib/ModSample.h, not among
the sources) the loader's sample handling works on: length in frames, the 16-bit and
stereo flags, the sample rate, and the PCM data (`none` for `pSample == nullptr`) as
`nLength * channels` sample values. -/
structure ModSample where
  nLength : Nat
  is16Bit : Bool
  isStereo : Bool
  nC5Speed : Option Nat
  pSample : Option (List Int)
deriving DecidableEq, Repr

/-- Modelled from the spec: `ModSample::Initialize()` as far as the fields above go. -/
def ModSample.Initial : ModSample :=
  { nLength := 0, is16Bit := false, isStereo := false, nC5Speed := none, pSample := none }

/-- What the loader needs from its surroundings beyond `Constants`: whether a pattern
can be inserted, whether an instrument or a sample buffer can be allocated, the
uncompressed-PCM reader `SampleIO::ReadSample`, and the floating-point results of
`MO3Sample::ConvertToMPT` and of the pre-amp formula. All are code outside the sources. -/
structure Environment where
  PatternsInsert : Nat → Nat → Bool
  AllocateInstrument : Nat → Bool
  AllocateSample : Nat → Bool
  ReadSample : Bool → Bool → Nat → List Nat → Option (List Int)
  FinetuneToRate : Int → Nat
  PreAmpExp : Int → Nat

/-- The function `MO3Sample::ConvertToMPT` as far as the fields of `ModSample` above go (source lines
365-402): the rate is the frequency field for IT and S3M from revision 5 on and the
finetune formula before; the length is copied. -/
def MO3Sample.ConvertToMPT (E : Environment) (h : MO3Sample) (type : MODTYPE) (version : Nat) :
    ModSample :=
  { ModSample.Initial with
    nC5Speed :=
      if type = MOD_TYPE_IT ∨ type = MOD_TYPE_S3M then
        if version ≥ 5 then some (toU32 h.freqFinetune) else some (E.FinetuneToRate h.freqFinetune)
      else none,
    nLength := h.length }

/-- The function `ModSample::GetNumChannels()`. -/
def ModSample.GetNumChannels (s : ModSample) : Nat := if s.isStereo then 2 else 1

/-! ## ReadMO3 -/

/-- Modelled from the spec: `ModLoadingFlags` (soundlib/Sndfile.h, not among the sources)
as the three parts that can be requested; `onlyVerifyHeader` is the value with none set. -/
structure ModLoadingFlags where
  loadPatternData : Bool
  loadSampleData : Bool
  loadPluginData : Bool
deriving DecidableEq, Repr

/-- The flag value `onlyVerifyHeader`. -/
def onlyVerifyHeader : ModLoadingFlags :=
  { loadPatternData := false, loadSampleData := false, loadPluginData := false }

/-- An instrument slot allocated by the parse path: its name(s) and its 826-byte record,
`none` when the record could not be read. -/
structure InstrumentData where
  name : List Nat
  filename : List Nat
  record : Option (List Nat)
deriving DecidableEq, Repr

/-- What a successful full load leaves in the `CSoundFile`, as far as it is modelled:
names, header, dialect, pre-amp, order list, patterns (`none` for a pattern that was
not inserted; otherwise one column of cells per channel), instrument slots (`none` for
a slot left unallocated), sample slots from 0 on (slot 0 is unused), whether the
unsupported-codec warning is logged, the plugin chunks, and the two cursors afterwards. -/
structure Module where
  songName : List Nat
  songMessage : List Nat
  header : MO3FileHeader
  type : MODTYPE
  samplePreAmp : Nat
  order : List Nat
  patterns : List (Option (List (List ModCommand)))
  nInstruments : Nat
  instruments : List (Option InstrumentData)
  samples : List ModSample
  unsupportedSamples : Bool
  plugins : List (Nat × List Nat)
  musicChunk : FileReader
  file : FileReader
deriving DecidableEq, Repr

/-- Result of `ReadMO3`: `rejected` is `return false`, `verified` is the `return true`
of a header-only check, `loaded` the `return true` at the end of a load. -/
inductive LoadResult where
  | rejected
  | verified
  | loaded (m : Module)
deriving DecidableEq, Repr

/-- The `bool` returned by `ReadMO3`. -/
def LoadResult.returns : LoadResult → Bool
  | .rejected => false
  | .verified => true
  | .loaded _ => true

/-- Source lines 863-866: the sample pre-amp (`uint32`). -/
def samplePreAmp (E : Environment) (sampleVolume : Int) : Nat :=
  if sampleVolume < 0 then toU32 (sampleVolume + 52)
  else (E.PreAmpExp sampleVolume + 51) % 4294967296

/-- Modelled from the spec: `ModSequence::ReadAsByte(file, n, n, ...)`: the order list
is the next `n` bytes when they are all there, and nothing is read otherwise. -/
def readOrders (f : FileReader) (n : Nat) : List Nat × FileReader :=
  match f.ReadBytes n with
  | (some bs, g) => (bs, g)
  | (none, g) => ([], g)

/-- Source lines 921-925: the track table, `n` tracks each a `uint32` length and a chunk. -/
def readTracks : Nat → FileReader → List FileReader × FileReader
  | 0, f => ([], f)
  | n + 1, f =>
    let len := f.ReadUint32LE
    let c := len.2.ReadChunk len.1
    let r := readTracks n c.2
    (c.1 :: r.1, r.2)

/-- Outcome of running a part of the loader: a result, an execution for which the
source has no defined behaviour (an index outside a table), or a loop model that ran
out of fuel. -/
inductive Run (α : Type) where
  | done (a : α)
  | undefined
  | outOfFuel
deriving DecidableEq, Repr

/-- A fuel-bounded result as a `Run`. -/
def Run.ofOption {α : Type} : Option α → Run α
  | some a => .done a
  | none => .outOfFuel

/-- Source lines 1013-1221: the channels of one inserted pattern, `n` of them left.
A track index outside the track table is an access outside `tracks`. -/
def readChannels (K : Constants) (type : MODTYPE) (tracks : List FileReader)
    (numRows : Nat) : Nat → FileReader → Run (List (List ModCommand) × FileReader)
  | 0, trackChunk => .done ([], trackChunk)
  | n + 1, trackChunk =>
    let idx := trackChunk.ReadUint16LE
    match tracks[idx.1]? with
    | none => .undefined
    | some track =>
      match decodeChannel K type numRows track with
      | none => .outOfFuel
      | some col =>
        match readChannels K type tracks numRows n idx.2 with
        | .done r => .done (col :: r.1, r.2)
        | .undefined => .undefined
        | .outOfFuel => .outOfFuel

/-- Source lines 1007-1222: the pattern loop, `n` patterns left, the next one `pat`. -/
def readPatterns (K : Constants) (E : Environment) (type : MODTYPE)
    (loadFlags : ModLoadingFlags) (numChannels : Nat) (tracks : List FileReader) :
    Nat → Nat → FileReader → FileReader → Run (List (Option (List (List ModCommand))))
  | 0, _, _, _ => .done []
  | n + 1, pat, patLengthChunk, trackChunk =>
    let numRows := patLengthChunk.ReadUint16LE
    if ¬ loadFlags.loadPatternData ∨ ¬ E.PatternsInsert pat numRows.1 then
      match readPatterns K E type loadFlags numChannels tracks n (pat + 1) numRows.2 trackChunk with
      | .done ps => .done (none :: ps)
      | .undefined => .undefined
      | .outOfFuel => .outOfFuel
    else
      match readChannels K type tracks numRows.1 numChannels trackChunk with
      | .done c =>
        match readPatterns K E type loadFlags numChannels tracks n (pat + 1) numRows.2 c.2 with
        | .done ps => .done (some c.1 :: ps)
        | .undefined => .undefined
        | .outOfFuel => .outOfFuel
      | .undefined => .undefined
      | .outOfFuel => .outOfFuel

/-- The loop `while(musicChunk.ReadUint8() != 0);` of the instrument skip path. -/
def skipNullString : Nat → FileReader → Option FileReader
  | 0, _ => none
  | fuel + 1, f =>
    let r := f.ReadUint8
    if r.1 ≠ 0 then skipNullString fuel r.2 else some r.2

/-- Source lines 1231-1238: the skip path of one instrument. -/
def skipInstrument (version : Nat) (musicChunk : FileReader) : Option FileReader :=
  match skipNullString (musicChunk.BytesLeft + 1) musicChunk with
  | none => none
  | some f1 =>
    if version ≥ 5 then
      match skipNullString (f1.BytesLeft + 1) f1 with
      | none => none
      | some f2 => some (f2.Skip sizeofMO3Instrument)
    else some (f1.Skip sizeofMO3Instrument)

/-- Source lines 1241-1253: the parse path of one instrument up to the record read;
the record is `none` when `ReadConvertEndianness` fails. -/
def parseInstrument (version : Nat) (musicChunk : FileReader) :
    List Nat × List Nat × Option (List Nat) × FileReader :=
  let name := musicChunk.ReadNullString
  let filename := if version ≥ 5 then name.2.ReadNullString else ([], name.2)
  let rec_ := filename.2.ReadBytes sizeofMO3Instrument
  (name.1, filename.1, rec_.1, rec_.2)

/-- Source lines 1226-1257: the instrument loop, `n` instruments left, the next one `ins`.
A failed record read is the `break`: the remaining slots are not touched. -/
def readInstruments (E : Environment) (itSampleMode : Bool) (version : Nat) :
    Nat → Nat → FileReader → Option (List (Option InstrumentData) × FileReader)
  | 0, _, musicChunk => some ([], musicChunk)
  | n + 1, ins, musicChunk =>
    if itSampleMode ∨ ¬ E.AllocateInstrument ins then
      match skipInstrument version musicChunk with
      | none => none
      | some f =>
        match readInstruments E itSampleMode version n (ins + 1) f with
        | none => none
        | some r => some (none :: r.1, r.2)
    else
      let p := parseInstrument version musicChunk
      match p.2.2.1 with
      | none => some ([some { name := p.1, filename := p.2.1, record := none }], p.2.2.2)
      | some record =>
        match readInstruments E itSampleMode version n (ins + 1) p.2.2.2 with
        | none => none
        | some r =>
          some (some { name := p.1, filename := p.2.1, record := some record } :: r.1, r.2)

/-- Source lines 1288-1326: the payload of a sample with positive compressed size.
Returns the sample, the container cursor and whether the codec is unsupported. -/
def loadSampleData (E : Environment) (h : MO3Sample) (sample : ModSample) (file : FileReader) :
    Option (ModSample × FileReader × Bool) :=
  let sample := { sample with
    is16Bit := sample.is16Bit || decide (h.flags &&& MO3Sample.smp16Bit ≠ 0),
    isStereo := sample.isStereo || decide (h.flags &&& MO3Sample.smpStereo ≠ 0) }
  let c := file.ReadChunk (toU32 h.compressedSize)
  let compression := h.flags &&& MO3Sample.smpCompressionMask
  let numChannels := sample.GetNumChannels
  let P := if h.flags &&& MO3Sample.smp16Bit ≠ 0 then MO3Delta16BitParams else MO3Delta8BitParams
  if compression = 0 then
    let pcm := E.ReadSample (decide (h.flags &&& MO3Sample.smp16Bit ≠ 0))
      (decide (h.flags &&& MO3Sample.smpStereo ≠ 0)) sample.nLength c.1.data
    some ({ sample with pSample := pcm }, c.2, false)
  else if compression = MO3Sample.smpDeltaCompression then
    if E.AllocateSample sample.nLength then
      match UnpackMO3DeltaSample P c.1 sample.nLength numChannels with
      | none => none
      | some d => some ({ sample with pSample := some d }, c.2, false)
    else some (sample, c.2, false)
  else if compression = MO3Sample.smpDeltaPrediction then
    if E.AllocateSample sample.nLength then
      match UnpackMO3DeltaPredictionSample P c.1 sample.nLength numChannels with
      | none => none
      | some d => some ({ sample with pSample := some d }, c.2, false)
    else some (sample, c.2, false)
  else some (sample, c.2, true)

/-- Source lines 1327-1337: a sample that is an alias of the earlier slot `smpFrom`. -/
def aliasSample (E : Environment) (sample smpFrom : ModSample) : ModSample :=
  let sample := { sample with nLength := min sample.nLength smpFrom.nLength,
                              is16Bit := smpFrom.is16Bit, isStereo := smpFrom.isStereo }
  match smpFrom.pSample with
  | none => sample
  | some d =>
    if E.AllocateSample sample.nLength then
      { sample with pSample := some (d.take (sample.nLength * sample.GetNumChannels)) }
    else sample

/-- State of the sample loop: the slots filled so far (slot 0 first), the two cursors
and the unsupported-codec flag. -/
structure SampleLoop where
  samples : List ModSample
  musicChunk : FileReader
  file : FileReader
  unsupportedSamples : Bool
deriving DecidableEq, Repr

/-- Source lines 1265-1276: the name(s) and the 41-byte record of one sample; the record
is `none` when `ReadConvertEndianness` fails. -/
def parseSampleRecord (version : Nat) (musicChunk : FileReader) :
    List Nat × List Nat × Option (List Nat) × FileReader :=
  let name := musicChunk.ReadNullString
  let filename := if version ≥ 5 then name.2.ReadNullString else ([], name.2)
  let rec_ := filename.2.ReadBytes sizeofMO3Sample
  (name.1, filename.1, rec_.1, rec_.2)

/-- Source lines 1262-1338: the sample loop, `n` samples left; the next slot is
`st.samples.length`. A failed record read is the `break`. An alias whose source index
is negative is an access outside `Samples`. -/
def readSamples (E : Environment) (type : MODTYPE) (version : Nat)
    (loadFlags : ModLoadingFlags) : Nat → SampleLoop → Run SampleLoop
  | 0, st => .done st
  | n + 1, st =>
    let smp := st.samples.length
    let p := parseSampleRecord version st.musicChunk
    match p.2.2.1 with
    | none => .done { st with musicChunk := p.2.2.2 }
    | some bytes =>
      let h := parseSample bytes
      let sample := h.ConvertToMPT E type version
      let chunk :=
        if version ≥ 5 ∧ h.flags &&& MO3Sample.smpCompressionMask = MO3Sample.smpSharedOGG
        then p.2.2.2.Skip 2 else p.2.2.2
      if ¬ loadFlags.loadSampleData then
        readSamples E type version loadFlags n
          { st with samples := st.samples ++ [sample], musicChunk := chunk }
      else if h.compressedSize > 0 then
        match loadSampleData E h sample st.file with
        | none => .outOfFuel
        | some (sample1, file1, unsupported) =>
          readSamples E type version loadFlags n
            { samples := st.samples ++ [sample1], musicChunk := chunk, file := file1,
              unsupportedSamples := st.unsupportedSamples || unsupported }
      else if h.compressedSize < 0 ∧ wrap32 (-h.compressedSize) < (smp : Int) then
        if (smp : Int) + h.compressedSize < 0 then .undefined
        else
          match st.samples[((smp : Int) + h.compressedSize).toNat]? with
          | none => .undefined
          | some smpFrom =>
            readSamples E type version loadFlags n
              { st with samples := st.samples ++ [aliasSample E sample smpFrom],
                        musicChunk := chunk }
      else
        readSamples E type version loadFlags n
          { st with samples := st.samples ++ [sample], musicChunk := chunk }

/-- Source lines 1362-1372: the plugin chunk loop; each entry is the slot and its chunk. -/
def readPluginChunks : Nat → FileReader → Option (List (Nat × List Nat) × FileReader)
  | 0, _ => none
  | fuel + 1, f =>
    if f.CanRead 1 then
      let plug := f.ReadUint8
      if plug.1 = 0 then some ([], plug.2)
      else
        let len := plug.2.ReadUint32LE
        let c := len.2.ReadChunk len.1
        match readPluginChunks fuel c.2 with
        | none => none
        | some r => some ((plug.1, c.1.data) :: r.1, r.2)
    else some ([], f)

/-- The loop reading one `uint32` per channel (source lines 1357-1360). -/
def skipChannelPlugins : Nat → FileReader → FileReader
  | 0, f => f
  | n + 1, f => skipChannelPlugins n f.ReadUint32LE.2

/-- Source lines 1349-1374: the plugin data at the end of the music chunk. -/
def readPlugins (numChannels : Nat) (musicChunk : FileReader) :
    Option (List (Nat × List Nat) × FileReader) :=
  if musicChunk.CanRead 1 then
    let pluginFlags := musicChunk.ReadUint8
    let f := if pluginFlags.1 &&& 1 ≠ 0 then skipChannelPlugins numChannels pluginFlags.2
             else pluginFlags.2
    readPluginChunks (f.BytesLeft + 1) f
  else some ([], musicChunk)

/-- An environment for worked examples: every allocation succeeds, every pattern can
be inserted, and the parts computed in floating point or by `SampleIO` yield nothing. -/
def exampleEnvironment : Environment :=
  { PatternsInsert := fun _ _ => true, AllocateInstrument := fun _ => true,
    AllocateSample := fun _ => true, ReadSample := fun _ _ _ _ => none,
    FinetuneToRate := fun _ => 0, PreAmpExp := fun _ => 0 }

/-- Source lines 805-1383: everything after the music chunk has been unpacked. The
channel settings, MIDI macros and the XM auto-vibrato transfer are left out: they read
nothing from the streams and write only fields that are not part of `Module`. -/
def loadMusicChunk (K : Constants) (E : Environment) (loadFlags : ModLoadingFlags)
    (version : Nat) (musicData : List Nat) (file : FileReader) : Run LoadResult :=
  let musicChunk : FileReader := ⟨musicData, 0⟩
  let songName := musicChunk.ReadNullString
  let songMessage := songName.2.ReadNullString
  let hdr := songMessage.2.ReadBytes sizeofMO3FileHeader
  match hdr.1 with
  | none => .done .rejected
  | some bytes =>
    let fileHeader := parseFileHeader bytes
    if fileHeader.numChannels = 0 ∨ fileHeader.numChannels > 64
        ∨ fileHeader.numInstruments ≥ K.MAX_INSTRUMENTS
        ∨ fileHeader.numSamples ≥ K.MAX_SAMPLES then .done .rejected
    else
      let type := chooseType fileHeader.flags
      let order := readOrders hdr.2 fileHeader.numOrders
      let trackChunk := order.2.ReadChunk (fileHeader.numPatterns * fileHeader.numChannels * 2)
      let patLengthChunk := trackChunk.2.ReadChunk (fileHeader.numPatterns * 2)
      let tracks := readTracks fileHeader.numTracks patLengthChunk.2
      match readPatterns K E type loadFlags fileHeader.numChannels tracks.1
          fileHeader.numPatterns 0 patLengthChunk.1 trackChunk.1 with
      | .undefined => .undefined
      | .outOfFuel => .outOfFuel
      | .done patterns =>
        let itSampleMode := decide (type = MOD_TYPE_IT ∧
          fileHeader.flags &&& MO3FileHeader.instrumentMode = 0)
        match readInstruments E itSampleMode version fileHeader.numInstruments 1 tracks.2 with
        | none => .outOfFuel
        | some ins =>
          match readSamples E type version loadFlags fileHeader.numSamples
              { samples := [ModSample.Initial], musicChunk := ins.2, file := file,
                unsupportedSamples := false } with
          | .undefined => .undefined
          | .outOfFuel => .outOfFuel
          | .done smp =>
            match readPlugins fileHeader.numChannels smp.musicChunk with
            | none => .outOfFuel
            | some plug =>
              .done (.loaded
                { songName := songName.1, songMessage := songMessage.1, header := fileHeader,
                  type := type, samplePreAmp := samplePreAmp E fileHeader.sampleVolume,
                  order := order.1, patterns := patterns,
                  nInstruments := if itSampleMode then 0 else fileHeader.numInstruments,
                  instruments := ins.1, samples := smp.samples,
                  unsupportedSamples := smp.unsupportedSamples, plugins := plug.1,
                  musicChunk := plug.2, file := smp.file })

/-- The function `bool CSoundFile::ReadMO3(FileReader &file, ModLoadingFlags loadFlags)` on the
built-in decoder path: `MPT_BUILTIN_MO3` defined, `NO_MO3` and `NO_VST` not defined, the
unmo3 library not available, and `new` succeeding. -/
def ReadMO3 (K : Constants) (E : Environment) (file : FileReader)
    (loadFlags : ModLoadingFlags) : Run LoadResult :=
  let file := file.Rewind
  if ¬ file.CanRead 12 then .done .rejected
  else
    let magic := file.ReadMagic [0x4D, 0x4F, 0x33]
    if ¬ magic.1 then .done .rejected
    else
      let version := magic.2.ReadUint8
      let musicSize := version.2.ReadUint32LE
      if musicSize.1 ≤ 422 then .done .rejected
      else if loadFlags = onlyVerifyHeader then .done .verified
      else if version.1 > 5 then .done .rejected
      else
        let compressedSize :=
          if version.1 ≥ 5 then musicSize.2.ReadUint32LE else (4294967295, musicSize.2)
        match UnpackMO3Data compressedSize.2 musicSize.1 with
        | none => .outOfFuel
        | some r =>
          if ¬ r.ok then .done .rejected
          else
            let file1 :=
              if version.1 ≥ 5 then r.file.Seek ((12 + compressedSize.1) % 4294967296)
              else r.file
            loadMusicChunk K E loadFlags version.1 r.out file1

/-- The `bool` a run of `ReadMO3` returns, when it returns. -/
def Run.returns : Run LoadResult → Option Bool
  | .done r => some r.returns
  | _ => none

/-- The module a run of `ReadMO3` leaves, when it ends in the final `return true`. -/
def Run.loaded : Run LoadResult → Option Module
  | .done (.loaded m) => some m
  | _ => none

/-! ## The container as `ReadMO3` sees it -/

/-- The container starts with the magic bytes "MO3". -/
def hasMagic (data : List Nat) : Bool :=
  decide ((data.take 3).map (· % 256) = [0x4D, 0x4F, 0x33])

/-- The version byte of the container. -/
def containerVersion (data : List Nat) : Nat := u8At data 3

/-- The declared size of the decompressed music chunk. -/
def containerMusicSize (data : List Nat) : Nat := u32At data 4

/-- The compressed-block size field of a revision 5 container. -/
def containerCompressedSize (data : List Nat) : Nat := u32At data 8

/-- The container with the cursor at the start of the compressed stream. -/
def containerStream (data : List Nat) : FileReader :=
  ⟨data, if containerVersion data ≥ 5 then 12 else 8⟩

/-- The container cursor handed on to the sample loading, given the cursor `file` after
the music chunk has been unpacked (source lines 797-800). -/
def containerAfterMusic (data : List Nat) (file : FileReader) : FileReader :=
  if containerVersion data ≥ 5 then
    file.Seek ((12 + containerCompressedSize data) % 4294967296)
  else file

/-- The file header as `ReadMO3` reads it from the music chunk, after the two
NUL-terminated strings; `none` when fewer than 422 bytes are left for it. -/
def musicHeader (musicData : List Nat) : Option MO3FileHeader :=
  ((((⟨musicData, 0⟩ : FileReader).ReadNullString.2.ReadNullString.2.ReadBytes
    sizeofMO3FileHeader).1).map parseFileHeader)

/-- The header checks of source lines 812-814 pass. -/
def headerAccepted (K : Constants) (h : MO3FileHeader) : Prop :=
  ¬ (h.numChannels = 0 ∨ h.numChannels > 64 ∨ h.numInstruments ≥ K.MAX_INSTRUMENTS
      ∨ h.numSamples ≥ K.MAX_SAMPLES)

/-- The reader `g` is a cursor into the chunk `chunk` that has not left it. -/
def InChunk (chunk : List Nat) (g : FileReader) : Prop :=
  g.data = chunk ∧ g.pos ≤ chunk.length

/-- A sample step that returns whenever the fuel exceeds the weight of the bit reader. -/
def StepTotal (fuel : Nat) (step : DeltaState → Option (DeltaState × Int)) : Prop :=
  ∀ st, st.bs.data < 256 → st.bs.weight < fuel →
    ∃ r, step st = some r ∧ r.1.bs.data < 256 ∧ r.1.bs.weight ≤ st.bs.weight


/-- A music chunk of 424 bytes: empty song name, empty message, and a file header with
one channel and one instrument (and nothing else set); it ends where the first
instrument's name would start. -/
def exampleChunk : List Nat := [0, 0, 1] ++ List.replicate 8 0 ++ [1] ++ List.replicate 412 0

/-- A revision 0 container declaring 424 bytes of music data, with `exampleChunk`
stored as literals only (a zero control byte before every 8 literal bytes). -/
def exampleContainer : List Nat :=
  [0x4D, 0x4F, 0x33, 0, 0xA8, 0x01, 0, 0] ++
    [0, 0, 0, 1, 0, 0, 0, 0, 0, 0, 0, 0, 0, 1] ++ List.replicate 463 0


/-! ## One pass of the sample loop -/

/-- The header of the sample record at the cursor of the music chunk (source lines
1265-1276); `none` when the record is incomplete, which is the `break`. -/
def nextSampleHeader (version : Nat) (musicChunk : FileReader) : Option MO3Sample :=
  (parseSampleRecord version musicChunk).2.2.1.map parseSample

/-- The music-chunk cursor after the names and the record of one sample, and after the
two bytes of a shared OGG header (source lines 1265-1283). -/
def afterSampleRecord (version : Nat) (musicChunk : FileReader) : FileReader :=
  let p := parseSampleRecord version musicChunk
  match p.2.2.1 with
  | none => p.2.2.2
  | some bytes =>
    if version ≥ 5 ∧ (parseSample bytes).flags &&& MO3Sample.smpCompressionMask
        = MO3Sample.smpSharedOGG
    then p.2.2.2.Skip 2 else p.2.2.2

/-- Source lines 1277-1337 for the slot after the ones in `st`, its header being `h`:
the sample stored in the slot, the container cursor afterwards, and whether the codec
is unsupported. -/
def nextSample (E : Environment) (type : MODTYPE) (version : Nat)
    (loadFlags : ModLoadingFlags) (st : SampleLoop) (h : MO3Sample) :
    Run (ModSample × FileReader × Bool) :=
  let smp := st.samples.length
  let sample := h.ConvertToMPT E type version
  if ¬ loadFlags.loadSampleData then .done (sample, st.file, false)
  else if h.compressedSize > 0 then
    match loadSampleData E h sample st.file with
    | none => .outOfFuel
    | some r => .done r
  else if h.compressedSize < 0 ∧ wrap32 (-h.compressedSize) < (smp : Int) then
    if (smp : Int) + h.compressedSize < 0 then .undefined
    else
      match st.samples[((smp : Int) + h.compressedSize).toNat]? with
      | none => .undefined
      | some smpFrom => .done (aliasSample E sample smpFrom, st.file, false)
  else .done (sample, st.file, false)

/-- The sample `y` with its PCM data taken away. -/
def ModSample.WithoutData (y : ModSample) : ModSample := { y with pSample := none }

/-- Slot `i` of `ys` holds a copy of the leading part of the data of an earlier slot of
`ys`, and that earlier slot is not the same in `xs`. -/
def CopiesChangedSlot (xs ys : List ModSample) (i : Nat) : Prop :=
  ∃ j yj dj y, j < i ∧ xs[j]? ≠ ys[j]? ∧ ys[j]? = some yj ∧ yj.pSample = some dj ∧
    ys[i]? = some y ∧ y.pSample = some (dj.take (y.nLength * y.GetNumChannels))

/-- The sample slots `xs` of a load in which slot `s` could not be decoded, against the
slots `ys` of the load in which it was: as many slots, and every slot is the same in
both, or is in `xs` the slot of `ys` without its PCM data and is either slot `s` or a
copy of a slot that differs. -/
def OnlyAliasesLoseData (s : Nat) (xs ys : List ModSample) : Prop :=
  xs.length = ys.length ∧
  ∀ i x y, xs[i]? = some x → ys[i]? = some y →
    x = y ∨ (x = y.WithoutData ∧ (i = s ∨ CopiesChangedSlot xs ys i))

/-! ## Worked examples for the sample loop -/

/-- A sample record as the sample loop reads it from a revision 0 chunk: an empty name,
then the 41 bytes of `MO3Sample`, of which only the length (one byte), the high byte of
the flags and the compressed size are set. -/
def exampleSampleRecord (length flagsHigh : Nat) (compressedSize : List Nat) : List Nat :=
  [0] ++ List.replicate 8 0 ++ [length, 0, 0, 0] ++ List.replicate 8 0 ++ [0, flagsHigh] ++
    List.replicate 13 0 ++ compressedSize ++ [0, 0]

/-- A music chunk with one channel, no orders, patterns, tracks or instruments, and two
samples of two frames each: sample 1 has a payload of one byte whose compression kind
is `flagsHigh * 256`, sample 2 is an alias of sample 1 (compressed size -1). -/
def exampleSampleChunk (flagsHigh : Nat) : List Nat :=
  [0, 0] ++ [1] ++ List.replicate 10 0 ++ [2] ++ List.replicate 410 0 ++
    exampleSampleRecord 2 flagsHigh [1, 0, 0, 0] ++
    exampleSampleRecord 2 0 [0xFF, 0xFF, 0xFF, 0xFF]

/-- A state of the sample loop before slot 2: slot 1 holds three frames of 8-bit mono
data, and the record at the cursor declares two frames and compressed size -1. -/
def exampleAliasState : SampleLoop :=
  { samples := [ModSample.Initial,
      { nLength := 3, is16Bit := false, isStereo := false, nC5Speed := none,
        pSample := some [10, 20, 30] }],
    musicChunk := ⟨exampleSampleRecord 2 0 [0xFF, 0xFF, 0xFF, 0xFF], 0⟩,
    file := ⟨[], 0⟩, unsupportedSamples := false }

/-- A revision 0 container declaring 508 bytes of music data, with
`exampleSampleChunk flagsHigh` stored as literals only, followed by the one payload
byte of sample 1. -/
def exampleSampleContainer (flagsHigh : Nat) : List Nat :=
  [0x4D, 0x4F, 0x33, 0, 0xFC, 0x01, 0, 0] ++
    0 :: (literalGroups 0 (exampleSampleChunk flagsHigh).tail ++ [0x55])

/-- The state in which the sample loop starts on `exampleSampleContainer 0x10`: slot 0
only, the chunk cursor at the first sample record, the container cursor at the payload. -/
def exampleSampleState : SampleLoop :=
  { samples := [ModSample.Initial], musicChunk := ⟨exampleSampleChunk 0x10, 424⟩,
    file := ⟨exampleSampleContainer 0x10, 580⟩, unsupportedSamples := false }

/-! ## Worked example for the header fields -/

/-- A music chunk of 424 bytes: empty song name and message, and a file header with one
channel, the `isIT` flag, the sample-volume byte `volume`, and nothing else set. -/
def exampleVolumeChunk (volume : Nat) : List Nat :=
  [0, 0] ++ [1] ++ List.replicate 14 0 ++ [0, 1, 0, 0] ++ [0, 0] ++ [volume] ++
    List.replicate 400 0

/-- A revision 0 container declaring 424 bytes of music data, with
`exampleVolumeChunk volume` stored as literals only. -/
def exampleVolumeContainer (volume : Nat) : List Nat :=
  [0x4D, 0x4F, 0x33, 0, 0xA8, 0x01, 0, 0] ++
    0 :: (literalGroups 0 (exampleVolumeChunk volume).tail ++ [])

/-- A music chunk cursor at an instrument of a revision 5 container: the name "A", the
file name "B", the 826 bytes of the record, and one byte of what follows. -/
def exampleInstrumentChunk : List Nat := [65, 0, 66, 0] ++ List.replicate 826 7 ++ [9]

/-! ## Envelopes -/

/-- The fields of `struct MO3Envelope` (106 bytes, packed); `points` holds the 25 pairs
`points[i][0]`, `points[i][1]` (`int16`). -/
structure MO3Envelope where
  flags : Nat
  numNodes : Nat
  sustainStart : Nat
  sustainEnd : Nat
  loopStart : Nat
  loopEnd : Nat
  points : List (Int × Int)
deriving DecidableEq, Repr

/-- The packed layout of `MO3Envelope` after `ConvertEndianness`. -/
def parseEnvelope (bs : List Nat) : MO3Envelope :=
  { flags := u8At bs 0, numNodes := u8At bs 1, sustainStart := u8At bs 2,
    sustainEnd := u8At bs 3, loopStart := u8At bs 4, loopEnd := u8At bs 5,
    points := (List.range 25).map
      (fun i => (toSigned 16 (u16At bs (6 + 4 * i)), toSigned 16 (u16At bs (8 + 4 * i)))) }

/-- An integer type of the target: its width in bits and whether it is signed. The
element type of `InstrumentEnvelope::Ticks` is declared outside the sources
(soundlib/ModInstrument.h) and is a parameter of the envelope conversion. -/
structure IntType where
  bits : Nat
  signed : Bool
deriving DecidableEq, Repr

/-- Smallest value of an integer type. -/
def IntType.min (t : IntType) : Int := if t.signed then -(2 ^ (t.bits - 1)) else 0

/-- Largest value of an integer type. -/
def IntType.max (t : IntType) : Int :=
  if t.signed then 2 ^ (t.bits - 1) - 1 else 2 ^ t.bits - 1

/-- Conversion of an integer to an integer type (reduction modulo `2 ^ bits`). -/
def IntType.convert (t : IntType) (x : Int) : Int :=
  if t.signed then (x + 2 ^ (t.bits - 1)) % 2 ^ t.bits - 2 ^ (t.bits - 1) else x % 2 ^ t.bits

/-- The type `uint16`, which OpenMPT gives the envelope ticks. -/
def uint16 : IntType := { bits := 16, signed := false }

/-- The type `int16`, the type of the record's points. -/
def int16 : IntType := { bits := 16, signed := true }

/-- Modelled from the spec: `InstrumentEnvelope` (soundlib/ModInstrument.h, not among
the sources) as far as `MO3Envelope::ConvertToMPT` writes it: the five flags it can set,
the node count, the sustain and loop indices, and the first `nNodes` entries of `Ticks`
and `Values`. -/
structure InstrumentEnvelope where
  enabled : Bool
  sustain : Bool
  loop : Bool
  filter : Bool
  carry : Bool
  nNodes : Nat
  nSustainStart : Nat
  nSustainEnd : Nat
  nLoopStart : Nat
  nLoopEnd : Nat
  Ticks : List Int
  Values : List Nat
deriving DecidableEq, Repr

/-- The ticks written by the loop of source lines 195-199 for the points still to come;
`previous` is `Ticks[ev - 1]`, `none` at `ev = 0`. -/
def envelopeTicks (t : IntType) : Option Int → List Int → List Int
  | _, [] => []
  | none, p :: ps => t.convert p :: envelopeTicks t (some (t.convert p)) ps
  | some previous, p :: ps =>
    let x := if t.convert p < previous then t.convert (previous + 1) else t.convert p
    x :: envelopeTicks t (some x) ps

/-- Source line 200: `static_cast<uint8>(Clamp(points[ev][1] >> envShift, 0, 64))`. -/
def envelopeValue (envShift : Nat) (v : Int) : Nat :=
  (max 0 (min (v >>> envShift) 64)).toNat

/-- The function `MO3Envelope::ConvertToMPT(mptEnv, envShift)` (source lines 183-202), with the
element type `t` of `Ticks`; `mptEnv` is the envelope before the call, whose flags are
kept. -/
def MO3Envelope.ConvertToMPT (t : IntType) (env : MO3Envelope) (mptEnv : InstrumentEnvelope)
    (envShift : Nat) : InstrumentEnvelope :=
  let nNodes := min env.numNodes 25
  { enabled := mptEnv.enabled || decide (env.flags &&& 0x01 ≠ 0),
    sustain := mptEnv.sustain || decide (env.flags &&& 0x02 ≠ 0),
    loop := mptEnv.loop || decide (env.flags &&& 0x04 ≠ 0),
    filter := mptEnv.filter || decide (env.flags &&& 0x10 ≠ 0),
    carry := mptEnv.carry || decide (env.flags &&& 0x20 ≠ 0),
    nNodes := nNodes,
    nSustainStart := env.sustainStart, nSustainEnd := env.sustainEnd,
    nLoopStart := env.loopStart, nLoopEnd := env.loopEnd,
    Ticks := envelopeTicks t none ((env.points.take nNodes).map (fun p => p.1)),
    Values := (env.points.take nNodes).map (fun p => envelopeValue envShift p.2) }

/-- An envelope with no flag set and no node, as a fresh instrument has it. -/
def InstrumentEnvelope.Initial : InstrumentEnvelope :=
  { enabled := false, sustain := false, loop := false, filter := false, carry := false,
    nNodes := 0, nSustainStart := 0, nSustainEnd := 0, nLoopStart := 0, nLoopEnd := 0,
    Ticks := [], Values := [] }

/-- An envelope record with two nodes whose ticks are `first` (two bytes) and 0. -/
def exampleEnvelopeRecord (first : List Nat) : List Nat :=
  [0x01, 2, 0, 0, 0, 0] ++ first ++ [0x20, 0] ++ [0, 0, 0x10, 0] ++ List.replicate 92 0


/-! ## Control bits in a row -/

/-- The bit reader after `k` control-bit reads in a row, with no other read between. -/
def readBits : Nat → BitState → BitState
  | 0, s => s
  | k + 1, s => READ_CTRL_BIT 8 (readBits k s)

/-- The bit returned by read number `k` (counted from 0) of a row of control-bit reads. -/
def ctrlBit (s : BitState) (k : Nat) : Nat := (readBits (k + 1) s).carry

/-! ## The delta decoders as sequences of codes and values -/

/-- The delta a raw code stands for (source lines 619-622 read as a signed number):
`c >> 1` when the low bit of `c` is 1, the bitwise complement of `c >> 1` when it is 0. -/
def signedDelta (c : Nat) : Int :=
  if c % 2 = 1 then ((c / 2 : Nat) : Int) else -((c / 2 : Nat) : Int) - 1

/-- An integer wrapped to a signed sample of `bits` bits. -/
def wrapSample (bits : Nat) (x : Int) : Int := toSigned bits (toUnsigned bits x)

/-- The raw codes of the next `n` samples, in the order they are decoded. -/
def rawCodes (P : DeltaParams) (fuel : Nat) : Nat → BitState → Nat → Option (List Nat)
  | 0, _, _ => some []
  | n + 1, s, dh =>
    match deltaCode P fuel s dh with
    | none => none
    | some (s1, dh1, raw) =>
      match rawCodes P fuel n { s1 with carry := raw &&& 1 } dh1 with
      | none => none
      | some cs => some (raw :: cs)

/-- The running values `previous + delta`, wrapped to the sample width, of a list of
raw codes. -/
def deltaOutputs (bits : Nat) : Int → List Nat → List Int
  | _, [] => []
  | previous, c :: cs =>
    wrapSample bits (previous + signedDelta c) ::
      deltaOutputs bits (wrapSample bits (previous + signedDelta c)) cs

/-- The state after `n` consecutive sample steps and the values they store, in order. -/
def stepValues (step : DeltaState → Option (DeltaState × Int)) :
    Nat → DeltaState → Option (DeltaState × List Int)
  | 0, st => some (st, [])
  | n + 1, st =>
    match step st with
    | none => none
    | some (st1, v) =>
      match stepValues step n st1 with
      | none => none
      | some (st2, vs) => some (st2, v :: vs)

/-- The buffer after the values `vs` are stored at `dst[chn + k * numChannels]`,
`k = k0, k0 + 1, ...`. -/
def writeStrided (numChannels chn : Nat) : Nat → List Int → List Int → List Int
  | _, [], dst => dst
  | k, v :: vs, dst => writeStrided numChannels chn (k + 1) vs (dst.set (chn + k * numChannels) v)

/-- The buffer after `n` channels, from channel `chn` on, have been stored, each taking
the next `length` values of `vs`. -/
def writeChannels (length numChannels : Nat) : Nat → Nat → List Int → List Int → List Int
  | 0, _, _, dst => dst
  | n + 1, chn, vs, dst =>
    writeChannels length numChannels n (chn + 1) (vs.drop length)
      (writeStrided numChannels chn 0 (vs.take length) dst)

/-! ## The command table against the command list -/

/-- The enumerator is one of the volume-column commands `VOLCMD_*`. -/
def COMMAND.isVolumeColumn : COMMAND → Bool
  | VOLCMD_NONE | VOLCMD_VOLUME | VOLCMD_PANNING | VOLCMD_VOLSLIDEUP | VOLCMD_VOLSLIDEDOWN
  | VOLCMD_FINEVOLUP | VOLCMD_FINEVOLDOWN | VOLCMD_VIBRATOSPEED | VOLCMD_VIBRATODEPTH
  | VOLCMD_PANSLIDELEFT | VOLCMD_PANSLIDERIGHT | VOLCMD_TONEPORTAMENTO | VOLCMD_PORTAUP
  | VOLCMD_PORTADOWN => true
  | _ => false

/-- The `case` labels of the `switch(cmd[0])` of source lines 1033-1199; every other
code goes to the `default` branch. -/
def explicitCases : List Nat :=
  [0x01, 0x02, 0x06, 0x07, 0x0B, 0x0F, 0x10, 0x12, 0x14, 0x15, 0x1B, 0x1D, 0x1E, 0x1F, 0x20,
   0x22, 0x30, 0x31, 0x32]

/-- The commands the comment "MO3 pattern commands" (source lines 927-979) lists for a
code, in the order of the comment (`VOLCMD_TONEPORTA` of the comment is the enumerator
`VOLCMD_TONEPORTAMENTO` of the code); codes 01 (note) and 02 (instrument) and the codes
the comment does not list have none. -/
def documentedCommands : Nat → List COMMAND
  | 0x03 => [ CMD_ARPEGGIO]
  | 0x04 => [CMD_PORTAMENTOUP]
  | 0x05 => [CMD_PORTAMENTODOWN]
  | 0x06 => [CMD_TONEPORTAMENTO, VOLCMD_TONEPORTAMENTO]
  | 0x07 => [CMD_VIBRATO, VOLCMD_VIBRATODEPTH]
  | 0x08 => [CMD_TONEPORTAVOL]
  | 0x09 => [CMD_VIBRATOVOL]
  | 0x0A => [CMD_TREMOLO]
  | 0x0B => [CMD_PANNING8, VOLCMD_PANNING]
  | 0x0C => [CMD_OFFSET]
  | 0x0D => [CMD_VOLUMESLIDE]
  | 0x0E => [CMD_POSITIONJUMP]
  | 0x0F => [CMD_VOLUME, VOLCMD_VOLUME]
  | 0x10 => [CMD_PATTERNBREAK]
  | 0x11 => [CMD_MODCMDEX]
  | 0x12 => [CMD_TEMPO, CMD_SPEED]
  | 0x13 => [CMD_TREMOR]
  | 0x14 => [VOLCMD_VOLSLIDEUP, VOLCMD_VOLSLIDEDOWN]
  | 0x15 => [VOLCMD_FINEVOLUP, VOLCMD_FINEVOLDOWN]
  | 0x16 => [CMD_GLOBALVOLUME]
  | 0x17 => [CMD_GLOBALVOLSLIDE]
  | 0x18 => [CMD_KEYOFF]
  | 0x19 => [CMD_SETENVPOSITION]
  | 0x1A => [CMD_PANNINGSLIDE]
  | 0x1B => [VOLCMD_PANSLIDELEFT, VOLCMD_PANSLIDERIGHT]
  | 0x1C => [CMD_RETRIG]
  | 0x1D => [CMD_XFINEPORTAUPDOWN]
  | 0x1E => [CMD_XFINEPORTAUPDOWN]
  | 0x1F => [VOLCMD_VIBRATOSPEED]
  | 0x20 => [VOLCMD_VIBRATODEPTH]
  | 0x21 => [CMD_SPEED]
  | 0x22 => [CMD_VOLUMESLIDE]
  | 0x23 => [CMD_PORTAMENTODOWN]
  | 0x24 => [CMD_PORTAMENTOUP]
  | 0x25 => [CMD_TREMOR]
  | 0x26 => [CMD_RETRIG]
  | 0x27 => [CMD_FINEVIBRATO]
  | 0x28 => [CMD_CHANNELVOLUME]
  | 0x29 => [CMD_CHANNELVOLSLIDE]
  | 0x2A => [CMD_PANNINGSLIDE]
  | 0x2B => [CMD_S3MCMDEX]
  | 0x2C => [CMD_TEMPO]
  | 0x2D => [CMD_GLOBALVOLSLIDE]
  | 0x2E => [CMD_PANBRELLO]
  | 0x2F => [CMD_MIDI]
  | 0x30 => [VOLCMD_FINEVOLUP, VOLCMD_FINEVOLDOWN, VOLCMD_VOLSLIDEUP, VOLCMD_VOLSLIDEDOWN]
  | 0x31 => [VOLCMD_PORTADOWN]
  | 0x32 => [VOLCMD_PORTAUP]
  | _ => []

/-! ## Streams of zero bytes -/

/-- A bit reader over a stream that delivers only zero bytes from now on, whose pending
buffer holds no 1 bit besides the sentinel (or is empty). -/
def ZeroBits (s : BitState) : Prop :=
  (∀ j, s.file.peek j = 0) ∧ s.data ∈ [0, 1, 2, 4, 8, 16, 32, 64, 128]

/-! ## Worked examples for hostile inputs -/

/-- A music chunk with one channel, no orders, patterns, tracks or instruments, and one
sample of two frames whose compressed-size field holds the four bytes `compressedSize`. -/
def exampleAliasChunk (compressedSize : List Nat) : List Nat :=
  [0, 0] ++ [1] ++ List.replicate 10 0 ++ [1] ++ List.replicate 410 0 ++
    exampleSampleRecord 2 0 compressedSize

/-- A revision 0 container declaring 466 bytes of music data, with
`exampleAliasChunk compressedSize` stored as literals only. -/
def exampleAliasContainer (compressedSize : List Nat) : List Nat :=
  [0x4D, 0x4F, 0x33, 0, 0xD2, 0x01, 0, 0] ++
    0 :: (literalGroups 0 (exampleAliasChunk compressedSize).tail ++ [])

/-- A revision 0 container declaring 423 bytes of music data. Its stream holds the first
byte 0x41, 421 literals 0x42, then a match with length code 3 (a new offset, low byte 0,
so offset -1), low length bits 00 and an extended length of 32 pairs whose data bits are
0xFFFFFFFD, and a last literal 0x43. -/
def exampleZeroMatchContainer : List Nat :=
  [0x4D, 0x4F, 0x33, 0, 0xA7, 0x01, 0, 0] ++
    0x41 :: (literalGroups 0 (List.replicate 416 0x42) ++ [0x06] ++ List.replicate 5 0x42 ++
      [0x00] ++ [0x3F] ++ List.replicate 6 0xFF ++ [0xFD, 0x80, 0x43])

/-! ## The sample loop pass by pass -/

/-- One completed pass of the sample loop (source lines 1264-1337): the header read and
the loop state after the pass; `none` when the record is incomplete (the `break`) or the
pass has no result. -/
def samplePass (E : Environment) (type : MODTYPE) (version : Nat)
    (loadFlags : ModLoadingFlags) (st : SampleLoop) : Option (MO3Sample × SampleLoop) :=
  match nextSampleHeader version st.musicChunk with
  | none => none
  | some h =>
    match nextSample E type version loadFlags st h with
    | .done r =>
      some (h, { samples := st.samples ++ [r.1],
                 musicChunk := afterSampleRecord version st.musicChunk,
                 file := r.2.1, unsupportedSamples := st.unsupportedSamples || r.2.2 })
    | _ => none

/-- The first `k` passes of the sample loop started in `st`: the headers they read and
the loop state before the next pass; `none` when the loop does not get that far. -/
def samplePasses (E : Environment) (type : MODTYPE) (version : Nat)
    (loadFlags : ModLoadingFlags) : Nat → SampleLoop → Option (List MO3Sample × SampleLoop)
  | 0, st => some ([], st)
  | k + 1, st =>
    match samplePass E type version loadFlags st with
    | none => none
    | some (h, st1) =>
      match samplePasses E type version loadFlags k st1 with
      | none => none
      | some (hs, st2) => some (h :: hs, st2)

/-- The payload bytes the records `hs` declare: the sum of their positive
compressed-size fields. -/
def payloadBytes (hs : List MO3Sample) : Nat :=
  (hs.map (fun h => if h.compressedSize > 0 then h.compressedSize.toNat else 0)).sum

/-! ## Worked example for a revision 5 container -/

/-- A music chunk of a revision 5 container with one channel and three samples of two
frames each, every record with an empty name and an empty file name: sample 1 has a
payload of 3 bytes of the kind 0x1000, which the loader does not decode, sample 2 is an
alias of sample 1 (compressed size -1), sample 3 has a delta payload of 2 bytes. -/
def exampleV5Chunk : List Nat :=
  [0, 0] ++ [1] ++ List.replicate 10 0 ++ [3] ++ List.replicate 410 0 ++
    (0 :: exampleSampleRecord 2 0x10 [3, 0, 0, 0]) ++
    (0 :: exampleSampleRecord 2 0 [0xFF, 0xFF, 0xFF, 0xFF]) ++
    (0 :: exampleSampleRecord 2 0x20 [2, 0, 0, 0])

/-- A revision 5 container declaring 553 bytes of music data in a compressed block of
622 bytes, `exampleV5Chunk` stored as literals only, followed by the 3 + 2 payload
bytes of samples 1 and 3. -/
def exampleV5Container : List Nat :=
  [0x4D, 0x4F, 0x33, 5, 0x29, 0x02, 0, 0, 0x6E, 0x02, 0, 0] ++
    0 :: (literalGroups 0 exampleV5Chunk.tail ++ [0x11, 0x12, 0x13, 0x00, 0x00])

/-- The state in which the sample loop starts on `exampleV5Container`. -/
def exampleV5State : SampleLoop :=
  { samples := [ModSample.Initial], musicChunk := ⟨exampleV5Chunk, 424⟩,
    file := ⟨exampleV5Container, 634⟩, unsupportedSamples := false }


/-! ## Worked example for the seek after the music chunk -/

/-- The container `exampleV5Container` with the four bytes `size` in its compressed-block
size field. -/
def exampleSeekContainer (size : List Nat) : List Nat :=
  [0x4D, 0x4F, 0x33, 5, 0x29, 0x02, 0, 0] ++ size ++
    0 :: (literalGroups 0 exampleV5Chunk.tail ++ [0x11, 0x12, 0x13, 0x00, 0x00])

/-! # Theorems

Everything below is a statement about the definitions above. -/
/-! ## Basic facts -/

theorem toI32_toU32 (x : Int) : toI32 (toU32 x) = wrap32 x := by
  unfold toI32 toU32 wrap32; split <;> omega

theorem toU32_lt (x : Int) : toU32 x < 4294967296 := by
  unfold toU32; omega

theorem READ_CTRL_BIT_eq (s : BitState) (h : s.data < 256) :
    READ_CTRL_BIT 8 s =
      if (2 * s.data) % 256 = 0 then
        { file := s.file.ReadUint8.2, data := (2 * s.file.ReadUint8.1 + 1) % 256,
          carry := s.file.ReadUint8.1 / 128 }
      else { file := s.file, data := (2 * s.data) % 256, carry := s.data / 128 } := by
  have hb : s.file.ReadUint8.1 < 256 := by
    unfold FileReader.ReadUint8; split
    · exact Nat.mod_lt _ (by norm_num)
    · norm_num
  have e : ∀ x : Nat, x &&& (256 - 1) = x % 256 := fun x =>
    Nat.and_pow_two_sub_one_eq_mod x 8
  have h1 : (s.data <<< 1) % 65536 = 2 * s.data := by
    rw [Nat.shiftLeft_eq]; omega
  have h2 : ((s.file.ReadUint8.1 <<< 1) + 1) % 65536 = 2 * s.file.ReadUint8.1 + 1 := by
    rw [Nat.shiftLeft_eq]; omega
  have h3 : (1 <<< 8 : Nat) = 256 := by decide
  unfold READ_CTRL_BIT
  simp only [h3]
  simp only [e, h1, h2, ge_iff_le]
  by_cases hz : 2 * s.data % 256 = 0
  · simp only [hz, if_true]
    congr 1
    split <;> omega
  · simp only [hz, if_false]
    congr 1
    split <;> omega

set_option maxRecDepth 100000 in
theorem dataWeight_pos : ∀ d, d < 256 → 1 ≤ dataWeight d := by decide

set_option maxRecDepth 100000 in
theorem dataWeight_shift :
    ∀ d, d < 256 → 2 * d % 256 ≠ 0 → dataWeight (2 * d % 256) + d / 128 = dataWeight d := by
  decide

set_option maxRecDepth 100000 in
theorem dataWeight_reload : ∀ b, b < 256 → dataWeight ((2 * b + 1) % 256) + b / 128 ≤ 9 := by
  decide

theorem ReadUint8_lt (f : FileReader) : f.ReadUint8.1 < 256 := by
  unfold FileReader.ReadUint8; split
  · exact Nat.mod_lt _ (by norm_num)
  · norm_num

theorem ReadUint8_data (f : FileReader) : f.ReadUint8.2.data = f.data := by
  unfold FileReader.ReadUint8; split <;> rfl

theorem ReadUint8_left (f : FileReader) :
    (f.BytesLeft = 0 ∧ f.ReadUint8 = (0, f)) ∨
    (f.ReadUint8.2.BytesLeft + 1 = f.BytesLeft) := by
  unfold FileReader.ReadUint8 FileReader.BytesLeft
  split
  · right; simp only; omega
  · left; exact ⟨by omega, rfl⟩

theorem ReadUint8_left_le (f : FileReader) : f.ReadUint8.2.BytesLeft ≤ f.BytesLeft := by
  rcases ReadUint8_left f with ⟨_, h⟩ | h
  · rw [h]
  · omega

/-- One control-bit read keeps the buffer in `1..255`, delivers a bit, and uses up
weight when the bit is 1. -/
theorem READ_CTRL_BIT_spec (s : BitState) (h : s.data < 256) :
    0 < (READ_CTRL_BIT 8 s).data ∧ (READ_CTRL_BIT 8 s).data < 256 ∧
    (READ_CTRL_BIT 8 s).carry ≤ 1 ∧
    (READ_CTRL_BIT 8 s).weight + (READ_CTRL_BIT 8 s).carry ≤ s.weight ∧
    (READ_CTRL_BIT 8 s).file.data = s.file.data ∧
    (READ_CTRL_BIT 8 s).file.BytesLeft ≤ s.file.BytesLeft := by
  rw [READ_CTRL_BIT_eq s h]
  have hb := ReadUint8_lt s.file
  have hw := dataWeight_pos s.data h
  by_cases hz : 2 * s.data % 256 = 0
  · simp only [hz, if_true, BitState.weight]
    have hr := dataWeight_reload _ hb
    refine ⟨by omega, by omega, by omega, ?_, ReadUint8_data _, ReadUint8_left_le _⟩
    rcases ReadUint8_left s.file with ⟨h0, he⟩ | h1
    · rw [he]; simp only [h0]
      have : dataWeight ((2 * 0 + 1) % 256) = 1 := by decide
      omega
    · omega
  · simp only [hz, if_false, BitState.weight]
    have hs := dataWeight_shift s.data h hz
    exact ⟨by omega, by omega, by omega, by omega, trivial, le_refl _⟩


/-! ## Termination of the pair loops -/

theorem Follows_refl (s : BitState) (h : s.data < 256) : s.Follows s :=
  ⟨h, le_refl _, rfl⟩

theorem Follows_trans {a b c : BitState} (h1 : a.Follows b) (h2 : b.Follows c) : a.Follows c :=
  ⟨h1.1, le_trans h1.2.1 h2.2.1, h1.2.2.trans h2.2.2⟩

theorem READ_Follows (s : BitState) (h : s.data < 256) : (READ_CTRL_BIT 8 s).Follows s := by
  have := READ_CTRL_BIT_spec s h
  exact ⟨this.2.1, by omega, this.2.2.2.2.1⟩

theorem decodeCtrlLoop_total : ∀ (fuel : Nat) (s : BitState) (strLen : Int),
    s.data < 256 → s.weight < fuel →
    ∃ t v, decodeCtrlLoop fuel s strLen = some (t, v) ∧ t.Follows s := by
  intro fuel
  induction fuel with
  | zero => intro s _ _ h; omega
  | succ n ih =>
    intro s strLen hd hw
    have h1 := READ_CTRL_BIT_spec s hd
    have h2 := READ_CTRL_BIT_spec (READ_CTRL_BIT 8 s) h1.2.1
    have f1 := READ_Follows s hd
    have f2 := READ_Follows (READ_CTRL_BIT 8 s) h1.2.1
    unfold decodeCtrlLoop
    simp only
    by_cases hc : (READ_CTRL_BIT 8 (READ_CTRL_BIT 8 s)).carry ≠ 0
    · rw [if_pos hc]
      obtain ⟨t, v, e, hf⟩ := ih (READ_CTRL_BIT 8 (READ_CTRL_BIT 8 s))
        (wrap32 (wrap32 (strLen * 2) + (READ_CTRL_BIT 8 s).carry)) h2.2.1 (by omega)
      exact ⟨t, v, e, Follows_trans hf (Follows_trans f2 f1)⟩
    · rw [if_neg hc]
      exact ⟨_, _, rfl, Follows_trans f2 f1⟩

theorem DECODE_CTRL_BITS_total (fuel : Nat) (s : BitState) (strLen : Int)
    (hd : s.data < 256) (hw : s.weight < fuel) :
    ∃ t v, DECODE_CTRL_BITS fuel s strLen = some (t, v) ∧ t.Follows s :=
  decodeCtrlLoop_total fuel s _ hd hw

theorem refineLength_total (fuel : Nat) (s : BitState) (strLen : Int)
    (hd : s.data < 256) (hw : s.weight < fuel) :
    ∃ t v, refineLength fuel s strLen = some (t, v) ∧ t.Follows s := by
  have h1 := READ_CTRL_BIT_spec s hd
  have f1 := READ_Follows s hd
  have f2 := READ_Follows (READ_CTRL_BIT 8 s) h1.2.1
  have f12 := Follows_trans f2 f1
  unfold refineLength
  simp only
  split
  · obtain ⟨t, v, e, hf⟩ := DECODE_CTRL_BITS_total fuel (READ_CTRL_BIT 8 (READ_CTRL_BIT 8 s))
      (wrap32 (wrap32 (wrap32 (wrap32 (strLen * 2) + (READ_CTRL_BIT 8 s).carry) * 2) +
        (READ_CTRL_BIT 8 (READ_CTRL_BIT 8 s)).carry)) f2.1 (by have := f12.2.1; omega)
    rw [e]
    exact ⟨_, _, rfl, Follows_trans hf f12⟩
  · exact ⟨_, _, rfl, f12⟩

theorem matchOffset_file (file : FileReader) (code : Int) (prev : Nat) :
    (matchOffset file code prev).1.data = file.data ∧
    (matchOffset file code prev).1.BytesLeft ≤ file.BytesLeft := by
  unfold matchOffset
  simp only
  split
  · exact ⟨rfl, le_refl _⟩
  · exact ⟨ReadUint8_data _, ReadUint8_left_le _⟩

theorem decodeMatch_total (fuel : Nat) (s : BitState) (strLen : Int) (prev : Nat)
    (hd : s.data < 256) (hw : s.weight < fuel) :
    ∃ h, decodeMatch fuel s strLen prev = some h ∧ h.bs.Follows s := by
  obtain ⟨s1, code, e1, hf1⟩ := DECODE_CTRL_BITS_total fuel s strLen hd hw
  have hm := matchOffset_file s1.file code prev
  have hf1' : BitState.Follows { s1 with file := (matchOffset s1.file code prev).1 } s1 := by
    refine ⟨hf1.1, ?_, hm.1⟩
    simp only [BitState.weight]
    have := hm.2
    omega
  obtain ⟨s2, v, e2, hf2⟩ := refineLength_total fuel
    { s1 with file := (matchOffset s1.file code prev).1 } (matchOffset s1.file code prev).2.1
    hf1.1 (by have := hf1'.2.1; have := hf1.2.1; omega)
  unfold decodeMatch
  rw [e1]
  simp only
  rw [e2]
  exact ⟨_, rfl, Follows_trans hf2 (Follows_trans hf1' hf1)⟩

/-! ## One iteration of the main loop -/

theorem toI32_range (n : Nat) : -2147483648 ≤ toI32 n ∧ toI32 n < 2147483648 := by
  unfold toI32; split <;> omega

theorem toNat_le_toU32 (x : Int) : x.toNat ≤ toU32 x ∨ 2147483648 ≤ x := by
  unfold toU32; omega

theorem decodeMatch_fields (fuel : Nat) (s : BitState) (strLen : Int) (prev : Nat)
    (h : MatchHeader) (e : decodeMatch fuel s strLen prev = some h) :
    ∃ s1, DECODE_CTRL_BITS fuel s strLen = some (s1, h.code) ∧
      refineLength fuel { s1 with file := (matchOffset s1.file h.code prev).1 }
        (matchOffset s1.file h.code prev).2.1 = some (h.bs, h.refined) ∧
      h.strOffset = (matchOffset s1.file h.code prev).2.2.1 ∧
      h.ebp = (matchOffset s1.file h.code prev).2.2.2.1 ∧
      h.previousPtr = (matchOffset s1.file h.code prev).2.2.2.2 ∧
      h.strLen = toI32 (toU32 h.refined + h.ebp) := by
  unfold decodeMatch at e
  split at e
  · exact absurd e (by simp)
  · rename_i s1 code e1
    simp only at e
    split at e
    · exact absurd e (by simp)
    · rename_i s2 refined e2
      simp only [Option.some.injEq] at e
      subst e
      exact ⟨s1, e1, e2, rfl, rfl, rfl, rfl⟩

theorem copyString_length : ∀ (n src : Nat) (out : List Nat),
    (copyString n src out).length = out.length + n := by
  intro n
  induction n with
  | zero => intro src out; rfl
  | succ k ih =>
    intro src out
    unfold copyString
    rw [ih]; simp only [List.length_append, List.length_singleton]; omega

theorem copyString_extends : ∀ (n src : Nat) (out : List Nat), out <+: copyString n src out := by
  intro n
  induction n with
  | zero => intro src out; exact List.prefix_refl _
  | succ k ih =>
    intro src out
    unfold copyString
    exact List.IsPrefix.trans (List.prefix_append _ _) (ih _ _)

theorem unpackStep_spec (dfuel : Nat) (st : LZState) (hd : st.bs.data < 256)
    (hw : st.bs.weight < dfuel) (hs : 0 < st.size) :
    ∃ r, unpackStep dfuel st = some r ∧ StepOk st r := by
  have h1 := READ_CTRL_BIT_spec st.bs hd
  have f1 := READ_Follows st.bs hd
  unfold unpackStep
  simp only
  by_cases hc : (READ_CTRL_BIT 8 st.bs).carry = 0
  · rw [if_pos hc]
    refine ⟨_, rfl, ?_⟩
    have hl := ReadUint8_left_le (READ_CTRL_BIT 8 st.bs).file
    have hdt := ReadUint8_data (READ_CTRL_BIT 8 st.bs).file
    have hwt : (9 * (READ_CTRL_BIT 8 st.bs).file.ReadUint8.2.BytesLeft +
        dataWeight (READ_CTRL_BIT 8 st.bs).data) ≤ st.bs.weight := by
      have := f1.2.1
      simp only [BitState.weight] at this ⊢
      omega
    refine ⟨⟨f1.1, hwt, hdt.trans f1.2.2⟩, ?_, ?_, List.prefix_append _ _⟩
    · show st.size - 1 + (9 * (READ_CTRL_BIT 8 st.bs).file.ReadUint8.2.BytesLeft +
        dataWeight (READ_CTRL_BIT 8 st.bs).data) < _
      omega
    · simp only [List.length_append, List.length_singleton]; omega
  · rw [if_neg hc]
    obtain ⟨h, e, hf⟩ := decodeMatch_total dfuel (READ_CTRL_BIT 8 st.bs) st.strLen st.previousPtr
      h1.2.1 (by omega)
    have hflds := decodeMatch_fields _ _ _ _ h e
    obtain ⟨_, _, _, _, _, _, hlen⟩ := hflds
    rw [e]
    simp only
    have hf' := Follows_trans hf f1
    split
    · split
      · exact ⟨_, rfl, hf', rfl, rfl⟩
      · refine ⟨_, rfl, hf', ?_, ?_, copyString_extends _ _ _⟩
        · show st.size - toU32 h.strLen + h.bs.weight < _
          have := hf.2.1
          omega
        · show (copyString h.strLen.toNat _ st.out).length + (st.size - toU32 h.strLen) ≤ _
          rw [copyString_length]
          have hr := toI32_range (toU32 h.refined + h.ebp)
          rw [← hlen] at hr
          have := toNat_le_toU32 h.strLen
          omega
    · exact ⟨_, rfl, hf', rfl, rfl⟩

/-! ## The main loop and the entry point -/

theorem unpackLoop_spec (dfuel : Nat) : ∀ (fuel : Nat) (st : LZState),
    st.bs.data < 256 → st.bs.weight < dfuel → st.size + st.bs.weight < fuel →
    ∃ e, unpackLoop dfuel fuel st = some e ∧ e.state.bs.Follows st.bs ∧
      e.state.out.length + e.state.size ≤ st.out.length + st.size ∧
      st.out <+: e.state.out ∧
      (match e with
        | .finished s => s.size = 0
        | .aborted s => 0 < s.size) := by
  intro fuel
  induction fuel with
  | zero => intro st _ _ h; omega
  | succ n ih =>
    intro st hd hw hf
    unfold unpackLoop
    by_cases hs : st.size > 0
    · rw [if_pos hs]
      obtain ⟨r, er, hr⟩ := unpackStep_spec dfuel st hd hw hs
      rw [er]
      cases r with
      | next st1 =>
        simp only
        obtain ⟨hfo, hlt, hlen, hpre⟩ := hr
        obtain ⟨e, ee, h1, h2, h3, h4⟩ := ih st1 hfo.1 (by have := hfo.2.1; omega) (by omega)
        exact ⟨e, ee, Follows_trans h1 hfo, by omega, List.IsPrefix.trans hpre h3, h4⟩
      | stop st1 =>
        simp only
        obtain ⟨hfo, ho, hsz⟩ := hr
        refine ⟨_, rfl, hfo, ?_, ?_, ?_⟩
        · show st1.out.length + st1.size ≤ _
          rw [ho, hsz]
        · show st.out <+: st1.out
          rw [ho]
        · show 0 < st1.size
          omega
    · rw [if_neg hs]
      exact ⟨_, rfl, Follows_refl _ hd, le_refl _, List.prefix_refl _, by show st.size = 0; omega⟩

theorem unpackInit_facts (file : FileReader) (size : Nat) (h : 1 ≤ size) :
    (unpackInit file size).bs.data < 256 ∧
    (unpackInit file size).bs.weight < unpackFuel file size ∧
    (unpackInit file size).size + (unpackInit file size).bs.weight < unpackFuel file size ∧
    (unpackInit file size).out.length + (unpackInit file size).size = size ∧
    (unpackInit file size).bs.file.data = file.data := by
  have hl := ReadUint8_left_le file
  have hw : (unpackInit file size).bs.weight = 9 * file.ReadUint8.2.BytesLeft + 1 := rfl
  have hs : (unpackInit file size).size = size - 1 := rfl
  refine ⟨by show 0 < 256; norm_num, ?_, ?_, ?_, ReadUint8_data _⟩
  · rw [hw]; unfold unpackFuel; omega
  · rw [hw, hs]; unfold unpackFuel; omega
  · rw [hs]; show 1 + (size - 1) = size; omega

theorem unpack_call_spec (file : FileReader) (N : Nat) (hN : 1 ≤ N) :
    ∃ e r, unpackLoop (unpackFuel file N) (unpackFuel file N) (unpackInit file N) = some e ∧
      UnpackMO3Data file N = some r ∧ r.out = e.state.out ∧
      (r.ok = true ↔ r.out.length = N) ∧ r.out.length ≤ N ∧
      (∀ st, e = LZExit.aborted st → r.out.length < N ∧ r.ok = false) := by
  obtain ⟨hd, hw, hm, hlen, _⟩ := unpackInit_facts file N hN
  obtain ⟨e, ee, _, h2, _, h4⟩ := unpackLoop_spec (unpackFuel file N) (unpackFuel file N)
    (unpackInit file N) hd hw hm
  refine ⟨e, ⟨decide (e.state.out.length = N), e.state.out, e.state.bs.file⟩, ee, ?_, rfl, ?_, ?_, ?_⟩
  · unfold UnpackMO3Data
    rw [if_neg (by omega), ee]
  · simp only [decide_eq_true_eq]
  · show e.state.out.length ≤ N
    omega
  · intro st hst
    subst hst
    simp only [LZExit.state] at h2 h4 ⊢
    have : st.out.length < N := by omega
    exact ⟨this, by simp only [decide_eq_false_iff_not]; omega⟩

/-- C1. For every stream and every requested size `N ≥ 1` the call returns; it returns
true iff exactly `N` bytes were written; it never writes more than `N` bytes; and when
the loop is left by `break` (match running past `N`, or aborted match) fewer than `N`
bytes were written and the call returns false. -/
theorem UnpackMO3Data_true_iff_all_written (file : FileReader) (N : Nat) (hN : 1 ≤ N) :
    ∃ e r, unpackLoop (unpackFuel file N) (unpackFuel file N) (unpackInit file N) = some e ∧
      UnpackMO3Data file N = some r ∧ r.out = e.state.out ∧
      (r.ok = true ↔ r.out.length = N) ∧ r.out.length ≤ N ∧
      (∀ st, e = LZExit.aborted st → r.out.length < N ∧ r.ok = false) :=
  unpack_call_spec file N hN

theorem UnpackMO3Data_true_iff_all_written_witness :
    1 ≤ 4 ∧ ∃ e r, unpackLoop (unpackFuel ⟨[65, 200, 0, 66], 0⟩ 4) (unpackFuel ⟨[65, 200, 0, 66], 0⟩ 4)
        (unpackInit ⟨[65, 200, 0, 66], 0⟩ 4) = some e ∧
      UnpackMO3Data ⟨[65, 200, 0, 66], 0⟩ 4 = some r ∧ r.out = e.state.out ∧
      (r.ok = true ↔ r.out.length = 4) ∧ r.out.length ≤ 4 ∧
      (∀ st, e = LZExit.aborted st → r.out.length < 4 ∧ r.ok = false) :=
  ⟨by decide, UnpackMO3Data_true_iff_all_written ⟨[65, 200, 0, 66], 0⟩ 4 (by decide)⟩

/-! ## Streams without match bits -/

theorem ReadUint8_at (pre : List Nat) (x : Nat) (tail : List Nat) :
    FileReader.ReadUint8 ⟨pre ++ x :: tail, pre.length⟩ =
      (x % 256, ⟨pre ++ x :: tail, pre.length + 1⟩) := by
  unfold FileReader.ReadUint8
  have h : pre.length < (pre ++ x :: tail).length := by
    simp only [List.length_append, List.length_cons]; omega
  simp only [h, if_true]
  congr 2
  rw [List.getD_eq_getElem _ _ h]
  rw [List.getElem_append_right (le_refl _)]
  simp

theorem literal_loop (dfuel : Nat) : ∀ (lits : List Nat) (k : Nat) (pre rest : List Nat)
    (st : LZState) (fuel : Nat), k ≤ 7 →
    (st.bs.data = 2 ^ (7 - k) ∨ (k = 0 ∧ st.bs.data = 0)) →
    st.bs.file = ⟨pre ++ (literalGroups k lits ++ rest), pre.length⟩ →
    st.size = lits.length → lits.length < fuel →
    ∃ st1, unpackLoop dfuel fuel st = some (.finished st1) ∧
      st1.out = st.out ++ lits.map (· % 256) ∧
      st1.bs.file = ⟨pre ++ (literalGroups k lits ++ rest),
        pre.length + (literalGroups k lits).length⟩ := by
  intro lits
  induction lits with
  | nil =>
    intro k pre rest st fuel _ _ hfile hsize hfuel
    obtain ⟨n, rfl⟩ : ∃ n, fuel = n + 1 := ⟨fuel - 1, by simp at hfuel; omega⟩
    refine ⟨st, ?_, by simp, ?_⟩
    · unfold unpackLoop
      rw [if_neg (by rw [hsize]; simp)]
    · rw [hfile]; cases k <;> simp [literalGroups]
  | cons l ls ih =>
    intro k pre rest st fuel hk hdata hfile hsize hfuel
    obtain ⟨n, rfl⟩ : ∃ n, fuel = n + 1 := ⟨fuel - 1, by simp at hfuel; omega⟩
    have hd : st.bs.data < 256 := by
      rcases hdata with h | ⟨_, h⟩
      · rw [h]; interval_cases k <;> norm_num
      · rw [h]; norm_num
    unfold unpackLoop
    rw [if_pos (by rw [hsize]; simp)]
    unfold unpackStep
    simp only
    rw [READ_CTRL_BIT_eq _ hd]
    cases k with
    | zero =>
      have hz : 2 * st.bs.data % 256 = 0 := by
        rcases hdata with h | ⟨_, h⟩
        · rw [h]; norm_num
        · rw [h]
      have hg : literalGroups 0 (l :: ls) = 0 :: l :: literalGroups 7 ls := rfl
      have hfile1 : st.bs.file = ⟨pre ++ 0 :: (l :: (literalGroups 7 ls ++ rest)), pre.length⟩ := by
        rw [hfile, hg]; rfl
      have r1 := ReadUint8_at pre 0 (l :: (literalGroups 7 ls ++ rest))
      have r2 := ReadUint8_at (pre ++ [0]) l (literalGroups 7 ls ++ rest)
      have e2 : (pre ++ [0]) ++ l :: (literalGroups 7 ls ++ rest) =
          pre ++ 0 :: (l :: (literalGroups 7 ls ++ rest)) := by simp
      rw [e2] at r2
      simp only [List.length_append, List.length_singleton] at r2
      rw [if_pos hz, hfile1, r1]
      simp only [Nat.zero_mod, Nat.zero_div, if_true, r2]
      have hpre : pre ++ 0 :: (l :: (literalGroups 7 ls ++ rest)) =
          (pre ++ [0, l]) ++ (literalGroups 7 ls ++ rest) := by simp
      obtain ⟨st1, e1, ho, hf⟩ := ih 7 (pre ++ [0, l]) rest
        { bs := { file := ⟨pre ++ 0 :: (l :: (literalGroups 7 ls ++ rest)), pre.length + 1 + 1⟩,
                  data := (2 * 0 + 1) % 256, carry := 0 },
          strLen := st.strLen, previousPtr := st.previousPtr, size := st.size - 1,
          out := st.out ++ [l % 256] } n (le_refl _) (Or.inl (by norm_num))
        (by simp) (by show st.size - 1 = _; rw [hsize]; simp)
        (by simp at hfuel; omega)
      refine ⟨st1, e1, ?_, ?_⟩
      · rw [ho]; simp
      · rw [hf, hg]; simp; omega
    | succ j =>
      have hdj : st.bs.data = 2 ^ (7 - (j + 1)) := by
        rcases hdata with h | ⟨h, _⟩
        · exact h
        · omega
      have hj : j ≤ 6 := by omega
      have hz : ¬ (2 * st.bs.data % 256 = 0) := by
        rw [hdj]; interval_cases j <;> norm_num
      have hc : st.bs.data / 128 = 0 := by
        rw [hdj]; interval_cases j <;> norm_num
      have hg : literalGroups (j + 1) (l :: ls) = l :: literalGroups j ls := rfl
      have hfile1 : st.bs.file = ⟨pre ++ l :: (literalGroups j ls ++ rest), pre.length⟩ := by
        rw [hfile, hg]; rfl
      have r1 := ReadUint8_at pre l (literalGroups j ls ++ rest)
      rw [if_neg hz]
      simp only [hc, if_true, hfile1, r1]
      obtain ⟨st1, e1, ho, hf⟩ := ih j (pre ++ [l]) rest
        { bs := { file := ⟨pre ++ l :: (literalGroups j ls ++ rest), pre.length + 1⟩,
                  data := 2 * st.bs.data % 256, carry := 0 },
          strLen := st.strLen, previousPtr := st.previousPtr, size := st.size - 1,
          out := st.out ++ [l % 256] } n (by omega)
        (Or.inl (by show 2 * st.bs.data % 256 = _; rw [hdj]; interval_cases j <;> norm_num))
        (by simp) (by show st.size - 1 = _; rw [hsize]; simp)
        (by simp at hfuel; omega)
      refine ⟨st1, e1, ?_, ?_⟩
      · rw [ho]; simp
      · rw [hf, hg]; simp; omega

theorem unpack_literals_at (pre : List Nat) (b0 : Nat) (lits rest : List Nat) :
    UnpackMO3Data ⟨pre ++ b0 :: (literalGroups 0 lits ++ rest), pre.length⟩ (1 + lits.length) =
      some { ok := true, out := (b0 :: lits).map (· % 256),
             file := ⟨pre ++ b0 :: (literalGroups 0 lits ++ rest),
                      pre.length + 1 + (literalGroups 0 lits).length⟩ } := by
  have r0 := ReadUint8_at pre b0 (literalGroups 0 lits ++ rest)
  have e0 : pre ++ b0 :: (literalGroups 0 lits ++ rest) =
      (pre ++ [b0]) ++ (literalGroups 0 lits ++ rest) := by simp
  have hinit : unpackInit ⟨pre ++ b0 :: (literalGroups 0 lits ++ rest), pre.length⟩
      (1 + lits.length) =
      { bs := { file := ⟨(pre ++ [b0]) ++ (literalGroups 0 lits ++ rest), (pre ++ [b0]).length⟩,
                data := 0, carry := 0 },
        strLen := 0, previousPtr := 0, size := lits.length, out := [b0 % 256] } := by
    unfold unpackInit
    rw [r0]
    simp
  obtain ⟨st1, e1, ho, hf⟩ := literal_loop
    (unpackFuel ⟨pre ++ b0 :: (literalGroups 0 lits ++ rest), pre.length⟩ (1 + lits.length))
    lits 0 (pre ++ [b0]) rest
    { bs := { file := ⟨(pre ++ [b0]) ++ (literalGroups 0 lits ++ rest), (pre ++ [b0]).length⟩,
              data := 0, carry := 0 },
      strLen := 0, previousPtr := 0, size := lits.length, out := [b0 % 256] }
    (unpackFuel ⟨pre ++ b0 :: (literalGroups 0 lits ++ rest), pre.length⟩ (1 + lits.length))
    (by omega) (Or.inr ⟨rfl, rfl⟩) rfl rfl (by unfold unpackFuel; omega)
  unfold UnpackMO3Data
  rw [if_neg (by omega), hinit, e1]
  simp only [LZExit.state, ho, hf]
  simp
  omega

/-- C2. A stream in which every control bit read is 0, that is a first byte `b0` followed
by groups of one 0x00 control byte and up to 8 literal bytes, decodes for the size
`1 + lits.length` successfully to `b0` followed by the literal bytes in stream order
(each as the `uint8` it is read as), and the cursor ends right after the last literal. -/
theorem UnpackMO3Data_literals_verbatim (b0 : Nat) (lits rest : List Nat) :
    UnpackMO3Data ⟨b0 :: (literalGroups 0 lits ++ rest), 0⟩ (1 + lits.length) =
      some { ok := true, out := (b0 :: lits).map (· % 256),
             file := ⟨b0 :: (literalGroups 0 lits ++ rest),
                      1 + (literalGroups 0 lits).length⟩ } := by
  have h := unpack_literals_at [] b0 lits rest
  simp only [List.nil_append, List.length_nil, Nat.zero_add] at h
  exact h

theorem literalGroups_ten :
    literalGroups 0 [1, 2, 3, 4, 5, 6, 7, 8, 9, 10] = [0, 1, 2, 3, 4, 5, 6, 7, 8, 0, 9, 10] := by
  decide

/-! ## States reached by the main loop -/

theorem stateAt_spec (dfuel : Nat) : ∀ (k : Nat) (st sk : LZState),
    st.bs.data < 256 → st.bs.weight < dfuel → stateAt dfuel k st = some sk →
    sk.bs.Follows st.bs ∧ sk.size + sk.bs.weight + k ≤ st.size + st.bs.weight ∧
    sk.out.length + sk.size ≤ st.out.length + st.size ∧ st.out <+: sk.out ∧
    ∀ fuel, unpackLoop dfuel (fuel + k) st = unpackLoop dfuel fuel sk := by
  intro k
  induction k with
  | zero =>
    intro st sk hd _ e
    simp only [stateAt, Option.some.injEq] at e
    subst e
    exact ⟨Follows_refl _ hd, le_refl _, le_refl _, List.prefix_refl _, fun _ => rfl⟩
  | succ n ih =>
    intro st sk hd hw e
    unfold stateAt at e
    by_cases hs : st.size > 0
    · rw [if_pos hs] at e
      obtain ⟨r, er, hr⟩ := unpackStep_spec dfuel st hd hw hs
      rw [er] at e
      cases r with
      | stop st1 => simp at e
      | next st1 =>
        simp only at e
        obtain ⟨hfo, hlt, hlen, hpre⟩ := hr
        obtain ⟨h1, h2, h3, h4, h5⟩ := ih st1 sk hfo.1 (by have := hfo.2.1; omega) e
        refine ⟨Follows_trans h1 hfo, by omega, by omega, List.IsPrefix.trans hpre h4, ?_⟩
        intro fuel
        rw [← h5 fuel]
        show unpackLoop dfuel ((fuel + n) + 1) st = _
        rw [unpackLoop, if_pos hs, er]
    · rw [if_neg hs] at e
      simp at e

/-- A state reached by the call: the loop run from it gives the result of the call. -/
theorem callStateAt_spec (file : FileReader) (N k : Nat) (st : LZState) (hN : 1 ≤ N)
    (h : callStateAt file N k = some st) :
    st.bs.data < 256 ∧ st.bs.weight < unpackFuel file N ∧ st.out.length + st.size ≤ N ∧
    st.bs.file.data = file.data ∧
    ∃ fuel, st.size + st.bs.weight < fuel ∧
      unpackLoop (unpackFuel file N) (unpackFuel file N) (unpackInit file N) =
        unpackLoop (unpackFuel file N) fuel st := by
  obtain ⟨hd, hw, hm, hlen, hdat⟩ := unpackInit_facts file N hN
  obtain ⟨h1, h2, h3, _, h5⟩ := stateAt_spec (unpackFuel file N) k _ st hd hw h
  refine ⟨h1.1, by have := h1.2.1; omega, by omega, h1.2.2.trans hdat,
    unpackFuel file N - k, by omega, ?_⟩
  rw [← h5]
  congr 1
  omega

theorem copyStringChecked_eq : ∀ (n src : Nat) (out : List Nat), src < out.length →
    copyStringChecked n src out = some (copyString n src out) := by
  intro n
  induction n with
  | zero => intro src out _; rfl
  | succ k ih =>
    intro src out h
    unfold copyStringChecked copyString
    rw [List.getElem?_eq_getElem h]
    simp only
    rw [List.getD_eq_getElem _ _ h]
    exact ih _ _ (by simp only [List.length_append, List.length_singleton]; omega)

/-- C3. In a state reached by the call whose next control bit selects a match: when the
source position `write position + offset` lies before the buffer start or at/after the
write position, the call returns false and its output is exactly the bytes written
before that match; and when the iteration goes on to copy, the source position lies in
`[0, write position)` and every read of the copy loop hits a byte written before. -/
theorem UnpackMO3Data_match_source_checked (file : FileReader) (N k : Nat) (st : LZState)
    (h : MatchHeader) (hN : 1 ≤ N) (hst : callStateAt file N k = some st) (hsz : 0 < st.size)
    (hbit : (READ_CTRL_BIT 8 st.bs).carry ≠ 0)
    (hm : decodeMatch (unpackFuel file N) (READ_CTRL_BIT 8 st.bs) st.strLen st.previousPtr
      = some h) :
    (((st.out.length : Int) + h.strOffset < 0 ∨
        (st.out.length : Int) + h.strOffset ≥ (st.out.length : Int)) →
      UnpackMO3Data file N = some { ok := false, out := st.out, file := h.bs.file }) ∧
    (∀ st1, unpackStep (unpackFuel file N) st = some (.next st1) →
      0 ≤ (st.out.length : Int) + h.strOffset ∧
      (st.out.length : Int) + h.strOffset < (st.out.length : Int) ∧
      copyStringChecked h.strLen.toNat ((st.out.length : Int) + h.strOffset).toNat st.out
        = some st1.out) := by
  obtain ⟨hd, hw, hlen, _, fuel, hfu, hloop⟩ := callStateAt_spec file N k st hN hst
  have hstep : unpackStep (unpackFuel file N) st =
      (if st.size ≥ toU32 h.strLen then
        if (st.out.length : Int) + h.strOffset < 0 ∨
            (st.out.length : Int) + h.strOffset ≥ (st.out.length : Int) then
          some (.stop { st with bs := h.bs, strLen := h.strLen, previousPtr := h.previousPtr })
        else
          some (.next { bs := h.bs, strLen := min h.strLen 0, previousPtr := h.previousPtr,
                        size := st.size - toU32 h.strLen,
                        out := copyString h.strLen.toNat
                          ((st.out.length : Int) + h.strOffset).toNat st.out })
      else some (.stop { st with bs := h.bs, strLen := h.strLen,
                                 previousPtr := h.previousPtr })) := by
    unfold unpackStep
    simp only
    rw [if_neg hbit, hm]
  constructor
  · intro hbad
    have hs2 : unpackStep (unpackFuel file N) st =
        some (.stop { st with bs := h.bs, strLen := h.strLen, previousPtr := h.previousPtr }) := by
      rw [hstep]
      by_cases hge : st.size ≥ toU32 h.strLen
      · rw [if_pos hge, if_pos hbad]
      · rw [if_neg hge]
    obtain ⟨f, rfl⟩ : ∃ f, fuel = f + 1 := ⟨fuel - 1, by omega⟩
    unfold UnpackMO3Data
    rw [if_neg (by omega), hloop, unpackLoop, if_pos hsz, hs2]
    simp only [LZExit.state, Option.some.injEq, UnpackResult.mk.injEq, decide_eq_false_iff_not,
      and_self, and_true]
    omega
  · intro st1 hnext
    rw [hstep] at hnext
    split at hnext
    · split at hnext
      · simp at hnext
      · rename_i hgood
        simp only [Option.some.injEq, LZStep.next.injEq] at hnext
        subst hnext
        refine ⟨by omega, by omega, ?_⟩
        exact copyStringChecked_eq _ _ _ (by omega)
    · simp at hnext

/-! ## The copy loop -/

theorem getElem?_of_extends {l1 l2 : List Nat} (h : l1 <+: l2) (i : Nat) (hi : i < l1.length) :
    l2[i]? = l1[i]? := by
  obtain ⟨t, rfl⟩ := h
  exact List.getElem?_append_left hi

theorem copyString_getElem? : ∀ (n src : Nat) (out : List Nat), src < out.length →
    ∀ i, i < n → (copyString n src out)[out.length + i]? = (copyString n src out)[src + i]? := by
  intro n
  induction n with
  | zero => intro src out _ i hi; omega
  | succ m ih =>
    intro src out hsrc i hi
    have hlen : (out ++ [out.getD src 0]).length = out.length + 1 := by simp
    have hp := copyString_extends m (src + 1) (out ++ [out.getD src 0])
    show (copyString m (src + 1) (out ++ [out.getD src 0]))[out.length + i]? =
      (copyString m (src + 1) (out ++ [out.getD src 0]))[src + i]?
    cases i with
    | zero =>
      rw [getElem?_of_extends hp _ (by omega), getElem?_of_extends hp _ (by omega)]
      simp only [Nat.add_zero]
      rw [List.getElem?_append_right (le_refl _), List.getElem?_append_left hsrc]
      simp [List.getD_eq_getElem?_getD, List.getElem?_eq_getElem hsrc]
    | succ j =>
      have := ih (src + 1) (out ++ [out.getD src 0]) (by omega) j (by omega)
      rw [hlen] at this
      have e1 : out.length + (j + 1) = out.length + 1 + j := by omega
      have e2 : src + (j + 1) = src + 1 + j := by omega
      rw [e1, e2]
      exact this

theorem copyString_take (n src : Nat) (out : List Nat) :
    (copyString n src out).take out.length = out := by
  obtain ⟨t, ht⟩ := copyString_extends n src out
  rw [← ht]
  simp

/-- C4. For a match accepted in any state of the main loop, with displacement
`d = -offset` and length `L` starting at write position `w`: `1 ≤ d ≤ w`, the buffer
grows to `w + L` bytes, the first `w` bytes are unchanged, and `out[w+i] = out[w+i-d]`
for every `i < L`, also when `L > d`; for `d = 1` every copied byte is the byte
written just before the match. -/
theorem UnpackMO3Data_match_copy_overlapping (dfuel : Nat)
    (st st1 : LZState) (h : MatchHeader)
    (hbit : (READ_CTRL_BIT 8 st.bs).carry ≠ 0)
    (hm : decodeMatch dfuel (READ_CTRL_BIT 8 st.bs) st.strLen st.previousPtr = some h)
    (hnext : unpackStep dfuel st = some (.next st1)) :
    1 ≤ (-h.strOffset).toNat ∧ (-h.strOffset).toNat ≤ st.out.length ∧
    st1.out.length = st.out.length + h.strLen.toNat ∧
    st1.out.take st.out.length = st.out ∧
    (∀ i, i < h.strLen.toNat →
      st1.out[st.out.length + i]? = st1.out[st.out.length + i - (-h.strOffset).toNat]?) ∧
    ((-h.strOffset).toNat = 1 → ∀ i, i < h.strLen.toNat →
      st1.out[st.out.length + i]? = st.out[st.out.length - 1]?) := by
  have hstep : unpackStep dfuel st =
      (if st.size ≥ toU32 h.strLen then
        if (st.out.length : Int) + h.strOffset < 0 ∨
            (st.out.length : Int) + h.strOffset ≥ (st.out.length : Int) then
          some (.stop { st with bs := h.bs, strLen := h.strLen, previousPtr := h.previousPtr })
        else
          some (.next { bs := h.bs, strLen := min h.strLen 0, previousPtr := h.previousPtr,
                        size := st.size - toU32 h.strLen,
                        out := copyString h.strLen.toNat
                          ((st.out.length : Int) + h.strOffset).toNat st.out })
      else some (.stop { st with bs := h.bs, strLen := h.strLen,
                                 previousPtr := h.previousPtr })) := by
    unfold unpackStep
    simp only
    rw [if_neg hbit, hm]
  rw [hstep] at hnext
  by_cases hge : st.size ≥ toU32 h.strLen
  · rw [if_pos hge] at hnext
    by_cases hbad : (st.out.length : Int) + h.strOffset < 0 ∨
        (st.out.length : Int) + h.strOffset ≥ (st.out.length : Int)
    · rw [if_pos hbad] at hnext
      simp at hnext
    · rw [if_neg hbad] at hnext
      simp only [Option.some.injEq, LZStep.next.injEq] at hnext
      subst hnext
      have hsrc : ((st.out.length : Int) + h.strOffset).toNat < st.out.length := by omega
      have hcopy : ∀ i, i < h.strLen.toNat →
          (copyString h.strLen.toNat ((st.out.length : Int) + h.strOffset).toNat st.out)[
              st.out.length + i]? =
          (copyString h.strLen.toNat ((st.out.length : Int) + h.strOffset).toNat st.out)[
              st.out.length + i - (-h.strOffset).toNat]? := by
        intro i hi
        have := copyString_getElem? h.strLen.toNat _ st.out hsrc i hi
        rw [this]
        congr 1
        omega
      refine ⟨by omega, by omega, copyString_length _ _ _, copyString_take _ _ _, hcopy, ?_⟩
      intro hd1 i
      induction i with
      | zero =>
        intro hi
        have := hcopy 0 hi
        rw [hd1] at this
        rw [this]
        exact getElem?_of_extends (copyString_extends _ _ _) _ (by omega)
      | succ j ihj =>
        intro hi
        have := hcopy (j + 1) hi
        rw [hd1] at this
        rw [this]
        have e : st.out.length + (j + 1) - 1 = st.out.length + j := by omega
        rw [e]
        exact ihj (by omega)
  · rw [if_neg hge] at hnext
    simp at hnext

theorem UnpackMO3Data_match_source_checked_witness :
    UnpackMO3Data ⟨[65, 136, 0, 66], 0⟩ 4
      = some { ok := false, out := [65], file := ⟨[65, 136, 0, 66], 2⟩ } :=
  (UnpackMO3Data_match_source_checked ⟨[65, 136, 0, 66], 0⟩ 4 0
    { bs := { file := ⟨[65, 136, 0, 66], 1⟩, data := 0, carry := 0 },
      strLen := 0, previousPtr := 0, size := 3, out := [65] }
    { bs := { file := ⟨[65, 136, 0, 66], 2⟩, data := 16, carry := 1 },
      code := 2, ebp := 0, strOffset := 0, refined := 1, strLen := 1, previousPtr := 0 }
    (by decide) (by decide) (by decide) (by decide) (by decide)).1 (by decide)

theorem UnpackMO3Data_match_copy_overlapping_witness :
    [65, 65, 65].take 1 = [65] ∧ ([65, 65, 65] : List Nat)[1 + 1]? = ([65] : List Nat)[1 - 1]? :=
  have h := UnpackMO3Data_match_copy_overlapping 42
    { bs := { file := ⟨[65, 200, 0, 66], 1⟩, data := 0, carry := 0 },
      strLen := 0, previousPtr := 0, size := 3, out := [65] }
    { bs := { file := ⟨[65, 200, 0, 66], 3⟩, data := 16, carry := 1 },
      strLen := 0, previousPtr := 4294967295, size := 1, out := [65, 65, 65] }
    { bs := { file := ⟨[65, 200, 0, 66], 3⟩, data := 16, carry := 1 },
      code := 3, ebp := 1, strOffset := -1, refined := 1, strLen := 2,
      previousPtr := 4294967295 }
    (by decide) (by decide) (by decide)
  ⟨h.2.2.2.1, h.2.2.2.2.2 (by decide) 1 (by decide)⟩

/-! ## The match header -/

theorem matchOffset_reuse (file : FileReader) (code : Int) (prev : Nat)
    (hm : wrap32 (code - 3) < 0) :
    matchOffset file code prev = (file, wrap32 (wrap32 (code - 3) + 1), toI32 prev, 0, prev) := by
  unfold matchOffset
  simp only [if_pos hm]

theorem ReadUint8_peek (f : FileReader) :
    f.ReadUint8.1 = f.peek 0 ∧ ∀ j, f.ReadUint8.2.peek j = f.peek (j + 1) := by
  unfold FileReader.ReadUint8 FileReader.peek
  by_cases h : f.pos < f.data.length
  · simp only [h, if_true, Nat.add_zero, true_and]
    intro j
    have e : f.pos + 1 + j = f.pos + (j + 1) := by omega
    rw [e]
  · simp only [h, if_false, Nat.add_zero, true_and]
    intro j
    rw [if_neg (by omega), if_neg (by omega)]

theorem ReadUint8_same {f g : FileReader} (h : f.Same g) :
    f.ReadUint8.1 = g.ReadUint8.1 ∧ f.ReadUint8.2.Same g.ReadUint8.2 := by
  refine ⟨?_, ?_⟩
  · rw [(ReadUint8_peek f).1, (ReadUint8_peek g).1]; exact h 0
  · intro j
    rw [(ReadUint8_peek f).2, (ReadUint8_peek g).2]; exact h (j + 1)

theorem READ_same (n : Nat) {s t : BitState} (h : s.Same t) :
    (READ_CTRL_BIT n s).Same (READ_CTRL_BIT n t) := by
  obtain ⟨hd, _, hf⟩ := h
  obtain ⟨hb, hf2⟩ := ReadUint8_same hf
  unfold READ_CTRL_BIT
  simp only [hd, hb]
  split
  · exact ⟨rfl, rfl, hf2⟩
  · exact ⟨rfl, rfl, hf⟩

theorem decodeCtrlLoop_same : ∀ (fuel fuel2 : Nat) (s t : BitState) (v : Int)
    (r r2 : BitState × Int), s.Same t →
    decodeCtrlLoop fuel s v = some r → decodeCtrlLoop fuel2 t v = some r2 →
    r.1.Same r2.1 ∧ r.2 = r2.2 := by
  intro fuel
  induction fuel with
  | zero => intro fuel2 s t v r r2 _ e; simp [decodeCtrlLoop] at e
  | succ n ih =>
    intro fuel2 s t v r r2 h e e2
    cases fuel2 with
    | zero => simp [decodeCtrlLoop] at e2
    | succ m =>
      have h1 := READ_same 8 h
      have h2 := READ_same 8 h1
      unfold decodeCtrlLoop at e e2
      simp only at e e2
      rw [← h1.2.1, ← h2.2.1] at e2
      by_cases hc : (READ_CTRL_BIT 8 (READ_CTRL_BIT 8 s)).carry ≠ 0
      · rw [if_pos hc] at e e2
        exact ih m _ _ _ r r2 h2 e e2
      · rw [if_neg hc] at e e2
        simp only [Option.some.injEq] at e e2
        subst e; subst e2
        exact ⟨h2, rfl⟩

theorem refineLength_same (fuel fuel2 : Nat) (s t : BitState) (v : Int)
    (r r2 : BitState × Int) (h : s.Same t)
    (e : refineLength fuel s v = some r) (e2 : refineLength fuel2 t v = some r2) :
    r.1.Same r2.1 ∧ r.2 = r2.2 := by
  have h1 := READ_same 8 h
  have h2 := READ_same 8 h1
  unfold refineLength at e e2
  simp only at e e2
  rw [← h1.2.1, ← h2.2.1] at e2
  split at e
  · rename_i hz
    rw [if_pos hz] at e2
    unfold DECODE_CTRL_BITS at e e2
    split at e
    · simp at e
    · rename_i a b ea
      split at e2
      · simp at e2
      · rename_i a2 b2 ea2
        have := decodeCtrlLoop_same _ _ _ _ _ _ _ h2 ea ea2
        simp only at this
        simp only [Option.some.injEq] at e e2
        subst e; subst e2
        exact ⟨this.1, by show wrap32 (b + 2) = wrap32 (b2 + 2); rw [this.2]⟩
  · rename_i hz
    rw [if_neg hz] at e2
    simp only [Option.some.injEq] at e e2
    subst e; subst e2
    exact ⟨h2, rfl⟩

theorem matchOffset_same {f g : FileReader} (h : f.Same g) (code : Int) (prev : Nat) :
    (matchOffset f code prev).1.Same (matchOffset g code prev).1 ∧
    (matchOffset f code prev).2 = (matchOffset g code prev).2 := by
  obtain ⟨hb, hf2⟩ := ReadUint8_same h
  unfold matchOffset
  simp only [hb]
  split
  · exact ⟨h, rfl⟩
  · exact ⟨hf2, rfl⟩

theorem decodeMatch_same (fuel fuel2 : Nat) (s t : BitState) (v : Int) (prev : Nat)
    (a b : MatchHeader) (h : s.Same t)
    (e : decodeMatch fuel s v prev = some a) (e2 : decodeMatch fuel2 t v prev = some b) :
    a.Same b := by
  obtain ⟨s1, d1, r1, o1, b1, p1, l1⟩ := decodeMatch_fields _ _ _ _ _ e
  obtain ⟨s2, d2, r2, o2, b2, p2, l2⟩ := decodeMatch_fields _ _ _ _ _ e2
  have hd := decodeCtrlLoop_same _ _ _ _ _ _ _ h d1 d2
  simp only at hd
  have hm := matchOffset_same hd.1.2.2 a.code prev
  rw [← hd.2, ← hm.2] at r2 o2 b2 p2
  have hr := refineLength_same _ _ _ _ _ _ _
    (show BitState.Same { s1 with file := (matchOffset s1.file a.code prev).1 }
      { s2 with file := (matchOffset s2.file a.code prev).1 } from
      ⟨hd.1.1, hd.1.2.1, hm.1⟩) r1 r2
  simp only at hr
  refine ⟨hr.1, hd.2, b1.trans b2.symm, o1.trans o2.symm, hr.2, ?_, p1.trans p2.symm⟩
  rw [l1, l2, hr.2, b1.trans b2.symm]

theorem unpackStep_same (fuel fuel2 : Nat) (s t : LZState) (r r2 : LZStep) (h : s.Same t)
    (e : unpackStep fuel s = some r) (e2 : unpackStep fuel2 t = some r2) : r.Same r2 := by
  obtain ⟨hbs, hl, hp, hsz, ho⟩ := h
  have h1 := READ_same 8 hbs
  obtain ⟨hb, hf2⟩ := ReadUint8_same h1.2.2
  unfold unpackStep at e e2
  simp only at e e2
  rw [← h1.2.1, ← hl, ← hp, ← hsz, ← ho] at e2
  by_cases hc : (READ_CTRL_BIT 8 s.bs).carry = 0
  · rw [if_pos hc] at e e2
    simp only [Option.some.injEq] at e e2
    subst e; subst e2
    exact ⟨⟨h1.1, rfl, hf2⟩, rfl, rfl, rfl, by show s.out ++ _ = s.out ++ _; rw [hb]⟩
  · rw [if_neg hc] at e e2
    split at e
    · simp at e
    · rename_i a ea
      split at e2
      · simp at e2
      · rename_i b eb
        have hab := decodeMatch_same _ _ _ _ _ _ _ _ h1 ea eb
        obtain ⟨q1, _, _, q4, _, q6, q7⟩ := hab
        rw [← q4, ← q6, ← q7] at e2
        by_cases hge : s.size ≥ toU32 a.strLen
        · rw [if_pos hge] at e e2
          by_cases hbad : (s.out.length : Int) + a.strOffset < 0 ∨
              (s.out.length : Int) + a.strOffset ≥ (s.out.length : Int)
          · rw [if_pos hbad] at e e2
            simp only [Option.some.injEq] at e e2
            subst e; subst e2
            exact ⟨q1, rfl, rfl, rfl, rfl⟩
          · rw [if_neg hbad] at e e2
            simp only [Option.some.injEq] at e e2
            subst e; subst e2
            exact ⟨q1, rfl, rfl, rfl, rfl⟩
        · rw [if_neg hge] at e e2
          simp only [Option.some.injEq] at e e2
          subst e; subst e2
          exact ⟨q1, rfl, rfl, rfl, rfl⟩

theorem unpackLoop_same (dfuel dfuel2 : Nat) : ∀ (fuel fuel2 : Nat) (s t : LZState)
    (r r2 : LZExit), s.Same t → unpackLoop dfuel fuel s = some r →
    unpackLoop dfuel2 fuel2 t = some r2 → r.Same r2 := by
  intro fuel
  induction fuel with
  | zero => intro fuel2 s t r r2 _ e; simp [unpackLoop] at e
  | succ n ih =>
    intro fuel2 s t r r2 h e e2
    cases fuel2 with
    | zero => simp [unpackLoop] at e2
    | succ m =>
      unfold unpackLoop at e e2
      rw [← h.2.2.2.1] at e2
      by_cases hs : s.size > 0
      · rw [if_pos hs] at e e2
        cases ha : unpackStep dfuel s with
        | none => rw [ha] at e; simp at e
        | some a =>
          cases hb : unpackStep dfuel2 t with
          | none => rw [hb] at e2; simp at e2
          | some b =>
            have hab := unpackStep_same _ _ _ _ _ _ h ha hb
            rw [ha] at e; rw [hb] at e2
            cases a with
            | next a1 =>
              cases b with
              | next b1 => exact ih m a1 b1 r r2 hab e e2
              | stop b1 => exact absurd hab (by simp [LZStep.Same])
            | stop a1 =>
              cases b with
              | next b1 => exact absurd hab (by simp [LZStep.Same])
              | stop b1 =>
                simp only [Option.some.injEq] at e e2
                subst e; subst e2
                exact hab
      · rw [if_neg hs] at e e2
        simp only [Option.some.injEq] at e e2
        subst e; subst e2
        exact h

theorem padded_same (data : List Nat) (pos k : Nat) :
    FileReader.Same ⟨data, pos⟩ ⟨data ++ List.replicate k 0, pos⟩ := by
  intro j
  unfold FileReader.peek
  simp only [List.length_append, List.length_replicate]
  by_cases h : pos + j < data.length
  · rw [if_pos h, if_pos (by omega)]
    rw [List.getD_append _ _ _ _ h]
  · rw [if_neg h]
    split
    · rw [List.getD_append_right _ _ _ _ (by omega)]
      rw [List.getD_eq_getElem?_getD, List.getElem?_replicate]
      split <;> simp
    · rfl

/-- C6 (as amended). Exhaustion of the stream is not detected: a read past the end
yields the byte 0, so for every stream, cursor and size the call returns, and it returns
the same flag and the same output as on the stream followed by any number of zero bytes. -/
theorem UnpackMO3Data_exhausted_reads_zero (data : List Nat) (pos N k : Nat) :
    ∃ r r2, UnpackMO3Data ⟨data, pos⟩ N = some r ∧
      UnpackMO3Data ⟨data ++ List.replicate k 0, pos⟩ N = some r2 ∧
      r2.ok = r.ok ∧ r2.out = r.out := by
  by_cases hN : N = 0
  · subst hN
    exact ⟨_, _, rfl, rfl, rfl, rfl⟩
  · have hN1 : 1 ≤ N := by omega
    obtain ⟨e, r, he, hr, ho, _⟩ := unpack_call_spec ⟨data, pos⟩ N hN1
    obtain ⟨e2, r2, he2, hr2, ho2, _⟩ :=
      unpack_call_spec ⟨data ++ List.replicate k 0, pos⟩ N hN1
    have hsame := padded_same data pos k
    obtain ⟨hb, hf⟩ := ReadUint8_same hsame
    have hinit : (unpackInit ⟨data, pos⟩ N).Same
        (unpackInit ⟨data ++ List.replicate k 0, pos⟩ N) := by
      unfold unpackInit
      exact ⟨⟨rfl, rfl, hf⟩, rfl, rfl, rfl, by simp only [hb]⟩
    have hex := unpackLoop_same _ _ _ _ _ _ _ _ hinit he he2
    have hout : e2.state.out = e.state.out ∧ e2.state.size = e.state.size := by
      cases e with
      | finished a =>
        cases e2 with
        | finished b => exact ⟨hex.2.2.2.2.symm, hex.2.2.2.1.symm⟩
        | aborted b => exact absurd hex (by simp [LZExit.Same])
      | aborted a =>
        cases e2 with
        | finished b => exact absurd hex (by simp [LZExit.Same])
        | aborted b => exact ⟨hex.2.2.2.2.symm, hex.2.2.2.1.symm⟩
    refine ⟨r, r2, hr, hr2, ?_, ?_⟩
    · unfold UnpackMO3Data at hr hr2
      rw [if_neg hN, he] at hr
      rw [if_neg hN, he2] at hr2
      simp only [Option.some.injEq] at hr hr2
      subst hr; subst hr2
      simp only [hout.1]
    · rw [ho, ho2, hout.1]

/-- C6 (counterexample). The empty stream is exhausted before the single requested byte
is produced, and the call returns true. -/
theorem UnpackMO3Data_exhausted_succeeds :
    (FileReader.mk [] 0).BytesLeft = 0 ∧
    UnpackMO3Data ⟨[], 0⟩ 1 = some { ok := true, out := [0], file := ⟨[], 0⟩ } := by
  decide

/-- A stream of one byte asked for three: the two missing bytes are read as literals 0. -/
theorem UnpackMO3Data_exhausted_fills_zero :
    UnpackMO3Data ⟨[7], 0⟩ 3 = some { ok := true, out := [7, 0, 0], file := ⟨[7], 1⟩ } := by
  decide

/-! ## Track events -/

theorem fillRows_spec (m : ModCommand) : ∀ (n row : Nat) (col : List ModCommand),
    row + n ≤ col.length →
    (fillRows m n row col).length = col.length ∧
    ∀ i, (fillRows m n row col)[i]? = if row ≤ i ∧ i < row + n then some m else col[i]? := by
  intro n
  induction n with
  | zero =>
    intro row col _
    refine ⟨rfl, fun i => ?_⟩
    rw [if_neg (by omega)]
    rfl
  | succ k ih =>
    intro row col h
    obtain ⟨h1, h2⟩ := ih (row + 1) (col.set row m) (by rw [List.length_set]; omega)
    refine ⟨by show (fillRows m k (row + 1) (col.set row m)).length = _
               rw [h1, List.length_set], fun i => ?_⟩
    show (fillRows m k (row + 1) (col.set row m))[i]? = _
    rw [h2 i, List.getElem?_set]
    by_cases hi : row = i
    · subst hi
      rw [if_neg (by omega), if_pos rfl, if_pos (by omega), if_pos (by omega)]
    · rw [if_neg hi]
      by_cases hr : row + 1 ≤ i ∧ i < row + 1 + k
      · rw [if_pos hr, if_pos (by omega)]
      · rw [if_neg hr, if_neg (by omega)]

theorem decodeChannel_rep1 (K : Constants) (type : MODTYPE) (n : Nat) :
    decodeChannel K type (n + 2) ⟨[0x11, 0x01, 0x3C, 0x00], 0⟩ =
      some (exampleNoteCell K type :: List.replicate (n + 1) ModCommand.Empty) := by
  simp [decodeChannel, decodeTrackLoop, FileReader.Rewind, FileReader.ReadUint8,
    readCommands, FileReader.ReadArray2, applyCommand, fillRows, exampleNoteCell,
    List.replicate_succ]

theorem decodeChannel_rep2 (K : Constants) (type : MODTYPE) (n : Nat) :
    decodeChannel K type (n + 2) ⟨[0x21, 0x01, 0x3C, 0x00], 0⟩ =
      some (exampleNoteCell K type :: exampleNoteCell K type ::
        List.replicate n ModCommand.Empty) := by
  simp [decodeChannel, decodeTrackLoop, FileReader.Rewind, FileReader.ReadUint8,
    readCommands, FileReader.ReadArray2, applyCommand, fillRows, exampleNoteCell,
    List.replicate_succ]

theorem decodeTrackLoop_event (K : Constants) (type : MODTYPE) (numRows fuel : Nat)
    (track : FileReader) (row : Nat) (col : List ModCommand)
    (hrow : row < numRows) (hb : track.ReadUint8.1 ≠ 0) (hlen : col.length = numRows) :
    ∃ col2, decodeTrackLoop K type numRows (fuel + 1) track row col =
        decodeTrackLoop K type numRows fuel
          (readCommands K type (track.ReadUint8.1 &&& 0x0F) track.ReadUint8.2
            ModCommand.Empty).2
          (min (row + track.ReadUint8.1 >>> 4) numRows) col2 ∧
      col2.length = numRows ∧
      ∀ i, col2[i]? =
        if row ≤ i ∧ i < min (row + track.ReadUint8.1 >>> 4) numRows
        then some (eventCell K type track) else col[i]? := by
  obtain ⟨h1, h2⟩ := fillRows_spec (eventCell K type track)
    (min (row + track.ReadUint8.1 >>> 4) numRows - row) row col (by omega)
  refine ⟨fillRows (eventCell K type track)
    (min (row + track.ReadUint8.1 >>> 4) numRows - row) row col, ?_, by rw [h1, hlen], ?_⟩
  · rw [decodeTrackLoop, if_pos hrow]
    simp only [if_neg hb]
    rfl
  · intro i
    rw [h2 i]
    by_cases hi : row ≤ i ∧ i < min (row + track.ReadUint8.1 >>> 4) numRows
    · rw [if_pos hi, if_pos ⟨hi.1, by omega⟩]
    · rw [if_neg hi, if_neg (by omega)]

/-- C9 (as amended). A track event whose control byte has command count `n` (low nibble)
and repeat count `r` (high nibble) writes the cell built from its `n` pairs onto the `r`
rows starting at the current row, clipped at the pattern end, and leaves every other row
as it was. For a pattern with at least 2 rows the bytes `0x11 0x01 0x3C 0x00` give one
note cell at row 0 and empty cells elsewhere, and `0x21 0x01 0x3C 0x00` give two
identical note cells at rows 0 and 1 and empty cells elsewhere. -/
theorem decodeTrack_event_fills_rep_rows (K : Constants) (type : MODTYPE)
    (numRows : Nat) (h2 : 2 ≤ numRows) :
    (∀ (fuel : Nat) (track : FileReader) (row : Nat) (col : List ModCommand),
      row < numRows → track.ReadUint8.1 ≠ 0 → col.length = numRows →
      ∃ col2, decodeTrackLoop K type numRows (fuel + 1) track row col =
          decodeTrackLoop K type numRows fuel
            (readCommands K type (track.ReadUint8.1 &&& 0x0F) track.ReadUint8.2
              ModCommand.Empty).2
            (min (row + track.ReadUint8.1 >>> 4) numRows) col2 ∧
        col2.length = numRows ∧
        ∀ i, col2[i]? =
          if row ≤ i ∧ i < min (row + track.ReadUint8.1 >>> 4) numRows
          then some (eventCell K type track) else col[i]?) ∧
    decodeChannel K type numRows ⟨[0x11, 0x01, 0x3C, 0x00], 0⟩ =
      some (exampleNoteCell K type :: List.replicate (numRows - 1) ModCommand.Empty) ∧
    decodeChannel K type numRows ⟨[0x21, 0x01, 0x3C, 0x00], 0⟩ =
      some (exampleNoteCell K type :: exampleNoteCell K type ::
        List.replicate (numRows - 2) ModCommand.Empty) := by
  obtain ⟨n, rfl⟩ : ∃ n, numRows = n + 2 := ⟨numRows - 2, by omega⟩
  exact ⟨fun fuel track row col => decodeTrackLoop_event K type (n + 2) fuel track row col,
    decodeChannel_rep1 K type n, decodeChannel_rep2 K type n⟩

theorem decodeTrack_event_fills_rep_rows_witness :
    2 ≤ 2 ∧
    decodeChannel openmptConstants .MOD_TYPE_XM 2 ⟨[0x21, 0x01, 0x3C, 0x00], 0⟩ =
      some (exampleNoteCell openmptConstants .MOD_TYPE_XM ::
        exampleNoteCell openmptConstants .MOD_TYPE_XM ::
        List.replicate (2 - 2) ModCommand.Empty) :=
  ⟨by decide,
    (decodeTrack_event_fills_rep_rows openmptConstants .MOD_TYPE_XM 2 (by decide)).2.2⟩

/-- C9 (counterexample). With repeat count 1 the note cell of `0x11 0x01 0x3C 0x00` is
written at row 0 only: in a 2-row pattern row 1 stays empty. -/
theorem decodeTrack_rep1_single_row :
    decodeChannel openmptConstants .MOD_TYPE_XM 2 ⟨[0x11, 0x01, 0x3C, 0x00], 0⟩ =
      some [{ note := 73, instr := 0, volcmd := .VOLCMD_NONE, vol := 0, command := .CMD_NONE,
              param := 0 },
            ModCommand.Empty] := by
  decide

/-! ## Pattern break -/

theorem bcd_lt (p : Nat) (hp : p < 256) : (p >>> 4) * 10 + (p &&& 0x0F) < 256 := by
  have h1 : p >>> 4 = p / 16 := by rw [Nat.shiftRight_eq_div_pow]
  have h2 : p &&& 0x0F = p % 16 := Nat.and_pow_two_sub_one_eq_mod p 4
  rw [h1, h2]; omega

theorem applyCommand_0x10 (K : Constants) (type : MODTYPE)
    (m : ModCommand) (p : Nat) (hp : p < 256) :
    applyCommand K type m 0x10 p =
      { m with command := .CMD_PATTERNBREAK,
               param := if type = .MOD_TYPE_IT then p else (p >>> 4) * 10 + (p &&& 0x0F) } := by
  unfold applyCommand
  by_cases ht : type = .MOD_TYPE_IT
  · simp [ht]
  · simp [ht, Nat.mod_eq_of_lt (bcd_lt p hp)]

/-- C10. Code 0x10 with operand `p` sets the effect to pattern break; the parameter is
`(p >> 4) * 10 + (p & 0x0F)` in every dialect other than IT and `p` in IT, and nothing
else in the cell changes. Operand 0x21 gives 21 outside IT and 33 in IT. -/
theorem applyCommand_pattern_break (K : Constants) (type : MODTYPE)
    (m : ModCommand) (p : Nat) (hp : p < 256) :
    applyCommand K type m 0x10 p =
      { m with command := .CMD_PATTERNBREAK,
               param := if type = .MOD_TYPE_IT then p else (p >>> 4) * 10 + (p &&& 0x0F) } ∧
    (type ≠ .MOD_TYPE_IT → (applyCommand K type m 0x10 0x21).param = 21) ∧
    (applyCommand K .MOD_TYPE_IT m 0x10 0x21).param = 33 := by
  refine ⟨applyCommand_0x10 K type m p hp, ?_, ?_⟩
  · intro ht
    rw [applyCommand_0x10 K type m 0x21 (by decide)]
    simp only [if_neg ht]
    decide
  · rw [applyCommand_0x10 K .MOD_TYPE_IT m 0x21 (by decide)]
    rfl

theorem applyCommand_pattern_break_witness :
    (0x21 : Nat) < 256 ∧
    applyCommand openmptConstants .MOD_TYPE_XM ModCommand.Empty 0x10 0x21 =
      { ModCommand.Empty with command := .CMD_PATTERNBREAK, param := 21 } :=
  ⟨by decide,
    (applyCommand_pattern_break openmptConstants .MOD_TYPE_XM ModCommand.Empty 0x21
      (by decide)).1⟩

/-! ## ReadMO3: the container header -/

theorem ReadMO3_short (K : Constants) (E : Environment) (data : List Nat) (p : Nat)
    (lf : ModLoadingFlags) (h : data.length < 12) :
    ReadMO3 K E ⟨data, p⟩ lf = .done .rejected := by
  unfold ReadMO3
  simp only [FileReader.Rewind, FileReader.CanRead, FileReader.BytesLeft]
  rw [if_pos (by simp; omega)]

theorem ReadMO3_eq (K : Constants) (E : Environment) (data : List Nat) (p : Nat)
    (lf : ModLoadingFlags) (h : 12 ≤ data.length) :
    ReadMO3 K E ⟨data, p⟩ lf =
      if hasMagic data = false then .done .rejected
      else if containerMusicSize data ≤ 422 then .done .rejected
      else if lf = onlyVerifyHeader then .done .verified
      else if containerVersion data > 5 then .done .rejected
      else
        match UnpackMO3Data (containerStream data) (containerMusicSize data) with
        | none => .outOfFuel
        | some r =>
          if ¬ r.ok then .done .rejected
          else loadMusicChunk K E lf (containerVersion data) r.out
            (containerAfterMusic data r.file) := by
  obtain ⟨b0, b1, b2, b3, b4, b5, b6, b7, b8, b9, b10, b11, rest, rfl⟩ :
      ∃ b0 b1 b2 b3 b4 b5 b6 b7 b8 b9 b10 b11 rest,
        data = b0 :: b1 :: b2 :: b3 :: b4 :: b5 :: b6 :: b7 :: b8 :: b9 :: b10 :: b11 :: rest := by
    match data, h with
    | b0 :: b1 :: b2 :: b3 :: b4 :: b5 :: b6 :: b7 :: b8 :: b9 :: b10 :: b11 :: rest, _ =>
      exact ⟨b0, b1, b2, b3, b4, b5, b6, b7, b8, b9, b10, b11, rest, rfl⟩
  have hmagic : ((FileReader.mk
      (b0 :: b1 :: b2 :: b3 :: b4 :: b5 :: b6 :: b7 :: b8 :: b9 :: b10 :: b11 :: rest) p).Rewind.ReadMagic
        [0x4D, 0x4F, 0x33]) =
      if hasMagic (b0 :: b1 :: b2 :: b3 :: b4 :: b5 :: b6 :: b7 :: b8 :: b9 :: b10 :: b11 :: rest)
          = true
      then (true, ⟨b0 :: b1 :: b2 :: b3 :: b4 :: b5 :: b6 :: b7 :: b8 :: b9 :: b10 :: b11 :: rest, 3⟩)
      else (false, ⟨b0 :: b1 :: b2 :: b3 :: b4 :: b5 :: b6 :: b7 :: b8 :: b9 :: b10 :: b11 :: rest, 0⟩) := by
    simp [FileReader.ReadMagic, FileReader.ReadBytes, FileReader.Rewind, FileReader.BytesLeft,
      hasMagic]
  have hver : (FileReader.mk
      (b0 :: b1 :: b2 :: b3 :: b4 :: b5 :: b6 :: b7 :: b8 :: b9 :: b10 :: b11 :: rest) 3).ReadUint8 =
      (containerVersion (b0 :: b1 :: b2 :: b3 :: b4 :: b5 :: b6 :: b7 :: b8 :: b9 :: b10 :: b11 :: rest),
       ⟨b0 :: b1 :: b2 :: b3 :: b4 :: b5 :: b6 :: b7 :: b8 :: b9 :: b10 :: b11 :: rest, 4⟩) := by
    simp [FileReader.ReadUint8, containerVersion, u8At]
  have hsize : (FileReader.mk
      (b0 :: b1 :: b2 :: b3 :: b4 :: b5 :: b6 :: b7 :: b8 :: b9 :: b10 :: b11 :: rest) 4).ReadUint32LE =
      (containerMusicSize (b0 :: b1 :: b2 :: b3 :: b4 :: b5 :: b6 :: b7 :: b8 :: b9 :: b10 :: b11 :: rest),
       ⟨b0 :: b1 :: b2 :: b3 :: b4 :: b5 :: b6 :: b7 :: b8 :: b9 :: b10 :: b11 :: rest, 8⟩) := by
    simp [FileReader.ReadUint32LE, FileReader.ReadBytes, FileReader.BytesLeft, containerMusicSize,
      u32At, u16At, u8At, FileReader.leValue]
    omega
  have hcsize : (FileReader.mk
      (b0 :: b1 :: b2 :: b3 :: b4 :: b5 :: b6 :: b7 :: b8 :: b9 :: b10 :: b11 :: rest) 8).ReadUint32LE =
      (containerCompressedSize (b0 :: b1 :: b2 :: b3 :: b4 :: b5 :: b6 :: b7 :: b8 :: b9 :: b10 :: b11 :: rest),
       ⟨b0 :: b1 :: b2 :: b3 :: b4 :: b5 :: b6 :: b7 :: b8 :: b9 :: b10 :: b11 :: rest, 12⟩) := by
    simp [FileReader.ReadUint32LE, FileReader.ReadBytes, FileReader.BytesLeft,
      containerCompressedSize, u32At, u16At, u8At, FileReader.leValue]
    omega
  unfold ReadMO3
  simp only
  rw [hmagic]
  have hcan : (FileReader.mk
      (b0 :: b1 :: b2 :: b3 :: b4 :: b5 :: b6 :: b7 :: b8 :: b9 :: b10 :: b11 :: rest) p).Rewind.CanRead 12
      = true := by
    simp [FileReader.CanRead, FileReader.Rewind, FileReader.BytesLeft]
  rw [hcan]
  by_cases hm : hasMagic (b0 :: b1 :: b2 :: b3 :: b4 :: b5 :: b6 :: b7 :: b8 :: b9 :: b10 :: b11 :: rest)
      = true
  · simp only [hm, if_true, not_true_eq_false, if_false, hver, hsize, Bool.not_eq_true,
      Bool.true_eq_false]
    by_cases hs : containerMusicSize
        (b0 :: b1 :: b2 :: b3 :: b4 :: b5 :: b6 :: b7 :: b8 :: b9 :: b10 :: b11 :: rest) ≤ 422
    · simp only [hs, if_true]
    · simp only [hs, if_false]
      by_cases hl : lf = onlyVerifyHeader
      · simp only [hl, if_true]
      · simp only [hl, if_false]
        by_cases hv : containerVersion
            (b0 :: b1 :: b2 :: b3 :: b4 :: b5 :: b6 :: b7 :: b8 :: b9 :: b10 :: b11 :: rest) > 5
        · simp only [hv, if_true]
        · simp only [hv, if_false]
          by_cases h5 : containerVersion
              (b0 :: b1 :: b2 :: b3 :: b4 :: b5 :: b6 :: b7 :: b8 :: b9 :: b10 :: b11 :: rest) ≥ 5
          · simp only [h5, if_true, hcsize, containerStream, containerAfterMusic]
          · simp only [h5, if_false, containerStream, containerAfterMusic]
  · simp [hm]

theorem loadMusicChunk_header_truncated (K : Constants) (E : Environment)
    (lf : ModLoadingFlags) (version : Nat) (musicData : List Nat) (file : FileReader)
    (h : musicHeader musicData = none) :
    loadMusicChunk K E lf version musicData file = .done .rejected := by
  unfold musicHeader at h
  unfold loadMusicChunk
  simp only
  cases hb : ((FileReader.mk musicData 0).ReadNullString.2.ReadNullString.2.ReadBytes
      sizeofMO3FileHeader).1 with
  | none => rfl
  | some bytes => rw [hb] at h; simp at h

theorem loadMusicChunk_header_refused (K : Constants) (E : Environment)
    (lf : ModLoadingFlags) (version : Nat) (musicData : List Nat) (file : FileReader)
    (hd : MO3FileHeader) (h : musicHeader musicData = some hd) (hbad : ¬ headerAccepted K hd) :
    loadMusicChunk K E lf version musicData file = .done .rejected := by
  unfold musicHeader at h
  unfold headerAccepted at hbad
  unfold loadMusicChunk
  simp only
  cases hb : ((FileReader.mk musicData 0).ReadNullString.2.ReadNullString.2.ReadBytes
      sizeofMO3FileHeader).1 with
  | none => rfl
  | some bytes =>
    rw [hb] at h
    simp only [Option.map_some', Option.some.injEq] at h
    simp only [h]
    rw [if_pos (not_not.mp hbad)]

/-- C8. On the built-in decoder path of a full load `ReadMO3` returns false, with no
module, whenever the input has fewer than 12 bytes, does not start with "MO3", declares
a decompressed size of at most 422, has a version byte above 5, or (the music chunk
having been unpacked) its file header has channel count 0 or above 64. -/
theorem ReadMO3_rejects_bad_container (K : Constants) (E : Environment)
    (data : List Nat) (p : Nat) (lf : ModLoadingFlags) (hfull : lf ≠ onlyVerifyHeader) :
    (data.length < 12 → ReadMO3 K E ⟨data, p⟩ lf = .done .rejected) ∧
    (hasMagic data = false → ReadMO3 K E ⟨data, p⟩ lf = .done .rejected) ∧
    (containerMusicSize data ≤ 422 → ReadMO3 K E ⟨data, p⟩ lf = .done .rejected) ∧
    (containerVersion data > 5 → ReadMO3 K E ⟨data, p⟩ lf = .done .rejected) ∧
    (∀ r hd, UnpackMO3Data (containerStream data) (containerMusicSize data) = some r →
      musicHeader r.out = some hd → (hd.numChannels = 0 ∨ hd.numChannels > 64) →
      ReadMO3 K E ⟨data, p⟩ lf = .done .rejected) := by
  by_cases hlen : data.length < 12
  · have := ReadMO3_short K E data p lf hlen
    exact ⟨fun _ => this, fun _ => this, fun _ => this, fun _ => this, fun _ _ _ _ _ => this⟩
  · have he := ReadMO3_eq K E data p lf (by omega)
    refine ⟨fun h => absurd h hlen, ?_, ?_, ?_, ?_⟩
    · intro hm
      rw [he, if_pos hm]
    · intro hs
      rw [he]
      by_cases hm : hasMagic data = false
      · rw [if_pos hm]
      · rw [if_neg hm, if_pos hs]
    · intro hv
      rw [he]
      by_cases hm : hasMagic data = false
      · rw [if_pos hm]
      · rw [if_neg hm]
        by_cases hs : containerMusicSize data ≤ 422
        · rw [if_pos hs]
        · rw [if_neg hs, if_neg hfull, if_pos hv]
    · intro r hd hr hh hch
      rw [he]
      by_cases hm : hasMagic data = false
      · rw [if_pos hm]
      · rw [if_neg hm]
        by_cases hs : containerMusicSize data ≤ 422
        · rw [if_pos hs]
        · rw [if_neg hs, if_neg hfull]
          by_cases hv : containerVersion data > 5
          · rw [if_pos hv]
          · rw [if_neg hv, hr]
            simp only
            by_cases hok : ¬ r.ok = true
            · rw [if_pos hok]
            · rw [if_neg hok]
              exact loadMusicChunk_header_refused K E lf _ _ _ hd hh
                (by unfold headerAccepted; intro hn; apply hn; rcases hch with h0 | h64
                    · exact Or.inl h0
                    · exact Or.inr (Or.inl h64))

theorem ReadMO3_rejects_bad_container_witness :
    (⟨true, true, true⟩ : ModLoadingFlags) ≠ onlyVerifyHeader ∧
    ReadMO3 openmptConstants exampleEnvironment
      ⟨[0x4D, 0x4F, 0x33, 6, 0xA8, 0x01, 0, 0, 0, 0, 0, 0], 0⟩ ⟨true, true, true⟩
      = .done .rejected :=
  ⟨by decide,
    (ReadMO3_rejects_bad_container openmptConstants exampleEnvironment
      [0x4D, 0x4F, 0x33, 6, 0xA8, 0x01, 0, 0, 0, 0, 0, 0] 0 ⟨true, true, true⟩
      (by decide)).2.2.2.1 (by decide)⟩

/-! ## Cursors stay inside their data -/

theorem InChunk_ReadUint8 {c : List Nat} {f : FileReader} (h : InChunk c f) :
    InChunk c f.ReadUint8.2 ∧ f.ReadUint8.2.BytesLeft ≤ f.BytesLeft := by
  obtain ⟨hd, hp⟩ := h
  refine ⟨?_, ReadUint8_left_le f⟩
  unfold FileReader.ReadUint8
  split
  · exact ⟨hd, by show f.pos + 1 ≤ c.length; rw [← hd]; omega⟩
  · exact ⟨hd, hp⟩

theorem InChunk_ReadBytes {c : List Nat} {f : FileReader} (n : Nat) (h : InChunk c f) :
    InChunk c (f.ReadBytes n).2 ∧ (f.ReadBytes n).2.BytesLeft ≤ f.BytesLeft := by
  obtain ⟨hd, hp⟩ := h
  unfold FileReader.ReadBytes
  split
  · rename_i hn
    unfold FileReader.BytesLeft at hn
    rw [hd] at hn
    refine ⟨⟨hd, by show f.pos + n ≤ c.length; omega⟩, ?_⟩
    unfold FileReader.BytesLeft
    show f.data.length - (f.pos + n) ≤ _
    omega
  · exact ⟨⟨hd, hp⟩, le_refl _⟩

theorem InChunk_ReadUint16LE {c : List Nat} {f : FileReader} (h : InChunk c f) :
    InChunk c f.ReadUint16LE.2 ∧ f.ReadUint16LE.2.BytesLeft ≤ f.BytesLeft := by
  have := InChunk_ReadBytes 2 h
  unfold FileReader.ReadUint16LE
  split <;> rename_i e <;> rw [e] at this <;> exact this

theorem InChunk_ReadUint32LE {c : List Nat} {f : FileReader} (h : InChunk c f) :
    InChunk c f.ReadUint32LE.2 ∧ f.ReadUint32LE.2.BytesLeft ≤ f.BytesLeft := by
  have := InChunk_ReadBytes 4 h
  unfold FileReader.ReadUint32LE
  split <;> rename_i e <;> rw [e] at this <;> exact this

theorem InChunk_Skip {c : List Nat} {f : FileReader} (n : Nat) (h : InChunk c f) :
    InChunk c (f.Skip n) ∧ (f.Skip n).BytesLeft ≤ f.BytesLeft := by
  obtain ⟨hd, hp⟩ := h
  unfold FileReader.Skip FileReader.BytesLeft
  rw [hd]
  exact ⟨⟨rfl, by show f.pos + min n (c.length - f.pos) ≤ c.length; omega⟩,
    by show c.length - (f.pos + min n (c.length - f.pos)) ≤ _; omega⟩

theorem InChunk_ReadNullString {c : List Nat} {f : FileReader} (h : InChunk c f) :
    InChunk c f.ReadNullString.2 := by
  obtain ⟨hd, hp⟩ := h
  unfold FileReader.ReadNullString
  refine ⟨hd, ?_⟩
  simp only [List.length_map, List.length_drop]
  rw [hd]
  omega

theorem InChunk_readOrders {c : List Nat} {f : FileReader} (n : Nat) (h : InChunk c f) :
    InChunk c (readOrders f n).2 := by
  have := (InChunk_ReadBytes n h).1
  unfold readOrders
  split <;> rename_i e <;> rw [e] at this <;> exact this

theorem InChunk_readTracks {c : List Nat} : ∀ (n : Nat) (f : FileReader), InChunk c f →
    InChunk c (readTracks n f).2 := by
  intro n
  induction n with
  | zero => intro f h; exact h
  | succ k ih =>
    intro f h
    unfold readTracks
    exact ih _ (InChunk_Skip _ (InChunk_ReadUint32LE h).1).1

/-! ## Loops bounded by the bytes left -/

theorem skipNullString_total {c : List Nat} : ∀ (fuel : Nat) (f : FileReader), InChunk c f →
    f.BytesLeft < fuel → ∃ g, skipNullString fuel f = some g ∧ InChunk c g := by
  intro fuel
  induction fuel with
  | zero => intro f _ h; omega
  | succ n ih =>
    intro f hin hf
    unfold skipNullString
    simp only
    by_cases hz : f.ReadUint8.1 ≠ 0
    · rw [if_pos hz]
      rcases ReadUint8_left f with ⟨_, he⟩ | h1
      · rw [he] at hz; exact absurd rfl hz
      · exact ih _ (InChunk_ReadUint8 hin).1 (by omega)
    · rw [if_neg hz]
      exact ⟨_, rfl, (InChunk_ReadUint8 hin).1⟩

theorem skipInstrument_total {c : List Nat} (version : Nat) (f : FileReader) (h : InChunk c f) :
    ∃ g, skipInstrument version f = some g ∧ InChunk c g := by
  obtain ⟨f1, e1, h1⟩ := skipNullString_total (f.BytesLeft + 1) f h (by omega)
  unfold skipInstrument
  rw [e1]
  simp only
  split
  · obtain ⟨f2, e2, h2⟩ := skipNullString_total (f1.BytesLeft + 1) f1 h1 (by omega)
    rw [e2]
    exact ⟨_, rfl, (InChunk_Skip _ h2).1⟩
  · exact ⟨_, rfl, (InChunk_Skip _ h1).1⟩

theorem parseInstrument_InChunk {c : List Nat} (version : Nat) (f : FileReader)
    (h : InChunk c f) : InChunk c (parseInstrument version f).2.2.2 := by
  unfold parseInstrument
  simp only
  have h1 := InChunk_ReadNullString h
  split
  · exact (InChunk_ReadBytes _ (InChunk_ReadNullString h1)).1
  · exact (InChunk_ReadBytes _ h1).1

theorem readInstruments_total {c : List Nat} (E : Environment) (itSampleMode : Bool)
    (version : Nat) : ∀ (n ins : Nat) (f : FileReader), InChunk c f →
    ∃ r, readInstruments E itSampleMode version n ins f = some r ∧ InChunk c r.2 := by
  intro n
  induction n with
  | zero => intro ins f h; exact ⟨_, rfl, h⟩
  | succ k ih =>
    intro ins f h
    unfold readInstruments
    split
    · obtain ⟨g, eg, hg⟩ := skipInstrument_total version f h
      rw [eg]
      obtain ⟨r, er, hr⟩ := ih (ins + 1) g hg
      simp only [er]
      exact ⟨_, rfl, hr⟩
    · have hp := parseInstrument_InChunk version f h
      simp only
      split
      · exact ⟨_, rfl, hp⟩
      · obtain ⟨r, er, hr⟩ := ih (ins + 1) _ hp
        simp only [er]
        exact ⟨_, rfl, hr⟩

theorem readPluginChunks_total {c : List Nat} : ∀ (fuel : Nat) (f : FileReader), InChunk c f →
    f.BytesLeft < fuel → ∃ r, readPluginChunks fuel f = some r ∧ InChunk c r.2 := by
  intro fuel
  induction fuel with
  | zero => intro f _ h; omega
  | succ n ih =>
    intro f hin hf
    unfold readPluginChunks
    by_cases hc : f.CanRead 1 = true
    · rw [if_pos hc]
      simp only
      have h8 := InChunk_ReadUint8 hin
      split
      · exact ⟨_, rfl, h8.1⟩
      · have h32 := InChunk_ReadUint32LE h8.1
        have hs := InChunk_Skip f.ReadUint8.2.ReadUint32LE.1 h32.1
        have hlt : f.ReadUint8.2.BytesLeft + 1 = f.BytesLeft := by
          rcases ReadUint8_left f with ⟨h0, _⟩ | h1
          · unfold FileReader.CanRead at hc
            simp only [decide_eq_true_eq] at hc
            omega
          · exact h1
        obtain ⟨r, er, hr⟩ := ih (f.ReadUint8.2.ReadUint32LE.2.ReadChunk
          f.ReadUint8.2.ReadUint32LE.1).2 hs.1 (by
            show (f.ReadUint8.2.ReadUint32LE.2.Skip _).BytesLeft < n
            have := hs.2; have := h32.2; omega)
        rw [er]
        exact ⟨_, rfl, hr⟩
    · rw [if_neg hc]
      exact ⟨_, rfl, hin⟩

theorem skipChannelPlugins_InChunk {c : List Nat} : ∀ (n : Nat) (f : FileReader),
    InChunk c f → InChunk c (skipChannelPlugins n f) := by
  intro n
  induction n with
  | zero => intro f h; exact h
  | succ k ih => intro f h; exact ih _ (InChunk_ReadUint32LE h).1

theorem readPlugins_total {c : List Nat} (numChannels : Nat) (f : FileReader)
    (h : InChunk c f) : ∃ r, readPlugins numChannels f = some r ∧ InChunk c r.2 := by
  unfold readPlugins
  split
  · simp only
    have h8 := (InChunk_ReadUint8 h).1
    split
    · exact readPluginChunks_total _ _ (skipChannelPlugins_InChunk _ _ h8) (by omega)
    · exact readPluginChunks_total _ _ h8 (by omega)
  · exact ⟨_, rfl, h⟩

/-! ## Track decoding terminates -/

theorem ReadArray2_left_le (f : FileReader) : f.ReadArray2.2.BytesLeft ≤ f.BytesLeft := by
  unfold FileReader.ReadArray2 FileReader.BytesLeft
  split
  · show f.data.length - (f.pos + 2) ≤ _; omega
  · exact le_refl _

theorem readCommands_left_le (K : Constants) (type : MODTYPE) :
    ∀ (n : Nat) (f : FileReader) (m : ModCommand),
    (readCommands K type n f m).2.BytesLeft ≤ f.BytesLeft := by
  intro n
  induction n with
  | zero => intro f m; exact le_refl _
  | succ k ih =>
    intro f m
    unfold readCommands
    exact le_trans (ih _ _) (ReadArray2_left_le f)

theorem decodeTrackLoop_total (K : Constants) (type : MODTYPE) (numRows : Nat) :
    ∀ (fuel : Nat) (track : FileReader) (row : Nat) (col : List ModCommand),
    track.BytesLeft < fuel → col.length = numRows →
    ∃ c, decodeTrackLoop K type numRows fuel track row col = some c ∧ c.length = numRows := by
  intro fuel
  induction fuel with
  | zero => intro track row col h; omega
  | succ n ih =>
    intro track row col hf hlen
    unfold decodeTrackLoop
    by_cases hrow : row < numRows
    · rw [if_pos hrow]
      simp only
      by_cases hz : track.ReadUint8.1 = 0
      · rw [if_pos hz]
        exact ⟨_, rfl, hlen⟩
      · rw [if_neg hz]
        have hl : track.ReadUint8.2.BytesLeft + 1 = track.BytesLeft := by
          rcases ReadUint8_left track with ⟨_, he⟩ | h1
          · rw [he] at hz; exact absurd rfl hz
          · exact h1
        have hc := readCommands_left_le K type (track.ReadUint8.1 &&& 0x0F) track.ReadUint8.2
          ModCommand.Empty
        refine ih _ _ _ (by omega) ?_
        rw [(fillRows_spec _ _ _ _ (by omega)).1, hlen]
    · rw [if_neg hrow]
      exact ⟨_, rfl, hlen⟩

theorem decodeChannel_total (K : Constants) (type : MODTYPE) (numRows : Nat)
    (track : FileReader) :
    ∃ c, decodeChannel K type numRows track = some c ∧ c.length = numRows := by
  unfold decodeChannel
  exact decodeTrackLoop_total K type numRows _ _ _ _
    (by unfold FileReader.Rewind FileReader.BytesLeft; simp) (by simp)

theorem readChannels_fuel (K : Constants) (type : MODTYPE)
    (tracks : List FileReader) (numRows : Nat) : ∀ (n : Nat) (trackChunk : FileReader),
    readChannels K type tracks numRows n trackChunk ≠ .outOfFuel := by
  intro n
  induction n with
  | zero => intro t; simp [readChannels]
  | succ k ih =>
    intro t
    unfold readChannels
    simp only
    split
    · simp
    · rename_i track _
      obtain ⟨c, ec, _⟩ := decodeChannel_total K type numRows track
      rw [ec]
      simp only
      have := ih t.ReadUint16LE.2
      split <;> simp_all

theorem readPatterns_fuel (K : Constants) (E : Environment) (type : MODTYPE)
    (lf : ModLoadingFlags) (numChannels : Nat) (tracks : List FileReader) :
    ∀ (n pat : Nat) (pl tc : FileReader),
    readPatterns K E type lf numChannels tracks n pat pl tc ≠ .outOfFuel := by
  intro n
  induction n with
  | zero => intro pat pl tc; simp [readPatterns]
  | succ k ih =>
    intro pat pl tc
    unfold readPatterns
    simp only
    split
    · have := ih (pat + 1) pl.ReadUint16LE.2 tc
      split <;> simp_all
    · have hc := readChannels_fuel K type tracks pl.ReadUint16LE.1 numChannels tc
      split
      · rename_i c _
        have := ih (pat + 1) pl.ReadUint16LE.2 c.2
        split <;> simp_all
      · simp
      · simp_all

/-! ## The delta decoders terminate -/

theorem deltaDecodeLoop_total (P : DeltaParams) : ∀ (fuel : Nat) (s : BitState) (val : Nat),
    s.data < 256 → s.weight < fuel →
    ∃ t v, deltaDecodeLoop P fuel s val = some (t, v) ∧ t.Follows s := by
  intro fuel
  induction fuel with
  | zero => intro s _ _ h; omega
  | succ n ih =>
    intro s val hd hw
    have h1 := READ_CTRL_BIT_spec s hd
    have h2 := READ_CTRL_BIT_spec (READ_CTRL_BIT 8 s) h1.2.1
    have f1 := READ_Follows s hd
    have f2 := READ_Follows (READ_CTRL_BIT 8 s) h1.2.1
    unfold deltaDecodeLoop
    simp only
    by_cases hc : (READ_CTRL_BIT 8 (READ_CTRL_BIT 8 s)).carry ≠ 0
    · rw [if_pos hc]
      obtain ⟨t, v, e, hf⟩ := ih (READ_CTRL_BIT 8 (READ_CTRL_BIT 8 s))
        (((val <<< 1) + (READ_CTRL_BIT 8 s).carry) % 2 ^ P.bits) h2.2.1 (by omega)
      exact ⟨t, v, e, Follows_trans hf (Follows_trans f2 f1)⟩
    · rw [if_neg hc]
      exact ⟨_, _, rfl, Follows_trans f2 f1⟩

theorem deltaDecodeLoopNarrow_total (P : DeltaParams) :
    ∀ (fuel : Nat) (s : BitState) (val : Nat), s.data < 256 → s.weight < fuel →
    ∃ t v, deltaDecodeLoopNarrow P fuel s val = some (t, v) ∧ t.Follows s := by
  intro fuel
  induction fuel with
  | zero => intro s _ _ h; omega
  | succ n ih =>
    intro s val hd hw
    have h1 := READ_CTRL_BIT_spec s hd
    have h2 := READ_CTRL_BIT_spec (READ_CTRL_BIT 8 s) h1.2.1
    have h3 := READ_CTRL_BIT_spec (READ_CTRL_BIT 8 (READ_CTRL_BIT 8 s)) h2.2.1
    have f1 := READ_Follows s hd
    have f2 := READ_Follows (READ_CTRL_BIT 8 s) h1.2.1
    have f3 := READ_Follows (READ_CTRL_BIT 8 (READ_CTRL_BIT 8 s)) h2.2.1
    have f123 := Follows_trans f3 (Follows_trans f2 f1)
    unfold deltaDecodeLoopNarrow
    simp only
    by_cases hc : (READ_CTRL_BIT 8 (READ_CTRL_BIT 8 (READ_CTRL_BIT 8 s))).carry ≠ 0
    · rw [if_pos hc]
      obtain ⟨t, v, e, hf⟩ := ih (READ_CTRL_BIT 8 (READ_CTRL_BIT 8 (READ_CTRL_BIT 8 s)))
        ((((((val <<< 1) + (READ_CTRL_BIT 8 s).carry) % 2 ^ P.bits) <<< 1) +
          (READ_CTRL_BIT 8 (READ_CTRL_BIT 8 s)).carry) % 2 ^ P.bits) h3.2.1 (by omega)
      exact ⟨t, v, e, Follows_trans hf f123⟩
    · rw [if_neg hc]
      exact ⟨_, _, rfl, f123⟩

theorem deltaDecode_total (P : DeltaParams) (fuel : Nat) (s : BitState) (dh val : Nat)
    (hd : s.data < 256) (hw : s.weight < fuel) :
    ∃ t v, deltaDecode P fuel s dh val = some (t, v) ∧ t.Follows s := by
  unfold deltaDecode
  split
  · exact deltaDecodeLoopNarrow_total P fuel s val hd hw
  · exact deltaDecodeLoop_total P fuel s val hd hw

theorem readLowBits_Follows (P : DeltaParams) : ∀ (cl : Nat) (s : BitState) (val : Nat),
    s.data < 256 → (readLowBits P cl s val).1.Follows s := by
  intro cl
  induction cl with
  | zero => intro s val hd; exact Follows_refl s hd
  | succ k ih =>
    intro s val hd
    have f1 := READ_Follows s hd
    unfold readLowBits
    exact Follows_trans (ih _ _ f1.1) f1

theorem deltaCode_total (P : DeltaParams) (fuel : Nat) (s : BitState) (dh : Nat)
    (hd : s.data < 256) (hw : s.weight < fuel) :
    ∃ r, deltaCode P fuel s dh = some r ∧ r.1.Follows s := by
  obtain ⟨t, v, e, hf⟩ := deltaDecode_total P fuel s dh 0 hd hw
  unfold deltaCode
  rw [e]
  exact ⟨_, rfl, Follows_trans (readLowBits_Follows P dh t v hf.1) hf⟩

theorem deltaSampleStep_total (P : DeltaParams) (fuel : Nat) :
    StepTotal fuel (deltaSampleStep P fuel) := by
  intro st hd hw
  obtain ⟨r, e, hf⟩ := deltaCode_total P fuel st.bs st.dh hd hw
  unfold deltaSampleStep
  rw [e]
  exact ⟨_, rfl, hf.1, hf.2.1⟩

theorem deltaPredictionStep_total (P : DeltaParams) (fuel : Nat) :
    StepTotal fuel (deltaPredictionStep P fuel) := by
  intro st hd hw
  obtain ⟨r, e, hf⟩ := deltaCode_total P fuel st.bs st.dh hd hw
  unfold deltaPredictionStep
  rw [e]
  exact ⟨_, rfl, hf.1, hf.2.1⟩

theorem deltaChannel_total (fuel : Nat) (step : DeltaState → Option (DeltaState × Int))
    (hstep : StepTotal fuel step) (numChannels chn : Nat) :
    ∀ (n k : Nat) (st : DeltaState) (dst : List Int), st.bs.data < 256 → st.bs.weight < fuel →
    ∃ r, deltaChannel step numChannels chn n k st dst = some r ∧
      r.1.bs.data < 256 ∧ r.1.bs.weight ≤ st.bs.weight ∧ r.2.length = dst.length := by
  intro n
  induction n with
  | zero => intro k st dst hd _; exact ⟨_, rfl, hd, le_refl _, rfl⟩
  | succ m ih =>
    intro k st dst hd hw
    obtain ⟨r, e, h1, h2⟩ := hstep st hd hw
    unfold deltaChannel
    rw [e]
    obtain ⟨r2, e2, g1, g2, g3⟩ := ih (k + 1) r.1 (dst.set (chn + k * numChannels) r.2) h1
      (by omega)
    exact ⟨r2, e2, g1, by omega, by rw [g3, List.length_set]⟩

theorem deltaChannels_total (fuel : Nat) (step : DeltaState → Option (DeltaState × Int))
    (hstep : StepTotal fuel step) (length numChannels : Nat) :
    ∀ (n chn : Nat) (st : DeltaState) (dst : List Int), st.bs.data < 256 →
    st.bs.weight < fuel →
    ∃ r, deltaChannels step length numChannels n chn st dst = some r ∧
      r.2.length = dst.length := by
  intro n
  induction n with
  | zero => intro chn st dst _ _; exact ⟨_, rfl, rfl⟩
  | succ m ih =>
    intro chn st dst hd hw
    obtain ⟨r, e, h1, h2, h3⟩ := deltaChannel_total fuel step hstep numChannels chn length 0
      st dst hd hw
    unfold deltaChannels
    rw [e]
    obtain ⟨r2, e2, g⟩ := ih (chn + 1) r.1 r.2 h1 (by omega)
    exact ⟨r2, e2, by rw [g, h3]⟩

theorem UnpackMO3DeltaSample_total (P : DeltaParams) (file : FileReader)
    (length numChannels : Nat) :
    ∃ d, UnpackMO3DeltaSample P file length numChannels = some d ∧
      d.length = length * numChannels := by
  obtain ⟨r, e, h⟩ := deltaChannels_total (deltaFuel file) _
    (deltaSampleStep_total P (deltaFuel file)) length numChannels numChannels 0
    (deltaInit P file) (List.replicate (length * numChannels) 0)
    (by show 0 < 256; norm_num)
    (by show 9 * file.BytesLeft + dataWeight 0 < 9 * file.BytesLeft + 2
        have : dataWeight 0 = 1 := by decide
        omega)
  unfold UnpackMO3DeltaSample
  rw [e]
  exact ⟨_, rfl, by rw [h]; simp⟩

theorem UnpackMO3DeltaPredictionSample_total (P : DeltaParams) (file : FileReader)
    (length numChannels : Nat) :
    ∃ d, UnpackMO3DeltaPredictionSample P file length numChannels = some d ∧
      d.length = length * numChannels := by
  obtain ⟨r, e, h⟩ := deltaChannels_total (deltaFuel file) _
    (deltaPredictionStep_total P (deltaFuel file)) length numChannels numChannels 0
    (deltaInit P file) (List.replicate (length * numChannels) 0)
    (by show 0 < 256; norm_num)
    (by show 9 * file.BytesLeft + dataWeight 0 < 9 * file.BytesLeft + 2
        have : dataWeight 0 = 1 := by decide
        omega)
  unfold UnpackMO3DeltaPredictionSample
  rw [e]
  exact ⟨_, rfl, by rw [h]; simp⟩

/-! ## The sample loop -/

theorem loadSampleData_total (E : Environment) (h : MO3Sample) (sample : ModSample)
    (file : FileReader) : ∃ r, loadSampleData E h sample file = some r := by
  unfold loadSampleData
  simp only
  split
  · exact ⟨_, rfl⟩
  · split
    · split
      · obtain ⟨d, e, _⟩ := UnpackMO3DeltaSample_total
          (if h.flags &&& MO3Sample.smp16Bit ≠ 0 then MO3Delta16BitParams else MO3Delta8BitParams)
          (file.ReadChunk (toU32 h.compressedSize)).1
          sample.nLength
          (ModSample.GetNumChannels { sample with
            is16Bit := sample.is16Bit || decide (h.flags &&& MO3Sample.smp16Bit ≠ 0),
            isStereo := sample.isStereo || decide (h.flags &&& MO3Sample.smpStereo ≠ 0) })
        rw [e]
        exact ⟨_, rfl⟩
      · exact ⟨_, rfl⟩
    · split
      · split
        · obtain ⟨d, e, _⟩ := UnpackMO3DeltaPredictionSample_total
            (if h.flags &&& MO3Sample.smp16Bit ≠ 0 then MO3Delta16BitParams
              else MO3Delta8BitParams)
            (file.ReadChunk (toU32 h.compressedSize)).1
            sample.nLength
            (ModSample.GetNumChannels { sample with
              is16Bit := sample.is16Bit || decide (h.flags &&& MO3Sample.smp16Bit ≠ 0),
              isStereo := sample.isStereo || decide (h.flags &&& MO3Sample.smpStereo ≠ 0) })
          rw [e]
          exact ⟨_, rfl⟩
        · exact ⟨_, rfl⟩
      · exact ⟨_, rfl⟩

theorem parseSampleRecord_InChunk {c : List Nat} (version : Nat) (f : FileReader)
    (h : InChunk c f) : InChunk c (parseSampleRecord version f).2.2.2 := by
  unfold parseSampleRecord
  simp only
  have h1 := InChunk_ReadNullString h
  split
  · exact (InChunk_ReadBytes _ (InChunk_ReadNullString h1)).1
  · exact (InChunk_ReadBytes _ h1).1

theorem readSamples_spec {c : List Nat} (E : Environment) (type : MODTYPE) (version : Nat)
    (lf : ModLoadingFlags) : ∀ (n : Nat) (st : SampleLoop), InChunk c st.musicChunk →
    readSamples E type version lf n st ≠ .outOfFuel ∧
    ∀ r, readSamples E type version lf n st = .done r → InChunk c r.musicChunk := by
  intro n
  induction n with
  | zero =>
    intro st h
    refine ⟨by simp [readSamples], ?_⟩
    intro r e
    simp only [readSamples, Run.done.injEq] at e
    subst e
    exact h
  | succ k ih =>
    intro st h
    have hrec := parseSampleRecord_InChunk version st.musicChunk h
    unfold readSamples
    simp only
    split
    · refine ⟨by simp, ?_⟩
      intro r e
      simp only [Run.done.injEq] at e
      subst e
      exact hrec
    · rename_i bytes _
      have hchunk : InChunk c
          (if version ≥ 5 ∧ (parseSample bytes).flags &&& MO3Sample.smpCompressionMask
              = MO3Sample.smpSharedOGG
           then (parseSampleRecord version st.musicChunk).2.2.2.Skip 2
           else (parseSampleRecord version st.musicChunk).2.2.2) := by
        split
        · exact (InChunk_Skip 2 hrec).1
        · exact hrec
      split
      · exact ih _ hchunk
      · split
        · obtain ⟨r, er⟩ := loadSampleData_total E (parseSample bytes)
            ((parseSample bytes).ConvertToMPT E type version) st.file
          rw [er]
          exact ih _ hchunk
        · split
          · split
            · exact ⟨by simp, by intro r e; simp at e⟩
            · split
              · exact ⟨by simp, by intro r e; simp at e⟩
              · exact ih _ hchunk
          · exact ih _ hchunk

/-! ## ReadMO3 after the header -/

theorem InChunk_ReadChunk {c : List Nat} {f : FileReader} (n : Nat) (h : InChunk c f) :
    InChunk c (f.ReadChunk n).2 :=
  (InChunk_Skip n h).1

theorem loadMusicChunk_accepted (K : Constants) (E : Environment)
    (lf : ModLoadingFlags) (version : Nat) (musicData : List Nat) (file : FileReader)
    (hd : MO3FileHeader) (h : musicHeader musicData = some hd) (hacc : headerAccepted K hd) :
    loadMusicChunk K E lf version musicData file ≠ .outOfFuel ∧
    ∀ res, loadMusicChunk K E lf version musicData file = .done res →
      ∃ m, res = .loaded m ∧ InChunk musicData m.musicChunk := by
  unfold musicHeader at h
  unfold headerAccepted at hacc
  have h0 : InChunk musicData ⟨musicData, 0⟩ := ⟨rfl, Nat.zero_le _⟩
  have h1 := InChunk_ReadNullString h0
  have h2 := InChunk_ReadNullString h1
  have h3 := (InChunk_ReadBytes sizeofMO3FileHeader h2).1
  unfold loadMusicChunk
  simp only
  cases hb : ((FileReader.mk musicData 0).ReadNullString.2.ReadNullString.2.ReadBytes
      sizeofMO3FileHeader).1 with
  | none => rw [hb] at h; simp at h
  | some bytes =>
    rw [hb] at h
    simp only [Option.map_some', Option.some.injEq] at h
    simp only [h]
    rw [if_neg hacc]
    have h4 := InChunk_readOrders hd.numOrders h3
    have h5 := InChunk_ReadChunk (hd.numPatterns * hd.numChannels * 2) h4
    have h6 := InChunk_ReadChunk (hd.numPatterns * 2) h5
    have h7 := InChunk_readTracks hd.numTracks _ h6
    have hp := readPatterns_fuel K E (chooseType hd.flags) lf hd.numChannels
      (readTracks hd.numTracks (((readOrders
        ((FileReader.mk musicData 0).ReadNullString.2.ReadNullString.2.ReadBytes
          sizeofMO3FileHeader).2 hd.numOrders).2.ReadChunk
          (hd.numPatterns * hd.numChannels * 2)).2.ReadChunk (hd.numPatterns * 2)).2).1
      hd.numPatterns 0
      (((readOrders ((FileReader.mk musicData 0).ReadNullString.2.ReadNullString.2.ReadBytes
          sizeofMO3FileHeader).2 hd.numOrders).2.ReadChunk
          (hd.numPatterns * hd.numChannels * 2)).2.ReadChunk (hd.numPatterns * 2)).1
      ((readOrders ((FileReader.mk musicData 0).ReadNullString.2.ReadNullString.2.ReadBytes
          sizeofMO3FileHeader).2 hd.numOrders).2.ReadChunk
          (hd.numPatterns * hd.numChannels * 2)).1
    split
    · exact ⟨by simp, by intro res e; simp at e⟩
    · rename_i e; exact absurd e hp
    · obtain ⟨ins, ei, hi⟩ := readInstruments_total (c := musicData) E
        (decide (chooseType hd.flags = MOD_TYPE_IT ∧
          hd.flags &&& MO3FileHeader.instrumentMode = 0)) version hd.numInstruments 1 _ h7
      rw [ei]
      simp only
      have hs := readSamples_spec (c := musicData) E (chooseType hd.flags) version lf
        hd.numSamples { samples := [ModSample.Initial], musicChunk := ins.2, file := file,
                        unsupportedSamples := false } hi
      split
      · exact ⟨by simp, by intro res e; simp at e⟩
      · rename_i e; exact absurd e hs.1
      · rename_i smp es
        obtain ⟨plug, ep, hpl⟩ := readPlugins_total (c := musicData) hd.numChannels
          smp.musicChunk (hs.2 smp es)
        rw [ep]
        simp only
        refine ⟨by simp, ?_⟩
        intro res e
        simp only [Run.done.injEq] at e
        exact ⟨_, e.symm, hpl⟩

theorem readInstruments_break (E : Environment) (version n ins : Nat) (mc : FileReader)
    (ha : E.AllocateInstrument ins = true) (hrec : (parseInstrument version mc).2.2.1 = none) :
    readInstruments E false version (n + 1) ins mc =
      some ([some { name := (parseInstrument version mc).1,
                    filename := (parseInstrument version mc).2.1, record := none }],
            (parseInstrument version mc).2.2.2) := by
  rw [readInstruments, if_neg (by simp [ha])]
  simp only [hrec]

theorem readSamples_break (E : Environment) (type : MODTYPE) (version : Nat)
    (lf : ModLoadingFlags) (n : Nat) (st : SampleLoop)
    (hrec : (parseSampleRecord version st.musicChunk).2.2.1 = none) :
    readSamples E type version lf (n + 1) st =
      .done { st with musicChunk := (parseSampleRecord version st.musicChunk).2.2.2 } := by
  rw [readSamples]
  simp only [hrec]

theorem loaded_returns (r : Run LoadResult) (m : Module) (h : r.loaded = some m) :
    r.returns = some true := by
  cases r with
  | done res =>
    cases res with
    | loaded m2 => rfl
    | rejected => simp [Run.loaded] at h
    | verified => simp [Run.loaded] at h
  | undefined => simp [Run.loaded] at h
  | outOfFuel => simp [Run.loaded] at h

/-- C7 (as amended). For a container that passes the container checks and whose music
chunk `r.out` has been unpacked: when the chunk ends before the file header is complete,
`ReadMO3` returns false; when the header is accepted, `ReadMO3` never returns false,
whatever record the chunk ends in, and when it returns it returns true with the chunk
cursor still inside the chunk; an instrument record or sample record that the chunk
ends in stops the loop over those records at that record (`break`). -/
theorem ReadMO3_truncated_music_chunk (K : Constants) (E : Environment)
    (data : List Nat) (p : Nat) (lf : ModLoadingFlags) (r : UnpackResult)
    (hfull : lf ≠ onlyVerifyHeader) (hlen : 12 ≤ data.length) (hmagic : hasMagic data = true)
    (hsize : 422 < containerMusicSize data) (hver : containerVersion data ≤ 5)
    (hr : UnpackMO3Data (containerStream data) (containerMusicSize data) = some r)
    (hok : r.ok = true) :
    (musicHeader r.out = none → ReadMO3 K E ⟨data, p⟩ lf = .done .rejected) ∧
    (∀ hd, musicHeader r.out = some hd → headerAccepted K hd →
      ReadMO3 K E ⟨data, p⟩ lf ≠ .outOfFuel ∧
      ∀ res, ReadMO3 K E ⟨data, p⟩ lf = .done res →
        ∃ m, res = .loaded m ∧ res.returns = true ∧ InChunk r.out m.musicChunk) ∧
    (∀ n ins mc, E.AllocateInstrument ins = true →
      (parseInstrument (containerVersion data) mc).2.2.1 = none →
      readInstruments E false (containerVersion data) (n + 1) ins mc =
        some ([some { name := (parseInstrument (containerVersion data) mc).1,
                      filename := (parseInstrument (containerVersion data) mc).2.1,
                      record := none }],
              (parseInstrument (containerVersion data) mc).2.2.2)) ∧
    (∀ type n st, (parseSampleRecord (containerVersion data) st.musicChunk).2.2.1 = none →
      readSamples E type (containerVersion data) lf (n + 1) st =
        .done { st with
          musicChunk := (parseSampleRecord (containerVersion data) st.musicChunk).2.2.2 }) := by
  have he : ReadMO3 K E ⟨data, p⟩ lf =
      loadMusicChunk K E lf (containerVersion data) r.out (containerAfterMusic data r.file) := by
    rw [ReadMO3_eq K E data p lf hlen, if_neg (by simp [hmagic]), if_neg (by omega),
      if_neg hfull, if_neg (by omega), hr]
    simp only [hok, not_true_eq_false, if_false]
  refine ⟨?_, ?_, ?_, ?_⟩
  · intro hnone
    rw [he]
    exact loadMusicChunk_header_truncated K E lf _ _ _ hnone
  · intro hd hh hacc
    rw [he]
    obtain ⟨h1, h2⟩ := loadMusicChunk_accepted K E lf (containerVersion data) r.out
      (containerAfterMusic data r.file) hd hh hacc
    refine ⟨h1, ?_⟩
    intro res eres
    obtain ⟨m, em, hin⟩ := h2 res eres
    exact ⟨m, em, by rw [em]; rfl, hin⟩
  · intro n ins mc ha hrec
    exact readInstruments_break E _ n ins mc ha hrec
  · intro type n st hrec
    exact readSamples_break E type _ lf n st hrec
set_option maxRecDepth 1000000 in
theorem exampleContainer_layout :
    exampleContainer =
      [0x4D, 0x4F, 0x33, 0, 0xA8, 0x01, 0, 0] ++ 0 :: (literalGroups 0 exampleChunk.tail ++ []) := by
  decide

set_option maxRecDepth 1000000 in
theorem exampleContainer_facts :
    exampleContainer.length = 485 ∧ hasMagic exampleContainer = true ∧
    containerMusicSize exampleContainer = 424 ∧ containerVersion exampleContainer = 0 ∧
    exampleChunk.tail.length = 423 ∧ (literalGroups 0 exampleChunk.tail).length = 476 ∧
    (0 :: exampleChunk.tail).map (· % 256) = exampleChunk := by
  decide

theorem exampleContainer_unpack :
    UnpackMO3Data (containerStream exampleContainer) (containerMusicSize exampleContainer) =
      some { ok := true, out := exampleChunk, file := ⟨exampleContainer, 485⟩ } := by
  obtain ⟨_, _, hs, hv, hl, hg, hm⟩ := exampleContainer_facts
  have h := unpack_literals_at [0x4D, 0x4F, 0x33, 0, 0xA8, 0x01, 0, 0] 0 exampleChunk.tail []
  rw [← exampleContainer_layout, hl, hg, hm] at h
  unfold containerStream
  rw [hs, hv]
  exact h

set_option maxRecDepth 1000000 in
theorem exampleChunk_load :
    (loadMusicChunk openmptConstants exampleEnvironment ⟨true, true, true⟩ 0 exampleChunk
      ⟨exampleContainer, 485⟩).loaded.map
        (fun m => (m.header.numInstruments, m.instruments, m.musicChunk.BytesLeft)) =
      some (1, [some { name := [], filename := [], record := none }], 0) := by
  decide

theorem exampleContainer_run :
    ReadMO3 openmptConstants exampleEnvironment ⟨exampleContainer, 0⟩ ⟨true, true, true⟩ =
      loadMusicChunk openmptConstants exampleEnvironment ⟨true, true, true⟩ 0 exampleChunk
        ⟨exampleContainer, 485⟩ := by
  obtain ⟨hl, hm, hs, hv, _⟩ := exampleContainer_facts
  rw [ReadMO3_eq _ _ _ _ _ (by omega), if_neg (by simp [hm]), if_neg (by omega),
    if_neg (by decide), if_neg (by omega), exampleContainer_unpack]
  simp only [not_true_eq_false, if_false, containerAfterMusic, hv]
  rfl

/-- C7 (counterexample). The music chunk of `exampleContainer` holds the two empty
strings and a complete file header announcing one instrument, and ends there: the
instrument record is missing entirely. A full load returns true; the instrument slot
is allocated without a record and the chunk cursor is at the end of the chunk. -/
theorem ReadMO3_truncated_instrument_returns_true :
    (ReadMO3 openmptConstants exampleEnvironment ⟨exampleContainer, 0⟩
      ⟨true, true, true⟩).returns = some true ∧
    (ReadMO3 openmptConstants exampleEnvironment ⟨exampleContainer, 0⟩
      ⟨true, true, true⟩).loaded.map
        (fun m => (m.header.numInstruments, m.instruments, m.musicChunk.BytesLeft)) =
      some (1, [some { name := [], filename := [], record := none }], 0) := by
  rw [exampleContainer_run]
  have h := exampleChunk_load
  cases hl : (loadMusicChunk openmptConstants exampleEnvironment ⟨true, true, true⟩ 0
      exampleChunk ⟨exampleContainer, 485⟩).loaded with
  | none => rw [hl] at h; simp at h
  | some m => exact ⟨loaded_returns _ m hl, by rw [← hl]; exact h⟩

set_option maxRecDepth 1000000 in
theorem ReadMO3_truncated_music_chunk_witness :
    ((⟨true, true, true⟩ : ModLoadingFlags) ≠ onlyVerifyHeader ∧
      12 ≤ exampleContainer.length ∧ hasMagic exampleContainer = true ∧
      422 < containerMusicSize exampleContainer ∧ containerVersion exampleContainer ≤ 5) ∧
    readInstruments exampleEnvironment false (containerVersion exampleContainer) (0 + 1) 1
        ⟨exampleChunk, 424⟩ =
      some ([some { name := (parseInstrument (containerVersion exampleContainer)
                      ⟨exampleChunk, 424⟩).1,
                    filename := (parseInstrument (containerVersion exampleContainer)
                      ⟨exampleChunk, 424⟩).2.1,
                    record := none }],
            (parseInstrument (containerVersion exampleContainer) ⟨exampleChunk, 424⟩).2.2.2) :=
  have hf := exampleContainer_facts
  ⟨⟨by decide, by omega, hf.2.1, by omega, by omega⟩,
    (ReadMO3_truncated_music_chunk openmptConstants exampleEnvironment exampleContainer 0
      ⟨true, true, true⟩ { ok := true, out := exampleChunk, file := ⟨exampleContainer, 485⟩ }
      (by decide) (by omega) hf.2.1 (by omega) (by omega) exampleContainer_unpack rfl).2.2.1
      0 1 ⟨exampleChunk, 424⟩ rfl (by rw [hf.2.2.2.1]; decide)⟩

/-! ## Single pattern commands -/

theorem applyCommand_0x01 (K : Constants) (type : MODTYPE) (m : ModCommand) (v : Nat) :
    applyCommand K type m 0x01 v =
      if v < 120 then { m with note := (v + noteOffset K type) % 256 }
      else if v = 0xFF then { m with note := K.NOTE_KEYOFF }
      else if v = 0xFE then { m with note := K.NOTE_NOTECUT }
      else { m with note := K.NOTE_FADE } := rfl

theorem applyCommand_0x06 (K : Constants) (type : MODTYPE) (m : ModCommand) (v : Nat) :
    applyCommand K type m 0x06 v =
      if m.volcmd = VOLCMD_NONE ∧ type = MOD_TYPE_XM ∧ v &&& 0x0F = 0 then
        { m with volcmd := VOLCMD_TONEPORTAMENTO, vol := v >>> 4 }
      else if m.volcmd = VOLCMD_NONE ∧ type = MOD_TYPE_IT then
        match portaVolIndex K v with
        | some i => { m with volcmd := VOLCMD_TONEPORTAMENTO, vol := i }
        | none => { m with command := CMD_TONEPORTAMENTO, param := v }
      else { m with command := CMD_TONEPORTAMENTO, param := v } := rfl

theorem applyCommand_0x07 (K : Constants) (type : MODTYPE) (m : ModCommand) (v : Nat) :
    applyCommand K type m 0x07 v =
      if m.volcmd = VOLCMD_NONE ∧ v < 10 ∧ type = MOD_TYPE_IT then
        { m with volcmd := VOLCMD_VIBRATODEPTH, vol := v }
      else { m with command := CMD_VIBRATO, param := v } := rfl

theorem applyCommand_0x0B (K : Constants) (type : MODTYPE) (m : ModCommand) (v : Nat) :
    applyCommand K type m 0x0B v =
      if m.volcmd = VOLCMD_NONE ∧ type = MOD_TYPE_IT ∧ v = 0xFF then
        { m with volcmd := VOLCMD_PANNING, vol := 64 }
      else if m.volcmd = VOLCMD_NONE ∧
          ((type = MOD_TYPE_IT ∧ v &&& 0x03 = 0) ∨ (type = MOD_TYPE_XM ∧ v &&& 0x0F = 0)) then
        { m with volcmd := VOLCMD_PANNING, vol := v / 4 }
      else { m with command := CMD_PANNING8, param := v } := rfl

theorem applyCommand_0x0F (K : Constants) (type : MODTYPE) (m : ModCommand) (v : Nat) :
    applyCommand K type m 0x0F v =
      if type ≠ MOD_TYPE_MOD ∧ m.volcmd = VOLCMD_NONE ∧ v ≤ 64 then
        { m with volcmd := VOLCMD_VOLUME, vol := v }
      else { m with command := CMD_VOLUME, param := v } := rfl

theorem applyCommand_0x22 (K : Constants) (type : MODTYPE) (m : ModCommand) (x : Nat) :
    applyCommand K type m 0x22 x =
      if m.command = CMD_TONEPORTAMENTO then { m with command := CMD_TONEPORTAVOL, param := x }
      else if m.command = CMD_VIBRATO then { m with command := CMD_VIBRATOVOL, param := x }
      else { m with command := CMD_VOLUMESLIDE, param := x } := rfl

/-- C11: note code 0x01 with operand `v` changes only the note of the cell: for
`v < 120` it becomes `v` plus the dialect's origin (`NOTE_MIN` for IT, `NOTE_MIN + 13`
for MTM, `NOTE_MIN + 12` for every other dialect), for `0xFF` note-off, for `0xFE`
note-cut and for every other operand note-fade. The origin is small enough that the byte
sum does not wrap (`NOTE_MIN` is 1 in OpenMPT). -/
theorem applyCommand_note (K : Constants) (type : MODTYPE) (m : ModCommand) (v : Nat)
    (hK : K.NOTE_MIN + 13 + 119 < 256) :
    applyCommand K type m 0x01 v =
      { m with note :=
          if v < 120 then
            v + (if type = MOD_TYPE_IT then K.NOTE_MIN
                 else if type = MOD_TYPE_MTM then K.NOTE_MIN + 13
                 else K.NOTE_MIN + 12)
          else if v = 0xFF then K.NOTE_KEYOFF
          else if v = 0xFE then K.NOTE_NOTECUT
          else K.NOTE_FADE } := by
  rw [applyCommand_0x01]
  by_cases h1 : v < 120
  · rw [if_pos h1, if_pos h1]
    have hoff : (v + noteOffset K type) % 256 =
        v + (if type = MOD_TYPE_IT then K.NOTE_MIN
             else if type = MOD_TYPE_MTM then K.NOTE_MIN + 13 else K.NOTE_MIN + 12) := by
      unfold noteOffset
      cases type <;> simp <;> omega
    rw [hoff]
  · rw [if_neg h1, if_neg h1]
    by_cases h2 : v = 0xFF
    · rw [if_pos h2, if_pos h2]
    · rw [if_neg h2, if_neg h2]
      by_cases h3 : v = 0xFE
      · rw [if_pos h3, if_pos h3]
      · rw [if_neg h3, if_neg h3]

theorem applyCommand_note_witness :
    applyCommand openmptConstants MOD_TYPE_MTM ModCommand.Empty 0x01 0x3C =
      { ModCommand.Empty with note := 0x3C + 14 } ∧
    applyCommand openmptConstants MOD_TYPE_IT ModCommand.Empty 0x01 0x3C =
      { ModCommand.Empty with note := 0x3C + 1 } ∧
    applyCommand openmptConstants MOD_TYPE_XM ModCommand.Empty 0x01 0x80 =
      { ModCommand.Empty with note := 0xFD } :=
  ⟨applyCommand_note openmptConstants MOD_TYPE_MTM ModCommand.Empty 0x3C (by decide),
   applyCommand_note openmptConstants MOD_TYPE_IT ModCommand.Empty 0x3C (by decide),
   applyCommand_note openmptConstants MOD_TYPE_XM ModCommand.Empty 0x80 (by decide)⟩

/-- C12 as stated fails: in the IT event `12 0F 20 07 05` the vibrato pair with operand
5 meets a cell whose volume column already holds the volume command, and the cell gets
the effect-column vibrato, not the volume-column vibrato depth. -/
theorem applyCommand_vibrato_volume_column_taken :
    eventCell openmptConstants MOD_TYPE_IT ⟨[0x12, 0x0F, 0x20, 0x07, 0x05, 0x00], 0⟩ =
      applyCommand openmptConstants MOD_TYPE_IT
        { ModCommand.Empty with volcmd := VOLCMD_VOLUME, vol := 0x20 } 0x07 5 ∧
    applyCommand openmptConstants MOD_TYPE_IT
        { ModCommand.Empty with volcmd := VOLCMD_VOLUME, vol := 0x20 } 0x07 5 =
      { ModCommand.Empty with volcmd := VOLCMD_VOLUME, vol := 0x20,
                              command := CMD_VIBRATO, param := 5 } ∧
    applyCommand openmptConstants MOD_TYPE_IT
        { ModCommand.Empty with volcmd := VOLCMD_VOLUME, vol := 0x20 } 0x07 5 ≠
      { ({ ModCommand.Empty with volcmd := VOLCMD_VOLUME, vol := 0x20 } : ModCommand) with
        volcmd := VOLCMD_VIBRATODEPTH, vol := 5 } := by
  decide

/-- C12 (amended): vibrato code 0x07 with operand `v`: when the dialect is IT, `v < 10`
and the volume column of the cell is still empty, the cell gets the volume-column
vibrato-depth command with value `v` and nothing else changes; in every other case the
effect column becomes the vibrato command with parameter `v` and nothing else changes. -/
theorem applyCommand_vibrato (K : Constants) (type : MODTYPE) (m : ModCommand) (v : Nat) :
    (type = MOD_TYPE_IT ∧ v < 10 ∧ m.volcmd = VOLCMD_NONE →
      applyCommand K type m 0x07 v = { m with volcmd := VOLCMD_VIBRATODEPTH, vol := v }) ∧
    (¬ (type = MOD_TYPE_IT ∧ v < 10 ∧ m.volcmd = VOLCMD_NONE) →
      applyCommand K type m 0x07 v = { m with command := CMD_VIBRATO, param := v }) := by
  constructor
  · rintro ⟨h1, h2, h3⟩
    rw [applyCommand_0x07, if_pos ⟨h3, h2, h1⟩]
  · intro h
    rw [applyCommand_0x07, if_neg (fun hh => h ⟨hh.2.2, hh.2.1, hh.1⟩)]

theorem applyCommand_vibrato_witness :
    applyCommand openmptConstants MOD_TYPE_IT ModCommand.Empty 0x07 5 =
      { ModCommand.Empty with volcmd := VOLCMD_VIBRATODEPTH, vol := 5 } ∧
    applyCommand openmptConstants MOD_TYPE_S3M ModCommand.Empty 0x07 5 =
      { ModCommand.Empty with command := CMD_VIBRATO, param := 5 } :=
  ⟨(applyCommand_vibrato openmptConstants MOD_TYPE_IT ModCommand.Empty 5).1
      ⟨rfl, by decide, rfl⟩,
   (applyCommand_vibrato openmptConstants MOD_TYPE_S3M ModCommand.Empty 5).2 (by decide)⟩

/-- C13: volume-slide code 0x22 with operand `x`: an effect command that is already
tone-portamento becomes tone-portamento+volume-slide, one that is already vibrato
becomes vibrato+volume-slide, any other becomes volume-slide; the effect parameter
becomes `x`; note, instrument and volume column are unchanged. -/
theorem applyCommand_volume_slide (K : Constants) (type : MODTYPE) (m : ModCommand) (x : Nat) :
    applyCommand K type m 0x22 x =
      { m with
        command :=
          if m.command = CMD_TONEPORTAMENTO then CMD_TONEPORTAVOL
          else if m.command = CMD_VIBRATO then CMD_VIBRATOVOL
          else CMD_VOLUMESLIDE,
        param := x } ∧
    (applyCommand K type m 0x22 x).note = m.note ∧
    (applyCommand K type m 0x22 x).instr = m.instr ∧
    (applyCommand K type m 0x22 x).volcmd = m.volcmd ∧
    (applyCommand K type m 0x22 x).vol = m.vol ∧
    (applyCommand K type m 0x22 x).param = x := by
  rw [applyCommand_0x22]
  by_cases h1 : m.command = CMD_TONEPORTAMENTO
  · simp only [if_pos h1, and_self]
  · by_cases h2 : m.command = CMD_VIBRATO
    · simp only [if_neg h1, if_pos h2, and_self]
    · simp only [if_neg h1, if_neg h2, and_self]

theorem readCommands_two (K : Constants) (type : MODTYPE) (a b c d : Nat) (m : ModCommand) :
    (readCommands K type 2 ⟨[a, b, c, d], 0⟩ m).1 =
      applyCommand K type (applyCommand K type m (a % 256) (b % 256)) (c % 256) (d % 256) := by
  simp [readCommands, FileReader.ReadArray2]

/-- C14 (amended): the two-pair events of the command-table note, applied to an empty
cell. In S3M `07 00 22 x` gives `CMD_VIBRATOVOL` and `06 00 22 x` gives
`CMD_TONEPORTAVOL`, with parameter `x`. In IT the pair `07 00` is taken by the empty
volume column (operand below 10), so `07 00 22 x` gives `CMD_VOLUMESLIDE` with parameter
`x` next to a volume-column vibrato depth 0; and the pair `06 00` is taken by the empty
volume column whenever 0 is among the first ten entries of `ImpulseTrackerPortaVolCmd`
(it is entry 0 in OpenMPT), so `06 00 22 x` gives `CMD_VOLUMESLIDE` with parameter `x`
next to a volume-column tone portamento, and `CMD_TONEPORTAVOL` otherwise. -/
theorem readCommands_combined_slides (K : Constants) (x : Nat) :
    (readCommands K MOD_TYPE_S3M 2 ⟨[0x07, 0x00, 0x22, x], 0⟩ ModCommand.Empty).1 =
      { ModCommand.Empty with command := CMD_VIBRATOVOL, param := x % 256 } ∧
    (readCommands K MOD_TYPE_S3M 2 ⟨[0x06, 0x00, 0x22, x], 0⟩ ModCommand.Empty).1 =
      { ModCommand.Empty with command := CMD_TONEPORTAVOL, param := x % 256 } ∧
    (readCommands K MOD_TYPE_IT 2 ⟨[0x07, 0x00, 0x22, x], 0⟩ ModCommand.Empty).1 =
      { ModCommand.Empty with volcmd := VOLCMD_VIBRATODEPTH, vol := 0,
                              command := CMD_VOLUMESLIDE, param := x % 256 } ∧
    (readCommands K MOD_TYPE_IT 2 ⟨[0x06, 0x00, 0x22, x], 0⟩ ModCommand.Empty).1 =
      (match portaVolIndex K 0 with
       | some i => { ModCommand.Empty with volcmd := VOLCMD_TONEPORTAMENTO, vol := i,
                                           command := CMD_VOLUMESLIDE, param := x % 256 }
       | none => { ModCommand.Empty with command := CMD_TONEPORTAVOL, param := x % 256 }) ∧
    (readCommands openmptConstants MOD_TYPE_IT 2 ⟨[0x06, 0x00, 0x22, x], 0⟩
        ModCommand.Empty).1 =
      { ModCommand.Empty with volcmd := VOLCMD_TONEPORTAMENTO, vol := 0,
                              command := CMD_VOLUMESLIDE, param := x % 256 } ∧
    decodeChannel openmptConstants MOD_TYPE_IT 1 ⟨[0x12, 0x07, 0x00, 0x22, 0x05, 0x00], 0⟩ =
      some [{ ModCommand.Empty with volcmd := VOLCMD_VIBRATODEPTH, vol := 0,
                                    command := CMD_VOLUMESLIDE, param := 5 }] ∧
    decodeChannel openmptConstants MOD_TYPE_S3M 1 ⟨[0x12, 0x07, 0x00, 0x22, 0x05, 0x00], 0⟩ =
      some [{ ModCommand.Empty with command := CMD_VIBRATOVOL, param := 5 }] := by
  have hI : portaVolIndex openmptConstants 0 = some 0 := by decide
  have hIT : decodeChannel openmptConstants MOD_TYPE_IT 1
      ⟨[0x12, 0x07, 0x00, 0x22, 0x05, 0x00], 0⟩ =
      some [{ ModCommand.Empty with volcmd := VOLCMD_VIBRATODEPTH, vol := 0,
                                    command := CMD_VOLUMESLIDE, param := 5 }] := by decide
  have hS3M : decodeChannel openmptConstants MOD_TYPE_S3M 1
      ⟨[0x12, 0x07, 0x00, 0x22, 0x05, 0x00], 0⟩ =
      some [{ ModCommand.Empty with command := CMD_VIBRATOVOL, param := 5 }] := by decide
  refine ⟨?_, ?_, ?_, ?_, ?_, hIT, hS3M⟩
  all_goals simp only [readCommands_two, Nat.reduceMod]
  all_goals rw [applyCommand_0x22]
  · rw [applyCommand_0x07]; simp [ModCommand.Empty]
  · rw [applyCommand_0x06]; simp [ModCommand.Empty]
  · rw [applyCommand_0x07]; simp [ModCommand.Empty]
  · rw [applyCommand_0x06]
    cases hp : portaVolIndex K 0 <;> simp [ModCommand.Empty]
  · rw [applyCommand_0x06, hI]; simp [ModCommand.Empty]

/-- C15: panning code 0x0B with byte operand `v` on a cell whose volume column is still
empty: IT with `v = 0xFF` gives volume-column panning 64; IT with `v` a multiple of 4,
or XM with `v` a multiple of 16, gives volume-column panning `v / 4`; every other case
gives the 8-bit panning effect with parameter `v`. A volume-column panning value
produced is at most 64. -/
theorem applyCommand_panning (K : Constants) (type : MODTYPE) (m : ModCommand) (v : Nat)
    (hm : m.volcmd = VOLCMD_NONE) (hv : v < 256) :
    (type = MOD_TYPE_IT ∧ v = 0xFF →
      applyCommand K type m 0x0B v = { m with volcmd := VOLCMD_PANNING, vol := 64 }) ∧
    ((type = MOD_TYPE_IT ∧ v % 4 = 0) ∨ (type = MOD_TYPE_XM ∧ v % 16 = 0) →
      applyCommand K type m 0x0B v = { m with volcmd := VOLCMD_PANNING, vol := v / 4 }) ∧
    (¬ (type = MOD_TYPE_IT ∧ v = 0xFF) ∧ ¬ (type = MOD_TYPE_IT ∧ v % 4 = 0) ∧
        ¬ (type = MOD_TYPE_XM ∧ v % 16 = 0) →
      applyCommand K type m 0x0B v = { m with command := CMD_PANNING8, param := v }) ∧
    ((applyCommand K type m 0x0B v).volcmd = VOLCMD_PANNING →
      (applyCommand K type m 0x0B v).vol ≤ 64) := by
  have e3 : v &&& 0x03 = v % 4 := Nat.and_pow_two_sub_one_eq_mod v 2
  have e15 : v &&& 0x0F = v % 16 := Nat.and_pow_two_sub_one_eq_mod v 4
  rw [applyCommand_0x0B, e3, e15]
  refine ⟨?_, ?_, ?_, ?_⟩
  · rintro ⟨h1, h2⟩
    rw [if_pos ⟨hm, h1, h2⟩]
  · intro h
    have hne : ¬ (m.volcmd = VOLCMD_NONE ∧ type = MOD_TYPE_IT ∧ v = 0xFF) := by
      rintro ⟨-, h1, h2⟩
      rcases h with ⟨-, h4⟩ | ⟨h3, -⟩
      · omega
      · rw [h1] at h3; exact absurd h3 (by decide)
    rw [if_neg hne, if_pos ⟨hm, h⟩]
  · rintro ⟨h1, h2, h3⟩
    rw [if_neg (fun hh => h1 hh.2), if_neg (fun hh => hh.2.elim h2 h3)]
  · by_cases c1 : m.volcmd = VOLCMD_NONE ∧ type = MOD_TYPE_IT ∧ v = 0xFF
    · rw [if_pos c1]; intro _; exact Nat.le_refl 64
    · rw [if_neg c1]
      by_cases c2 : m.volcmd = VOLCMD_NONE ∧
          ((type = MOD_TYPE_IT ∧ v % 4 = 0) ∨ (type = MOD_TYPE_XM ∧ v % 16 = 0))
      · rw [if_pos c2]; intro _
        show v / 4 ≤ 64
        omega
      · rw [if_neg c2]; intro h
        rw [hm] at h; exact absurd h (by decide)

theorem applyCommand_panning_witness :
    applyCommand openmptConstants MOD_TYPE_IT ModCommand.Empty 0x0B 0xFF =
      { ModCommand.Empty with volcmd := VOLCMD_PANNING, vol := 64 } ∧
    applyCommand openmptConstants MOD_TYPE_XM ModCommand.Empty 0x0B 0x30 =
      { ModCommand.Empty with volcmd := VOLCMD_PANNING, vol := 0x30 / 4 } ∧
    applyCommand openmptConstants MOD_TYPE_XM ModCommand.Empty 0x0B 0x34 =
      { ModCommand.Empty with command := CMD_PANNING8, param := 0x34 } :=
  ⟨(applyCommand_panning openmptConstants MOD_TYPE_IT ModCommand.Empty 0xFF rfl
      (by decide)).1 ⟨rfl, rfl⟩,
   (applyCommand_panning openmptConstants MOD_TYPE_XM ModCommand.Empty 0x30 rfl
      (by decide)).2.1 (Or.inr ⟨rfl, by decide⟩),
   (applyCommand_panning openmptConstants MOD_TYPE_XM ModCommand.Empty 0x34 rfl
      (by decide)).2.2.1 ⟨by decide, by decide, by decide⟩⟩

/-- C16: volume code 0x0F with operand `v` on a cell whose volume column is still
empty: when the dialect is not MOD and `v ≤ 64` the cell gets the volume-column volume
command with value `v` (effect column untouched); otherwise the effect column becomes
the volume effect with parameter `v`. -/
theorem applyCommand_volume (K : Constants) (type : MODTYPE) (m : ModCommand) (v : Nat)
    (hm : m.volcmd = VOLCMD_NONE) :
    (type ≠ MOD_TYPE_MOD ∧ v ≤ 64 →
      applyCommand K type m 0x0F v = { m with volcmd := VOLCMD_VOLUME, vol := v }) ∧
    (type = MOD_TYPE_MOD ∨ 64 < v →
      applyCommand K type m 0x0F v = { m with command := CMD_VOLUME, param := v }) := by
  rw [applyCommand_0x0F]
  constructor
  · rintro ⟨h1, h2⟩
    rw [if_pos ⟨h1, hm, h2⟩]
  · intro h
    have hne : ¬ (type ≠ MOD_TYPE_MOD ∧ m.volcmd = VOLCMD_NONE ∧ v ≤ 64) := by
      rintro ⟨h1, -, h2⟩
      rcases h with h | h
      · exact h1 h
      · omega
    rw [if_neg hne]

theorem applyCommand_volume_witness :
    applyCommand openmptConstants MOD_TYPE_S3M ModCommand.Empty 0x0F 0x40 =
      { ModCommand.Empty with volcmd := VOLCMD_VOLUME, vol := 0x40 } ∧
    applyCommand openmptConstants MOD_TYPE_MOD ModCommand.Empty 0x0F 0x40 =
      { ModCommand.Empty with command := CMD_VOLUME, param := 0x40 } :=
  ⟨(applyCommand_volume openmptConstants MOD_TYPE_S3M ModCommand.Empty 0x40 rfl).1
      ⟨by decide, by decide⟩,
   (applyCommand_volume openmptConstants MOD_TYPE_MOD ModCommand.Empty 0x40 rfl).2
      (Or.inl rfl)⟩

theorem find?_range' (p : Nat → Bool) (i : Nat) (hp : p i = true) :
    ∀ (n s : Nat), s ≤ i → i < s + n → (∀ j, s ≤ j → j < i → p j = false) →
      (List.range' s n).find? p = some i := by
  intro n
  induction n with
  | zero => intro s h1 h2 _; omega
  | succ n ih =>
    intro s h1 h2 h3
    rw [List.range'_succ, List.find?_cons]
    by_cases hs : s = i
    · subst hs
      rw [hp]
    · rw [h3 s (Nat.le_refl s) (by omega)]
      exact ih (s + 1) (by omega) (by omega) (fun j hj1 hj2 => h3 j (by omega) hj2)

theorem portaVolIndex_first (K : Constants) (v i : Nat) (hi : i < 10)
    (hv : K.ImpulseTrackerPortaVolCmd.getD i 0 = v)
    (hfirst : ∀ j, j < i → K.ImpulseTrackerPortaVolCmd.getD j 0 ≠ v) :
    portaVolIndex K v = some i := by
  unfold portaVolIndex
  rw [List.range_eq_range']
  apply find?_range' _ i (by simpa using hv) 10 0 (Nat.zero_le i) (by omega)
  intro j _ hj
  simpa using hfirst j hj

theorem portaVolIndex_none (K : Constants) (v : Nat)
    (h : ∀ j, j < 10 → K.ImpulseTrackerPortaVolCmd.getD j 0 ≠ v) :
    portaVolIndex K v = none := by
  unfold portaVolIndex
  rw [List.find?_eq_none]
  intro j hj
  simpa using h j (List.mem_range.mp hj)

/-- C17: tone-portamento code 0x06 with operand `v` on a cell whose volume column is
still empty, the volume-command table having its 10 entries: in XM with the low nibble
of `v` zero the cell gets volume-column tone-portamento with value `v >> 4`; in IT with
`v` equal to entry `i` of the table (the first such entry) it gets volume-column
tone-portamento with value `i`, which is below 10; in both cases the effect column is
untouched; in every other case the effect column becomes tone-portamento with parameter
`v` and the volume column is untouched. -/
theorem applyCommand_tone_portamento (K : Constants) (type : MODTYPE) (m : ModCommand)
    (v : Nat) (hm : m.volcmd = VOLCMD_NONE)
    (hlen : K.ImpulseTrackerPortaVolCmd.length = 10) :
    (type = MOD_TYPE_XM ∧ v % 16 = 0 →
      applyCommand K type m 0x06 v =
        { m with volcmd := VOLCMD_TONEPORTAMENTO, vol := v / 16 }) ∧
    (∀ i, type = MOD_TYPE_IT → K.ImpulseTrackerPortaVolCmd[i]? = some v →
        (∀ j, j < i → K.ImpulseTrackerPortaVolCmd[j]? ≠ some v) →
      i < 10 ∧
      applyCommand K type m 0x06 v = { m with volcmd := VOLCMD_TONEPORTAMENTO, vol := i }) ∧
    (¬ (type = MOD_TYPE_XM ∧ v % 16 = 0) ∧
        ¬ (type = MOD_TYPE_IT ∧ v ∈ K.ImpulseTrackerPortaVolCmd) →
      applyCommand K type m 0x06 v = { m with command := CMD_TONEPORTAMENTO, param := v }) := by
  have e15 : v &&& 0x0F = v % 16 := Nat.and_pow_two_sub_one_eq_mod v 4
  have e4 : v >>> 4 = v / 16 := Nat.shiftRight_eq_div_pow v 4
  have hget : ∀ j, j < 10 → K.ImpulseTrackerPortaVolCmd[j]? =
      some (K.ImpulseTrackerPortaVolCmd.getD j 0) := by
    intro j hj
    rw [List.getD_eq_getElem?_getD, List.getElem?_eq_getElem (by omega)]
    rfl
  rw [applyCommand_0x06, e15, e4]
  refine ⟨?_, ?_, ?_⟩
  · rintro ⟨h1, h2⟩
    rw [if_pos ⟨hm, h1, h2⟩]
  · intro i hIT hi hfirst
    have hi10 : i < 10 := by
      rcases Nat.lt_or_ge i 10 with h | h
      · exact h
      · rw [List.getElem?_eq_none (by omega)] at hi
        exact absurd hi (by simp)
    refine ⟨hi10, ?_⟩
    have hx : ¬ (m.volcmd = VOLCMD_NONE ∧ type = MOD_TYPE_XM ∧ v % 16 = 0) := by
      rintro ⟨-, h, -⟩
      rw [hIT] at h; exact absurd h (by decide)
    rw [if_neg hx, if_pos ⟨hm, hIT⟩]
    have hidx : portaVolIndex K v = some i := by
      apply portaVolIndex_first K v i hi10
      · rw [hget i hi10] at hi
        exact Option.some.inj hi
      · intro j hj hjv
        apply hfirst j hj
        rw [hget j (by omega), hjv]
    rw [hidx]
  · rintro ⟨h1, h2⟩
    rw [if_neg (fun hh => h1 hh.2)]
    by_cases hIT : type = MOD_TYPE_IT
    · rw [if_pos ⟨hm, hIT⟩]
      have hidx : portaVolIndex K v = none := by
        apply portaVolIndex_none
        intro j hj hjv
        apply h2
        refine ⟨hIT, ?_⟩
        rw [List.mem_iff_getElem?]
        exact ⟨j, by rw [hget j hj, hjv]⟩
      rw [hidx]
    · rw [if_neg (fun hh => hIT hh.2)]

theorem applyCommand_tone_portamento_witness :
    applyCommand openmptConstants MOD_TYPE_XM ModCommand.Empty 0x06 0x30 =
      { ModCommand.Empty with volcmd := VOLCMD_TONEPORTAMENTO, vol := 0x30 / 16 } ∧
    (3 < 10 ∧
     applyCommand openmptConstants MOD_TYPE_IT ModCommand.Empty 0x06 0x08 =
      { ModCommand.Empty with volcmd := VOLCMD_TONEPORTAMENTO, vol := 3 }) ∧
    applyCommand openmptConstants MOD_TYPE_IT ModCommand.Empty 0x06 0x09 =
      { ModCommand.Empty with command := CMD_TONEPORTAMENTO, param := 0x09 } :=
  ⟨(applyCommand_tone_portamento openmptConstants MOD_TYPE_XM ModCommand.Empty 0x30 rfl
      rfl).1 ⟨rfl, by decide⟩,
   (applyCommand_tone_portamento openmptConstants MOD_TYPE_IT ModCommand.Empty 0x08 rfl
      rfl).2.1 3 rfl rfl (by decide),
   (applyCommand_tone_portamento openmptConstants MOD_TYPE_IT ModCommand.Empty 0x09 rfl
      rfl).2.2 ⟨by decide, by decide⟩⟩

theorem applyCommand_default_skip (K : Constants) (type : MODTYPE) (m : ModCommand)
    (code v : Nat) (h : 0x33 ≤ code) : applyCommand K type m code v = m := by
  have hl : effTrans.length = 51 := rfl
  unfold applyCommand
  rw [hl]
  iterate 17 rw [if_neg (by omega)]

/-- C18: the translation table has 51 entries; for every code from 0x33 on and every
operand the pair leaves the working cell unchanged, and the command loop goes on with
the remaining pairs of the event as if the pair were not there. -/
theorem applyCommand_unmapped (K : Constants) (type : MODTYPE) (m : ModCommand)
    (code v : Nat) (h : 0x33 ≤ code) :
    effTrans.length = 0x33 ∧
    applyCommand K type m code v = m ∧
    ∀ (n : Nat) (track : FileReader), track.pos + 2 ≤ track.data.length →
      track.data.getD track.pos 0 % 256 = code →
      readCommands K type (n + 1) track m =
        readCommands K type n { track with pos := track.pos + 2 } m := by
  refine ⟨rfl, applyCommand_default_skip K type m code v h, ?_⟩
  intro n track hlen hcode
  rw [readCommands]
  simp only [FileReader.ReadArray2, if_pos hlen, hcode]
  rw [applyCommand_default_skip K type m code _ h]

theorem applyCommand_unmapped_witness :
    effTrans.length = 0x33 ∧
    applyCommand openmptConstants MOD_TYPE_XM (exampleNoteCell openmptConstants MOD_TYPE_XM)
      0x99 7 = exampleNoteCell openmptConstants MOD_TYPE_XM ∧
    readCommands openmptConstants MOD_TYPE_XM 2 ⟨[0x99, 0x07, 0x02, 0x04], 0⟩
        (exampleNoteCell openmptConstants MOD_TYPE_XM) =
      readCommands openmptConstants MOD_TYPE_XM 1 ⟨[0x99, 0x07, 0x02, 0x04], 2⟩
        (exampleNoteCell openmptConstants MOD_TYPE_XM) :=
  ⟨(applyCommand_unmapped openmptConstants MOD_TYPE_XM
      (exampleNoteCell openmptConstants MOD_TYPE_XM) 0x99 7 (by decide)).1,
   (applyCommand_unmapped openmptConstants MOD_TYPE_XM
      (exampleNoteCell openmptConstants MOD_TYPE_XM) 0x99 7 (by decide)).2.1,
   (applyCommand_unmapped openmptConstants MOD_TYPE_XM
      (exampleNoteCell openmptConstants MOD_TYPE_XM) 0x99 7 (by decide)).2.2 1
      ⟨[0x99, 0x07, 0x02, 0x04], 0⟩ (by decide) (by decide)⟩

/-! ## The sample loop, one pass at a time -/

theorem readSamples_succ (E : Environment) (type : MODTYPE) (version : Nat)
    (lf : ModLoadingFlags) (n : Nat) (st : SampleLoop) :
    readSamples E type version lf (n + 1) st =
      match nextSampleHeader version st.musicChunk with
      | none => .done { st with musicChunk := afterSampleRecord version st.musicChunk }
      | some h =>
        match nextSample E type version lf st h with
        | .done r =>
          readSamples E type version lf n
            { samples := st.samples ++ [r.1], musicChunk := afterSampleRecord version st.musicChunk,
              file := r.2.1, unsupportedSamples := st.unsupportedSamples || r.2.2 }
        | .undefined => .undefined
        | .outOfFuel => .outOfFuel := by
  rw [readSamples]
  cases hrec : (parseSampleRecord version st.musicChunk).2.2.1 with
  | none =>
    have hh : nextSampleHeader version st.musicChunk = none := by
      unfold nextSampleHeader; rw [hrec]; rfl
    have ha : afterSampleRecord version st.musicChunk =
        (parseSampleRecord version st.musicChunk).2.2.2 := by
      unfold afterSampleRecord; simp only [hrec]
    simp only [hh, ha]
  | some bytes =>
    have hh : nextSampleHeader version st.musicChunk = some (parseSample bytes) := by
      unfold nextSampleHeader; rw [hrec]; rfl
    have ha : afterSampleRecord version st.musicChunk =
        (if version ≥ 5 ∧ (parseSample bytes).flags &&& MO3Sample.smpCompressionMask
            = MO3Sample.smpSharedOGG
         then (parseSampleRecord version st.musicChunk).2.2.2.Skip 2
         else (parseSampleRecord version st.musicChunk).2.2.2) := by
      unfold afterSampleRecord; simp only [hrec]
    simp only [hh, ← ha]
    unfold nextSample
    by_cases h1 : lf.loadSampleData = true
    · simp only [h1, not_true_eq_false, if_false]
      by_cases h2 : (parseSample bytes).compressedSize > 0
      · simp only [if_pos h2]
        cases hl : loadSampleData E (parseSample bytes)
            ((parseSample bytes).ConvertToMPT E type version) st.file with
        | none => rfl
        | some r => rfl
      · simp only [if_neg h2]
        by_cases h3 : (parseSample bytes).compressedSize < 0 ∧
            wrap32 (-(parseSample bytes).compressedSize) < (st.samples.length : Int)
        · simp only [if_pos h3]
          by_cases h4 : (st.samples.length : Int) + (parseSample bytes).compressedSize < 0
          · simp only [if_pos h4]
          · simp only [if_neg h4]
            cases hs : st.samples[((st.samples.length : Int) +
                (parseSample bytes).compressedSize).toNat]? with
            | none => rfl
            | some smpFrom => simp only [Bool.or_false]
        · simp only [if_neg h3, Bool.or_false]
    · have h1f : lf.loadSampleData = false := by simpa using h1
      simp [h1f]

theorem nextSample_ne_outOfFuel (E : Environment) (type : MODTYPE) (version : Nat)
    (lf : ModLoadingFlags) (st : SampleLoop) (h : MO3Sample) :
    nextSample E type version lf st h ≠ .outOfFuel := by
  unfold nextSample
  simp only
  split
  · simp
  · split
    · obtain ⟨r, er⟩ := loadSampleData_total E h (h.ConvertToMPT E type version) st.file
      rw [er]
      simp
    · split
      · split
        · simp
        · split <;> simp
      · simp

theorem readSamples_extends (E : Environment) (type : MODTYPE) (version : Nat)
    (lf : ModLoadingFlags) : ∀ (n : Nat) (st fin : SampleLoop),
    readSamples E type version lf n st = .done fin →
      st.samples <+: fin.samples ∧
      (st.unsupportedSamples = true → fin.unsupportedSamples = true) := by
  intro n
  induction n with
  | zero =>
    intro st fin e
    simp only [readSamples, Run.done.injEq] at e
    subst e
    exact ⟨List.prefix_refl _, id⟩
  | succ k ih =>
    intro st fin e
    rw [readSamples_succ] at e
    cases hh : nextSampleHeader version st.musicChunk with
    | none =>
      simp only [hh, Run.done.injEq] at e
      subst e
      exact ⟨List.prefix_refl _, id⟩
    | some h =>
      simp only [hh] at e
      cases hs : nextSample E type version lf st h with
      | done r =>
        simp only [hs] at e
        obtain ⟨h1, h2⟩ := ih _ fin e
        refine ⟨List.IsPrefix.trans (List.prefix_append _ _) h1, ?_⟩
        intro hu
        apply h2
        show (st.unsupportedSamples || r.2.2) = true
        rw [hu]; rfl
      | undefined => simp [hs] at e
      | outOfFuel => simp [hs] at e

theorem nextSampleHeader_range (version : Nat) (f : FileReader) (h : MO3Sample)
    (e : nextSampleHeader version f = some h) :
    -2147483648 ≤ h.compressedSize ∧ h.compressedSize < 2147483648 := by
  unfold nextSampleHeader at e
  cases hrec : (parseSampleRecord version f).2.2.1 with
  | none => rw [hrec] at e; simp at e
  | some bytes =>
    rw [hrec] at e
    simp only [Option.map_some', Option.some.injEq] at e
    subst e
    exact toI32_range _

theorem nextSample_alias (E : Environment) (type : MODTYPE) (version : Nat)
    (lf : ModLoadingFlags) (st : SampleLoop) (h : MO3Sample) (k : Nat)
    (hload : lf.loadSampleData = true)
    (hrange : -2147483648 ≤ h.compressedSize)
    (hk : h.compressedSize = -(k : Int)) (h1 : 1 ≤ k) (h2 : k < st.samples.length) :
    ∃ smpFrom, st.samples[st.samples.length - k]? = some smpFrom ∧
      nextSample E type version lf st h =
        .done (aliasSample E (h.ConvertToMPT E type version) smpFrom, st.file, false) := by
  have hlt : st.samples.length - k < st.samples.length := by omega
  refine ⟨st.samples[st.samples.length - k], List.getElem?_eq_getElem hlt, ?_⟩
  unfold nextSample
  have c1 : ¬ (h.compressedSize > 0) := by omega
  have c2 : h.compressedSize < 0 ∧ wrap32 (-h.compressedSize) < (st.samples.length : Int) := by
    refine ⟨by omega, ?_⟩
    unfold wrap32
    omega
  have c3 : ¬ ((st.samples.length : Int) + h.compressedSize < 0) := by omega
  have c4 : ((st.samples.length : Int) + h.compressedSize).toNat = st.samples.length - k := by
    omega
  simp only [hload, not_true_eq_false, if_false, if_neg c1, if_pos c2, if_neg c3, c4,
    List.getElem?_eq_getElem hlt]

theorem aliasSample_fields (E : Environment) (sample smpFrom : ModSample) :
    (aliasSample E sample smpFrom).nLength = min sample.nLength smpFrom.nLength ∧
    (aliasSample E sample smpFrom).is16Bit = smpFrom.is16Bit ∧
    (aliasSample E sample smpFrom).isStereo = smpFrom.isStereo ∧
    (aliasSample E sample smpFrom).nC5Speed = sample.nC5Speed ∧
    (aliasSample E sample smpFrom).GetNumChannels = smpFrom.GetNumChannels := by
  unfold aliasSample
  cases hd : smpFrom.pSample with
  | none => simp [ModSample.GetNumChannels]
  | some d =>
    simp only
    split <;> simp [ModSample.GetNumChannels]

theorem aliasSample_data (E : Environment) (sample smpFrom : ModSample) (d : List Int)
    (hd : smpFrom.pSample = some d)
    (ha : E.AllocateSample (min sample.nLength smpFrom.nLength) = true) :
    (aliasSample E sample smpFrom).pSample =
      some (d.take (min sample.nLength smpFrom.nLength * smpFrom.GetNumChannels)) := by
  unfold aliasSample
  simp only [hd, ha, if_true]
  rfl

theorem slot_of_extends {α : Type} {l1 l2 : List α} (h : l1 <+: l2) {i : Nat} {a : α}
    (hi : l1[i]? = some a) : l2[i]? = some a := by
  obtain ⟨t, rfl⟩ := h
  have hlt : i < l1.length := by
    rcases Nat.lt_or_ge i l1.length with hh | hh
    · exact hh
    · rw [List.getElem?_eq_none hh] at hi
      exact absurd hi (by simp)
  rw [List.getElem?_append_left hlt]
  exact hi

/-- C19: when sample data is loaded and the record of slot `s` (the slot after the ones
filled so far) has compressed size `-k` with `1 ≤ k < s`, the pass of the loop stores an
alias of slot `s - k` and goes on: the length is the smaller of the declared length and
the length of slot `s - k`, the 16-bit and stereo flags are those of slot `s - k`, and,
when slot `s - k` has data and the buffer can be allocated, the data is the leading part
of that data, `length × channels` values long when the source buffer has its full size.
Both slots are still so when the loop ends. -/
theorem readSamples_alias (E : Environment) (type : MODTYPE) (version : Nat)
    (lf : ModLoadingFlags) (n : Nat) (st : SampleLoop) (h : MO3Sample) (k : Nat)
    (hload : lf.loadSampleData = true)
    (hrec : nextSampleHeader version st.musicChunk = some h)
    (hk : h.compressedSize = -(k : Int)) (h1 : 1 ≤ k) (h2 : k < st.samples.length) :
    ∃ smpFrom new,
      st.samples[st.samples.length - k]? = some smpFrom ∧
      readSamples E type version lf (n + 1) st =
        readSamples E type version lf n
          { st with samples := st.samples ++ [new],
                    musicChunk := afterSampleRecord version st.musicChunk } ∧
      (∀ fin, readSamples E type version lf (n + 1) st = .done fin →
        fin.samples[st.samples.length]? = some new ∧
        fin.samples[st.samples.length - k]? = some smpFrom) ∧
      new.nLength = min h.length smpFrom.nLength ∧
      new.is16Bit = smpFrom.is16Bit ∧
      new.isStereo = smpFrom.isStereo ∧
      (∀ d, smpFrom.pSample = some d → E.AllocateSample new.nLength = true →
        new.pSample = some (d.take (new.nLength * new.GetNumChannels)) ∧
        (d.length = smpFrom.nLength * smpFrom.GetNumChannels →
          (d.take (new.nLength * new.GetNumChannels)).length =
            new.nLength * new.GetNumChannels)) := by
  obtain ⟨smpFrom, hfrom, hnext⟩ := nextSample_alias E type version lf st h k hload
    (nextSampleHeader_range version st.musicChunk h hrec).1 hk h1 h2
  obtain ⟨f1, f2, f3, -, f5⟩ := aliasSample_fields E (h.ConvertToMPT E type version) smpFrom
  have hstep : readSamples E type version lf (n + 1) st =
      readSamples E type version lf n
        { st with samples := st.samples ++ [aliasSample E (h.ConvertToMPT E type version) smpFrom],
                  musicChunk := afterSampleRecord version st.musicChunk } := by
    rw [readSamples_succ]
    simp only [hrec, hnext, Bool.or_false]
  refine ⟨smpFrom, aliasSample E (h.ConvertToMPT E type version) smpFrom, hfrom, hstep,
    ?_, f1, f2, f3, ?_⟩
  · intro fin hfin
    rw [hstep] at hfin
    obtain ⟨hpre, -⟩ := readSamples_extends E type version lf n _ fin hfin
    have hnew : (st.samples ++ [aliasSample E (h.ConvertToMPT E type version) smpFrom])[
        st.samples.length]? =
          some (aliasSample E (h.ConvertToMPT E type version) smpFrom) := by
      simp
    have hold : (st.samples ++ [aliasSample E (h.ConvertToMPT E type version) smpFrom])[
        st.samples.length - k]? = some smpFrom := by
      rw [List.getElem?_append_left (by omega)]
      exact hfrom
    exact ⟨slot_of_extends hpre hnew, slot_of_extends hpre hold⟩
  · intro d hd ha
    rw [f1] at ha
    have hdata := aliasSample_data E (h.ConvertToMPT E type version) smpFrom d hd ha
    rw [f5, f1]
    refine ⟨hdata, ?_⟩
    intro hlen
    rw [List.length_take, hlen]
    apply Nat.min_eq_left
    exact Nat.mul_le_mul_right _ (Nat.min_le_right _ _)

set_option maxRecDepth 1000000 in
theorem readSamples_alias_witness :
    readSamples exampleEnvironment MOD_TYPE_XM 0 ⟨true, true, true⟩ 1 exampleAliasState =
      .done { exampleAliasState with
        samples := exampleAliasState.samples ++
          [{ nLength := 2, is16Bit := false, isStereo := false, nC5Speed := none,
             pSample := some [10, 20] }],
        musicChunk := ⟨exampleAliasState.musicChunk.data, 42⟩ } ∧
    ∃ smpFrom new,
      exampleAliasState.samples[exampleAliasState.samples.length - 1]? = some smpFrom ∧
      readSamples exampleEnvironment MOD_TYPE_XM 0 ⟨true, true, true⟩ (0 + 1)
          exampleAliasState =
        readSamples exampleEnvironment MOD_TYPE_XM 0 ⟨true, true, true⟩ 0
          { exampleAliasState with
            samples := exampleAliasState.samples ++ [new],
            musicChunk := afterSampleRecord 0 exampleAliasState.musicChunk } ∧
      (∀ fin, readSamples exampleEnvironment MOD_TYPE_XM 0 ⟨true, true, true⟩ (0 + 1)
          exampleAliasState = .done fin →
        fin.samples[exampleAliasState.samples.length]? = some new ∧
        fin.samples[exampleAliasState.samples.length - 1]? = some smpFrom) ∧
      new.nLength = min (parseSample (exampleSampleRecord 2 0 [0xFF, 0xFF, 0xFF, 0xFF]).tail).length
        smpFrom.nLength ∧
      new.is16Bit = smpFrom.is16Bit ∧
      new.isStereo = smpFrom.isStereo ∧
      (∀ d, smpFrom.pSample = some d → exampleEnvironment.AllocateSample new.nLength = true →
        new.pSample = some (d.take (new.nLength * new.GetNumChannels)) ∧
        (d.length = smpFrom.nLength * smpFrom.GetNumChannels →
          (d.take (new.nLength * new.GetNumChannels)).length =
            new.nLength * new.GetNumChannels)) :=
  ⟨by decide,
   readSamples_alias exampleEnvironment MOD_TYPE_XM 0 ⟨true, true, true⟩ 0 exampleAliasState
     (parseSample (exampleSampleRecord 2 0 [0xFF, 0xFF, 0xFF, 0xFF]).tail) 1 rfl (by decide)
     (by decide) (by decide) (by decide)⟩

/-! ## A slot without data, and the slots that copy it -/

theorem readSamples_ne_outOfFuel (E : Environment) (type : MODTYPE) (version : Nat)
    (lf : ModLoadingFlags) : ∀ (n : Nat) (st : SampleLoop),
    readSamples E type version lf n st ≠ .outOfFuel := by
  intro n
  induction n with
  | zero => intro st; simp [readSamples]
  | succ k ih =>
    intro st
    rw [readSamples_succ]
    cases hh : nextSampleHeader version st.musicChunk with
    | none => simp
    | some h =>
      simp only
      have hne := nextSample_ne_outOfFuel E type version lf st h
      cases hs : nextSample E type version lf st h with
      | done r => exact ih _
      | undefined => simp
      | outOfFuel => exact absurd hs hne

theorem aliasSample_WithoutData (E : Environment) (sample y : ModSample)
    (hs : sample.pSample = none) :
    aliasSample E sample y.WithoutData = (aliasSample E sample y).WithoutData := by
  unfold aliasSample ModSample.WithoutData
  cases hy : y.pSample with
  | none => simp [hs]
  | some d =>
    simp only
    split <;> simp [hs]

theorem aliasSample_changed (E : Environment) (sample y : ModSample)
    (hs : sample.pSample = none)
    (hne : aliasSample E sample y ≠ (aliasSample E sample y).WithoutData) :
    ∃ dj, y.pSample = some dj ∧
      (aliasSample E sample y).pSample =
        some (dj.take ((aliasSample E sample y).nLength *
          (aliasSample E sample y).GetNumChannels)) := by
  cases hy : y.pSample with
  | none =>
    exfalso
    apply hne
    unfold aliasSample ModSample.WithoutData
    simp [hy, hs]
  | some d =>
    refine ⟨d, rfl, ?_⟩
    by_cases ha : E.AllocateSample (min sample.nLength y.nLength) = true
    · obtain ⟨f1, -, -, -, f5⟩ := aliasSample_fields E sample y
      rw [f1, f5]
      exact aliasSample_data E sample y d hy ha
    · exfalso
      apply hne
      have ha2 : E.AllocateSample (min sample.nLength y.nLength) = false := by simpa using ha
      unfold aliasSample ModSample.WithoutData
      simp [hy, hs, ha2]

theorem OnlyAliasesLoseData_refl (s : Nat) (xs : List ModSample) :
    OnlyAliasesLoseData s xs xs := by
  refine ⟨rfl, ?_⟩
  intro i x y hx hy
  rw [hx] at hy
  exact Or.inl (Option.some.inj hy)

theorem OnlyAliasesLoseData_append (s : Nat) (xs ys : List ModSample) (a b : ModSample)
    (hR : OnlyAliasesLoseData s xs ys)
    (hab : a = b ∨ (a = b.WithoutData ∧
      (xs.length = s ∨ ∃ j yj dj, j < xs.length ∧ xs[j]? ≠ ys[j]? ∧ ys[j]? = some yj ∧
        yj.pSample = some dj ∧
        b.pSample = some (dj.take (b.nLength * b.GetNumChannels))))) :
    OnlyAliasesLoseData s (xs ++ [a]) (ys ++ [b]) := by
  obtain ⟨hlen, hslots⟩ := hR
  refine ⟨by simp [hlen], ?_⟩
  intro i x y hx hy
  rcases Nat.lt_trichotomy i xs.length with hi | hi | hi
  · rw [List.getElem?_append_left hi] at hx
    rw [List.getElem?_append_left (by omega)] at hy
    rcases hslots i x y hx hy with h | ⟨h, hc⟩
    · exact Or.inl h
    · refine Or.inr ⟨h, ?_⟩
      rcases hc with hc | ⟨j, yj, dj, y0, hj, hne, hyj, hd, hyi, hp⟩
      · exact Or.inl hc
      · refine Or.inr ⟨j, yj, dj, y0, hj, ?_, ?_, hd, ?_, hp⟩
        · rw [List.getElem?_append_left (by omega), List.getElem?_append_left (by omega)]
          exact hne
        · rw [List.getElem?_append_left (by omega)]
          exact hyj
        · rw [List.getElem?_append_left (by omega)]
          exact hyi
  · subst hi
    have hx2 : (xs ++ [a])[xs.length]? = some a := by simp
    have hy2 : (ys ++ [b])[xs.length]? = some b := by rw [hlen]; simp
    rw [hx2] at hx
    rw [hy2] at hy
    have ex := Option.some.inj hx
    have ey := Option.some.inj hy
    subst ex
    subst ey
    rcases hab with h | ⟨h, hc⟩
    · exact Or.inl h
    · refine Or.inr ⟨h, ?_⟩
      rcases hc with hc | ⟨j, yj, dj, hj, hne, hyj, hd, hp⟩
      · exact Or.inl hc
      · refine Or.inr ⟨j, yj, dj, _, hj, ?_, ?_, hd, hy2, hp⟩
        · rw [List.getElem?_append_left hj, List.getElem?_append_left (by omega)]
          exact hne
        · rw [List.getElem?_append_left (by omega)]
          exact hyj
  · rw [List.getElem?_eq_none (by simp; omega)] at hx
    exact absurd hx (by simp)

theorem nextSample_sim (E : Environment) (type : MODTYPE) (version : Nat)
    (lf : ModLoadingFlags) (s : Nat) (st st2 : SampleLoop) (h : MO3Sample)
    (hf : st.file = st2.file) (hR : OnlyAliasesLoseData s st.samples st2.samples) :
    (nextSample E type version lf st h = .undefined ↔
      nextSample E type version lf st2 h = .undefined) ∧
    ∀ r, nextSample E type version lf st h = .done r →
      ∃ r2, nextSample E type version lf st2 h = .done r2 ∧ r.2 = r2.2 ∧
        (r.1 = r2.1 ∨ (r.1 = r2.1.WithoutData ∧
          ∃ j yj dj, j < st.samples.length ∧ st.samples[j]? ≠ st2.samples[j]? ∧
            st2.samples[j]? = some yj ∧ yj.pSample = some dj ∧
            r2.1.pSample = some (dj.take (r2.1.nLength * r2.1.GetNumChannels)))) := by
  obtain ⟨hlen, hslots⟩ := hR
  unfold nextSample
  simp only [← hlen, ← hf]
  by_cases c0 : lf.loadSampleData = true
  · simp only [c0, not_true_eq_false, if_false]
    by_cases c1 : h.compressedSize > 0
    · simp only [if_pos c1]
      refine ⟨trivial, ?_⟩
      intro r hr
      exact ⟨r, hr, rfl, Or.inl rfl⟩
    · simp only [if_neg c1]
      by_cases c2 : h.compressedSize < 0 ∧ wrap32 (-h.compressedSize) < (st.samples.length : Int)
      · simp only [if_pos c2]
        by_cases c3 : (st.samples.length : Int) + h.compressedSize < 0
        · simp only [if_pos c3]
          exact ⟨by simp, by intro r hr; simp at hr⟩
        · simp only [if_neg c3]
          cases hx : st.samples[((st.samples.length : Int) + h.compressedSize).toNat]? with
          | none =>
            have hge : st.samples.length ≤
                ((st.samples.length : Int) + h.compressedSize).toNat := by
              rcases Nat.lt_or_ge ((st.samples.length : Int) + h.compressedSize).toNat
                st.samples.length with hh | hh
              · rw [List.getElem?_eq_getElem hh] at hx
                exact absurd hx (by simp)
              · exact hh
            rw [List.getElem?_eq_none (by omega)]
            exact ⟨by simp, by intro r hr; simp at hr⟩
          | some x =>
            have hlt : ((st.samples.length : Int) + h.compressedSize).toNat <
                st.samples.length := by
              rcases Nat.lt_or_ge ((st.samples.length : Int) + h.compressedSize).toNat
                st.samples.length with hh | hh
              · exact hh
              · rw [List.getElem?_eq_none hh] at hx
                exact absurd hx (by simp)
            have hy : st2.samples[((st.samples.length : Int) + h.compressedSize).toNat]? =
                some (st2.samples[((st.samples.length : Int) + h.compressedSize).toNat]) :=
              List.getElem?_eq_getElem (by omega)
            rw [hy]
            refine ⟨by simp, ?_⟩
            intro r hr
            simp only [Run.done.injEq] at hr
            subst hr
            refine ⟨_, rfl, rfl, ?_⟩
            have hconv : (h.ConvertToMPT E type version).pSample = none := rfl
            rcases hslots _ x _ hx hy with hxy | ⟨hxy, -⟩
            · left
              show aliasSample _ _ x = aliasSample _ _ _
              rw [hxy]
            · by_cases hsame : aliasSample E (h.ConvertToMPT E type version)
                  (st2.samples[((st.samples.length : Int) + h.compressedSize).toNat]) =
                (aliasSample E (h.ConvertToMPT E type version)
                  (st2.samples[((st.samples.length : Int) + h.compressedSize).toNat])).WithoutData
              · left
                show aliasSample _ _ x = aliasSample _ _ _
                rw [hxy, aliasSample_WithoutData E _ _ hconv, ← hsame]
              · right
                refine ⟨?_, ?_⟩
                · show aliasSample _ _ x = (aliasSample _ _ _).WithoutData
                  rw [hxy, aliasSample_WithoutData E _ _ hconv]
                · obtain ⟨dj, hdj, hp⟩ := aliasSample_changed E _ _ hconv hsame
                  refine ⟨_, _, dj, hlt, ?_, hy, hdj, hp⟩
                  rw [hx, hy]
                  intro heq
                  have hw := hxy.symm.trans (Option.some.inj heq)
                  apply hsame
                  rw [← aliasSample_WithoutData E _ _ hconv, hw]
      · simp only [if_neg c2]
        refine ⟨by simp, ?_⟩
        intro r hr
        exact ⟨r, hr, rfl, Or.inl rfl⟩
  · have c0f : lf.loadSampleData = false := by simpa using c0
    simp only [c0f]
    refine ⟨by simp, ?_⟩
    intro r hr
    exact ⟨r, by simpa using hr, rfl, Or.inl rfl⟩

theorem readSamples_sim (E : Environment) (type : MODTYPE) (version : Nat)
    (lf : ModLoadingFlags) (s : Nat) : ∀ (n : Nat) (st st2 : SampleLoop),
    st.musicChunk = st2.musicChunk → st.file = st2.file →
    OnlyAliasesLoseData s st.samples st2.samples →
    (readSamples E type version lf n st = .undefined ↔
      readSamples E type version lf n st2 = .undefined) ∧
    ∀ fin, readSamples E type version lf n st = .done fin →
      ∃ fin2, readSamples E type version lf n st2 = .done fin2 ∧
        fin.musicChunk = fin2.musicChunk ∧ fin.file = fin2.file ∧
        OnlyAliasesLoseData s fin.samples fin2.samples := by
  intro n
  induction n with
  | zero =>
    intro st st2 hm hf hR
    simp only [readSamples]
    refine ⟨by simp, ?_⟩
    intro fin hfin
    simp only [Run.done.injEq] at hfin
    subst hfin
    exact ⟨st2, rfl, hm, hf, hR⟩
  | succ k ih =>
    intro st st2 hm hf hR
    rw [readSamples_succ, readSamples_succ, ← hm]
    cases hh : nextSampleHeader version st.musicChunk with
    | none =>
      simp only
      refine ⟨by simp, ?_⟩
      intro fin hfin
      simp only [Run.done.injEq] at hfin
      subst hfin
      exact ⟨_, rfl, rfl, hf, hR⟩
    | some h =>
      simp only
      obtain ⟨hu, hd⟩ := nextSample_sim E type version lf s st st2 h hf hR
      have hne := nextSample_ne_outOfFuel E type version lf st h
      cases hs1 : nextSample E type version lf st h with
      | done r =>
        obtain ⟨r2, hr2, hfile, hrel⟩ := hd r hs1
        rw [hr2]
        simp only
        apply ih
        · rfl
        · show r.2.1 = r2.2.1
          rw [hfile]
        · apply OnlyAliasesLoseData_append s _ _ _ _ hR
          rcases hrel with hrel | ⟨hrel, hc⟩
          · exact Or.inl hrel
          · exact Or.inr ⟨hrel, Or.inr hc⟩
      | undefined =>
        rw [hu.mp hs1]
        exact ⟨by simp, by intro fin hfin; simp at hfin⟩
      | outOfFuel => exact absurd hs1 hne

theorem loadSampleData_unsupported (E : Environment) (h : MO3Sample) (sample : ModSample)
    (file : FileReader)
    (hkind : h.flags &&& MO3Sample.smpCompressionMask ≠ 0 ∧
      h.flags &&& MO3Sample.smpCompressionMask ≠ MO3Sample.smpDeltaCompression ∧
      h.flags &&& MO3Sample.smpCompressionMask ≠ MO3Sample.smpDeltaPrediction) :
    loadSampleData E h sample file =
      some ({ sample with
              is16Bit := sample.is16Bit || decide (h.flags &&& MO3Sample.smp16Bit ≠ 0),
              isStereo := sample.isStereo || decide (h.flags &&& MO3Sample.smpStereo ≠ 0) },
            (file.ReadChunk (toU32 h.compressedSize)).2, true) := by
  unfold loadSampleData
  simp only [if_neg hkind.1, if_neg hkind.2.1, if_neg hkind.2.2]

theorem loadSampleData_cursor (E : Environment) (h : MO3Sample) (sample : ModSample)
    (file : FileReader) (r : ModSample × FileReader × Bool)
    (e : loadSampleData E h sample file = some r) :
    r.2.1 = (file.ReadChunk (toU32 h.compressedSize)).2 ∧ r.1.nLength = sample.nLength ∧
    r.1.is16Bit = (sample.is16Bit || decide (h.flags &&& MO3Sample.smp16Bit ≠ 0)) ∧
    r.1.isStereo = (sample.isStereo || decide (h.flags &&& MO3Sample.smpStereo ≠ 0)) ∧
    r.1.nC5Speed = sample.nC5Speed := by
  unfold loadSampleData at e
  simp only at e
  split at e
  · simp only [Option.some.injEq] at e
    subst e
    exact ⟨rfl, rfl, rfl, rfl, rfl⟩
  · split at e
    · split at e
      · split at e
        · simp at e
        · simp only [Option.some.injEq] at e
          subst e
          exact ⟨rfl, rfl, rfl, rfl, rfl⟩
      · simp only [Option.some.injEq] at e
        subst e
        exact ⟨rfl, rfl, rfl, rfl, rfl⟩
    · split at e
      · split at e
        · split at e
          · simp at e
          · simp only [Option.some.injEq] at e
            subst e
            exact ⟨rfl, rfl, rfl, rfl, rfl⟩
        · simp only [Option.some.injEq] at e
          subst e
          exact ⟨rfl, rfl, rfl, rfl, rfl⟩
      · simp only [Option.some.injEq] at e
        subst e
        exact ⟨rfl, rfl, rfl, rfl, rfl⟩

theorem loadMusicChunk_samples (K : Constants) (E : Environment)
    (lf : ModLoadingFlags) (version : Nat) (musicData : List Nat) (file : FileReader)
    (hd : MO3FileHeader) (h : musicHeader musicData = some hd) (hacc : headerAccepted K hd) :
    ∀ res, loadMusicChunk K E lf version musicData file = .done res →
      ∃ m mc mc2, res = .loaded m ∧
        readSamples E (chooseType hd.flags) version lf hd.numSamples
            { samples := [ModSample.Initial], musicChunk := mc, file := file,
              unsupportedSamples := false } =
          .done { samples := m.samples, musicChunk := mc2, file := m.file,
                  unsupportedSamples := m.unsupportedSamples } := by
  unfold musicHeader at h
  unfold headerAccepted at hacc
  unfold loadMusicChunk
  simp only
  cases hb : ((FileReader.mk musicData 0).ReadNullString.2.ReadNullString.2.ReadBytes
      sizeofMO3FileHeader).1 with
  | none => rw [hb] at h; simp at h
  | some bytes =>
    rw [hb] at h
    simp only [Option.map_some', Option.some.injEq] at h
    simp only [h]
    rw [if_neg hacc]
    split
    · intro res e; simp at e
    · intro res e; simp at e
    · split
      · intro res e; simp at e
      · rename_i ins ei
        split
        · intro res e; simp at e
        · intro res e; simp at e
        · rename_i smp es
          split
          · intro res e; simp at e
          · rename_i plug ep
            intro res e
            simp only [Run.done.injEq] at e
            refine ⟨_, ins.2, smp.musicChunk, e.symm, ?_⟩
            exact es

/-- C20 (amended): a sample with positive compressed size whose compression kind is
none of 0, 0x2000 and 0x4000, met by the sample loop when sample data is loaded. The
pass stores the sample without PCM data, sets the warning flag, moves the container
cursor past the payload and goes on; the loop does not get stuck, the flag is still set
and the slot still without data when the loop ends. Against the load in which that slot
was decoded to whatever data `d`: the loop ends the same way, with the same cursors and
as many slots, and every other slot is the same, except that a slot which would hold a
copy of the data of a slot that differs (an alias of it) is left without PCM data as
well. The container cursor after the payload is the one any compression kind leaves
for that compressed size. A load whose header is accepted returns true when it returns,
and its samples and warning flag are those the sample loop ends with. -/
theorem readSamples_unsupported_codec (E : Environment) (type : MODTYPE) (version : Nat)
    (lf : ModLoadingFlags) (n : Nat) (st : SampleLoop) (h : MO3Sample)
    (hload : lf.loadSampleData = true)
    (hrec : nextSampleHeader version st.musicChunk = some h)
    (hsize : 0 < h.compressedSize)
    (hkind : h.flags &&& MO3Sample.smpCompressionMask ≠ 0 ∧
      h.flags &&& MO3Sample.smpCompressionMask ≠ MO3Sample.smpDeltaCompression ∧
      h.flags &&& MO3Sample.smpCompressionMask ≠ MO3Sample.smpDeltaPrediction) :
    ∃ u st1,
      u.pSample = none ∧ u.nLength = h.length ∧
      st1 = { samples := st.samples ++ [u],
              musicChunk := afterSampleRecord version st.musicChunk,
              file := (st.file.ReadChunk (toU32 h.compressedSize)).2,
              unsupportedSamples := true } ∧
      readSamples E type version lf (n + 1) st = readSamples E type version lf n st1 ∧
      readSamples E type version lf n st1 ≠ .outOfFuel ∧
      (∀ fin, readSamples E type version lf n st1 = .done fin →
        fin.unsupportedSamples = true ∧ fin.samples[st.samples.length]? = some u) ∧
      (∀ d,
        (readSamples E type version lf n st1 = .undefined ↔
          readSamples E type version lf n
            { st1 with samples := st.samples ++ [{ u with pSample := some d }],
                       unsupportedSamples := st.unsupportedSamples } = .undefined) ∧
        ∀ fin, readSamples E type version lf n st1 = .done fin →
          ∃ fin2, readSamples E type version lf n
              { st1 with samples := st.samples ++ [{ u with pSample := some d }],
                         unsupportedSamples := st.unsupportedSamples } = .done fin2 ∧
            fin.musicChunk = fin2.musicChunk ∧ fin.file = fin2.file ∧
            OnlyAliasesLoseData st.samples.length fin.samples fin2.samples) ∧
      (∀ (h2 : MO3Sample) (sample : ModSample) (r : ModSample × FileReader × Bool),
        h2.compressedSize = h.compressedSize →
        loadSampleData E h2 sample st.file = some r → r.2.1 = st1.file) ∧
      (∀ (K : Constants) (musicData : List Nat) (file : FileReader) (hd : MO3FileHeader),
        musicHeader musicData = some hd → headerAccepted K hd →
        loadMusicChunk K E lf version musicData file ≠ .outOfFuel ∧
        ∀ res, loadMusicChunk K E lf version musicData file = .done res →
          res.returns = true ∧
          ∃ m mc mc2, res = .loaded m ∧
            readSamples E (chooseType hd.flags) version lf hd.numSamples
                { samples := [ModSample.Initial], musicChunk := mc, file := file,
                  unsupportedSamples := false } =
              .done { samples := m.samples, musicChunk := mc2, file := m.file,
                      unsupportedSamples := m.unsupportedSamples }) := by
  have hl := loadSampleData_unsupported E h (h.ConvertToMPT E type version) st.file hkind
  obtain ⟨u, hu⟩ : ∃ u : ModSample, u = { (h.ConvertToMPT E type version) with
      is16Bit := (h.ConvertToMPT E type version).is16Bit ||
        decide (h.flags &&& MO3Sample.smp16Bit ≠ 0),
      isStereo := (h.ConvertToMPT E type version).isStereo ||
        decide (h.flags &&& MO3Sample.smpStereo ≠ 0) } := ⟨_, rfl⟩
  rw [← hu] at hl
  have hnext : nextSample E type version lf st h =
      .done (u, (st.file.ReadChunk (toU32 h.compressedSize)).2, true) := by
    unfold nextSample
    simp only [hload, not_true_eq_false, if_false, gt_iff_lt, if_pos hsize, hl]
  refine ⟨u, _, ?_, ?_, rfl, ?_, readSamples_ne_outOfFuel E type version lf n _, ?_, ?_, ?_,
    ?_⟩
  · rw [hu]; rfl
  · rw [hu]; rfl
  · rw [readSamples_succ]
    simp only [hrec, hnext, Bool.or_true]
  · intro fin hfin
    obtain ⟨hpre, hflag⟩ := readSamples_extends E type version lf n _ fin hfin
    exact ⟨hflag rfl, slot_of_extends hpre (by simp)⟩
  · intro d
    have hR : OnlyAliasesLoseData st.samples.length (st.samples ++ [u])
        (st.samples ++ [{ u with pSample := some d }]) := by
      apply OnlyAliasesLoseData_append _ _ _ _ _ (OnlyAliasesLoseData_refl _ _)
      refine Or.inr ⟨?_, Or.inl rfl⟩
      rw [hu]; rfl
    exact readSamples_sim E type version lf st.samples.length n
      { samples := st.samples ++ [u], musicChunk := afterSampleRecord version st.musicChunk,
        file := (st.file.ReadChunk (toU32 h.compressedSize)).2, unsupportedSamples := true }
      { samples := st.samples ++ [{ u with pSample := some d }],
        musicChunk := afterSampleRecord version st.musicChunk,
        file := (st.file.ReadChunk (toU32 h.compressedSize)).2,
        unsupportedSamples := st.unsupportedSamples } rfl rfl hR
  · intro h2 sample r hc e
    rw [(loadSampleData_cursor E h2 sample st.file r e).1, hc]
  · intro K musicData file hd hh hacc
    obtain ⟨hfuel, hres⟩ := loadMusicChunk_accepted K E lf version musicData file hd hh hacc
    refine ⟨hfuel, ?_⟩
    intro res e
    obtain ⟨m, mc, mc2, hm, hrun⟩ :=
      loadMusicChunk_samples K E lf version musicData file hd hh hacc res e
    refine ⟨?_, m, mc, mc2, hm, hrun⟩
    rw [hm]
    rfl

/-! ## Containers stored as literals -/

theorem literalGroups_length_ge : ∀ (lits : List Nat) (k : Nat),
    lits.length ≤ (literalGroups k lits).length := by
  intro lits
  induction lits with
  | nil => intro k; simp [literalGroups]
  | cons l ls ih =>
    intro k
    cases k with
    | zero =>
      have := ih 7
      simp only [literalGroups, List.length_cons]
      omega
    | succ j =>
      have := ih j
      simp only [literalGroups, List.length_cons]
      omega

theorem ReadMO3_literals (K : Constants) (E : Environment) (lf : ModLoadingFlags)
    (s0 s1 b0 : Nat) (lits rest : List Nat) (h0 : s0 < 256) (h1 : s1 < 256)
    (hs : s0 + 256 * s1 = 1 + lits.length) (hbig : 422 < 1 + lits.length)
    (hlf : lf ≠ onlyVerifyHeader) :
    ReadMO3 K E ⟨[0x4D, 0x4F, 0x33, 0, s0, s1, 0, 0] ++ b0 :: (literalGroups 0 lits ++ rest), 0⟩
        lf =
      loadMusicChunk K E lf 0 ((b0 :: lits).map (· % 256))
        ⟨[0x4D, 0x4F, 0x33, 0, s0, s1, 0, 0] ++ b0 :: (literalGroups 0 lits ++ rest),
         8 + 1 + (literalGroups 0 lits).length⟩ := by
  have hg := literalGroups_length_ge lits 0
  have hlen : 12 ≤ ([0x4D, 0x4F, 0x33, 0, s0, s1, 0, 0] ++
      b0 :: (literalGroups 0 lits ++ rest)).length := by
    simp only [List.length_append, List.length_cons, List.length_nil]
    omega
  have hmagic : hasMagic ([0x4D, 0x4F, 0x33, 0, s0, s1, 0, 0] ++
      b0 :: (literalGroups 0 lits ++ rest)) = true := by
    simp [hasMagic]
  have hsize : containerMusicSize ([0x4D, 0x4F, 0x33, 0, s0, s1, 0, 0] ++
      b0 :: (literalGroups 0 lits ++ rest)) = 1 + lits.length := by
    simp [containerMusicSize, u32At, u16At, u8At, Nat.mod_eq_of_lt h0, Nat.mod_eq_of_lt h1]
    omega
  have hver : containerVersion ([0x4D, 0x4F, 0x33, 0, s0, s1, 0, 0] ++
      b0 :: (literalGroups 0 lits ++ rest)) = 0 := by
    simp [containerVersion, u8At]
  have hun := unpack_literals_at [0x4D, 0x4F, 0x33, 0, s0, s1, 0, 0] b0 lits rest
  rw [ReadMO3_eq _ _ _ _ _ hlen, if_neg (by rw [hmagic]; simp), hsize, if_neg (by omega),
    if_neg hlf, hver, if_neg (by omega)]
  have hstream : containerStream ([0x4D, 0x4F, 0x33, 0, s0, s1, 0, 0] ++
      b0 :: (literalGroups 0 lits ++ rest)) =
      ⟨[0x4D, 0x4F, 0x33, 0, s0, s1, 0, 0] ++ b0 :: (literalGroups 0 lits ++ rest),
       [0x4D, 0x4F, 0x33, 0, s0, s1, 0, 0].length⟩ := by
    unfold containerStream
    rw [hver]
    rfl
  rw [hstream, hun]
  simp only [not_true_eq_false, if_false, containerAfterMusic, hver]
  rfl

set_option maxRecDepth 1000000 in
theorem exampleSampleContainer_facts :
    (exampleSampleChunk 0x10).tail.length = 507 ∧ (exampleSampleChunk 0x20).tail.length = 507 ∧
    (0 :: (exampleSampleChunk 0x10).tail).map (· % 256) = exampleSampleChunk 0x10 ∧
    (0 :: (exampleSampleChunk 0x20).tail).map (· % 256) = exampleSampleChunk 0x20 ∧
    (literalGroups 0 (exampleSampleChunk 0x10).tail).length = 571 ∧
    (literalGroups 0 (exampleSampleChunk 0x20).tail).length = 571 := by
  decide

theorem exampleSampleContainer_run (flagsHigh : Nat)
    (hl : (exampleSampleChunk flagsHigh).tail.length = 507)
    (hm : (0 :: (exampleSampleChunk flagsHigh).tail).map (· % 256) = exampleSampleChunk flagsHigh)
    (hg : (literalGroups 0 (exampleSampleChunk flagsHigh).tail).length = 571) :
    ReadMO3 openmptConstants exampleEnvironment ⟨exampleSampleContainer flagsHigh, 0⟩
        ⟨true, true, true⟩ =
      loadMusicChunk openmptConstants exampleEnvironment ⟨true, true, true⟩ 0
        (exampleSampleChunk flagsHigh) ⟨exampleSampleContainer flagsHigh, 580⟩ := by
  have h := ReadMO3_literals openmptConstants exampleEnvironment ⟨true, true, true⟩ 0xFC 0x01 0
    (exampleSampleChunk flagsHigh).tail [0x55] (by decide) (by decide) (by rw [hl])
    (by rw [hl]; decide) (by decide)
  rw [hm, hg] at h
  exact h

set_option maxRecDepth 1000000 in
theorem exampleSampleChunk_load :
    (loadMusicChunk openmptConstants exampleEnvironment ⟨true, true, true⟩ 0
      (exampleSampleChunk 0x10) ⟨exampleSampleContainer 0x10, 580⟩).loaded.map
        (fun m => (m.samples.map (fun s => s.pSample), m.unsupportedSamples)) =
      some ([none, none, none], true) ∧
    (loadMusicChunk openmptConstants exampleEnvironment ⟨true, true, true⟩ 0
      (exampleSampleChunk 0x20) ⟨exampleSampleContainer 0x20, 580⟩).loaded.map
        (fun m => (m.samples.map (fun s => s.pSample), m.unsupportedSamples)) =
      some ([none, some [-1, -2], some [-1, -2]], false) := by
  decide

/-- C20 as stated fails: two containers that differ only in the compression kind of
sample 1 (0x1000, which the loader does not decode, against 0x2000, delta), sample 2
being an alias of sample 1 (compressed size -1). Both loads return true. With the
unsupported kind the warning is recorded and sample 2 is left without PCM data as well
as sample 1, whereas with the supported kind sample 2 holds a copy of the data of
sample 1. -/
theorem ReadMO3_unsupported_codec_alias_without_data :
    (ReadMO3 openmptConstants exampleEnvironment ⟨exampleSampleContainer 0x10, 0⟩
      ⟨true, true, true⟩).returns = some true ∧
    (ReadMO3 openmptConstants exampleEnvironment ⟨exampleSampleContainer 0x10, 0⟩
      ⟨true, true, true⟩).loaded.map
        (fun m => (m.samples.map (fun s => s.pSample), m.unsupportedSamples)) =
      some ([none, none, none], true) ∧
    (ReadMO3 openmptConstants exampleEnvironment ⟨exampleSampleContainer 0x20, 0⟩
      ⟨true, true, true⟩).loaded.map
        (fun m => (m.samples.map (fun s => s.pSample), m.unsupportedSamples)) =
      some ([none, some [-1, -2], some [-1, -2]], false) := by
  obtain ⟨l1, l2, m1, m2, g1, g2⟩ := exampleSampleContainer_facts
  obtain ⟨e1, e2⟩ := exampleSampleChunk_load
  rw [exampleSampleContainer_run 0x10 l1 m1 g1, exampleSampleContainer_run 0x20 l2 m2 g2]
  refine ⟨?_, e1, e2⟩
  cases hl : (loadMusicChunk openmptConstants exampleEnvironment ⟨true, true, true⟩ 0
      (exampleSampleChunk 0x10) ⟨exampleSampleContainer 0x10, 580⟩).loaded with
  | none => rw [hl] at e1; simp at e1
  | some m => exact loaded_returns _ m hl

set_option maxRecDepth 1000000 in
theorem readSamples_unsupported_codec_witness :
    ∃ u st1, u.pSample = none ∧ u.nLength = 2 ∧
      readSamples exampleEnvironment MOD_TYPE_XM 0 ⟨true, true, true⟩ (1 + 1)
          exampleSampleState =
        readSamples exampleEnvironment MOD_TYPE_XM 0 ⟨true, true, true⟩ 1 st1 ∧
      ∀ fin, readSamples exampleEnvironment MOD_TYPE_XM 0 ⟨true, true, true⟩ 1 st1 = .done fin →
        fin.unsupportedSamples = true ∧ fin.samples[1]? = some u := by
  obtain ⟨u, st1, h1, h2, -, h4, -, h6, -⟩ :=
    readSamples_unsupported_codec exampleEnvironment MOD_TYPE_XM 0 ⟨true, true, true⟩ 1
      exampleSampleState (parseSample (exampleSampleRecord 2 0x10 [1, 0, 0, 0]).tail)
      rfl (by decide) (by decide) (by decide)
  exact ⟨u, st1, h1, h2.trans (by decide), h4, h6⟩

/-! ## Record conversions -/

/-- C28 as stated fails: in a revision 5 container the rate of a sample of an XM module
is not taken from the frequency field (it stays what `Initialize` set), and for an IT
module a negative field value is stored as its unsigned 32-bit conversion. -/
theorem ConvertToMPT_rate_not_from_field :
    (MO3Sample.ConvertToMPT exampleEnvironment
      (parseSample ([0x44, 0xAC, 0, 0] ++ List.replicate 37 0)) MOD_TYPE_XM 5).nC5Speed = none ∧
    (parseSample ([0x44, 0xAC, 0, 0] ++ List.replicate 37 0)).freqFinetune = 44100 ∧
    (MO3Sample.ConvertToMPT exampleEnvironment
      (parseSample ([0xFF, 0xFF, 0xFF, 0xFF] ++ List.replicate 37 0)) MOD_TYPE_IT 5).nC5Speed =
        some 4294967295 ∧
    (parseSample ([0xFF, 0xFF, 0xFF, 0xFF] ++ List.replicate 37 0)).freqFinetune = -1 := by
  decide

/-- C28 (amended): for a sample record of an IT or S3M module, a revision of 5 or more
makes the rate the frequency field converted to unsigned 32 bits (the field itself when
it is not negative), and a revision below 5 makes it the result of the finetune formula;
for the other dialects the rate is not set from the field in any revision. -/
theorem ConvertToMPT_rate (E : Environment) (h : MO3Sample) (type : MODTYPE) (version : Nat) :
    (type = MOD_TYPE_IT ∨ type = MOD_TYPE_S3M → 5 ≤ version →
      (h.ConvertToMPT E type version).nC5Speed = some (toU32 h.freqFinetune) ∧
      (0 ≤ h.freqFinetune → h.freqFinetune < 4294967296 →
        ((toU32 h.freqFinetune : Nat) : Int) = h.freqFinetune)) ∧
    (type = MOD_TYPE_IT ∨ type = MOD_TYPE_S3M → version < 5 →
      (h.ConvertToMPT E type version).nC5Speed = some (E.FinetuneToRate h.freqFinetune)) ∧
    (¬ (type = MOD_TYPE_IT ∨ type = MOD_TYPE_S3M) →
      (h.ConvertToMPT E type version).nC5Speed = none) := by
  unfold MO3Sample.ConvertToMPT
  refine ⟨?_, ?_, ?_⟩
  · intro ht hv
    refine ⟨?_, ?_⟩
    · simp only [if_pos ht, ge_iff_le, if_pos hv]
    · intro h0 h1
      unfold toU32
      omega
  · intro ht hv
    simp only [if_pos ht, ge_iff_le, if_neg (by omega : ¬ 5 ≤ version)]
  · intro ht
    simp only [if_neg ht]

theorem ConvertToMPT_rate_witness :
    (MO3Sample.ConvertToMPT exampleEnvironment
      (parseSample ([0x44, 0xAC, 0, 0] ++ List.replicate 37 0)) MOD_TYPE_IT 5).nC5Speed =
        some 44100 ∧
    (MO3Sample.ConvertToMPT exampleEnvironment
      (parseSample ([0x44, 0xAC, 0, 0] ++ List.replicate 37 0)) MOD_TYPE_S3M 4).nC5Speed =
        some (exampleEnvironment.FinetuneToRate 44100) ∧
    (MO3Sample.ConvertToMPT exampleEnvironment
      (parseSample ([0x44, 0xAC, 0, 0] ++ List.replicate 37 0)) MOD_TYPE_MOD 5).nC5Speed = none :=
  ⟨((ConvertToMPT_rate exampleEnvironment
      (parseSample ([0x44, 0xAC, 0, 0] ++ List.replicate 37 0)) MOD_TYPE_IT 5).1
      (Or.inl rfl) (by decide)).1,
   (ConvertToMPT_rate exampleEnvironment
      (parseSample ([0x44, 0xAC, 0, 0] ++ List.replicate 37 0)) MOD_TYPE_S3M 4).2.1
      (Or.inr rfl) (by decide),
   (ConvertToMPT_rate exampleEnvironment
      (parseSample ([0x44, 0xAC, 0, 0] ++ List.replicate 37 0)) MOD_TYPE_MOD 5).2.2
      (by decide)⟩

theorem loadMusicChunk_header_fields (K : Constants) (E : Environment)
    (lf : ModLoadingFlags) (version : Nat) (musicData : List Nat) (file : FileReader)
    (hd : MO3FileHeader) (h : musicHeader musicData = some hd) (hacc : headerAccepted K hd) :
    ∀ res, loadMusicChunk K E lf version musicData file = .done res →
      ∃ m, res = .loaded m ∧ m.header = hd ∧ m.type = chooseType hd.flags ∧
        m.samplePreAmp = samplePreAmp E hd.sampleVolume := by
  unfold musicHeader at h
  unfold headerAccepted at hacc
  unfold loadMusicChunk
  simp only
  cases hb : ((FileReader.mk musicData 0).ReadNullString.2.ReadNullString.2.ReadBytes
      sizeofMO3FileHeader).1 with
  | none => rw [hb] at h; simp at h
  | some bytes =>
    rw [hb] at h
    simp only [Option.map_some', Option.some.injEq] at h
    simp only [h]
    rw [if_neg hacc]
    split
    · intro res e; simp at e
    · intro res e; simp at e
    · split
      · intro res e; simp at e
      · split
        · intro res e; simp at e
        · intro res e; simp at e
        · split
          · intro res e; simp at e
          · intro res e
            simp only [Run.done.injEq] at e
            exact ⟨_, e.symm, rfl, rfl, rfl⟩

theorem musicHeader_sampleVolume (musicData : List Nat) (hd : MO3FileHeader)
    (h : musicHeader musicData = some hd) : -128 ≤ hd.sampleVolume ∧ hd.sampleVolume < 128 := by
  unfold musicHeader at h
  cases hb : ((FileReader.mk musicData 0).ReadNullString.2.ReadNullString.2.ReadBytes
      sizeofMO3FileHeader).1 with
  | none => rw [hb] at h; simp at h
  | some bytes =>
    rw [hb] at h
    simp only [Option.map_some', Option.some.injEq] at h
    subst h
    show -128 ≤ toSigned 8 (u8At bytes 21) ∧ toSigned 8 (u8At bytes 21) < 128
    unfold toSigned
    have : u8At bytes 21 % 2 ^ 8 < 256 := Nat.mod_lt _ (by norm_num)
    split
    · rename_i hlt
      norm_num at hlt ⊢
      omega
    · norm_num
      omega

set_option maxRecDepth 1000000 in
theorem exampleVolumeContainer_facts :
    (exampleVolumeChunk 0x80).tail.length = 423 ∧
    (0 :: (exampleVolumeChunk 0x80).tail).map (· % 256) = exampleVolumeChunk 0x80 ∧
    (literalGroups 0 (exampleVolumeChunk 0x80).tail).length = 476 ∧
    (loadMusicChunk openmptConstants exampleEnvironment ⟨true, true, true⟩ 0
      (exampleVolumeChunk 0x80) ⟨exampleVolumeContainer 0x80, 485⟩).loaded.map
        (fun m => (m.header.sampleVolume, m.samplePreAmp)) = some (-128, 4294967220) := by
  decide

/-- C29 as stated fails: a container whose header has the sample-volume byte 0x80
(-128) loads with sample pre-amp 4294967220, not -128 + 52 = -76: the sum is negative
and the pre-amp is an unsigned 32-bit number. -/
theorem ReadMO3_preamp_wraps :
    (ReadMO3 openmptConstants exampleEnvironment ⟨exampleVolumeContainer 0x80, 0⟩
      ⟨true, true, true⟩).loaded.map
        (fun m => (m.header.sampleVolume, m.samplePreAmp)) = some (-128, 4294967220) ∧
    ((4294967220 : Nat) : Int) ≠ -128 + 52 := by
  obtain ⟨hl, hm, hg, hload⟩ := exampleVolumeContainer_facts
  have h := ReadMO3_literals openmptConstants exampleEnvironment ⟨true, true, true⟩ 0xA8 0x01 0
    (exampleVolumeChunk 0x80).tail [] (by decide) (by decide) (by rw [hl])
    (by rw [hl]; decide) (by decide)
  rw [hm, hg] at h
  refine ⟨?_, by decide⟩
  unfold exampleVolumeContainer
  rw [h]
  exact hload

/-- C29 (amended): for a file header whose signed sample-volume byte `v` is negative,
the sample pre-amp of the loaded module is `v + 52` converted to unsigned 32 bits: it is
`v + 52` itself for `-52 ≤ v < 0` and `v + 52 + 2^32` for `-128 ≤ v < -52`. -/
theorem samplePreAmp_negative (K : Constants) (E : Environment) (lf : ModLoadingFlags)
    (version : Nat) (musicData : List Nat) (file : FileReader) (hd : MO3FileHeader)
    (h : musicHeader musicData = some hd) (hacc : headerAccepted K hd)
    (hneg : hd.sampleVolume < 0) :
    -128 ≤ hd.sampleVolume ∧
    samplePreAmp E hd.sampleVolume = toU32 (hd.sampleVolume + 52) ∧
    (-52 ≤ hd.sampleVolume →
      ((samplePreAmp E hd.sampleVolume : Nat) : Int) = hd.sampleVolume + 52) ∧
    (hd.sampleVolume < -52 →
      ((samplePreAmp E hd.sampleVolume : Nat) : Int) = hd.sampleVolume + 52 + 4294967296) ∧
    loadMusicChunk K E lf version musicData file ≠ .outOfFuel ∧
    ∀ res, loadMusicChunk K E lf version musicData file = .done res →
      ∃ m, res = .loaded m ∧ m.header = hd ∧
        m.samplePreAmp = samplePreAmp E hd.sampleVolume := by
  obtain ⟨hlo, -⟩ := musicHeader_sampleVolume musicData hd h
  have hdef : samplePreAmp E hd.sampleVolume = toU32 (hd.sampleVolume + 52) := by
    unfold samplePreAmp
    rw [if_pos hneg]
  refine ⟨hlo, hdef, ?_, ?_,
    (loadMusicChunk_accepted K E lf version musicData file hd h hacc).1, ?_⟩
  · intro h52
    rw [hdef]
    unfold toU32
    omega
  · intro h52
    rw [hdef]
    unfold toU32
    omega
  · intro res e
    obtain ⟨m, hm, hh, -, hp⟩ :=
      loadMusicChunk_header_fields K E lf version musicData file hd h hacc res e
    exact ⟨m, hm, hh, hp⟩

set_option maxRecDepth 1000000 in
theorem samplePreAmp_negative_witness :
    -128 ≤ (parseFileHeader (exampleVolumeChunk 0xFE).tail.tail).sampleVolume ∧
    samplePreAmp exampleEnvironment
      (parseFileHeader (exampleVolumeChunk 0xFE).tail.tail).sampleVolume = 50 :=
  ⟨(samplePreAmp_negative openmptConstants exampleEnvironment ⟨true, true, true⟩ 0
      (exampleVolumeChunk 0xFE) ⟨[], 0⟩ (parseFileHeader (exampleVolumeChunk 0xFE).tail.tail)
      (by decide) (by unfold headerAccepted; decide) (by decide)).1,
   (samplePreAmp_negative openmptConstants exampleEnvironment ⟨true, true, true⟩ 0
      (exampleVolumeChunk 0xFE) ⟨[], 0⟩ (parseFileHeader (exampleVolumeChunk 0xFE).tail.tail)
      (by decide) (by unfold headerAccepted; decide) (by decide)).2.1⟩

/-! ## The two instrument paths -/

theorem skipNullString_eq : ∀ (fuel : Nat) (f : FileReader), f.pos ≤ f.data.length →
    f.BytesLeft < fuel → skipNullString fuel f = some f.ReadNullString.2 := by
  intro fuel
  induction fuel with
  | zero => intro f _ h; omega
  | succ n ih =>
    intro f hpos hfuel
    unfold skipNullString
    simp only
    by_cases hlt : f.pos < f.data.length
    · have hdrop : f.data.drop f.pos = f.data[f.pos] :: f.data.drop (f.pos + 1) :=
        List.drop_eq_getElem_cons hlt
      have hget : f.data.getD f.pos 0 = f.data[f.pos] := by
        rw [List.getD_eq_getElem?_getD, List.getElem?_eq_getElem hlt]
        rfl
      have hread : f.ReadUint8 = (f.data[f.pos] % 256, { f with pos := f.pos + 1 }) := by
        unfold FileReader.ReadUint8
        rw [if_pos hlt, hget]
      rw [hread]
      simp only
      by_cases hz : f.data[f.pos] % 256 ≠ 0
      · rw [if_pos hz]
        rw [ih { f with pos := f.pos + 1 } (by show f.pos + 1 ≤ f.data.length; omega)
          (by unfold FileReader.BytesLeft at hfuel ⊢
              show f.data.length - (f.pos + 1) < n
              omega)]
        unfold FileReader.ReadNullString
        simp only [hdrop, List.map_cons, List.takeWhile_cons, hz, decide_True, if_true,
          List.length_cons, FileReader.mk.injEq, true_and, Option.some.injEq, ne_eq,
          not_false_eq_true]
        omega
      · rw [if_neg hz]
        have hz0 : f.data[f.pos] % 256 = 0 := by omega
        unfold FileReader.ReadNullString
        simp only [hdrop, List.map_cons, List.takeWhile_cons, hz0, ne_eq, not_true_eq_false,
          decide_False, List.length_nil, List.length_cons, Option.some.injEq,
          FileReader.mk.injEq, true_and]
        simp
    · have hread : f.ReadUint8 = (0, f) := by
        unfold FileReader.ReadUint8
        rw [if_neg hlt]
      rw [hread]
      simp only [ne_eq, not_true_eq_false, if_false]
      have hnil : f.data.drop f.pos = [] := List.drop_eq_nil_of_le (by omega)
      unfold FileReader.ReadNullString
      simp [hnil]

theorem ReadNullString_pos (f : FileReader) (hpos : f.pos ≤ f.data.length) :
    f.ReadNullString.2.data = f.data ∧
    f.ReadNullString.2.pos =
      f.pos + min (f.ReadNullString.1.length + 1) (f.data.length - f.pos) ∧
    f.ReadNullString.2.pos ≤ f.data.length := by
  unfold FileReader.ReadNullString
  simp only [List.length_map, List.length_drop]
  refine ⟨trivial, trivial, ?_⟩
  omega

theorem ReadBytes_some (f : FileReader) (n : Nat) (bs : List Nat)
    (h : (f.ReadBytes n).1 = some bs) :
    n ≤ f.data.length - f.pos ∧ (f.ReadBytes n).2 = { f with pos := f.pos + n } ∧
    f.Skip n = { f with pos := f.pos + n } := by
  unfold FileReader.ReadBytes at h ⊢
  unfold FileReader.Skip
  by_cases hn : n ≤ f.BytesLeft
  · rw [if_pos hn]
    refine ⟨hn, rfl, ?_⟩
    rw [Nat.min_eq_left hn]
  · rw [if_neg hn] at h
    simp at h

/-- C30: for an instrument whose name string(s) and 826-byte record lie inside the
music chunk (the parse path reads the record), the skip path ends with the cursor where
the parse path ends: past each name and its NUL terminator (one name below revision 5,
two from revision 5 on) and past the 826 bytes of the record. -/
theorem skipInstrument_same_cursor (version : Nat) (f : FileReader)
    (hpos : f.pos ≤ f.data.length) (record : List Nat)
    (hrec : (parseInstrument version f).2.2.1 = some record) :
    skipInstrument version f = some (parseInstrument version f).2.2.2 ∧
    (parseInstrument version f).2.2.2.data = f.data ∧
    (parseInstrument version f).2.2.2.pos =
      f.pos + ((parseInstrument version f).1.length + 1) +
        (if version ≥ 5 then (parseInstrument version f).2.1.length + 1 else 0) + 826 ∧
    (parseInstrument version f).2.2.2.pos ≤ f.data.length := by
  obtain ⟨d1, p1, l1⟩ := ReadNullString_pos f hpos
  obtain ⟨d2, p2, l2⟩ := ReadNullString_pos f.ReadNullString.2 l1
  have hfuel : ∀ g : FileReader, g.BytesLeft < g.BytesLeft + 1 := fun g => Nat.lt_succ_self _
  have hs1 := skipNullString_eq (f.BytesLeft + 1) f hpos (hfuel f)
  have hs2 := skipNullString_eq (f.ReadNullString.2.BytesLeft + 1) f.ReadNullString.2 l1
    (hfuel _)
  unfold parseInstrument at hrec ⊢
  unfold skipInstrument
  simp only [sizeofMO3Instrument] at hrec ⊢
  rw [hs1]
  simp only
  by_cases hv : version ≥ 5
  · simp only [if_pos hv] at hrec ⊢
    rw [hs2]
    simp only
    obtain ⟨hn, hb, hk⟩ := ReadBytes_some _ 826 record hrec
    rw [hb, hk]
    rw [d2, d1] at hn
    rw [d1] at p2
    refine ⟨rfl, by rw [← d1, ← d2], ?_, ?_⟩
    · show f.ReadNullString.2.ReadNullString.2.pos + 826 = _
      omega
    · show f.ReadNullString.2.ReadNullString.2.pos + 826 ≤ _
      omega
  · simp only [if_neg hv] at hrec ⊢
    obtain ⟨hn, hb, hk⟩ := ReadBytes_some _ 826 record hrec
    rw [hb, hk]
    rw [d1] at hn
    refine ⟨rfl, by rw [← d1], ?_, ?_⟩
    · show f.ReadNullString.2.pos + 826 = _
      omega
    · show f.ReadNullString.2.pos + 826 ≤ _
      omega

/-! ## Envelope ticks -/

theorem IntType_convert_range (t : IntType) (hb : 1 ≤ t.bits) (x : Int) :
    t.min ≤ t.convert x ∧ t.convert x ≤ t.max := by
  have hM : (2 : Int) ^ t.bits = 2 * 2 ^ (t.bits - 1) := by
    rw [← pow_succ']
    congr 1
    omega
  have hH : (0 : Int) < 2 ^ (t.bits - 1) := by positivity
  unfold IntType.min IntType.max IntType.convert
  cases t.signed with
  | true =>
    simp only [if_true]
    have h1 := Int.emod_nonneg (x + 2 ^ (t.bits - 1)) (by omega : (2 : Int) ^ t.bits ≠ 0)
    have h2 := Int.emod_lt_of_pos (x + 2 ^ (t.bits - 1)) (by omega : (0 : Int) < 2 ^ t.bits)
    omega
  | false =>
    simp only [Bool.false_eq_true, if_false]
    have h1 := Int.emod_nonneg x (by omega : (2 : Int) ^ t.bits ≠ 0)
    have h2 := Int.emod_lt_of_pos x (by omega : (0 : Int) < 2 ^ t.bits)
    omega

theorem IntType_convert_id (t : IntType) (hb : 1 ≤ t.bits) (x : Int)
    (h1 : t.min ≤ x) (h2 : x ≤ t.max) : t.convert x = x := by
  have hM : (2 : Int) ^ t.bits = 2 * 2 ^ (t.bits - 1) := by
    rw [← pow_succ']
    congr 1
    omega
  have hH : (0 : Int) < 2 ^ (t.bits - 1) := by positivity
  unfold IntType.min at h1
  unfold IntType.max at h2
  unfold IntType.convert
  cases hs : t.signed with
  | true =>
    simp only [hs, if_true] at h1 h2 ⊢
    rw [Int.emod_eq_of_lt (by omega) (by omega)]
    omega
  | false =>
    simp only [hs, Bool.false_eq_true, if_false] at h1 h2 ⊢
    exact Int.emod_eq_of_lt h1 (by omega)

theorem envelopeTicks_spec (t : IntType) (hb : 1 ≤ t.bits) : ∀ (ps : List Int) (o : Option Int),
    (∀ previous, o = some previous → t.min ≤ previous ∧ previous ≤ t.max) →
    (envelopeTicks t o ps).length = ps.length ∧
    (∀ previous x, o = some previous → (envelopeTicks t o ps)[0]? = some x →
      previous < t.max → previous ≤ x) ∧
    (∀ i a b, (envelopeTicks t o ps)[i]? = some a → (envelopeTicks t o ps)[i + 1]? = some b →
      a < t.max → a ≤ b) := by
  intro ps
  induction ps with
  | nil =>
    intro o _
    cases o <;> simp [envelopeTicks]
  | cons p ps ih =>
    intro o ho
    cases o with
    | none =>
      obtain ⟨l, hh, ht⟩ := ih (some (t.convert p))
        (by intro q hq; cases hq; exact IntType_convert_range t hb p)
      simp only [envelopeTicks]
      refine ⟨by simp [l], by intro q x hq; simp at hq, ?_⟩
      intro i a b ha hb2 hlt
      cases i with
      | zero =>
        simp only [List.getElem?_cons_zero, Option.some.injEq] at ha
        simp only [zero_add, List.getElem?_cons_succ] at hb2
        subst ha
        exact hh _ b rfl hb2 hlt
      | succ j =>
        simp only [List.getElem?_cons_succ] at ha hb2
        exact ht j a b ha hb2 hlt
    | some previous =>
      obtain ⟨hp1, hp2⟩ := ho previous rfl
      have hx : t.min ≤ (if t.convert p < previous then t.convert (previous + 1)
          else t.convert p) ∧
          (if t.convert p < previous then t.convert (previous + 1) else t.convert p) ≤ t.max := by
        split
        · exact IntType_convert_range t hb _
        · exact IntType_convert_range t hb _
      obtain ⟨l, hh, ht⟩ := ih (some (if t.convert p < previous then t.convert (previous + 1)
          else t.convert p)) (by intro q hq; cases hq; exact hx)
      simp only [envelopeTicks]
      refine ⟨by simp [l], ?_, ?_⟩
      · intro q x hq h0 hlt
        cases hq
        simp only [List.getElem?_cons_zero, Option.some.injEq] at h0
        subst h0
        by_cases hc : t.convert p < previous
        · rw [if_pos hc, IntType_convert_id t hb _ (by omega) (by omega)]
          omega
        · rw [if_neg hc]
          omega
      · intro i a b ha hb2 hlt
        cases i with
        | zero =>
          simp only [List.getElem?_cons_zero, Option.some.injEq] at ha
          simp only [zero_add, List.getElem?_cons_succ] at hb2
          subst ha
          exact hh _ b rfl hb2 hlt
        | succ j =>
          simp only [List.getElem?_cons_succ] at ha hb2
          exact ht j a b ha hb2 hlt

theorem parseEnvelope_points (bs : List Nat) : (parseEnvelope bs).points.length = 25 := by
  simp [parseEnvelope]

/-- C27 fails on the code: with the `uint16` ticks of OpenMPT the two-node record whose
ticks are -1 (bytes FF FF) and 0 converts to the ticks 65535, 0, which decrease: the
second tick is below the first, so the loop repairs it to 65535 + 1, which does not fit
the tick type and is stored as 0. With `int16` ticks the same happens to the ticks
32767, 0, which become 32767, -32768. -/
theorem ConvertToMPT_ticks_wrap :
    (MO3Envelope.ConvertToMPT uint16 (parseEnvelope (exampleEnvelopeRecord [0xFF, 0xFF]))
      InstrumentEnvelope.Initial 0).Ticks = [65535, 0] ∧
    (MO3Envelope.ConvertToMPT uint16 (parseEnvelope (exampleEnvelopeRecord [0xFF, 0xFF]))
      InstrumentEnvelope.Initial 0).nNodes = 2 ∧
    ((parseEnvelope (exampleEnvelopeRecord [0xFF, 0xFF])).points.take 2).map (fun p => p.1) =
      [-1, 0] ∧
    uint16.convert (-1) = 65535 ∧ uint16.convert (65535 + 1) = 0 ∧
    (parseEnvelope (exampleEnvelopeRecord [0xFF, 0xFF])).numNodes = 2 ∧
    (MO3Envelope.ConvertToMPT int16 (parseEnvelope (exampleEnvelopeRecord [0xFF, 0x7F]))
      InstrumentEnvelope.Initial 0).Ticks = [32767, -32768] := by
  decide

/-- The part of the tick repair that holds: for every envelope record and every integer
type of the ticks, the converted envelope has `min(numNodes, 25)` nodes, as many ticks
and values, and `Ticks[i-1] ≤ Ticks[i]` holds for every `0 < i < nNodes` at which
`Ticks[i-1]` is below the largest value of the tick type. -/
theorem ConvertToMPT_ticks (t : IntType) (hb : 1 ≤ t.bits) (bs : List Nat)
    (mptEnv : InstrumentEnvelope) (envShift : Nat) :
    (MO3Envelope.ConvertToMPT t (parseEnvelope bs) mptEnv envShift).nNodes =
      min (parseEnvelope bs).numNodes 25 ∧
    (MO3Envelope.ConvertToMPT t (parseEnvelope bs) mptEnv envShift).Ticks.length =
      min (parseEnvelope bs).numNodes 25 ∧
    (MO3Envelope.ConvertToMPT t (parseEnvelope bs) mptEnv envShift).Values.length =
      min (parseEnvelope bs).numNodes 25 ∧
    ∀ i a b, 0 < i →
      (MO3Envelope.ConvertToMPT t (parseEnvelope bs) mptEnv envShift).Ticks[i - 1]? = some a →
      (MO3Envelope.ConvertToMPT t (parseEnvelope bs) mptEnv envShift).Ticks[i]? = some b →
      a < t.max → a ≤ b := by
  have hlen := parseEnvelope_points bs
  obtain ⟨l, -, ht⟩ := envelopeTicks_spec t hb
    (((parseEnvelope bs).points.take (min (parseEnvelope bs).numNodes 25)).map (fun p => p.1))
    none (by intro q hq; cases hq)
  have hl : (((parseEnvelope bs).points.take (min (parseEnvelope bs).numNodes 25)).map
      (fun p => p.1)).length = min (parseEnvelope bs).numNodes 25 := by
    rw [List.length_map, List.length_take, hlen]
    omega
  refine ⟨rfl, ?_, ?_, ?_⟩
  · show (envelopeTicks t none _).length = _
    rw [l, hl]
  · show (List.map _ _).length = _
    rw [List.length_map, List.length_take, hlen]
    omega
  · intro i a b hi ha hb2 hlt
    have hi2 : i - 1 + 1 = i := by omega
    apply ht (i - 1) a b ha _ hlt
    rw [hi2]
    exact hb2

theorem ConvertToMPT_ticks_witness :
    (MO3Envelope.ConvertToMPT uint16 (parseEnvelope (exampleEnvelopeRecord [0x05, 0x00]))
      InstrumentEnvelope.Initial 0).Ticks = [5, 6] ∧
    (MO3Envelope.ConvertToMPT uint16 (parseEnvelope (exampleEnvelopeRecord [0x05, 0x00]))
      InstrumentEnvelope.Initial 0).nNodes =
        min (parseEnvelope (exampleEnvelopeRecord [0x05, 0x00])).numNodes 25 :=
  ⟨by decide,
   (ConvertToMPT_ticks uint16 (by decide) (exampleEnvelopeRecord [0x05, 0x00])
      InstrumentEnvelope.Initial 0).1⟩

set_option maxRecDepth 1000000 in
theorem skipInstrument_same_cursor_witness :
    skipInstrument 5 ⟨exampleInstrumentChunk, 0⟩ = some ⟨exampleInstrumentChunk, 830⟩ ∧
    (parseInstrument 5 ⟨exampleInstrumentChunk, 0⟩).2.2.2 = ⟨exampleInstrumentChunk, 830⟩ :=
  ⟨(skipInstrument_same_cursor 5 ⟨exampleInstrumentChunk, 0⟩ (by decide)
      (List.replicate 826 7) (by decide)).1.trans (by decide), by decide⟩

/-! ## The control-bit stream -/

theorem ReadUint8_inside (data : List Nat) (p : Nat) (h : p < data.length) :
    (FileReader.mk data p).ReadUint8 = (data.getD p 0 % 256, ⟨data, p + 1⟩) := by
  unfold FileReader.ReadUint8
  rw [if_pos h]

theorem READ_reload (s : BitState) (data : List Nat) (p : Nat) (hf : s.file = ⟨data, p⟩)
    (hp : p < data.length) (hd : s.data < 256) (hz : 2 * s.data % 256 = 0) :
    READ_CTRL_BIT 8 s =
      { file := ⟨data, p + 1⟩, data := (2 * (data.getD p 0 % 256) + 1) % 256,
        carry := (data.getD p 0 % 256) / 128 } := by
  rw [READ_CTRL_BIT_eq s hd, if_pos hz, hf, ReadUint8_inside data p hp]

theorem READ_shift (s : BitState) (hd : s.data < 256) (hz : 2 * s.data % 256 ≠ 0) :
    READ_CTRL_BIT 8 s = { file := s.file, data := 2 * s.data % 256, carry := s.data / 128 } := by
  rw [READ_CTRL_BIT_eq s hd, if_neg hz]

theorem readBits_spec (data : List Nat) (p c0 : Nat) : ∀ k, p + k / 8 < data.length →
    (readBits (k + 1) ⟨⟨data, p⟩, 0, c0⟩).file = ⟨data, p + k / 8 + 1⟩ ∧
    (readBits (k + 1) ⟨⟨data, p⟩, 0, c0⟩).data =
      ((2 * (data.getD (p + k / 8) 0 % 256) + 1) * 2 ^ (k % 8)) % 256 ∧
    (readBits (k + 1) ⟨⟨data, p⟩, 0, c0⟩).carry =
      (data.getD (p + k / 8) 0 % 256) / 2 ^ (7 - k % 8) % 2 := by
  intro k
  induction k with
  | zero =>
    intro h
    have hp : p < data.length := by omega
    have hb : data.getD p 0 % 256 < 256 := Nat.mod_lt _ (by norm_num)
    have hres : readBits (0 + 1) ⟨⟨data, p⟩, 0, c0⟩ =
        { file := ⟨data, p + 1⟩, data := (2 * (data.getD p 0 % 256) + 1) % 256,
          carry := (data.getD p 0 % 256) / 128 } :=
      READ_reload ⟨⟨data, p⟩, 0, c0⟩ data p rfl hp (by show 0 < 256; norm_num) rfl
    rw [hres]
    simp only [Nat.zero_div, Nat.add_zero]
    generalize data.getD p 0 % 256 = b at hb
    refine ⟨trivial, ?_, ?_⟩
    · show (2 * b + 1) % 256 = (2 * b + 1) * 2 ^ (0 % 8) % 256
      norm_num
    · show b / 128 = b / 2 ^ (7 - 0 % 8) % 2
      norm_num
      omega
  | succ k ih =>
    intro h
    obtain ⟨hf, hd, hc⟩ := ih (by omega)
    have hb : data.getD (p + k / 8) 0 % 256 < 256 := Nat.mod_lt _ (by norm_num)
    have hlt : (readBits (k + 1) ⟨⟨data, p⟩, 0, c0⟩).data < 256 := by
      rw [hd]; exact Nat.mod_lt _ (by norm_num)
    have hstep : readBits (k + 1 + 1) ⟨⟨data, p⟩, 0, c0⟩ =
        READ_CTRL_BIT 8 (readBits (k + 1) ⟨⟨data, p⟩, 0, c0⟩) := rfl
    generalize hbv : data.getD (p + k / 8) 0 % 256 = b at hb hd hc
    obtain ⟨j, hj, hj8⟩ : ∃ j, k % 8 = j ∧ j < 8 := ⟨k % 8, rfl, Nat.mod_lt _ (by norm_num)⟩
    rw [hj] at hd
    by_cases h7 : j = 7
    · subst h7
      have e1 : (k + 1) % 8 = 0 := by omega
      have e2 : p + (k + 1) / 8 = p + k / 8 + 1 := by omega
      have hp : p + k / 8 + 1 < data.length := by omega
      have hd2 : (readBits (k + 1) ⟨⟨data, p⟩, 0, c0⟩).data = 128 := by
        rw [hd]; norm_num; omega
      rw [hstep, READ_reload _ data (p + k / 8 + 1) hf hp hlt (by rw [hd2]), e1, e2]
      have hb2 : data.getD (p + k / 8 + 1) 0 % 256 < 256 := Nat.mod_lt _ (by norm_num)
      generalize data.getD (p + k / 8 + 1) 0 % 256 = b2 at hb2
      refine ⟨rfl, ?_, ?_⟩
      · show (2 * b2 + 1) % 256 = (2 * b2 + 1) * 2 ^ 0 % 256
        norm_num
      · show b2 / 128 = b2 / 2 ^ (7 - 0) % 2
        norm_num
        omega
    · have e1 : (k + 1) % 8 = j + 1 := by omega
      have e2 : p + (k + 1) / 8 = p + k / 8 := by omega
      have hj7 : j < 7 := by omega
      have hnz : 2 * (readBits (k + 1) ⟨⟨data, p⟩, 0, c0⟩).data % 256 ≠ 0 := by
        rw [hd]
        interval_cases j <;> norm_num <;> omega
      rw [hstep, READ_shift _ hlt hnz, hf, hd, e1, e2, hbv]
      refine ⟨rfl, ?_, ?_⟩
      · show 2 * ((2 * b + 1) * 2 ^ j % 256) % 256 = (2 * b + 1) * 2 ^ (j + 1) % 256
        interval_cases j <;> norm_num <;> omega
      · show (2 * b + 1) * 2 ^ j % 256 / 128 = b / 2 ^ (7 - (j + 1)) % 2
        interval_cases j <;> norm_num <;> omega

/-- C25: starting from an empty pending buffer on the stream `data` at position `p`,
read number `k` (from 0) of a row of control-bit reads returns bit `7 - k mod 8` of
byte `k div 8` after the cursor, the cursor moves by one byte on the reads whose number
is a multiple of 8 and on no other, and after the read the pending buffer is in 1..255. -/
theorem READ_CTRL_BIT_msb_first (data : List Nat) (p c0 k : Nat)
    (h : p + k / 8 < data.length) :
    ctrlBit ⟨⟨data, p⟩, 0, c0⟩ k = (data.getD (p + k / 8) 0 % 256) / 2 ^ (7 - k % 8) % 2 ∧
    (readBits (k + 1) ⟨⟨data, p⟩, 0, c0⟩).file = ⟨data, p + k / 8 + 1⟩ ∧
    (readBits (k + 1) ⟨⟨data, p⟩, 0, c0⟩).file.pos =
      (readBits k ⟨⟨data, p⟩, 0, c0⟩).file.pos + (if k % 8 = 0 then 1 else 0) ∧
    1 ≤ (readBits (k + 1) ⟨⟨data, p⟩, 0, c0⟩).data ∧
    (readBits (k + 1) ⟨⟨data, p⟩, 0, c0⟩).data ≤ 255 := by
  obtain ⟨hf, hd, hc⟩ := readBits_spec data p c0 k h
  refine ⟨hc, hf, ?_, ?_, ?_⟩
  · rw [hf]
    cases k with
    | zero => rfl
    | succ m =>
      obtain ⟨hf2, -, -⟩ := readBits_spec data p c0 m (by omega)
      rw [hf2]
      show p + (m + 1) / 8 + 1 = p + m / 8 + 1 + _
      split <;> omega
  · rw [hd]
    have hb : data.getD (p + k / 8) 0 % 256 < 256 := Nat.mod_lt _ (by norm_num)
    generalize data.getD (p + k / 8) 0 % 256 = b at hb
    obtain ⟨j, hj, hj8⟩ : ∃ j, k % 8 = j ∧ j < 8 := ⟨k % 8, rfl, Nat.mod_lt _ (by norm_num)⟩
    rw [hj]
    interval_cases j <;> norm_num <;> omega
  · rw [hd]
    have := Nat.mod_lt ((2 * (data.getD (p + k / 8) 0 % 256) + 1) * 2 ^ (k % 8))
      (by norm_num : 256 > 0)
    omega

theorem READ_CTRL_BIT_msb_first_witness :
    ctrlBit ⟨⟨[0xA5, 0x4F], 0⟩, 0, 0⟩ 9 = 1 ∧
    (readBits (9 + 1) ⟨⟨[0xA5, 0x4F], 0⟩, 0, 0⟩).file = ⟨[0xA5, 0x4F], 2⟩ :=
  ⟨(READ_CTRL_BIT_msb_first [0xA5, 0x4F] 0 0 9 (by decide)).1,
   (READ_CTRL_BIT_msb_first [0xA5, 0x4F] 0 0 9 (by decide)).2.1⟩

/-! ## The length code of the control stream -/

theorem readBits_add (a : Nat) : ∀ (b : Nat) (s : BitState),
    readBits b (readBits a s) = readBits (b + a) s := by
  intro b
  induction b with
  | zero => intro s; simp [readBits]
  | succ n ih =>
    intro s
    show READ_CTRL_BIT 8 (readBits n (readBits a s)) = readBits (n + 1 + a) s
    rw [ih, show n + 1 + a = (n + a) + 1 from by omega]
    rfl

theorem ctrlBit_readBits (a i : Nat) (s : BitState) :
    ctrlBit (readBits a s) i = ctrlBit s (i + a) := by
  unfold ctrlBit
  rw [readBits_add, show i + 1 + a = i + a + 1 from by omega]

theorem readBits_data_lt (s : BitState) (h : s.data < 256) : ∀ k, (readBits k s).data < 256 := by
  intro k
  induction k with
  | zero => exact h
  | succ n ih => exact (READ_CTRL_BIT_spec _ ih).2.1

theorem ctrlBit_le_one (s : BitState) (h : s.data < 256) (i : Nat) : ctrlBit s i ≤ 1 :=
  (READ_CTRL_BIT_spec _ (readBits_data_lt s h i)).2.2.1

theorem decodeCtrlLoop_pairs : ∀ (n : Nat) (s : BitState) (acc : Int) (fuel : Nat),
    s.data < 256 → n + 1 ≤ fuel → 0 ≤ acc → (acc + 1) * 2 ^ (n + 1) ≤ 2147483648 →
    (∀ i, i < n → ctrlBit s (2 * i + 1) = 1) → ctrlBit s (2 * n + 1) = 0 →
    decodeCtrlLoop fuel s acc =
      some (readBits (2 * (n + 1)) s,
        acc * 2 ^ (n + 1) +
          ((∑ i in Finset.range (n + 1), ctrlBit s (2 * i) * 2 ^ (n - i) : Nat) : Int)) := by
  intro n
  induction n with
  | zero =>
    intro s acc fuel hd hfuel hacc hbound _ hlast
    obtain ⟨f, rfl⟩ : ∃ f, fuel = f + 1 := ⟨fuel - 1, by omega⟩
    have hb := ctrlBit_le_one s hd 0
    have hc0 : (READ_CTRL_BIT 8 s).carry = ctrlBit s 0 := rfl
    have hc1 : (READ_CTRL_BIT 8 (READ_CTRL_BIT 8 s)).carry = ctrlBit s 1 := rfl
    unfold decodeCtrlLoop
    simp only [hc0, hc1]
    have hlast' : ctrlBit s 1 = 0 := hlast
    rw [hlast']
    simp only [ne_eq, not_true_eq_false, if_false]
    have hw : wrap32 (wrap32 (acc * 2) + ((ctrlBit s 0 : Nat) : Int)) =
        acc * 2 + ((ctrlBit s 0 : Nat) : Int) := by
      unfold wrap32
      norm_num at hbound
      omega
    rw [hw]
    simp [readBits]
  | succ n ih =>
    intro s acc fuel hd hfuel hacc hbound hcont hlast
    obtain ⟨f, rfl⟩ : ∃ f, fuel = f + 1 := ⟨fuel - 1, by omega⟩
    have hb := ctrlBit_le_one s hd 0
    have hc0 : (READ_CTRL_BIT 8 s).carry = ctrlBit s 0 := rfl
    have hc1 : (READ_CTRL_BIT 8 (READ_CTRL_BIT 8 s)).carry = ctrlBit s 1 := rfl
    have h2 : READ_CTRL_BIT 8 (READ_CTRL_BIT 8 s) = readBits 2 s := rfl
    have hpos : (0 : Int) < 2 ^ (n + 1) := by positivity
    have hpow : (2 : Int) ^ (n + 1 + 1) = 2 * 2 ^ (n + 1) := by rw [pow_succ]; ring
    have hge : (2 : Int) ≤ 2 ^ (n + 1) := by
      have : (2 : Int) ^ 1 ≤ 2 ^ (n + 1) := pow_le_pow_right₀ (by norm_num) (by omega)
      simpa using this
    have hsmall : (acc + 1) * 2 ≤ 1073741824 := by
      rw [hpow] at hbound
      nlinarith
    unfold decodeCtrlLoop
    simp only [hc0, hc1]
    have hfirst : ctrlBit s 1 = 1 := by
      have := hcont 0 (by omega)
      simpa using this
    rw [hfirst]
    simp only [ne_eq, one_ne_zero, not_false_eq_true, if_true]
    have hw : wrap32 (wrap32 (acc * 2) + ((ctrlBit s 0 : Nat) : Int)) =
        acc * 2 + ((ctrlBit s 0 : Nat) : Int) := by
      unfold wrap32
      omega
    rw [hw, h2]
    rw [ih (readBits 2 s) _ f (readBits_data_lt s hd 2) (by omega) (by omega)
      (by rw [hpow] at hbound
          have hb' : ((ctrlBit s 0 : Nat) : Int) ≤ 1 := by exact_mod_cast hb
          nlinarith)
      (by intro i hi
          rw [ctrlBit_readBits]
          have := hcont (i + 1) (by omega)
          rw [show 2 * (i + 1) + 1 = 2 * i + 1 + 2 from by ring] at this
          exact this)
      (by rw [ctrlBit_readBits]
          rw [show 2 * (n + 1) + 1 = 2 * n + 1 + 2 from by ring] at hlast
          exact hlast)]
    rw [readBits_add]
    congr 2
    rw [Finset.sum_range_succ' _ (n + 1)]
    simp only [ctrlBit_readBits]
    push_cast
    rw [hpow]
    have hsum : ∀ i, 2 * i + 2 = 2 * (i + 1) := by intro i; ring
    simp only [hsum, Nat.mul_zero, Nat.sub_zero, Nat.add_sub_add_right]
    ring

theorem gamma_sum_lt (b : Nat → Nat) (hb : ∀ i, b i ≤ 1) : ∀ k,
    ∑ i in Finset.range k, b i * 2 ^ (k - 1 - i) < 2 ^ k := by
  intro k
  induction k with
  | zero => simp
  | succ n ih =>
    rw [Finset.sum_range_succ]
    have hstep : ∑ i in Finset.range n, b i * 2 ^ (n + 1 - 1 - i) =
        2 * ∑ i in Finset.range n, b i * 2 ^ (n - 1 - i) := by
      rw [Finset.mul_sum]
      apply Finset.sum_congr rfl
      intro i hi
      have hi' := Finset.mem_range.mp hi
      rw [show n + 1 - 1 - i = (n - 1 - i) + 1 from by omega, pow_succ]
      ring
    rw [hstep, show n + 1 - 1 - n = 0 from by omega, pow_zero, pow_succ]
    have := hb n
    omega

set_option maxRecDepth 1000000 in
/-- C26 as stated fails: on the stream 55 55 55 55 55 55 55 50, whose control bits are
31 pairs with data bit 0, the first 30 with continuation bit 1 and the last with
continuation bit 0, the decoded value is
-2147483648 and not 2^31: the 32-bit accumulator overflows, and the result is below 2. -/
theorem DECODE_CTRL_BITS_overflow :
    (∀ i, i < 30 →
      ctrlBit ⟨⟨[0x55, 0x55, 0x55, 0x55, 0x55, 0x55, 0x55, 0x50], 0⟩, 0, 0⟩ (2 * i + 1) = 1) ∧
    ctrlBit ⟨⟨[0x55, 0x55, 0x55, 0x55, 0x55, 0x55, 0x55, 0x50], 0⟩, 0, 0⟩ (2 * 30 + 1) = 0 ∧
    (DECODE_CTRL_BITS 31 ⟨⟨[0x55, 0x55, 0x55, 0x55, 0x55, 0x55, 0x55, 0x50], 0⟩, 0, 0⟩ 0).map
      (fun r => r.2) = some (-2147483648) := by
  decide

/-- C26 (amended): the length decode started with accumulator 0 on the pairs
`(b1, c1), ..., (bk, ck)` with `c1 = ... = c(k-1) = 1`, `ck = 0` and `k ≤ 30` consumes
exactly those `2k` bits and yields `2^k` plus the number whose binary digits are
`b1 ... bk`, a value from 2 on and below `2^(k+1)`. -/
theorem DECODE_CTRL_BITS_gamma (k : Nat) (s : BitState) (fuel : Nat) (hd : s.data < 256)
    (hk : 1 ≤ k) (hk30 : k ≤ 30) (hfuel : k ≤ fuel)
    (hcont : ∀ i, i < k - 1 → ctrlBit s (2 * i + 1) = 1)
    (hlast : ctrlBit s (2 * (k - 1) + 1) = 0) :
    DECODE_CTRL_BITS fuel s 0 =
      some (readBits (2 * k) s,
        ((2 ^ k + ∑ i in Finset.range k, ctrlBit s (2 * i) * 2 ^ (k - 1 - i) : Nat) : Int)) ∧
    2 ≤ 2 ^ k + ∑ i in Finset.range k, ctrlBit s (2 * i) * 2 ^ (k - 1 - i) ∧
    2 ^ k + ∑ i in Finset.range k, ctrlBit s (2 * i) * 2 ^ (k - 1 - i) < 2 ^ (k + 1) := by
  obtain ⟨n, rfl⟩ : ∃ n, k = n + 1 := ⟨k - 1, by omega⟩
  have hpow : (2 : Int) ^ (n + 1) ≤ 2 ^ 30 := pow_le_pow_right₀ (by norm_num) hk30
  have hlt := gamma_sum_lt (fun i => ctrlBit s (2 * i)) (fun i => ctrlBit_le_one s hd _) (n + 1)
  have hge : 2 ^ 1 ≤ 2 ^ (n + 1) := Nat.pow_le_pow_right (by norm_num) (by omega)
  refine ⟨?_, ?_, ?_⟩
  · unfold DECODE_CTRL_BITS
    have h1 : wrap32 (0 + 1) = 1 := by decide
    rw [h1, decodeCtrlLoop_pairs n s 1 fuel hd hfuel (by norm_num)
      (by norm_num at hpow ⊢; omega)
      (fun i hi => hcont i (by omega)) (by simpa using hlast)]
    simp only [Nat.add_sub_cancel]
    push_cast
    ring_nf
  · simp only [pow_one] at hge
    omega
  · simp only [Nat.add_sub_cancel] at hlt ⊢
    rw [pow_succ 2 (n + 1)]
    omega

set_option maxRecDepth 1000000 in
theorem DECODE_CTRL_BITS_gamma_witness :
    DECODE_CTRL_BITS 5 ⟨⟨[0xD8], 0⟩, 0, 0⟩ 0 = some (readBits (2 * 3) ⟨⟨[0xD8], 0⟩, 0, 0⟩, 13) :=
  (DECODE_CTRL_BITS_gamma 3 ⟨⟨[0xD8], 0⟩, 0, 0⟩ 5 (by decide) (by decide) (by decide)
    (by decide) (by decide) (by decide)).1.trans (by decide)

/-! ## Raw codes of the delta decoders -/

theorem bit_clear_lt (val k : Nat) (h : val < 2 ^ (k + 1)) (hz : (1 <<< k) &&& val = 0) :
    val < 2 ^ k := by
  rw [Nat.one_shiftLeft] at hz
  have ht : val.testBit k = false := by
    have := congrArg (fun x => Nat.testBit x k) hz
    simp only [Nat.testBit_and, Nat.testBit_two_pow, decide_True, Bool.true_and,
      Nat.zero_testBit] at this
    exact this
  rw [Nat.testBit_to_div_mod] at ht
  have hdiv : val / 2 ^ k < 2 := by
    apply Nat.div_lt_of_lt_mul
    rw [pow_succ] at h
    exact h
  have h0 : val / 2 ^ k = 0 := by
    have hodd : ¬ (val / 2 ^ k % 2 = 1) := by simpa using ht
    generalize val / 2 ^ k = q at hdiv hodd
    omega
  exact (Nat.div_eq_zero_iff (by positivity)).mp h0

theorem bit_set_ge (val k : Nat) (hz : (1 <<< k) &&& val ≠ 0) : 2 ^ k ≤ val := by
  rw [Nat.one_shiftLeft] at hz
  apply Nat.testBit_implies_ge
  by_contra hf
  apply hz
  apply Nat.eq_of_testBit_eq
  intro i
  simp only [Nat.testBit_and, Nat.testBit_two_pow, Nat.zero_testBit]
  by_cases hi : k = i
  · subst hi
    simp at hf
    simp [hf]
  · simp [hi]

theorem highBitScan_eq (val : Nat) (hv : 4 ≤ val) : ∀ cl, val < 2 ^ (cl + 1) →
    highBitScan val cl = Nat.log2 val := by
  intro cl
  induction cl with
  | zero => intro h; norm_num at h; omega
  | succ c ih =>
    intro h
    unfold highBitScan
    by_cases hz : (1 <<< (c + 1)) &&& val = 0
    · have hlt := bit_clear_lt val (c + 1) h hz
      have hc : c + 1 > 1 := by
        by_contra hc
        have : c = 0 := by omega
        subst this
        norm_num at hlt
        omega
      rw [if_pos ⟨hz, hc⟩]
      exact ih hlt
    · rw [if_neg (fun hh => hz hh.1)]
      have hge := bit_set_ge val (c + 1) hz
      have hne : val ≠ 0 := by omega
      have h1 : c + 1 ≤ Nat.log2 val := (Nat.le_log2 hne).2 hge
      have h2 : Nat.log2 val < c + 1 + 1 := (Nat.log2_lt hne).2 h
      omega

theorem deltaDecodeLoop_lt (P : DeltaParams) : ∀ (fuel : Nat) (s : BitState) (val : Nat)
    (r : BitState × Nat), deltaDecodeLoop P fuel s val = some r → r.2 < 2 ^ P.bits := by
  intro fuel
  induction fuel with
  | zero => intro s val r e; simp [deltaDecodeLoop] at e
  | succ n ih =>
    intro s val r e
    unfold deltaDecodeLoop at e
    simp only at e
    split at e
    · exact ih _ _ r e
    · simp only [Option.some.injEq] at e
      subst e
      exact Nat.mod_lt _ (by positivity)

theorem deltaDecodeLoopNarrow_lt (P : DeltaParams) : ∀ (fuel : Nat) (s : BitState) (val : Nat)
    (r : BitState × Nat), deltaDecodeLoopNarrow P fuel s val = some r → r.2 < 2 ^ P.bits := by
  intro fuel
  induction fuel with
  | zero => intro s val r e; simp [deltaDecodeLoopNarrow] at e
  | succ n ih =>
    intro s val r e
    unfold deltaDecodeLoopNarrow at e
    simp only at e
    split at e
    · exact ih _ _ r e
    · simp only [Option.some.injEq] at e
      subst e
      exact Nat.mod_lt _ (by positivity)

theorem readLowBits_lt (P : DeltaParams) : ∀ (cl : Nat) (s : BitState) (val : Nat),
    val < 2 ^ P.bits → (readLowBits P cl s val).2 < 2 ^ P.bits := by
  intro cl
  induction cl with
  | zero => intro s val h; exact h
  | succ n ih =>
    intro s val _
    unfold readLowBits
    exact ih _ _ (Nat.mod_lt _ (by positivity))

theorem deltaCode_raw_lt (P : DeltaParams) (fuel : Nat) (s : BitState) (dh : Nat)
    (r : BitState × Nat × Nat) (e : deltaCode P fuel s dh = some r) :
    r.2.2 < 2 ^ P.bits ∧ r.2.1 = ((dh + extraLength P r.2.2) % 256) >>> 1 := by
  unfold deltaCode at e
  cases hdec : deltaDecode P fuel s dh 0 with
  | none => rw [hdec] at e; simp at e
  | some q =>
    rw [hdec] at e
    simp only [Option.some.injEq] at e
    subst e
    refine ⟨?_, rfl⟩
    apply readLowBits_lt
    unfold deltaDecode at hdec
    split at hdec
    · exact deltaDecodeLoopNarrow_lt P _ _ _ q hdec
    · exact deltaDecodeLoop_lt P _ _ _ q hdec

theorem extraLength_eq (P : DeltaParams) (raw : Nat) (hlt : raw < 2 ^ (P.shift + 1))
    (hs : 2 ≤ P.shift) :
    extraLength P raw = (if raw < 4 then 1 else Nat.log2 raw) ∧
    1 ≤ extraLength P raw ∧ extraLength P raw ≤ P.shift := by
  unfold extraLength
  by_cases h4 : raw ≥ 4
  · rw [if_pos h4, if_neg (by omega), highBitScan_eq raw h4 P.shift hlt]
    have hne : raw ≠ 0 := by omega
    have h1 : 2 ≤ Nat.log2 raw := (Nat.le_log2 hne).2 (by norm_num; omega)
    have h2 : Nat.log2 raw < P.shift + 1 := (Nat.log2_lt hne).2 hlt
    exact ⟨rfl, by omega, by omega⟩
  · rw [if_neg h4, if_pos (by omega)]
    exact ⟨rfl, by omega, by omega⟩

/-- C24: in both delta decoders (8-bit: shift 7, 16-bit: shift 15) a raw code is always
assembled when the fuel covers the stream; it fits the sample width; its extra length is
1 when the code is below 4 and otherwise the index of its highest set bit, from 1 to the
shift width; and the adaptive width becomes `(dh + extraLength) >> 1`, which is again at
most the shift width. -/
theorem deltaCode_extra_length (P : DeltaParams)
    (hP : P = MO3Delta8BitParams ∨ P = MO3Delta16BitParams)
    (fuel : Nat) (s : BitState) (dh : Nat)
    (hd : s.data < 256) (hw : s.weight < fuel) (hdh : dh ≤ P.shift) :
    ∃ s1 dh1 raw, deltaCode P fuel s dh = some (s1, dh1, raw) ∧
      raw < 2 ^ P.bits ∧
      extraLength P raw = (if raw < 4 then 1 else Nat.log2 raw) ∧
      1 ≤ extraLength P raw ∧ extraLength P raw ≤ P.shift ∧
      dh1 = (dh + extraLength P raw) / 2 ∧ dh1 ≤ P.shift := by
  obtain ⟨r, e, -⟩ := deltaCode_total P fuel s dh hd hw
  obtain ⟨hlt, hdh1⟩ := deltaCode_raw_lt P fuel s dh r e
  have hbits : P.bits = P.shift + 1 ∧ 2 ≤ P.shift ∧ P.shift ≤ 15 := by
    rcases hP with h | h <;> subst h <;> decide
  obtain ⟨hx, h1, h2⟩ := extraLength_eq P r.2.2 (by rw [← hbits.1]; exact hlt) hbits.2.1
  refine ⟨r.1, r.2.1, r.2.2, e, hlt, hx, h1, h2, ?_, ?_⟩
  · rw [hdh1, Nat.shiftRight_eq_div_pow]
    have : dh + extraLength P r.2.2 < 256 := by omega
    rw [Nat.mod_eq_of_lt this, pow_one]
  · rw [hdh1, Nat.shiftRight_eq_div_pow]
    have : dh + extraLength P r.2.2 < 256 := by omega
    rw [Nat.mod_eq_of_lt this]
    norm_num
    omega

set_option maxRecDepth 1000000 in
theorem deltaCode_extra_length_witness :
    ∃ s1 dh1 raw, deltaCode MO3Delta8BitParams 20 ⟨⟨[0x2C], 0⟩, 0, 0⟩ 4 = some (s1, dh1, raw) ∧
      raw = 11 ∧ extraLength MO3Delta8BitParams raw = 3 ∧ dh1 = 3 := by
  obtain ⟨s1, dh1, raw, e, -, hx, -, -, hdh, -⟩ :=
    deltaCode_extra_length MO3Delta8BitParams (Or.inl rfl) 20 ⟨⟨[0x2C], 0⟩, 0, 0⟩ 4
      (by decide) (by decide) (by decide)
  have hraw : raw = 11 := by
    have h2 : deltaCode MO3Delta8BitParams 20 ⟨⟨[0x2C], 0⟩, 0, 0⟩ 4 =
        some (⟨⟨[0x2C], 1⟩, 0x20, 1⟩, 3, 11) := by decide
    rw [h2] at e
    simp only [Option.some.injEq, Prod.mk.injEq] at e
    exact e.2.2.symm
  subst hraw
  refine ⟨s1, dh1, 11, e, rfl, by decide, ?_⟩
  rw [hdh]
  have : extraLength MO3Delta8BitParams 11 = 3 := by decide
  rw [this]

/-! ## The sample loops as sequences -/

theorem deltaChannel_eq (step : DeltaState → Option (DeltaState × Int)) (numChannels chn : Nat) :
    ∀ (n k : Nat) (st : DeltaState) (dst : List Int),
    deltaChannel step numChannels chn n k st dst =
      (stepValues step n st).map (fun r => (r.1, writeStrided numChannels chn k r.2 dst)) := by
  intro n
  induction n with
  | zero => intro k st dst; rfl
  | succ m ih =>
    intro k st dst
    unfold deltaChannel stepValues
    cases hs : step st with
    | none => rfl
    | some r =>
      obtain ⟨st1, v⟩ := r
      simp only
      rw [ih]
      cases hv : stepValues step m st1 with
      | none => rfl
      | some q => rfl

theorem stepValues_length (step : DeltaState → Option (DeltaState × Int)) :
    ∀ (n : Nat) (st : DeltaState) (r : DeltaState × List Int),
    stepValues step n st = some r → r.2.length = n := by
  intro n
  induction n with
  | zero => intro st r e; simp only [stepValues, Option.some.injEq] at e; subst e; rfl
  | succ m ih =>
    intro st r e
    unfold stepValues at e
    cases hs : step st with
    | none => rw [hs] at e; simp at e
    | some q =>
      obtain ⟨st1, v⟩ := q
      rw [hs] at e
      simp only at e
      cases hv : stepValues step m st1 with
      | none => rw [hv] at e; simp at e
      | some q2 =>
        rw [hv] at e
        simp only [Option.some.injEq] at e
        subst e
        simp [ih st1 q2 hv]

theorem stepValues_succ (step : DeltaState → Option (DeltaState × Int)) (n : Nat)
    (st : DeltaState) :
    stepValues step (n + 1) st =
      match step st with
      | none => none
      | some (st1, v) =>
        match stepValues step n st1 with
        | none => none
        | some (st2, vs) => some (st2, v :: vs) := rfl

theorem stepValues_add (step : DeltaState → Option (DeltaState × Int)) :
    ∀ (a b : Nat) (st : DeltaState),
    stepValues step (a + b) st =
      match stepValues step a st with
      | none => none
      | some (st1, vs) =>
        match stepValues step b st1 with
        | none => none
        | some (st2, ws) => some (st2, vs ++ ws) := by
  intro a
  induction a with
  | zero =>
    intro b st
    have h0 : stepValues step 0 st = some (st, []) := rfl
    rw [Nat.zero_add, h0]
    cases hb : stepValues step b st with
    | none => simp [hb]
    | some q => simp [hb]
  | succ m ih =>
    intro b st
    rw [show m + 1 + b = (m + b) + 1 from by omega, stepValues_succ, stepValues_succ]
    cases hs : step st with
    | none => rfl
    | some q =>
      obtain ⟨st1, v⟩ := q
      simp only
      rw [ih]
      cases hv : stepValues step m st1 with
      | none => rfl
      | some q2 =>
        simp only
        cases hw : stepValues step b q2.1 with
        | none => rfl
        | some q3 => simp

theorem deltaChannels_eq (step : DeltaState → Option (DeltaState × Int))
    (length numChannels : Nat) : ∀ (n chn : Nat) (st : DeltaState) (dst : List Int),
    deltaChannels step length numChannels n chn st dst =
      (stepValues step (n * length) st).map
        (fun r => (r.1, writeChannels length numChannels n chn r.2 dst)) := by
  intro n
  induction n with
  | zero => intro chn st dst; simp [deltaChannels, stepValues, writeChannels]
  | succ m ih =>
    intro chn st dst
    unfold deltaChannels
    rw [deltaChannel_eq, show (m + 1) * length = length + m * length from by ring,
      stepValues_add]
    cases hv : stepValues step length st with
    | none => rfl
    | some q =>
      have hl := stepValues_length step length st q hv
      simp only [Option.map_some']
      rw [ih]
      cases hw : stepValues step (m * length) q.1 with
      | none => rfl
      | some q2 =>
        simp only [Option.map_some', writeChannels]
        rw [List.take_left' hl, List.drop_left' hl]

theorem writeStrided_mono : ∀ (vs : List Int) (k : Nat) (dst : List Int),
    k + vs.length ≤ dst.length →
    (writeStrided 1 0 k vs dst).length = dst.length ∧
    ∀ i, (writeStrided 1 0 k vs dst)[i]? =
      if k ≤ i ∧ i < k + vs.length then vs[i - k]? else dst[i]? := by
  intro vs
  induction vs with
  | nil =>
    intro k dst _
    refine ⟨rfl, fun i => ?_⟩
    rw [if_neg (by simp)]
    rfl
  | cons v vs ih =>
    intro k dst h
    simp only [List.length_cons] at h
    obtain ⟨h1, h2⟩ := ih (k + 1) (dst.set (0 + k * 1) v) (by rw [List.length_set]; omega)
    refine ⟨by show (writeStrided 1 0 (k + 1) vs (dst.set (0 + k * 1) v)).length = _
               rw [h1, List.length_set], fun i => ?_⟩
    show (writeStrided 1 0 (k + 1) vs (dst.set (0 + k * 1) v))[i]? = _
    rw [h2 i, List.getElem?_set, List.length_cons]
    have hk : 0 + k * 1 = k := by omega
    rw [hk]
    by_cases hi : k = i
    · subst hi
      rw [if_neg (by omega), if_pos rfl, if_pos (by omega), if_pos (by omega)]
      simp
    · rw [if_neg hi]
      by_cases hr : k + 1 ≤ i ∧ i < k + 1 + vs.length
      · rw [if_pos hr, if_pos (by omega)]
        rw [show i - k = (i - (k + 1)) + 1 from by omega, List.getElem?_cons_succ]
      · rw [if_neg hr, if_neg (by omega)]

theorem writeStrided_mono_all (vs : List Int) (dst : List Int) (h : vs.length = dst.length) :
    writeStrided 1 0 0 vs dst = vs := by
  obtain ⟨h1, h2⟩ := writeStrided_mono vs 0 dst (by omega)
  apply List.ext_getElem?
  intro i
  rw [h2 i]
  by_cases hi : i < vs.length
  · rw [if_pos ⟨Nat.zero_le _, by omega⟩]
    rfl
  · rw [if_neg (by omega), List.getElem?_eq_none (by omega), List.getElem?_eq_none (by omega)]

theorem writeStrided_zero (numChannels chn m : Nat) : ∀ (vs : List Int) (k : Nat),
    (∀ v ∈ vs, v = 0) →
    writeStrided numChannels chn k vs (List.replicate m 0) = List.replicate m 0 := by
  intro vs
  induction vs with
  | nil => intro k _; rfl
  | cons v vs ih =>
    intro k h
    unfold writeStrided
    have hv : v = 0 := h v (List.mem_cons_self _ _)
    have hset : (List.replicate m (0 : Int)).set (chn + k * numChannels) v =
        List.replicate m 0 := by
      subst hv
      apply List.ext_getElem?
      intro i
      rw [List.getElem?_set]
      split
      · split
        · rename_i h1 h2
          subst h1
          rw [List.getElem?_eq_getElem (by simpa using h2)]
          simp
        · rename_i h1 h2
          subst h1
          rw [List.getElem?_eq_none (by simpa using h2)]
      · rfl
    rw [hset]
    exact ih (k + 1) (fun w hw => h w (List.mem_cons_of_mem _ hw))

theorem writeChannels_zero (length numChannels m : Nat) : ∀ (n chn : Nat) (vs : List Int),
    (∀ v ∈ vs, v = 0) →
    writeChannels length numChannels n chn vs (List.replicate m 0) = List.replicate m 0 := by
  intro n
  induction n with
  | zero => intro chn vs _; rfl
  | succ k ih =>
    intro chn vs h
    unfold writeChannels
    rw [writeStrided_zero numChannels chn m _ 0
      (fun v hv => h v (List.mem_of_mem_take hv))]
    exact ih (chn + 1) _ (fun v hv => h v (List.mem_of_mem_drop hv))

/-! ## The plain delta decoder -/

theorem params_bits (P : DeltaParams)
    (hP : P = MO3Delta8BitParams ∨ P = MO3Delta16BitParams) : P.bits = 8 ∨ P.bits = 16 := by
  rcases hP with h | h <;> subst h
  · exact Or.inl rfl
  · exact Or.inr rfl

theorem rawDelta_signed (P : DeltaParams) (hb : P.bits = 8 ∨ P.bits = 16) (c : Nat)
    (hc : c < 2 ^ P.bits) : toSigned P.bits (rawDelta P c) = signedDelta c := by
  unfold toSigned rawDelta signedDelta
  rw [Nat.and_one_is_mod, Nat.shiftRight_eq_div_pow]
  rcases hb with h | h <;> rw [h] at hc ⊢ <;> norm_num at hc ⊢ <;>
    (split <;> split <;> split <;> omega)

theorem sampleStep_value (P : DeltaParams) (hb : P.bits = 8 ∨ P.bits = 16) (c : Nat)
    (hc : c < 2 ^ P.bits) (previous : Int) :
    toSigned P.bits ((rawDelta P c + toUnsigned P.bits previous) % 2 ^ P.bits) =
      wrapSample P.bits (previous + signedDelta c) := by
  unfold wrapSample toSigned rawDelta signedDelta toUnsigned
  rw [Nat.and_one_is_mod, Nat.shiftRight_eq_div_pow]
  rcases hb with h | h <;> rw [h] at hc ⊢ <;> norm_num at hc ⊢ <;>
    (split <;> split <;> split <;> split <;> omega)

theorem wrapSample_spec (bits : Nat) (hb : bits = 8 ∨ bits = 16) (x : Int) :
    -(2 ^ (bits - 1) : Int) ≤ wrapSample bits x ∧ wrapSample bits x < 2 ^ (bits - 1) ∧
    (wrapSample bits x - x) % 2 ^ bits = 0 := by
  unfold wrapSample toSigned toUnsigned
  rcases hb with h | h <;> subst h <;> norm_num <;> (split <;> omega)

theorem wrapSample_add (bits : Nat) (hb : bits = 8 ∨ bits = 16) (a b : Int) :
    wrapSample bits (wrapSample bits a + b) = wrapSample bits (a + b) := by
  unfold wrapSample toSigned toUnsigned
  rcases hb with h | h <;> subst h <;> norm_num <;> (split <;> split <;> split <;> omega)

theorem wrapSample_zero (bits : Nat) (hb : bits = 8 ∨ bits = 16) : wrapSample bits 0 = 0 := by
  rcases hb with h | h <;> subst h <;> decide

theorem sampleStep_spec (P : DeltaParams) (hb : P.bits = 8 ∨ P.bits = 16) (fuel : Nat)
    (st st1 : DeltaState) (v : Int) (e : deltaSampleStep P fuel st = some (st1, v)) :
    ∃ s dh raw, deltaCode P fuel st.bs st.dh = some (s, dh, raw) ∧
      v = wrapSample P.bits (st.previous + signedDelta raw) ∧
      st1 = { st with bs := { s with carry := raw &&& 1 }, dh := dh, previous := v } := by
  unfold deltaSampleStep at e
  cases hc : deltaCode P fuel st.bs st.dh with
  | none => rw [hc] at e; simp at e
  | some r =>
    obtain ⟨s, dh, raw⟩ := r
    rw [hc] at e
    simp only [Option.some.injEq, Prod.mk.injEq] at e
    have hlt := (deltaCode_raw_lt P fuel st.bs st.dh _ hc).1
    have hv := sampleStep_value P hb raw hlt st.previous
    obtain ⟨e1, e2⟩ := e
    refine ⟨s, dh, raw, rfl, ?_, ?_⟩
    · rw [← e2, hv]
    · rw [← e1, ← e2]

theorem stepValues_sample (P : DeltaParams) (hb : P.bits = 8 ∨ P.bits = 16) (fuel : Nat) :
    ∀ (n : Nat) (st : DeltaState),
    (stepValues (deltaSampleStep P fuel) n st).map (fun r => r.2) =
      (rawCodes P fuel n st.bs st.dh).map (deltaOutputs P.bits st.previous) := by
  intro n
  induction n with
  | zero => intro st; rfl
  | succ m ih =>
    intro st
    rw [stepValues_succ]
    unfold rawCodes
    cases hs : deltaSampleStep P fuel st with
    | none =>
      have hc : deltaCode P fuel st.bs st.dh = none := by
        unfold deltaSampleStep at hs
        cases hc : deltaCode P fuel st.bs st.dh with
        | none => rfl
        | some r => rw [hc] at hs; simp at hs
      rw [hc]
      rfl
    | some q =>
      obtain ⟨st1, v⟩ := q
      obtain ⟨s, dh, raw, hc, hv, hst⟩ := sampleStep_spec P hb fuel st st1 v hs
      rw [hc]
      simp only
      have hih := ih st1
      rw [hst] at hih
      simp only at hih
      cases hr : rawCodes P fuel m { s with carry := raw &&& 1 } dh with
      | none =>
        rw [hr] at hih
        cases hv2 : stepValues (deltaSampleStep P fuel) m st1 with
        | none => rfl
        | some q2 =>
          rw [hst] at hv2
          rw [hv2] at hih
          simp at hih
      | some cs =>
        rw [hr] at hih
        cases hv2 : stepValues (deltaSampleStep P fuel) m st1 with
        | none =>
          rw [hst] at hv2
          rw [hv2] at hih
          simp at hih
        | some q2 =>
          rw [hst] at hv2
          rw [hv2] at hih
          simp only [Option.map_some', Option.some.injEq] at hih ⊢
          rw [hih]
          show v :: deltaOutputs P.bits v cs = deltaOutputs P.bits st.previous (raw :: cs)
          rw [hv]
          rfl

theorem deltaOutputs_length (bits : Nat) : ∀ (cs : List Nat) (previous : Int),
    (deltaOutputs bits previous cs).length = cs.length := by
  intro cs
  induction cs with
  | nil => intro p; rfl
  | cons c cs ih => intro p; simp [deltaOutputs, ih]

theorem deltaOutputs_sum (bits : Nat) (hb : bits = 8 ∨ bits = 16) : ∀ (cs : List Nat)
    (previous : Int) (k : Nat), k < cs.length →
    (deltaOutputs bits previous cs)[k]? =
      some (wrapSample bits (previous + ((cs.take (k + 1)).map signedDelta).sum)) := by
  intro cs
  induction cs with
  | nil => intro p k h; simp at h
  | cons c cs ih =>
    intro p k h
    cases k with
    | zero => simp [deltaOutputs]
    | succ j =>
      simp only [List.length_cons] at h
      simp only [deltaOutputs, List.getElem?_cons_succ, List.take_succ_cons, List.map_cons,
        List.sum_cons]
      rw [ih _ j (by omega), wrapSample_add bits hb, add_assoc]

theorem deltaOutputs_zero (bits : Nat) (hb : bits = 8 ∨ bits = 16) : ∀ (cs : List Nat),
    (∀ c ∈ cs, signedDelta c = 0) → ∀ v ∈ deltaOutputs bits 0 cs, v = 0 := by
  intro cs
  induction cs with
  | nil => intro _ v hv; simp [deltaOutputs] at hv
  | cons c cs ih =>
    intro h v hv
    have hc : signedDelta c = 0 := h c (List.mem_cons_self _ _)
    simp only [deltaOutputs, hc, add_zero, wrapSample_zero bits hb, List.mem_cons] at hv
    rcases hv with hv | hv
    · exact hv
    · exact ih (fun d hd => h d (List.mem_cons_of_mem _ hd)) v hv

theorem UnpackMO3DeltaSample_values (P : DeltaParams) (hb : P.bits = 8 ∨ P.bits = 16)
    (file : FileReader) (length numChannels : Nat) :
    ∃ codes, rawCodes P (deltaFuel file) (numChannels * length) (deltaInit P file).bs P.dhInit =
        some codes ∧ codes.length = numChannels * length ∧
      UnpackMO3DeltaSample P file length numChannels =
        some (writeChannels length numChannels numChannels 0 (deltaOutputs P.bits 0 codes)
          (List.replicate (length * numChannels) 0)) := by
  obtain ⟨d, hd, -⟩ := UnpackMO3DeltaSample_total P file length numChannels
  have hsv := stepValues_sample P hb (deltaFuel file) (numChannels * length) (deltaInit P file)
  unfold UnpackMO3DeltaSample at hd ⊢
  rw [deltaChannels_eq] at hd ⊢
  cases hv : stepValues (deltaSampleStep P (deltaFuel file)) (numChannels * length)
      (deltaInit P file) with
  | none => rw [hv] at hd; simp at hd
  | some q =>
    have hl := stepValues_length _ _ _ q hv
    rw [hv] at hsv
    cases hr : rawCodes P (deltaFuel file) (numChannels * length) (deltaInit P file).bs
        (deltaInit P file).dh with
    | none => rw [hr] at hsv; simp at hsv
    | some codes =>
      rw [hr] at hsv
      simp only [Option.map_some', Option.some.injEq] at hsv
      have hprev : (deltaInit P file).previous = 0 := rfl
      rw [hprev] at hsv
      refine ⟨codes, hr, ?_, ?_⟩
      · rw [← deltaOutputs_length P.bits codes 0, ← hsv]
        exact hl
      · simp only [Option.map_some', hsv]

/-- C21: in `UnpackMO3DeltaSample`, 8-bit and 16-bit: the delta of a raw code `c` is
`c >> 1` when the low bit of `c` is 1 and `-(c >> 1) - 1` when it is 0; each step stores
`previous + delta` wrapped to the sample width and makes it the new `previous`, which
starts at 0; and sample `k` of a mono stream is the sum of the first `k + 1` deltas
wrapped to the sample width, so congruent to that sum modulo `2^width`. -/
theorem UnpackMO3DeltaSample_running_sum (P : DeltaParams)
    (hP : P = MO3Delta8BitParams ∨ P = MO3Delta16BitParams) (file : FileReader) (n : Nat) :
    (∀ c, c < 2 ^ P.bits → toSigned P.bits (rawDelta P c) = signedDelta c) ∧
    (∀ fuel st st1 v, deltaSampleStep P fuel st = some (st1, v) →
      ∃ s dh raw, deltaCode P fuel st.bs st.dh = some (s, dh, raw) ∧
        v = wrapSample P.bits (st.previous + signedDelta raw) ∧ st1.previous = v) ∧
    (deltaInit P file).previous = 0 ∧
    ∃ codes out,
      rawCodes P (deltaFuel file) n (deltaInit P file).bs P.dhInit = some codes ∧
      codes.length = n ∧
      UnpackMO3DeltaSample P file n 1 = some out ∧ out.length = n ∧
      ∀ k, k < n →
        out[k]? = some (wrapSample P.bits ((codes.take (k + 1)).map signedDelta).sum) ∧
        (wrapSample P.bits ((codes.take (k + 1)).map signedDelta).sum -
          ((codes.take (k + 1)).map signedDelta).sum) % 2 ^ P.bits = 0 := by
  have hb := params_bits P hP
  refine ⟨fun c hc => rawDelta_signed P hb c hc, ?_, rfl, ?_⟩
  · intro fuel st st1 v e
    obtain ⟨s, dh, raw, hc, hv, hst⟩ := sampleStep_spec P hb fuel st st1 v e
    exact ⟨s, dh, raw, hc, hv, by rw [hst]⟩
  · obtain ⟨codes, hr, hl, hu⟩ := UnpackMO3DeltaSample_values P hb file n 1
    rw [Nat.one_mul] at hr hl
    have hw : writeChannels n 1 1 0 (deltaOutputs P.bits 0 codes) (List.replicate (n * 1) 0) =
        deltaOutputs P.bits 0 codes := by
      have hlo := deltaOutputs_length P.bits codes 0
      show writeStrided 1 0 0 ((deltaOutputs P.bits 0 codes).take n) _ = _
      rw [List.take_of_length_le (by omega)]
      exact writeStrided_mono_all _ _ (by rw [List.length_replicate]; omega)
    rw [hw] at hu
    refine ⟨codes, deltaOutputs P.bits 0 codes, hr, hl, hu,
      by rw [deltaOutputs_length, hl], ?_⟩
    intro k hk
    have hs := deltaOutputs_sum P.bits hb codes 0 k (by omega)
    rw [zero_add] at hs
    exact ⟨hs, (wrapSample_spec P.bits hb _).2.2⟩

set_option maxRecDepth 1000000 in
theorem UnpackMO3DeltaSample_running_sum_witness :
    UnpackMO3DeltaSample MO3Delta8BitParams ⟨[0x2C, 0x55, 0x01], 0⟩ 3 1 = some [5, 3, -1] ∧
    rawCodes MO3Delta8BitParams (deltaFuel ⟨[0x2C, 0x55, 0x01], 0⟩) 3
      (deltaInit MO3Delta8BitParams ⟨[0x2C, 0x55, 0x01], 0⟩).bs 4 = some [11, 2, 6] ∧
    (deltaInit MO3Delta8BitParams ⟨[0x2C, 0x55, 0x01], 0⟩).previous = 0 :=
  ⟨by decide, by decide,
   (UnpackMO3DeltaSample_running_sum MO3Delta8BitParams (Or.inl rfl)
      ⟨[0x2C, 0x55, 0x01], 0⟩ 3).2.2.1⟩

/-- C22: for every length, every number of channels and both sample widths, when every
delta decoded by the plain delta decoder is zero, the buffer it produces is constant:
every sample equals the initial value of `previous`, which is 0. -/
theorem UnpackMO3DeltaSample_zero_deltas (P : DeltaParams)
    (hP : P = MO3Delta8BitParams ∨ P = MO3Delta16BitParams) (file : FileReader)
    (length numChannels : Nat) (codes : List Nat)
    (hcodes : rawCodes P (deltaFuel file) (numChannels * length) (deltaInit P file).bs
      P.dhInit = some codes)
    (hzero : ∀ c ∈ codes, signedDelta c = 0) :
    UnpackMO3DeltaSample P file length numChannels =
      some (List.replicate (length * numChannels) (deltaInit P file).previous) ∧
    (deltaInit P file).previous = 0 := by
  have hb := params_bits P hP
  obtain ⟨codes2, hr, -, hu⟩ := UnpackMO3DeltaSample_values P hb file length numChannels
  rw [hcodes] at hr
  have hc := Option.some.inj hr
  subst hc
  refine ⟨?_, rfl⟩
  rw [hu, writeChannels_zero length numChannels (length * numChannels) numChannels 0 _
    (deltaOutputs_zero P.bits hb codes hzero)]
  rfl

set_option maxRecDepth 1000000 in
theorem UnpackMO3DeltaSample_zero_deltas_witness :
    UnpackMO3DeltaSample MO3Delta8BitParams ⟨[0x04, 0x48], 0⟩ 3 1 = some [0, 0, 0] ∧
    UnpackMO3DeltaSample MO3Delta16BitParams ⟨[0x00, 0x40, 0x84], 0⟩ 3 1 = some [0, 0, 0] :=
  ⟨(UnpackMO3DeltaSample_zero_deltas MO3Delta8BitParams (Or.inl rfl) ⟨[0x04, 0x48], 0⟩ 3 1
      [1, 1, 1] (by decide) (by decide)).1,
   (UnpackMO3DeltaSample_zero_deltas MO3Delta16BitParams (Or.inr rfl)
      ⟨[0x00, 0x40, 0x84], 0⟩ 3 1 [1, 1, 1] (by decide) (by decide)).1⟩

/-! ## The predicting delta decoder -/

/-- C40: the dialect is IT when the `isIT` flag is set, else S3M when `isS3M` is set,
else MOD when `isMOD` is set, else MTM when `isMTM` is set, else XM; so it is MTM exactly
when `isMTM` is set and none of `isIT`, `isS3M`, `isMOD` is, and XM exactly when none of
the four flags is set. -/
theorem chooseType_priority (flags : Nat) :
    chooseType flags =
      (if flags &&& 0x0100 ≠ 0 then MOD_TYPE_IT
       else if flags &&& 0x0002 ≠ 0 then MOD_TYPE_S3M
       else if flags &&& 0x0080 ≠ 0 then MOD_TYPE_MOD
       else if flags &&& 0x0008 ≠ 0 then MOD_TYPE_MTM
       else MOD_TYPE_XM) ∧
    (chooseType flags = MOD_TYPE_IT ↔ flags &&& 0x0100 ≠ 0) ∧
    (chooseType flags = MOD_TYPE_S3M ↔ flags &&& 0x0100 = 0 ∧ flags &&& 0x0002 ≠ 0) ∧
    (chooseType flags = MOD_TYPE_MOD ↔
      flags &&& 0x0100 = 0 ∧ flags &&& 0x0002 = 0 ∧ flags &&& 0x0080 ≠ 0) ∧
    (chooseType flags = MOD_TYPE_MTM ↔
      flags &&& 0x0008 ≠ 0 ∧ flags &&& 0x0100 = 0 ∧ flags &&& 0x0002 = 0 ∧
        flags &&& 0x0080 = 0) ∧
    (chooseType flags = MOD_TYPE_XM ↔
      flags &&& 0x0100 = 0 ∧ flags &&& 0x0002 = 0 ∧ flags &&& 0x0080 = 0 ∧
        flags &&& 0x0008 = 0) := by
  unfold chooseType MO3FileHeader.isIT MO3FileHeader.isS3M MO3FileHeader.isMOD
    MO3FileHeader.isMTM
  by_cases h1 : flags &&& 0x0100 = 0 <;> by_cases h2 : flags &&& 0x0002 = 0 <;>
    by_cases h3 : flags &&& 0x0080 = 0 <;> by_cases h4 : flags &&& 0x0008 = 0 <;>
    simp [h1, h2, h3, h4]

theorem chooseType_priority_witness :
    chooseType 0x0008 = MOD_TYPE_MTM ∧ chooseType 0x0108 = MOD_TYPE_IT ∧
    chooseType 0x0001 = MOD_TYPE_XM ∧
    (chooseType 0x008A = MOD_TYPE_MTM ↔
      0x008A &&& 0x0008 ≠ 0 ∧ 0x008A &&& 0x0100 = 0 ∧ 0x008A &&& 0x0002 = 0 ∧
        0x008A &&& 0x0080 = 0) :=
  ⟨by decide, by decide, by decide, (chooseType_priority 0x008A).2.2.2.2.1⟩

theorem applyCommand_fallback (K : Constants) (type : MODTYPE) (m : ModCommand)
    (code operand : Nat) (hx : code ∉ explicitCases) (hlt : code < effTrans.length) :
    applyCommand K type m code operand =
      { m with command := effTrans.getD code CMD_NONE, param := operand } := by
  simp only [explicitCases, List.mem_cons, List.mem_singleton, not_or, List.not_mem_nil,
    not_false_eq_true, and_true] at hx
  unfold applyCommand
  iterate 16 rw [if_neg (by omega)]
  rw [if_pos hlt]

theorem effTrans_fallback (code : Nat) (hx : code ∉ explicitCases)
    (hlt : code < effTrans.length) :
    (effTrans.getD code CMD_NONE).isVolumeColumn = false ∧
    (if code = 0 then effTrans.getD code CMD_NONE = CMD_NONE
     else documentedCommands code = [effTrans.getD code CMD_NONE]) := by
  have hl : effTrans.length = 51 := rfl
  rw [hl] at hlt
  interval_cases code <;> first | (exact absurd (by decide) hx) | decide

theorem applyCommand_effect_kind (K : Constants) (type : MODTYPE) (m : ModCommand)
    (code operand : Nat) (hm : m.command.isVolumeColumn = false) :
    (applyCommand K type m code operand).command.isVolumeColumn = false := by
  by_cases hx : code ∈ explicitCases
  · simp only [explicitCases, List.mem_cons, List.mem_singleton, List.not_mem_nil,
      or_false] at hx
    rcases hx with h | h | h | h | h | h | h | h | h | h | h | h | h | h | h | h | h | h | h <;>
      subst h <;> unfold applyCommand <;> simp only [Nat.reduceEqDiff, if_true, if_false,
        Nat.reduceLT, or_true, true_or, or_false, false_or, OfNat.ofNat_ne_one,
        reduceIte] <;>
      (try split_ifs) <;> (try split) <;> first | exact hm | rfl
  · by_cases hlt : code < effTrans.length
    · rw [applyCommand_fallback K type m code operand hx hlt]
      exact (effTrans_fallback code hx hlt).1
    · have hl : effTrans.length = 51 := rfl
      rw [applyCommand_default_skip K type m code operand (by omega)]
      exact hm

theorem applyCommand_volume_cases (K : Constants) (type : MODTYPE) (m : ModCommand)
    (code operand : Nat) (h : code ∈ [0x14, 0x15, 0x1B, 0x1F, 0x20, 0x30, 0x31, 0x32]) :
    (applyCommand K type m code operand).command = m.command ∧
    (applyCommand K type m code operand).param = m.param ∧
    (applyCommand K type m code operand).note = m.note ∧
    (applyCommand K type m code operand).instr = m.instr := by
  simp only [List.mem_cons, List.mem_singleton, List.not_mem_nil, or_false] at h
  rcases h with h | h | h | h | h | h | h | h <;>
    subst h <;> unfold applyCommand <;> simp only [Nat.reduceEqDiff, if_true, if_false,
      Nat.reduceLT, or_true, true_or, or_false, false_or, OfNat.ofNat_ne_one,
      reduceIte] <;>
    (try split_ifs) <;> simp only [and_self]

theorem readCommands_effect_kind (K : Constants) (type : MODTYPE) :
    ∀ (n : Nat) (track : FileReader) (m : ModCommand), m.command.isVolumeColumn = false →
    (readCommands K type n track m).1.command.isVolumeColumn = false := by
  intro n
  induction n with
  | zero => intro track m hm; exact hm
  | succ k ih =>
    intro track m hm
    rw [readCommands]
    exact ih _ _ (applyCommand_effect_kind K type m _ _ hm)

/-- C39: the entries of `effTrans` that are volume-column commands are exactly those of
the codes 0x14, 0x15, 0x1B, 0x1F, 0x20, 0x30, 0x31, 0x32, and each of these codes has its
own `case`, which leaves the effect column (and note and instrument) as they are and
writes only the volume column. A code that reaches the `default` branch inside the
table gets `effTrans[code]` with the operand in the effect column; that entry is not a
volume-column command, and it is the one command the command list gives for the code
(for code 0, which the list does not have, it is `CMD_NONE`). So a pair never turns an
effect column free of volume-column commands into one holding such a command, and the
cell built by any number of pairs from an empty cell has none in its effect column. -/
theorem applyCommand_no_volume_command_in_effect_column (K : Constants) (type : MODTYPE)
    (m : ModCommand) (code operand : Nat) :
    (∀ i, i < effTrans.length →
      ((effTrans.getD i CMD_NONE).isVolumeColumn = true ↔
        i ∈ [0x14, 0x15, 0x1B, 0x1F, 0x20, 0x30, 0x31, 0x32])) ∧
    (∀ i, i ∈ [0x14, 0x15, 0x1B, 0x1F, 0x20, 0x30, 0x31, 0x32] → i ∈ explicitCases) ∧
    (code ∈ [0x14, 0x15, 0x1B, 0x1F, 0x20, 0x30, 0x31, 0x32] →
      (applyCommand K type m code operand).command = m.command ∧
      (applyCommand K type m code operand).param = m.param ∧
      (applyCommand K type m code operand).note = m.note ∧
      (applyCommand K type m code operand).instr = m.instr) ∧
    (code ∉ explicitCases → code < effTrans.length →
      applyCommand K type m code operand =
        { m with command := effTrans.getD code CMD_NONE, param := operand } ∧
      (effTrans.getD code CMD_NONE).isVolumeColumn = false ∧
      (if code = 0 then effTrans.getD code CMD_NONE = CMD_NONE
       else documentedCommands code = [effTrans.getD code CMD_NONE])) ∧
    (m.command.isVolumeColumn = false →
      (applyCommand K type m code operand).command.isVolumeColumn = false) ∧
    (∀ (n : Nat) (track : FileReader),
      (readCommands K type n track ModCommand.Empty).1.command.isVolumeColumn = false) := by
  refine ⟨by decide, by decide, applyCommand_volume_cases K type m code operand, ?_,
    applyCommand_effect_kind K type m code operand, ?_⟩
  · intro hx hlt
    exact ⟨applyCommand_fallback K type m code operand hx hlt,
      (effTrans_fallback code hx hlt).1, (effTrans_fallback code hx hlt).2⟩
  · intro n track
    exact readCommands_effect_kind K type n track ModCommand.Empty rfl

theorem applyCommand_no_volume_command_in_effect_column_witness :
    applyCommand openmptConstants MOD_TYPE_XM ModCommand.Empty 0x0A 0x47 =
      { ModCommand.Empty with command := CMD_TREMOLO, param := 0x47 } ∧
    documentedCommands 0x0A = [CMD_TREMOLO] ∧
    (applyCommand openmptConstants MOD_TYPE_XM ModCommand.Empty 0x1F 0x03).command = CMD_NONE ∧
    (applyCommand openmptConstants MOD_TYPE_XM ModCommand.Empty 0x1F 0x03).volcmd =
      VOLCMD_VIBRATOSPEED :=
  ⟨((applyCommand_no_volume_command_in_effect_column openmptConstants MOD_TYPE_XM
      ModCommand.Empty 0x0A 0x47).2.2.2.1 (by decide) (by decide)).1,
   by decide,
   ((applyCommand_no_volume_command_in_effect_column openmptConstants MOD_TYPE_XM
      ModCommand.Empty 0x1F 0x03).2.2.1 (by decide)).1,
   by decide⟩

/-! ## The adaptive width -/

theorem highBitScan_le (val : Nat) : ∀ cl, highBitScan val cl ≤ cl := by
  intro cl
  induction cl with
  | zero => simp [highBitScan]
  | succ c ih =>
    rw [highBitScan]
    split
    · omega
    · exact Nat.le_refl _

theorem extraLength_le (P : DeltaParams) (hs : 1 ≤ P.shift) (val : Nat) :
    extraLength P val ≤ P.shift := by
  unfold extraLength
  split
  · exact highBitScan_le val P.shift
  · exact hs

theorem deltaCode_dh_range (P : DeltaParams)
    (hP : P = MO3Delta8BitParams ∨ P = MO3Delta16BitParams) (fuel : Nat) (s : BitState)
    (dh : Nat) (r : BitState × Nat × Nat) (e : deltaCode P fuel s dh = some r)
    (h1 : 1 ≤ dh) (h2 : dh ≤ P.shift) : 1 ≤ r.2.1 ∧ r.2.1 ≤ P.shift := by
  obtain ⟨hlt, hdh⟩ := deltaCode_raw_lt P fuel s dh r e
  have hbits : P.bits = P.shift + 1 ∧ 2 ≤ P.shift ∧ P.shift ≤ 15 := by
    rcases hP with h | h <;> subst h <;> decide
  obtain ⟨-, hx1, hx2⟩ := extraLength_eq P r.2.2 (by rw [← hbits.1]; exact hlt) hbits.2.1
  rw [hdh, Nat.shiftRight_eq_div_pow]
  omega

theorem stepValues_invariant (step : DeltaState → Option (DeltaState × Int))
    (I : DeltaState → Prop) (hI : ∀ st st1 v, step st = some (st1, v) → I st → I st1) :
    ∀ (n : Nat) (st : DeltaState) (r : DeltaState × List Int), I st →
    stepValues step n st = some r → I r.1 := by
  intro n
  induction n with
  | zero =>
    intro st r h e
    simp only [stepValues, Option.some.injEq] at e
    subst e
    exact h
  | succ m ih =>
    intro st r h e
    rw [stepValues_succ] at e
    cases hs : step st with
    | none => rw [hs] at e; simp at e
    | some q =>
      obtain ⟨st1, v⟩ := q
      rw [hs] at e
      simp only at e
      cases hv : stepValues step m st1 with
      | none => rw [hv] at e; simp at e
      | some q2 =>
        rw [hv] at e
        simp only [Option.some.injEq] at e
        subst e
        exact ih st1 q2 (hI st st1 v hs h) hv

theorem stepValues_total (fuel : Nat) (step : DeltaState → Option (DeltaState × Int))
    (hstep : StepTotal fuel step) (n : Nat) (st : DeltaState) (hd : st.bs.data < 256)
    (hw : st.bs.weight < fuel) : ∃ r, stepValues step n st = some r := by
  obtain ⟨r, hr, -⟩ := deltaChannels_total fuel step hstep n 1 1 0 st [] hd hw
  rw [deltaChannels_eq, Nat.one_mul] at hr
  cases hv : stepValues step n st with
  | none => rw [hv] at hr; simp at hr
  | some q => exact ⟨q, rfl⟩

theorem deltaInit_ready (P : DeltaParams) (file : FileReader) :
    (deltaInit P file).bs.data < 256 ∧ (deltaInit P file).bs.weight < deltaFuel file := by
  refine ⟨by show (0 : Nat) < 256; omega, ?_⟩
  show 9 * file.BytesLeft + dataWeight 0 < 9 * file.BytesLeft + 2
  have : dataWeight 0 = 1 := rfl
  omega

theorem sampleStep_dh (P : DeltaParams) (fuel : Nat) (st st1 : DeltaState) (v : Int)
    (e : deltaSampleStep P fuel st = some (st1, v)) :
    ∃ r, deltaCode P fuel st.bs st.dh = some r ∧ st1.dh = r.2.1 := by
  unfold deltaSampleStep at e
  cases hc : deltaCode P fuel st.bs st.dh with
  | none => rw [hc] at e; simp at e
  | some r =>
    obtain ⟨s, dh, raw⟩ := r
    rw [hc] at e
    simp only [Option.some.injEq, Prod.mk.injEq] at e
    exact ⟨_, rfl, by rw [← e.1]⟩

theorem predictionStep_dh (P : DeltaParams) (fuel : Nat) (st st1 : DeltaState) (v : Int)
    (e : deltaPredictionStep P fuel st = some (st1, v)) :
    ∃ r, deltaCode P fuel st.bs st.dh = some r ∧ st1.dh = r.2.1 := by
  unfold deltaPredictionStep at e
  cases hc : deltaCode P fuel st.bs st.dh with
  | none => rw [hc] at e; simp at e
  | some r =>
    obtain ⟨s, dh, raw⟩ := r
    rw [hc] at e
    simp only [Option.some.injEq, Prod.mk.injEq] at e
    exact ⟨_, rfl, by rw [← e.1]⟩

/-- C34: in both delta decoders the adaptive width `dh` starts at 4 (8-bit, shift width
7) or 8 (16-bit, shift width 15), and after any number of samples, on every stream, the
decoder has a state and its `dh` lies in `1..shift`; so the `dh` low bits read for the
next sample are at most `shift` many, and the extra length found by the highest-bit
scan, which starts at `shift` and only counts down, is at most `shift`. -/
theorem delta_decoders_dh_range (P : DeltaParams)
    (hP : P = MO3Delta8BitParams ∨ P = MO3Delta16BitParams) (file : FileReader) (n : Nat) :
    ((P.shift = 7 ∧ P.dhInit = 4) ∨ (P.shift = 15 ∧ P.dhInit = 8)) ∧
    (deltaInit P file).dh = P.dhInit ∧
    (∃ r, stepValues (deltaSampleStep P (deltaFuel file)) n (deltaInit P file) = some r ∧
      1 ≤ r.1.dh ∧ r.1.dh ≤ P.shift) ∧
    (∃ r, stepValues (deltaPredictionStep P (deltaFuel file)) n (deltaInit P file) = some r ∧
      1 ≤ r.1.dh ∧ r.1.dh ≤ P.shift) ∧
    (∀ val cl, highBitScan val cl ≤ cl) ∧
    (∀ val, extraLength P val ≤ P.shift) := by
  have hinit : 1 ≤ (deltaInit P file).dh ∧ (deltaInit P file).dh ≤ P.shift := by
    show 1 ≤ P.dhInit ∧ P.dhInit ≤ P.shift
    rcases hP with h | h <;> subst h <;> decide
  have hs1 : 1 ≤ P.shift := by rcases hP with h | h <;> subst h <;> decide
  obtain ⟨hd, hw⟩ := deltaInit_ready P file
  refine ⟨by rcases hP with h | h <;> subst h <;> decide, rfl, ?_, ?_, highBitScan_le,
    extraLength_le P hs1⟩
  · obtain ⟨r, hr⟩ := stepValues_total _ _ (deltaSampleStep_total P (deltaFuel file)) n
      (deltaInit P file) hd hw
    refine ⟨r, hr, ?_⟩
    refine stepValues_invariant _ (fun st => 1 ≤ st.dh ∧ st.dh ≤ P.shift) ?_ n _ r hinit hr
    intro st st1 v e hI
    obtain ⟨q, hq, hdh⟩ := sampleStep_dh P _ st st1 v e
    rw [hdh]
    exact deltaCode_dh_range P hP _ _ _ q hq hI.1 hI.2
  · obtain ⟨r, hr⟩ := stepValues_total _ _ (deltaPredictionStep_total P (deltaFuel file)) n
      (deltaInit P file) hd hw
    refine ⟨r, hr, ?_⟩
    refine stepValues_invariant _ (fun st => 1 ≤ st.dh ∧ st.dh ≤ P.shift) ?_ n _ r hinit hr
    intro st st1 v e hI
    obtain ⟨q, hq, hdh⟩ := predictionStep_dh P _ st st1 v e
    rw [hdh]
    exact deltaCode_dh_range P hP _ _ _ q hq hI.1 hI.2

set_option maxRecDepth 1000000 in
theorem delta_decoders_dh_range_witness :
    (stepValues (deltaSampleStep MO3Delta8BitParams (deltaFuel ⟨[0x2C, 0x55, 0x01], 0⟩)) 3
      (deltaInit MO3Delta8BitParams ⟨[0x2C, 0x55, 0x01], 0⟩)).map (fun r => r.1.dh) = some 2 ∧
    ((MO3Delta8BitParams.shift = 7 ∧ MO3Delta8BitParams.dhInit = 4) ∨
      (MO3Delta8BitParams.shift = 15 ∧ MO3Delta8BitParams.dhInit = 8)) :=
  ⟨by decide,
   (delta_decoders_dh_range MO3Delta8BitParams (Or.inl rfl) ⟨[0x2C, 0x55, 0x01], 0⟩ 3).1⟩

/-! ## A payload of zero bytes -/

theorem peek_zero (f : FileReader) (hz : ∀ x ∈ f.data, x = 0) : ∀ j, f.peek j = 0 := by
  intro j
  unfold FileReader.peek
  split
  · rename_i h
    rw [List.getD_eq_getElem _ _ h, hz _ (List.getElem_mem h)]
  · rfl

theorem READ_zero (s : BitState) (h : ZeroBits s) :
    ZeroBits (READ_CTRL_BIT 8 s) ∧ (READ_CTRL_BIT 8 s).carry = 0 := by
  obtain ⟨hz, hd⟩ := h
  have h0 : s.file.ReadUint8.1 = 0 := by rw [(ReadUint8_peek _).1]; exact hz 0
  have hz1 : ∀ j, s.file.ReadUint8.2.peek j = 0 := by
    intro j
    rw [(ReadUint8_peek _).2]
    exact hz _
  have hand : ∀ x : Nat, x &&& 255 = x % 256 := fun x => Nat.and_pow_two_sub_one_eq_mod x 8
  simp only [List.mem_cons, List.mem_singleton, List.not_mem_nil, or_false] at hd
  unfold ZeroBits
  rcases hd with e | e | e | e | e | e | e | e | e <;>
    simp [READ_CTRL_BIT, e, h0, hz, hz1, hand]

theorem deltaDecode_zero (P : DeltaParams) (fuel : Nat) (s : BitState) (dh : Nat)
    (h : ZeroBits s) (hf : 1 ≤ fuel) :
    ∃ t, deltaDecode P fuel s dh 0 = some (t, 0) ∧ ZeroBits t := by
  obtain ⟨f, rfl⟩ : ∃ f, fuel = f + 1 := ⟨fuel - 1, by omega⟩
  obtain ⟨z1, c1⟩ := READ_zero s h
  obtain ⟨z2, c2⟩ := READ_zero _ z1
  obtain ⟨z3, c3⟩ := READ_zero _ z2
  unfold deltaDecode
  split
  · refine ⟨READ_CTRL_BIT 8 (READ_CTRL_BIT 8 (READ_CTRL_BIT 8 s)), ?_, z3⟩
    simp [deltaDecodeLoopNarrow, c1, c2, c3]
  · refine ⟨READ_CTRL_BIT 8 (READ_CTRL_BIT 8 s), ?_, z2⟩
    simp [deltaDecodeLoop, c1, c2]

theorem readLowBits_zero (P : DeltaParams) : ∀ (cl : Nat) (s : BitState), ZeroBits s →
    ∃ t, readLowBits P cl s 0 = (t, 0) ∧ ZeroBits t := by
  intro cl
  induction cl with
  | zero => intro s h; exact ⟨s, rfl, h⟩
  | succ c ih =>
    intro s h
    obtain ⟨z1, c1⟩ := READ_zero s h
    obtain ⟨t, ht, hz⟩ := ih _ z1
    refine ⟨t, ?_, hz⟩
    rw [readLowBits]
    simp only [c1, Nat.zero_shiftLeft, Nat.add_zero, Nat.zero_mod]
    exact ht

theorem deltaCode_zero (P : DeltaParams) (fuel : Nat) (s : BitState) (dh : Nat)
    (h : ZeroBits s) (hf : 1 ≤ fuel) :
    ∃ t, deltaCode P fuel s dh = some (t, ((dh + 1) % 256) >>> 1, 0) ∧ ZeroBits t := by
  obtain ⟨t1, h1, z1⟩ := deltaDecode_zero P fuel s dh h hf
  obtain ⟨t2, h2, z2⟩ := readLowBits_zero P dh t1 z1
  refine ⟨t2, ?_, z2⟩
  unfold deltaCode
  rw [h1]
  simp only [h2]
  rfl

theorem rawCodes_zero (P : DeltaParams) (fuel : Nat) (hf : 1 ≤ fuel) :
    ∀ (n : Nat) (s : BitState) (dh : Nat), ZeroBits s →
    rawCodes P fuel n s dh = some (List.replicate n 0) := by
  intro n
  induction n with
  | zero => intro s dh _; rfl
  | succ m ih =>
    intro s dh h
    obtain ⟨t, ht, hz⟩ := deltaCode_zero P fuel s dh h hf
    rw [rawCodes, ht]
    simp only
    rw [ih { t with carry := 0 &&& 1 } _ ⟨hz.1, hz.2⟩]
    rfl

theorem sum_replicate_minus_one : ∀ (n : Nat),
    ((List.replicate n 0).map signedDelta).sum = -(n : Int) := by
  intro n
  induction n with
  | zero => rfl
  | succ m ih =>
    rw [List.replicate_succ, List.map_cons, List.sum_cons, ih]
    have : signedDelta 0 = -1 := by decide
    rw [this]
    push_cast
    ring

/-- C37: for a mono sample of any length whose payload holds only zero bytes (of any
number, the reads past its end yielding 0 as well), `UnpackMO3DeltaSample`, 8-bit and
16-bit, decodes every raw code as 0, whose delta is -1, and stores for every `k` below
the length the value `-(k + 1)` wrapped to the sample width. -/
theorem UnpackMO3DeltaSample_zero_payload (P : DeltaParams)
    (hP : P = MO3Delta8BitParams ∨ P = MO3Delta16BitParams) (file : FileReader)
    (hz : ∀ x ∈ file.data, x = 0) (n : Nat) :
    signedDelta 0 = -1 ∧
    rawCodes P (deltaFuel file) n (deltaInit P file).bs P.dhInit = some (List.replicate n 0) ∧
    ∃ out, UnpackMO3DeltaSample P file n 1 = some out ∧ out.length = n ∧
      ∀ k, k < n → out[k]? = some (wrapSample P.bits (-((k : Int) + 1))) := by
  have hb := params_bits P hP
  have hzero : ZeroBits (deltaInit P file).bs :=
    ⟨peek_zero file hz, by show (0 : Nat) ∈ _; simp⟩
  have hcodes := rawCodes_zero P (deltaFuel file) (by unfold deltaFuel; omega) n _ P.dhInit hzero
  refine ⟨by decide, hcodes, ?_⟩
  obtain ⟨codes, hr, hl, hu⟩ := UnpackMO3DeltaSample_values P hb file n 1
  rw [Nat.one_mul] at hr hl
  rw [hcodes] at hr
  have hc := Option.some.inj hr
  subst hc
  have hw : writeChannels n 1 1 0 (deltaOutputs P.bits 0 (List.replicate n 0))
      (List.replicate (n * 1) 0) = deltaOutputs P.bits 0 (List.replicate n 0) := by
    have hlo := deltaOutputs_length P.bits (List.replicate n 0) 0
    show writeStrided 1 0 0 ((deltaOutputs P.bits 0 (List.replicate n 0)).take n) _ = _
    rw [List.take_of_length_le (by omega)]
    exact writeStrided_mono_all _ _ (by rw [List.length_replicate]; omega)
  rw [hw] at hu
  refine ⟨_, hu, by rw [deltaOutputs_length, hl], ?_⟩
  intro k hk
  have hs := deltaOutputs_sum P.bits hb (List.replicate n 0) 0 k (by omega)
  rw [hs, List.take_replicate, Nat.min_eq_left (by omega), sum_replicate_minus_one]
  push_cast
  congr 2

set_option maxRecDepth 1000000 in
theorem UnpackMO3DeltaSample_zero_payload_witness :
    UnpackMO3DeltaSample MO3Delta8BitParams ⟨[0, 0], 0⟩ 4 1 = some [-1, -2, -3, -4] ∧
    UnpackMO3DeltaSample MO3Delta16BitParams ⟨[0, 0], 0⟩ 4 1 = some [-1, -2, -3, -4] ∧
    wrapSample 8 (-((128 : Int) + 1)) = 127 ∧
    rawCodes MO3Delta8BitParams (deltaFuel ⟨[0, 0], 0⟩) 4
      (deltaInit MO3Delta8BitParams ⟨[0, 0], 0⟩).bs MO3Delta8BitParams.dhInit =
        some (List.replicate 4 0) :=
  ⟨by decide, by decide, by decide,
   (UnpackMO3DeltaSample_zero_payload MO3Delta8BitParams (Or.inl rfl) ⟨[0, 0], 0⟩
      (by decide) 4).2.1⟩

/-! ## Several channels -/

theorem writeStrided_length (c chn : Nat) : ∀ (vs : List Int) (k : Nat) (dst : List Int),
    (writeStrided c chn k vs dst).length = dst.length := by
  intro vs
  induction vs with
  | nil => intro k dst; rfl
  | cons v vs ih =>
    intro k dst
    rw [writeStrided, ih, List.length_set]

theorem writeStrided_below (c chn : Nat) : ∀ (vs : List Int) (k : Nat) (dst : List Int) (i : Nat),
    i < chn + k * c → (writeStrided c chn k vs dst)[i]? = dst[i]? := by
  intro vs
  induction vs with
  | nil => intro k dst i _; rfl
  | cons v vs ih =>
    intro k dst i hi
    have e : (k + 1) * c = k * c + c := Nat.succ_mul k c
    rw [writeStrided, ih (k + 1) _ i (by omega), List.getElem?_set_ne (by omega)]

theorem writeStrided_other (c chn : Nat) : ∀ (vs : List Int) (k : Nat) (dst : List Int) (i : Nat),
    i % c ≠ chn % c → (writeStrided c chn k vs dst)[i]? = dst[i]? := by
  intro vs
  induction vs with
  | nil => intro k dst i _; rfl
  | cons v vs ih =>
    intro k dst i hi
    rw [writeStrided, ih (k + 1) _ i hi, List.getElem?_set_ne]
    intro e
    apply hi
    rw [← e, Nat.add_mul_mod_self_right]

theorem writeStrided_at (c chn : Nat) (hc : 1 ≤ c) : ∀ (vs : List Int) (k0 : Nat)
    (dst : List Int) (k : Nat), k < vs.length → chn + (k0 + k) * c < dst.length →
    (writeStrided c chn k0 vs dst)[chn + (k0 + k) * c]? = vs[k]? := by
  intro vs
  induction vs with
  | nil => intro k0 dst k hk _; simp at hk
  | cons v vs ih =>
    intro k0 dst k hk hlt
    rw [writeStrided]
    cases k with
    | zero =>
      have e : (k0 + 1) * c = k0 * c + c := Nat.succ_mul k0 c
      simp only [Nat.add_zero] at hlt ⊢
      rw [writeStrided_below c chn vs (k0 + 1) _ _ (by omega),
        List.getElem?_set_eq_of_lt _ hlt, List.getElem?_cons_zero]
    | succ k1 =>
      have e : k0 + (k1 + 1) = k0 + 1 + k1 := by omega
      rw [e] at hlt ⊢
      rw [ih (k0 + 1) _ k1 (by simpa using hk) (by rw [List.length_set]; exact hlt),
        List.getElem?_cons_succ]

theorem writeChannels_succ (length c n chn : Nat) (vs dst : List Int) :
    writeChannels length c (n + 1) chn vs dst =
      writeChannels length c n (chn + 1) (vs.drop length)
        (writeStrided c chn 0 (vs.take length) dst) := rfl

theorem writeChannels_length (length c : Nat) : ∀ (n chn : Nat) (vs dst : List Int),
    (writeChannels length c n chn vs dst).length = dst.length := by
  intro n
  induction n with
  | zero => intro chn vs dst; rfl
  | succ m ih =>
    intro chn vs dst
    rw [writeChannels_succ, ih, writeStrided_length]

theorem writeChannels_other (length c : Nat) : ∀ (n chn : Nat) (vs dst : List Int) (i : Nat),
    chn + n ≤ c → i % c < chn → (writeChannels length c n chn vs dst)[i]? = dst[i]? := by
  intro n
  induction n with
  | zero => intro chn vs dst i _ _; rfl
  | succ m ih =>
    intro chn vs dst i hn hi
    rw [writeChannels_succ, ih (chn + 1) _ _ i (by omega) (by omega),
      writeStrided_other c chn _ 0 dst i (by rw [Nat.mod_eq_of_lt (by omega : chn < c)]; omega)]

theorem writeChannels_at (length c : Nat) : ∀ (n chn : Nat) (vs dst : List Int),
    chn + n ≤ c → vs.length = n * length → dst.length = length * c →
    ∀ j k, j < n → k < length →
      (writeChannels length c n chn vs dst)[k * c + (chn + j)]? = vs[j * length + k]? := by
  intro n
  induction n with
  | zero => intro chn vs dst _ _ _ j k hj _; omega
  | succ m ih =>
    intro chn vs dst hn hvs hdst j k hj hk
    have hchn : chn < c := by omega
    have hsm : (m + 1) * length = m * length + length := Nat.succ_mul m length
    rw [writeChannels_succ]
    cases j with
    | zero =>
      have hmod : (k * c + (chn + 0)) % c = chn := by
        rw [Nat.add_zero, Nat.add_comm, Nat.add_mul_mod_self_right, Nat.mod_eq_of_lt hchn]
      rw [writeChannels_other length c m (chn + 1) _ _ _ (by omega) (by omega)]
      have hk1 : (k + 1) * c ≤ length * c := Nat.mul_le_mul_right c (by omega)
      have hk2 : (k + 1) * c = k * c + c := Nat.succ_mul k c
      have e : k * c + (chn + 0) = chn + (0 + k) * c := by
        rw [Nat.zero_add, Nat.add_zero, Nat.add_comm]
      rw [e, writeStrided_at c chn (by omega) _ 0 dst k
        (by rw [List.length_take]; omega) (by rw [Nat.zero_add]; omega),
        List.getElem?_take_of_lt hk, Nat.zero_mul, Nat.zero_add]
    | succ j1 =>
      have e : k * c + (chn + (j1 + 1)) = k * c + (chn + 1 + j1) := by omega
      have hj1 : (j1 + 1) * length = j1 * length + length := Nat.succ_mul j1 length
      rw [e, ih (chn + 1) _ _ (by omega) (by rw [List.length_drop]; omega)
        (by rw [writeStrided_length]; exact hdst) j1 k (by omega) hk,
        List.getElem?_drop]
      congr 1
      omega

theorem deltaOutputs_next (bits : Nat) : ∀ (cs : List Nat) (p : Int) (j : Nat) (x : Int)
    (d : Nat), (deltaOutputs bits p cs)[j]? = some x → cs[j + 1]? = some d →
    (deltaOutputs bits p cs)[j + 1]? = some (wrapSample bits (x + signedDelta d)) := by
  intro cs
  induction cs with
  | nil => intro p j x d h _; simp [deltaOutputs] at h
  | cons c0 cs ih =>
    intro p j x d hx hd
    rw [deltaOutputs] at hx ⊢
    rw [List.getElem?_cons_succ] at hd ⊢
    cases j with
    | zero =>
      simp only [List.getElem?_cons_zero, Option.some.injEq] at hx
      cases cs with
      | nil => simp at hd
      | cons c1 cs1 =>
        simp only [List.getElem?_cons_zero, Option.some.injEq] at hd
        rw [deltaOutputs, List.getElem?_cons_zero, hx, hd]
    | succ j1 =>
      rw [List.getElem?_cons_succ] at hx
      exact ih _ j1 x d hx hd

/-- C38: in `UnpackMO3DeltaSample` with `c` channels the codes are read from the stream
in one run, `length` codes for channel 0, then `length` for channel 1 and so on, the
bit reader, the adaptive width and the running value passing from one channel to the
next. Value `k` of channel `ch` is stored at buffer index `k * c + ch`; it is the
running value number `ch * length + k` of that one run, so the wrapped sum of the
first `ch * length + k + 1` deltas; and the first sample of channel `ch + 1` is the last
sample of channel `ch` plus the first delta decoded for channel `ch + 1`, wrapped to the
sample width. -/
theorem UnpackMO3DeltaSample_interleaved (P : DeltaParams)
    (hP : P = MO3Delta8BitParams ∨ P = MO3Delta16BitParams) (file : FileReader)
    (length c : Nat) :
    ∃ codes out,
      rawCodes P (deltaFuel file) (c * length) (deltaInit P file).bs P.dhInit = some codes ∧
      codes.length = c * length ∧
      UnpackMO3DeltaSample P file length c = some out ∧ out.length = length * c ∧
      (∀ ch k, ch < c → k < length →
        out[k * c + ch]? = (deltaOutputs P.bits 0 codes)[ch * length + k]? ∧
        out[k * c + ch]? =
          some (wrapSample P.bits ((codes.take (ch * length + k + 1)).map signedDelta).sum)) ∧
      (∀ ch x d, ch + 1 < c → 1 ≤ length →
        out[(length - 1) * c + ch]? = some x → codes[(ch + 1) * length]? = some d →
        out[0 * c + (ch + 1)]? = some (wrapSample P.bits (x + signedDelta d))) := by
  have hb := params_bits P hP
  obtain ⟨codes, hr, hl, hu⟩ := UnpackMO3DeltaSample_values P hb file length c
  have hlo := deltaOutputs_length P.bits codes 0
  have hat := writeChannels_at length c c 0 (deltaOutputs P.bits 0 codes)
    (List.replicate (length * c) 0) (by omega) (by rw [hlo, hl])
    (by rw [List.length_replicate])
  have hidx : ∀ ch k, ch < c → k < length → ch * length + k < codes.length := by
    intro ch k hch hk
    have h1 : (ch + 1) * length ≤ c * length := Nat.mul_le_mul_right length (by omega)
    have h2 : (ch + 1) * length = ch * length + length := Nat.succ_mul ch length
    omega
  refine ⟨codes, _, hr, hl, hu, ?_, ?_, ?_⟩
  · rw [writeChannels_length, List.length_replicate]
  · intro ch k hch hk
    have h := hat ch k hch hk
    rw [Nat.zero_add] at h
    refine ⟨h, ?_⟩
    rw [h, deltaOutputs_sum P.bits hb codes 0 _ (hidx ch k hch hk), zero_add]
  · intro ch x d hch hlen hx hd
    have h1 := hat ch (length - 1) (by omega) (by omega)
    have h2 := hat (ch + 1) 0 hch (by omega)
    rw [Nat.zero_add] at h1 h2
    rw [h1] at hx
    rw [h2, Nat.add_zero]
    have e : (ch + 1) * length = ch * length + (length - 1) + 1 := by
      have h3 : (ch + 1) * length = ch * length + length := Nat.succ_mul ch length
      omega
    rw [e] at hd ⊢
    exact deltaOutputs_next P.bits codes 0 _ x d hx hd

set_option maxRecDepth 1000000 in
theorem UnpackMO3DeltaSample_interleaved_witness :
    UnpackMO3DeltaSample MO3Delta8BitParams ⟨[0x2C, 0x55, 0x01, 0x77, 0x13], 0⟩ 3 2 =
      some [5, -4, 3, -5, -1, -4] ∧
    rawCodes MO3Delta8BitParams (deltaFuel ⟨[0x2C, 0x55, 0x01, 0x77, 0x13], 0⟩) (2 * 3)
      (deltaInit MO3Delta8BitParams ⟨[0x2C, 0x55, 0x01, 0x77, 0x13], 0⟩).bs 4 =
        some [11, 2, 6, 4, 0, 3] ∧
    wrapSample 8 (-1 + signedDelta 4) = -4 ∧
    ∃ codes out,
      rawCodes MO3Delta8BitParams (deltaFuel ⟨[0x2C, 0x55, 0x01, 0x77, 0x13], 0⟩) (2 * 3)
        (deltaInit MO3Delta8BitParams ⟨[0x2C, 0x55, 0x01, 0x77, 0x13], 0⟩).bs
        MO3Delta8BitParams.dhInit = some codes ∧
      codes.length = 2 * 3 ∧
      UnpackMO3DeltaSample MO3Delta8BitParams ⟨[0x2C, 0x55, 0x01, 0x77, 0x13], 0⟩ 3 2 =
        some out ∧ out.length = 3 * 2 :=
  ⟨by decide, by decide, by decide,
   (UnpackMO3DeltaSample_interleaved MO3Delta8BitParams (Or.inl rfl)
      ⟨[0x2C, 0x55, 0x01, 0x77, 0x13], 0⟩ 3 2).imp
      (fun _ h => h.imp (fun _ g => ⟨g.1, g.2.1, g.2.2.1, g.2.2.2.1⟩))⟩

/-! ## The rows a track writes -/

theorem fillRows_eq (m : ModCommand) (n row : Nat) (col : List ModCommand)
    (h : row + n ≤ col.length) :
    fillRows m n row col = col.take row ++ List.replicate n m ++ col.drop (row + n) := by
  obtain ⟨hl, hs⟩ := fillRows_spec m n row col h
  apply List.ext_getElem?
  intro i
  rw [hs i]
  by_cases h1 : i < row
  · rw [if_neg (by omega), List.append_assoc,
      List.getElem?_append_left (by rw [List.length_take]; omega),
      List.getElem?_take_of_lt h1]
  · by_cases h2 : i < row + n
    · rw [if_pos ⟨by omega, h2⟩, List.append_assoc,
        List.getElem?_append_right (by rw [List.length_take]; omega),
        List.getElem?_append_left (by rw [List.length_take, List.length_replicate]; omega),
        List.getElem?_replicate]
      rw [if_pos (by rw [List.length_take]; omega)]
    · rw [if_neg (by omega),
        List.getElem?_append_right
          (by rw [List.length_append, List.length_take, List.length_replicate]; omega),
        List.getElem?_drop]
      congr 1
      rw [List.length_append, List.length_take, List.length_replicate]
      omega

theorem decodeTrackLoop_rows (K : Constants) (type : MODTYPE) (numRows : Nat) :
    ∀ (fuel : Nat) (track : FileReader) (row : Nat), track.BytesLeft < fuel → row ≤ numRows →
    ∃ R cells, row ≤ R ∧ R ≤ numRows ∧ cells.length = R - row ∧
      ∀ col : List ModCommand, numRows ≤ col.length →
        decodeTrackLoop K type numRows fuel track row col =
          some (col.take row ++ cells ++ col.drop R) := by
  intro fuel
  induction fuel with
  | zero => intro track row h; omega
  | succ n ih =>
    intro track row hf hrn
    have hstop : ∀ col : List ModCommand,
        some col = some (col.take row ++ [] ++ col.drop row) := by
      intro col
      rw [List.append_nil, List.take_append_drop]
    by_cases hrow : row < numRows
    · by_cases hz : track.ReadUint8.1 = 0
      · refine ⟨row, [], le_refl _, hrn, by simp, ?_⟩
        intro col _
        rw [decodeTrackLoop, if_pos hrow]
        simp only [if_pos hz]
        exact hstop col
      · have hl : track.ReadUint8.2.BytesLeft + 1 = track.BytesLeft := by
          rcases ReadUint8_left track with ⟨_, he⟩ | h1
          · rw [he] at hz; exact absurd rfl hz
          · exact h1
        have hc := readCommands_left_le K type (track.ReadUint8.1 &&& 0x0F) track.ReadUint8.2
          ModCommand.Empty
        obtain ⟨T, hT⟩ : ∃ T, T = min (row + track.ReadUint8.1 >>> 4) numRows := ⟨_, rfl⟩
        obtain ⟨m, hm⟩ : ∃ m, m = (if K.MODPLUG_TRACKER ∧ type = MOD_TYPE_MTM then
            K.Convert (readCommands K type (track.ReadUint8.1 &&& 0x0F) track.ReadUint8.2
              ModCommand.Empty).1
          else (readCommands K type (track.ReadUint8.1 &&& 0x0F) track.ReadUint8.2
              ModCommand.Empty).1) := ⟨_, rfl⟩
        have hT1 : row ≤ T := by rw [hT]; omega
        have hT2 : T ≤ numRows := by rw [hT]; omega
        obtain ⟨R, cells, hR1, hR2, hcl, hrun⟩ := ih
          (readCommands K type (track.ReadUint8.1 &&& 0x0F) track.ReadUint8.2
            ModCommand.Empty).2 T (by omega) hT2
        refine ⟨R, List.replicate (T - row) m ++ cells, by omega, hR2,
          by rw [List.length_append, List.length_replicate]; omega, ?_⟩
        intro col hcol
        rw [decodeTrackLoop, if_pos hrow]
        simp only [if_neg hz]
        rw [← hT, ← hm, hrun _ (by rw [(fillRows_spec _ _ _ _ (by omega)).1]; exact hcol),
          fillRows_eq m (T - row) row col (by omega)]
        have e1 : row + (T - row) = T := by omega
        rw [e1]
        have hlen : (col.take row ++ List.replicate (T - row) m).length = T := by
          rw [List.length_append, List.length_take, List.length_replicate]
          omega
        have hA : ∀ D : List ModCommand,
            ((col.take row ++ List.replicate (T - row) m) ++ D).take T =
              col.take row ++ List.replicate (T - row) m := fun D => List.take_left' hlen
        have hD : ((col.take row ++ List.replicate (T - row) m) ++ col.drop T).drop R =
            col.drop R := by
          rw [List.drop_append_eq_append_drop, List.drop_eq_nil_of_le (by omega),
            List.nil_append, List.drop_drop, hlen]
          congr 1
          omega
        rw [hA, hD]
        simp only [List.append_assoc]
    · refine ⟨row, [], le_refl _, hrn, by simp, ?_⟩
      intro col _
      rw [decodeTrackLoop, if_neg hrow]
      exact hstop col

/-- C32: for every track and every row count `numRows`, decoding one channel ends with
a column (also on a track with repeat counts 0 or without a terminator), and there is a
row `R ≤ numRows` such that exactly the rows below `R` are written: whatever the column
(or any longer buffer) held before, the loop leaves `R` cells that depend only on the
track followed by the old contents from row `R` on; so no row from `numRows` on is
written and in the fresh column of a pattern the rows from `R` on stay empty. An
iteration that finds `row ≥ numRows` or reads a zero control byte ends the loop without
a write. -/
theorem decodeChannel_rows (K : Constants) (type : MODTYPE) (numRows : Nat)
    (track : FileReader) :
    ∃ R cells, R ≤ numRows ∧ cells.length = R ∧
      decodeChannel K type numRows track =
        some (cells ++ List.replicate (numRows - R) ModCommand.Empty) ∧
      (∀ col : List ModCommand, numRows ≤ col.length →
        decodeTrackLoop K type numRows (track.data.length + 1) track.Rewind 0 col =
          some (cells ++ col.drop R)) ∧
      (∀ (fuel : Nat) (tr : FileReader) (row : Nat) (col : List ModCommand),
        (numRows ≤ row ∨ tr.ReadUint8.1 = 0) →
        decodeTrackLoop K type numRows (fuel + 1) tr row col = some col) := by
  obtain ⟨R, cells, -, hR, hcl, hrun⟩ := decodeTrackLoop_rows K type numRows
    (track.data.length + 1) track.Rewind 0
    (by unfold FileReader.Rewind FileReader.BytesLeft; simp) (Nat.zero_le _)
  refine ⟨R, cells, hR, by simpa using hcl, ?_, ?_, ?_⟩
  · unfold decodeChannel
    rw [hrun _ (by rw [List.length_replicate])]
    simp [List.drop_replicate]
  · intro col hcol
    rw [hrun col hcol]
    simp
  · intro fuel tr row col h
    rw [decodeTrackLoop]
    by_cases hrow : row < numRows
    · rw [if_pos hrow]
      rcases h with h | h
      · omega
      · simp only [if_pos h]
    · rw [if_neg hrow]

set_option maxRecDepth 1000000 in
theorem decodeChannel_rows_witness :
    decodeChannel openmptConstants MOD_TYPE_XM 4 ⟨[0x01, 0x01, 0x3C, 0x31, 0x01, 0x3C], 0⟩ =
      some [exampleNoteCell openmptConstants MOD_TYPE_XM,
            exampleNoteCell openmptConstants MOD_TYPE_XM,
            exampleNoteCell openmptConstants MOD_TYPE_XM, ModCommand.Empty] ∧
    decodeChannel openmptConstants MOD_TYPE_XM 4 ⟨[0x21, 0x01, 0x3C, 0xF1, 0x01, 0x3C, 0x11], 0⟩ =
      some [exampleNoteCell openmptConstants MOD_TYPE_XM,
            exampleNoteCell openmptConstants MOD_TYPE_XM,
            exampleNoteCell openmptConstants MOD_TYPE_XM,
            exampleNoteCell openmptConstants MOD_TYPE_XM] ∧
    ∃ R cells, R ≤ 4 ∧ cells.length = R ∧
      decodeChannel openmptConstants MOD_TYPE_XM 4 ⟨[0x01, 0x01, 0x3C, 0x31, 0x01, 0x3C], 0⟩ =
        some (cells ++ List.replicate (4 - R) ModCommand.Empty) :=
  ⟨by decide, by decide,
   (decodeChannel_rows openmptConstants MOD_TYPE_XM 4
      ⟨[0x01, 0x01, 0x3C, 0x31, 0x01, 0x3C], 0⟩).imp
      (fun _ h => h.imp (fun _ g => ⟨g.1, g.2.1, g.2.2.1⟩))⟩

/-! ## A match that reuses an offset never stored -/

theorem unpackStep_literal (dfuel : Nat) (st : LZState)
    (h : (READ_CTRL_BIT 8 st.bs).carry = 0) :
    unpackStep dfuel st =
      some (.next { st with
        bs := { READ_CTRL_BIT 8 st.bs with file := (READ_CTRL_BIT 8 st.bs).file.ReadUint8.2 },
        out := st.out ++ [(READ_CTRL_BIT 8 st.bs).file.ReadUint8.1],
        size := st.size - 1 }) := by
  unfold unpackStep
  simp only [h, if_true]

theorem stateAt_succ (dfuel k : Nat) (st : LZState) :
    stateAt dfuel (k + 1) st =
      if st.size > 0 then
        match unpackStep dfuel st with
        | some (.next st1) => stateAt dfuel k st1
        | _ => none
      else none := rfl

theorem stateAt_literals (dfuel : Nat) : ∀ (k : Nat) (st sk : LZState),
    stateAt dfuel k st = some sk →
    (∀ j sj, j < k → stateAt dfuel j st = some sj → (READ_CTRL_BIT 8 sj.bs).carry = 0) →
    sk.previousPtr = st.previousPtr ∧ sk.strLen = st.strLen := by
  intro k
  induction k with
  | zero =>
    intro st sk e _
    simp only [stateAt, Option.some.injEq] at e
    subst e
    exact ⟨rfl, rfl⟩
  | succ n ih =>
    intro st sk e hl
    have h0 := hl 0 st (by omega) rfl
    have hstep := unpackStep_literal dfuel st h0
    rw [stateAt_succ] at e
    by_cases hs : st.size > 0
    · rw [if_pos hs, hstep] at e
      simp only at e
      obtain ⟨h1, h2⟩ := ih _ sk e (by
        intro j sj hj ej
        apply hl (j + 1) sj (by omega)
        rw [stateAt_succ, if_pos hs, hstep]
        exact ej)
      exact ⟨h1, h2⟩
    · rw [if_neg hs] at e
      exact absurd e (by simp)

theorem unpackStep_reuse_zero (dfuel : Nat) (st : LZState) (h : MatchHeader)
    (hbit : (READ_CTRL_BIT 8 st.bs).carry ≠ 0)
    (hm : decodeMatch dfuel (READ_CTRL_BIT 8 st.bs) st.strLen st.previousPtr = some h)
    (hreuse : wrap32 (h.code - 3) < 0) (hprev : st.previousPtr = 0) :
    h.strOffset = 0 ∧ h.previousPtr = 0 ∧
    unpackStep dfuel st =
      some (.stop { st with bs := h.bs, strLen := h.strLen, previousPtr := h.previousPtr }) := by
  obtain ⟨s1, -, -, ho, -, hp, -⟩ := decodeMatch_fields dfuel _ _ _ h hm
  rw [matchOffset_reuse _ _ _ hreuse] at ho hp
  simp only [hprev] at ho hp
  have ho0 : h.strOffset = 0 := by rw [ho]; decide
  refine ⟨ho0, hp, ?_⟩
  unfold unpackStep
  simp only [if_neg hbit, hm]
  split
  · rw [ho0, if_pos (Or.inr (by omega))]
  · rfl

/-- C36: when the main loop of `UnpackMO3Data` reaches, after literals only, a match
whose length code selects "reuse the previous offset" (the code less 3 is negative, as
for the code 2), the previous offset is still its initial value 0, the source position
is the write position, the iteration leaves the loop by `break` and the call returns
false, having written the literals only. -/
theorem UnpackMO3Data_reuse_without_offset (file : FileReader) (N k : Nat) (st : LZState)
    (h : MatchHeader) (hN : 1 ≤ N)
    (hk : callStateAt file N k = some st) (hsize : 0 < st.size)
    (hlit : ∀ j sj, j < k → callStateAt file N j = some sj →
      (READ_CTRL_BIT 8 sj.bs).carry = 0)
    (hbit : (READ_CTRL_BIT 8 st.bs).carry ≠ 0)
    (hm : decodeMatch (unpackFuel file N) (READ_CTRL_BIT 8 st.bs) st.strLen st.previousPtr =
      some h)
    (hreuse : wrap32 (h.code - 3) < 0) :
    (unpackInit file N).previousPtr = 0 ∧ st.previousPtr = 0 ∧ h.strOffset = 0 ∧
    (st.out.length : Int) + h.strOffset = st.out.length ∧
    unpackStep (unpackFuel file N) st =
      some (.stop { st with bs := h.bs, strLen := h.strLen, previousPtr := h.previousPtr }) ∧
    ∃ r, UnpackMO3Data file N = some r ∧ r.ok = false ∧ r.out = st.out ∧
      r.out.length < N := by
  have hprev : st.previousPtr = 0 :=
    (stateAt_literals (unpackFuel file N) k (unpackInit file N) st hk hlit).1
  obtain ⟨ho, -, hstep⟩ := unpackStep_reuse_zero (unpackFuel file N) st h hbit hm hreuse hprev
  refine ⟨rfl, hprev, ho, by rw [ho, add_zero], hstep, ?_⟩
  obtain ⟨-, -, -, -, fuel, hfuel, hloop⟩ := callStateAt_spec file N k st hN hk
  obtain ⟨e, r, he, hr, hout, -, -, hab⟩ := unpack_call_spec file N hN
  obtain ⟨f, rfl⟩ : ∃ f, fuel = f + 1 := ⟨fuel - 1, by omega⟩
  rw [hloop, unpackLoop, if_pos hsize, hstep] at he
  simp only [Option.some.injEq] at he
  obtain ⟨hlt, hok⟩ := hab _ he.symm
  refine ⟨r, hr, hok, ?_, hlt⟩
  rw [hout, ← he]
  rfl

set_option maxRecDepth 1000000 in
theorem UnpackMO3Data_reuse_without_offset_witness :
    UnpackMO3Data ⟨[0x41, 0x48, 0x42], 0⟩ 4 =
      some { ok := false, out := [0x41, 0x42], file := ⟨[0x41, 0x48, 0x42], 3⟩ } ∧
    ∃ r, UnpackMO3Data ⟨[0x41, 0x48, 0x42], 0⟩ 4 = some r ∧ r.ok = false ∧
      r.out = [0x41, 0x42] ∧ r.out.length < 4 :=
  ⟨by decide,
   (UnpackMO3Data_reuse_without_offset ⟨[0x41, 0x48, 0x42], 0⟩ 4 1
      { bs := ⟨⟨[0x41, 0x48, 0x42], 3⟩, 145, 0⟩, strLen := 0, previousPtr := 0, size := 2,
        out := [0x41, 0x42] }
      { bs := ⟨⟨[0x41, 0x48, 0x42], 3⟩, 32, 0⟩, code := 2, ebp := 0, strOffset := 0,
        refined := 2, strLen := 2, previousPtr := 0 }
      (by decide) (by decide) (by decide)
      (by
        intro j sj hj e
        have hj0 : j = 0 := by omega
        subst hj0
        simp only [callStateAt, stateAt, Option.some.injEq] at e
        subst e
        decide)
      (by decide) (by decide) (by decide)).2.2.2.2.2⟩

/-! ## Hostile inputs -/

theorem alias_index_in_range (s : Nat) (c : Int) (h1 : -2147483648 < c) (h2 : c < 0)
    (hg : wrap32 (-c) < (s : Int)) : 1 ≤ (s : Int) + c ∧ (s : Int) + c ≤ (s : Int) - 1 := by
  unfold wrap32 at hg
  omega

set_option maxRecDepth 1000000 in
theorem exampleAliasContainer_facts :
    (exampleAliasChunk [0, 0, 0, 0x80]).tail.length = 465 ∧
    (exampleAliasChunk [0xFF, 0xFF, 0xFF, 0xFF]).tail.length = 465 ∧
    (0 :: (exampleAliasChunk [0, 0, 0, 0x80]).tail).map (· % 256) =
      exampleAliasChunk [0, 0, 0, 0x80] ∧
    (0 :: (exampleAliasChunk [0xFF, 0xFF, 0xFF, 0xFF]).tail).map (· % 256) =
      exampleAliasChunk [0xFF, 0xFF, 0xFF, 0xFF] ∧
    (literalGroups 0 (exampleAliasChunk [0, 0, 0, 0x80]).tail).length = 524 ∧
    (literalGroups 0 (exampleAliasChunk [0xFF, 0xFF, 0xFF, 0xFF]).tail).length = 524 := by
  decide

theorem exampleAliasContainer_run (cs : List Nat)
    (hl : (exampleAliasChunk cs).tail.length = 465)
    (hm : (0 :: (exampleAliasChunk cs).tail).map (· % 256) = exampleAliasChunk cs)
    (hg : (literalGroups 0 (exampleAliasChunk cs).tail).length = 524) :
    ReadMO3 openmptConstants exampleEnvironment ⟨exampleAliasContainer cs, 0⟩
        ⟨true, true, true⟩ =
      loadMusicChunk openmptConstants exampleEnvironment ⟨true, true, true⟩ 0
        (exampleAliasChunk cs) ⟨exampleAliasContainer cs, 533⟩ := by
  have h := ReadMO3_literals openmptConstants exampleEnvironment ⟨true, true, true⟩ 0xD2 0x01 0
    (exampleAliasChunk cs).tail [] (by decide) (by decide) (by rw [hl])
    (by rw [hl]; decide) (by decide)
  rw [hm, hg] at h
  exact h

set_option maxRecDepth 1000000 in
theorem exampleAliasChunk_load :
    loadMusicChunk openmptConstants exampleEnvironment ⟨true, true, true⟩ 0
      (exampleAliasChunk [0, 0, 0, 0x80]) ⟨exampleAliasContainer [0, 0, 0, 0x80], 533⟩ =
        .undefined ∧
    (loadMusicChunk openmptConstants exampleEnvironment ⟨true, true, true⟩ 0
      (exampleAliasChunk [0xFF, 0xFF, 0xFF, 0xFF])
      ⟨exampleAliasContainer [0xFF, 0xFF, 0xFF, 0xFF], 533⟩).loaded.map
        (fun m => m.samples.map (fun s => (s.nLength, s.pSample))) =
      some [(0, none), (2, none)] := by
  decide

/-- C33 fails on the code at the compressed size -2^31: the record of sample 1 holds the
bytes 00 00 00 80, the negation wraps to -2^31, which is below the slot number 1, so the
aliasing branch is taken with the source index 1 - 2^31, which is outside the sample
table: the load has no defined result. With the compressed size -1 the guard refuses
slot 1 and the load returns true. -/
theorem ReadMO3_alias_int_min :
    (parseSample (exampleSampleRecord 2 0 [0, 0, 0, 0x80]).tail).compressedSize = -2147483648 ∧
    wrap32 (-(-2147483648)) = -2147483648 ∧
    (1 : Int) + (-2147483648) = -2147483647 ∧
    nextSample exampleEnvironment MOD_TYPE_XM 0 ⟨true, true, true⟩
      { samples := [ModSample.Initial],
        musicChunk := ⟨exampleAliasChunk [0, 0, 0, 0x80], 424⟩,
        file := ⟨exampleAliasContainer [0, 0, 0, 0x80], 533⟩, unsupportedSamples := false }
      (parseSample (exampleSampleRecord 2 0 [0, 0, 0, 0x80]).tail) = .undefined ∧
    ReadMO3 openmptConstants exampleEnvironment ⟨exampleAliasContainer [0, 0, 0, 0x80], 0⟩
      ⟨true, true, true⟩ = .undefined ∧
    (ReadMO3 openmptConstants exampleEnvironment
      ⟨exampleAliasContainer [0xFF, 0xFF, 0xFF, 0xFF], 0⟩ ⟨true, true, true⟩).returns =
        some true := by
  obtain ⟨l1, l2, m1, m2, g1, g2⟩ := exampleAliasContainer_facts
  obtain ⟨e1, e2⟩ := exampleAliasChunk_load
  rw [exampleAliasContainer_run _ l1 m1 g1, exampleAliasContainer_run _ l2 m2 g2]
  refine ⟨by decide, by decide, by decide, by decide, e1, ?_⟩
  cases hl : (loadMusicChunk openmptConstants exampleEnvironment ⟨true, true, true⟩ 0
      (exampleAliasChunk [0xFF, 0xFF, 0xFF, 0xFF])
      ⟨exampleAliasContainer [0xFF, 0xFF, 0xFF, 0xFF], 533⟩).loaded with
  | none => rw [hl] at e2; simp at e2
  | some m => exact loaded_returns _ m hl

set_option maxRecDepth 1000000 in
/-- C35 fails on the code: in the stream of `exampleZeroMatchContainer` (requested size
423) iteration 421 of the main loop, counted from 0, is a match (control bit 1, length
code 3, offset -1) whose extended length code overflows the 32-bit length: its final
length is 0 and its offset is valid, so the iteration neither leaves the loop nor writes
a byte, and iteration 422, the 423rd, starts with the same size left and the same number
of bytes written; the call goes on to return true with all 423 bytes. -/
theorem UnpackMO3Data_zero_length_match :
    containerMusicSize exampleZeroMatchContainer = 423 ∧
    (callStateAt (containerStream exampleZeroMatchContainer) 423 421).bind
      (fun st =>
        (decodeMatch (unpackFuel (containerStream exampleZeroMatchContainer) 423)
          (READ_CTRL_BIT 8 st.bs) st.strLen st.previousPtr).map
            (fun h => (st.size, st.out.length, (READ_CTRL_BIT 8 st.bs).carry, h.code,
              h.strOffset, h.strLen))) =
      some (1, 422, 1, 3, -1, 0) ∧
    (callStateAt (containerStream exampleZeroMatchContainer) 423 422).map
      (fun st => (st.size, st.out.length)) = some (1, 422) ∧
    (UnpackMO3Data (containerStream exampleZeroMatchContainer) 423).map
      (fun r => (r.ok, r.out.length)) = some (true, 423) := by
  refine ⟨by decide, by decide, by decide, by decide⟩

/-! ## Where the sample payloads are read -/

theorem samplePass_readSamples (E : Environment) (type : MODTYPE) (version : Nat)
    (lf : ModLoadingFlags) (st st1 : SampleLoop) (h : MO3Sample)
    (e : samplePass E type version lf st = some (h, st1)) (n : Nat) :
    readSamples E type version lf (n + 1) st = readSamples E type version lf n st1 := by
  rw [readSamples_succ]
  unfold samplePass at e
  cases hh : nextSampleHeader version st.musicChunk with
  | none => rw [hh] at e; simp at e
  | some h1 =>
    rw [hh] at e
    simp only at e ⊢
    cases hn : nextSample E type version lf st h1 with
    | done r =>
      rw [hn] at e
      simp only [Option.some.injEq, Prod.mk.injEq] at e ⊢
      rw [e.2]
    | undefined => rw [hn] at e; simp at e
    | outOfFuel => rw [hn] at e; simp at e

theorem samplePasses_succ (E : Environment) (type : MODTYPE) (version : Nat)
    (lf : ModLoadingFlags) (k : Nat) (st : SampleLoop) :
    samplePasses E type version lf (k + 1) st =
      match samplePass E type version lf st with
      | none => none
      | some (h, st1) =>
        match samplePasses E type version lf k st1 with
        | none => none
        | some (hs, st2) => some (h :: hs, st2) := rfl

theorem nextSample_cursor (E : Environment) (type : MODTYPE) (version : Nat)
    (lf : ModLoadingFlags) (st : SampleLoop) (h : MO3Sample)
    (r : ModSample × FileReader × Bool) (hload : lf.loadSampleData = true)
    (hc : h.compressedSize < 2147483648)
    (e : nextSample E type version lf st h = .done r) :
    (0 < h.compressedSize → r.2.1 = (st.file.ReadChunk h.compressedSize.toNat).2) ∧
    (h.compressedSize ≤ 0 → r.2.1 = st.file) := by
  unfold nextSample at e
  rw [if_neg (by simp [hload])] at e
  by_cases hpos : h.compressedSize > 0
  · rw [if_pos hpos] at e
    have hu : toU32 h.compressedSize = h.compressedSize.toNat := by
      unfold toU32
      rw [Int.emod_eq_of_lt (by omega) (by omega)]
    cases hl : loadSampleData E h (h.ConvertToMPT E type version) st.file with
    | none => rw [hl] at e; simp at e
    | some q =>
      rw [hl] at e
      simp only [Run.done.injEq] at e
      subst e
      refine ⟨fun _ => ?_, fun hle => by omega⟩
      rw [(loadSampleData_cursor E h _ st.file q hl).1, hu]
  · rw [if_neg hpos] at e
    refine ⟨fun h0 => absurd h0 hpos, fun _ => ?_⟩
    split at e
    · split at e
      · exact absurd e (by simp)
      · split at e
        · exact absurd e (by simp)
        · simp only [Run.done.injEq] at e
          rw [← e]
    · simp only [Run.done.injEq] at e
      rw [← e]

theorem Skip_position (f : FileReader) (n : Nat) (h : f.pos ≤ f.data.length) :
    f.Skip n = ⟨f.data, min (f.pos + n) f.data.length⟩ := by
  unfold FileReader.Skip FileReader.BytesLeft
  congr 1
  omega

theorem samplePass_position (E : Environment) (type : MODTYPE) (version : Nat)
    (lf : ModLoadingFlags) (st st1 : SampleLoop) (h : MO3Sample)
    (hload : lf.loadSampleData = true) (hpos : st.file.pos ≤ st.file.data.length)
    (e : samplePass E type version lf st = some (h, st1)) :
    st1.file = ⟨st.file.data, min (st.file.pos + payloadBytes [h]) st.file.data.length⟩ ∧
    st1.samples.length = st.samples.length + 1 := by
  unfold samplePass at e
  cases hh : nextSampleHeader version st.musicChunk with
  | none => rw [hh] at e; simp at e
  | some h1 =>
    rw [hh] at e
    simp only at e
    cases hn : nextSample E type version lf st h1 with
    | undefined => rw [hn] at e; simp at e
    | outOfFuel => rw [hn] at e; simp at e
    | done r =>
      rw [hn] at e
      simp only [Option.some.injEq, Prod.mk.injEq] at e
      obtain ⟨e1, e2⟩ := e
      subst e1
      rw [← e2]
      obtain ⟨c1, c2⟩ := nextSample_cursor E type version lf st h1 r hload
        (nextSampleHeader_range version _ h1 hh).2 hn
      refine ⟨?_, by simp⟩
      show r.2.1 = _
      by_cases hp : 0 < h1.compressedSize
      · have hz : payloadBytes [h1] = h1.compressedSize.toNat := by
          unfold payloadBytes
          simp [hp]
        rw [c1 hp, hz]
        show st.file.Skip _ = _
        rw [Skip_position _ _ hpos]
      · have hz : payloadBytes [h1] = 0 := by
          unfold payloadBytes
          simp [hp]
        rw [c2 (by omega), hz, Nat.add_zero, Nat.min_eq_left hpos]

theorem payloadBytes_cons (h : MO3Sample) (hs : List MO3Sample) :
    payloadBytes (h :: hs) = payloadBytes [h] + payloadBytes hs := by
  unfold payloadBytes
  simp

theorem samplePasses_position (E : Environment) (type : MODTYPE) (version : Nat)
    (lf : ModLoadingFlags) (hload : lf.loadSampleData = true) :
    ∀ (k : Nat) (st sk : SampleLoop) (hs : List MO3Sample),
    st.file.pos ≤ st.file.data.length →
    samplePasses E type version lf k st = some (hs, sk) →
    hs.length = k ∧ sk.samples.length = st.samples.length + k ∧
    sk.file = ⟨st.file.data, min (st.file.pos + payloadBytes hs) st.file.data.length⟩ ∧
    ∀ n, readSamples E type version lf (k + n) st = readSamples E type version lf n sk := by
  intro k
  induction k with
  | zero =>
    intro st sk hs hpos e
    simp only [samplePasses, Option.some.injEq, Prod.mk.injEq] at e
    obtain ⟨e1, e2⟩ := e
    subst e1 e2
    refine ⟨rfl, rfl, ?_, fun n => by rw [Nat.zero_add]⟩
    have : payloadBytes [] = 0 := rfl
    rw [this, Nat.add_zero, Nat.min_eq_left hpos]
  | succ m ih =>
    intro st sk hs hpos e
    rw [samplePasses_succ] at e
    cases hp : samplePass E type version lf st with
    | none => rw [hp] at e; simp at e
    | some q =>
      obtain ⟨h, st1⟩ := q
      rw [hp] at e
      simp only at e
      cases hq : samplePasses E type version lf m st1 with
      | none => rw [hq] at e; simp at e
      | some q2 =>
        obtain ⟨hs2, st2⟩ := q2
        rw [hq] at e
        simp only [Option.some.injEq, Prod.mk.injEq] at e
        obtain ⟨e1, e2⟩ := e
        subst e1 e2
        obtain ⟨p1, p2⟩ := samplePass_position E type version lf st st1 h hload hpos hp
        have hpos1 : st1.file.pos ≤ st1.file.data.length := by
          rw [p1]
          exact Nat.min_le_right _ _
        obtain ⟨i1, i2, i3, i4⟩ := ih st1 st2 hs2 hpos1 hq
        refine ⟨by simp [i1], by rw [i2, p2]; omega, ?_, ?_⟩
        · have hc := payloadBytes_cons h hs2
          have d1 : st1.file.data = st.file.data := by rw [p1]
          have d2 : st1.file.pos =
              min (st.file.pos + payloadBytes [h]) st.file.data.length := by rw [p1]
          rw [i3, d1, d2, hc]
          congr 1
          omega
        · intro n
          have e3 : m + 1 + n = (m + n) + 1 := by omega
          rw [e3, samplePass_readSamples E type version lf st st1 h hp, i4]

theorem UnpackMO3Data_file_data (file : FileReader) (N : Nat) (r : UnpackResult)
    (h : UnpackMO3Data file N = some r) : r.file.data = file.data := by
  unfold UnpackMO3Data at h
  by_cases hN : N = 0
  · rw [if_pos hN] at h
    simp only [Option.some.injEq] at h
    rw [← h]
  · rw [if_neg hN] at h
    obtain ⟨h1, h2, h3, -, h5⟩ := unpackInit_facts file N (by omega)
    obtain ⟨e, he, hf, -⟩ := unpackLoop_spec (unpackFuel file N) _ _ h1 h2 h3
    rw [he] at h
    simp only [Option.some.injEq] at h
    rw [← h]
    exact hf.2.2.trans h5

theorem containerAfterMusic_position (data : List Nat) (file : FileReader)
    (hv : 5 ≤ containerVersion data) (hd : file.data = data)
    (hseek : 12 + containerCompressedSize data ≤ data.length)
    (h32 : 12 + containerCompressedSize data < 4294967296) :
    containerAfterMusic data file = ⟨data, 12 + containerCompressedSize data⟩ := by
  unfold containerAfterMusic FileReader.Seek
  rw [if_pos hv, Nat.mod_eq_of_lt (by omega), hd, if_pos hseek]

/-- C31 (amended): in a container of revision 5 or more in which the position
12 + compressed-block size exists and is below 2^32, the sample loop starts with the
container cursor at that position, and before the pass of sample `k + 1` the cursor is
at 12 + compressed-block size + the sum of the positive compressed-size fields of the
`k` records read so far, every read being cut at the end of the container (so it is
exactly that position whenever the position exists). A pass whose compressed size is
positive takes its payload from the cursor and moves the cursor past it, whatever the
compression kind; a pass whose compressed size is zero or negative leaves the cursor
where it is. -/
theorem readSamples_payload_position (E : Environment) (type : MODTYPE)
    (lf : ModLoadingFlags) (data : List Nat) (r : UnpackResult) (st sk : SampleLoop)
    (k : Nat) (hs : List MO3Sample)
    (hv : 5 ≤ containerVersion data)
    (hu : UnpackMO3Data (containerStream data) (containerMusicSize data) = some r)
    (hseek : 12 + containerCompressedSize data ≤ data.length)
    (h32 : 12 + containerCompressedSize data < 4294967296)
    (hload : lf.loadSampleData = true)
    (hst : st.file = containerAfterMusic data r.file)
    (hp : samplePasses E type (containerVersion data) lf k st = some (hs, sk)) :
    st.file = ⟨data, 12 + containerCompressedSize data⟩ ∧
    hs.length = k ∧ sk.samples.length = st.samples.length + k ∧
    (∀ n, readSamples E type (containerVersion data) lf (k + n) st =
      readSamples E type (containerVersion data) lf n sk) ∧
    sk.file =
      ⟨data, min (12 + containerCompressedSize data + payloadBytes hs) data.length⟩ ∧
    (12 + containerCompressedSize data + payloadBytes hs ≤ data.length →
      sk.file.pos = 12 + containerCompressedSize data + payloadBytes hs) ∧
    (∀ h r1, nextSampleHeader (containerVersion data) sk.musicChunk = some h →
      nextSample E type (containerVersion data) lf sk h = .done r1 →
      (0 < h.compressedSize →
        r1.2.1 = (sk.file.ReadChunk h.compressedSize.toNat).2 ∧
        (sk.file.ReadChunk h.compressedSize.toNat).1.data =
          (data.drop sk.file.pos).take h.compressedSize.toNat) ∧
      (h.compressedSize ≤ 0 → r1.2.1 = sk.file)) := by
  have hd : r.file.data = data := UnpackMO3Data_file_data _ _ r hu
  have h0 : st.file = ⟨data, 12 + containerCompressedSize data⟩ := by
    rw [hst]
    exact containerAfterMusic_position data r.file hv hd hseek h32
  have hpos : st.file.pos ≤ st.file.data.length := by rw [h0]; exact hseek
  obtain ⟨p1, p2, p3, p4⟩ :=
    samplePasses_position E type (containerVersion data) lf hload k st sk hs hpos hp
  have hf : sk.file =
      ⟨data, min (12 + containerCompressedSize data + payloadBytes hs) data.length⟩ := by
    rw [p3, h0]
  refine ⟨h0, p1, p2, p4, hf, ?_, ?_⟩
  · intro hle
    rw [hf]
    exact Nat.min_eq_left hle
  · intro h r1 hh hn
    obtain ⟨c1, c2⟩ := nextSample_cursor E type (containerVersion data) lf sk h r1 hload
      (nextSampleHeader_range _ _ h hh).2 hn
    refine ⟨fun hp0 => ⟨c1 hp0, ?_⟩, c2⟩
    show (sk.file.data.drop sk.file.pos).take _ = _
    rw [hf]

set_option maxRecDepth 1000000 in
theorem exampleV5Container_facts :
    5 ≤ containerVersion exampleV5Container ∧
    containerStream exampleV5Container =
      ⟨[0x4D, 0x4F, 0x33, 5, 0x29, 0x02, 0, 0, 0x6E, 0x02, 0, 0] ++
        0 :: (literalGroups 0 exampleV5Chunk.tail ++ [0x11, 0x12, 0x13, 0x00, 0x00]), 12⟩ ∧
    containerMusicSize exampleV5Container = 1 + exampleV5Chunk.tail.length ∧
    12 + containerCompressedSize exampleV5Container ≤ exampleV5Container.length ∧
    exampleV5Container.length < 4294967296 ∧
    12 + 1 + (literalGroups 0 exampleV5Chunk.tail).length = 634 ∧
    12 + containerCompressedSize exampleV5Container = 634 := by
  decide

set_option maxRecDepth 1000000 in
theorem exampleV5Container_unpack :
    UnpackMO3Data (containerStream exampleV5Container)
        (containerMusicSize exampleV5Container) =
      some { ok := true, out := (0 :: exampleV5Chunk.tail).map (· % 256),
             file := ⟨exampleV5Container, 634⟩ } := by
  obtain ⟨-, e1, e2, -, -, e3, -⟩ := exampleV5Container_facts
  have h : UnpackMO3Data
      ⟨[0x4D, 0x4F, 0x33, 5, 0x29, 0x02, 0, 0, 0x6E, 0x02, 0, 0] ++
        0 :: (literalGroups 0 exampleV5Chunk.tail ++ [0x11, 0x12, 0x13, 0x00, 0x00]), 12⟩
      (1 + exampleV5Chunk.tail.length) =
      some { ok := true, out := (0 :: exampleV5Chunk.tail).map (· % 256),
             file := ⟨[0x4D, 0x4F, 0x33, 5, 0x29, 0x02, 0, 0, 0x6E, 0x02, 0, 0] ++
               0 :: (literalGroups 0 exampleV5Chunk.tail ++ [0x11, 0x12, 0x13, 0x00, 0x00]),
               12 + 1 + (literalGroups 0 exampleV5Chunk.tail).length⟩ } :=
    unpack_literals_at [0x4D, 0x4F, 0x33, 5, 0x29, 0x02, 0, 0, 0x6E, 0x02, 0, 0] 0
      exampleV5Chunk.tail [0x11, 0x12, 0x13, 0x00, 0x00]
  rw [e1, e2, h, e3]
  rfl

set_option maxRecDepth 1000000 in
theorem exampleV5Container_passes :
    samplePasses exampleEnvironment MOD_TYPE_XM (containerVersion exampleV5Container)
        ⟨true, true, true⟩ 2 exampleV5State =
      some ([parseSample (exampleSampleRecord 2 0x10 [3, 0, 0, 0]).tail,
             parseSample (exampleSampleRecord 2 0 [0xFF, 0xFF, 0xFF, 0xFF]).tail],
        { samples := [ModSample.Initial,
            { nLength := 2, is16Bit := false, isStereo := false, nC5Speed := none,
              pSample := none },
            { nLength := 2, is16Bit := false, isStereo := false, nC5Speed := none,
              pSample := none }],
          musicChunk := ⟨exampleV5Chunk, 510⟩, file := ⟨exampleV5Container, 637⟩,
          unsupportedSamples := true }) ∧
    payloadBytes [parseSample (exampleSampleRecord 2 0x10 [3, 0, 0, 0]).tail,
      parseSample (exampleSampleRecord 2 0 [0xFF, 0xFF, 0xFF, 0xFF]).tail] = 3 ∧
    exampleV5State.file =
      containerAfterMusic exampleV5Container ⟨exampleV5Container, 634⟩ := by
  refine ⟨by decide, by decide, by decide⟩

theorem readSamples_payload_position_witness :
    exampleV5State.file = ⟨exampleV5Container, 12 + containerCompressedSize exampleV5Container⟩ ∧
    (⟨exampleV5Container, 637⟩ : FileReader) =
      ⟨exampleV5Container, min (12 + containerCompressedSize exampleV5Container +
        payloadBytes [parseSample (exampleSampleRecord 2 0x10 [3, 0, 0, 0]).tail,
          parseSample (exampleSampleRecord 2 0 [0xFF, 0xFF, 0xFF, 0xFF]).tail])
        exampleV5Container.length⟩ :=
  ⟨(readSamples_payload_position exampleEnvironment MOD_TYPE_XM ⟨true, true, true⟩
      exampleV5Container _ exampleV5State _ 2 _ exampleV5Container_facts.1
      exampleV5Container_unpack exampleV5Container_facts.2.2.2.1
      (by rw [exampleV5Container_facts.2.2.2.2.2.2]; decide) rfl
      exampleV5Container_passes.2.2
      exampleV5Container_passes.1).1,
   (readSamples_payload_position exampleEnvironment MOD_TYPE_XM ⟨true, true, true⟩
      exampleV5Container _ exampleV5State _ 2 _ exampleV5Container_facts.1
      exampleV5Container_unpack exampleV5Container_facts.2.2.2.1
      (by rw [exampleV5Container_facts.2.2.2.2.2.2]; decide) rfl
      exampleV5Container_passes.2.2
      exampleV5Container_passes.1).2.2.2.2.1⟩

/-! ## Wrapped offsets, volume-column shortcuts and refused seeks -/

/-- C14 as stated fails: in the IT dialect the event 12 07 00 22 05, whose pairs are
(0x07, 0x00) and (0x22, 0x05), applied to an empty cell gives the volume-column vibrato
depth 0 next to the effect `CMD_VOLUMESLIDE` 5, not the effect `CMD_VIBRATOVOL` 5: the
pair (0x07, 0x00) goes to the empty volume column. Likewise 12 06 00 22 05 gives the
volume-column tone portamento 0 next to `CMD_VOLUMESLIDE` 5, not `CMD_TONEPORTAVOL` 5. -/
theorem readCommands_combined_slides_IT_volume_column :
    eventCell openmptConstants MOD_TYPE_IT ⟨[0x12, 0x07, 0x00, 0x22, 0x05, 0x00], 0⟩ =
      { ModCommand.Empty with volcmd := VOLCMD_VIBRATODEPTH, vol := 0,
                              command := CMD_VOLUMESLIDE, param := 5 } ∧
    eventCell openmptConstants MOD_TYPE_IT ⟨[0x12, 0x07, 0x00, 0x22, 0x05, 0x00], 0⟩ ≠
      { ModCommand.Empty with command := CMD_VIBRATOVOL, param := 5 } ∧
    eventCell openmptConstants MOD_TYPE_IT ⟨[0x12, 0x06, 0x00, 0x22, 0x05, 0x00], 0⟩ =
      { ModCommand.Empty with volcmd := VOLCMD_TONEPORTAMENTO, vol := 0,
                              command := CMD_VOLUMESLIDE, param := 5 } ∧
    eventCell openmptConstants MOD_TYPE_IT ⟨[0x12, 0x06, 0x00, 0x22, 0x05, 0x00], 0⟩ ≠
      { ModCommand.Empty with command := CMD_TONEPORTAVOL, param := 5 } := by
  decide

set_option maxRecDepth 1000000 in
theorem exampleV5Chunk_facts :
    exampleV5Chunk.tail.length = 552 ∧
    (0 :: exampleV5Chunk.tail).map (· % 256) = exampleV5Chunk ∧
    (literalGroups 0 exampleV5Chunk.tail).length = 621 := by
  decide

set_option maxRecDepth 1000000 in
theorem exampleSeekContainer_unpack (size : List Nat) (hlen : size.length = 4)
    (hsize : containerMusicSize (exampleSeekContainer size) = 553)
    (hver : containerVersion (exampleSeekContainer size) = 5) :
    UnpackMO3Data (containerStream (exampleSeekContainer size))
        (containerMusicSize (exampleSeekContainer size)) =
      some { ok := true, out := exampleV5Chunk,
             file := ⟨exampleSeekContainer size, 634⟩ } := by
  obtain ⟨hl, hm, hg⟩ := exampleV5Chunk_facts
  have hpre : ([0x4D, 0x4F, 0x33, 5, 0x29, 0x02, 0, 0] ++ size).length = 12 := by
    rw [List.length_append, hlen]
    rfl
  have hu := unpack_literals_at ([0x4D, 0x4F, 0x33, 5, 0x29, 0x02, 0, 0] ++ size) 0
    exampleV5Chunk.tail [0x11, 0x12, 0x13, 0x00, 0x00]
  rw [hpre, hl, hm, hg] at hu
  have hstream : containerStream (exampleSeekContainer size) =
      ⟨([0x4D, 0x4F, 0x33, 5, 0x29, 0x02, 0, 0] ++ size) ++
        0 :: (literalGroups 0 exampleV5Chunk.tail ++ [0x11, 0x12, 0x13, 0x00, 0x00]), 12⟩ := by
    unfold containerStream
    rw [hver]
    rfl
  rw [hsize, hstream, hu]
  rfl

theorem exampleSeekContainer_run (size : List Nat) (target : FileReader)
    (hlen : size.length = 4)
    (h12 : 12 ≤ (exampleSeekContainer size).length)
    (hmagic : hasMagic (exampleSeekContainer size) = true)
    (hsize : containerMusicSize (exampleSeekContainer size) = 553)
    (hver : containerVersion (exampleSeekContainer size) = 5)
    (hafter : containerAfterMusic (exampleSeekContainer size)
      ⟨exampleSeekContainer size, 634⟩ = target) :
    ReadMO3 openmptConstants exampleEnvironment ⟨exampleSeekContainer size, 0⟩
        ⟨true, true, true⟩ =
      loadMusicChunk openmptConstants exampleEnvironment ⟨true, true, true⟩ 5 exampleV5Chunk
        target := by
  have hu := exampleSeekContainer_unpack size hlen hsize hver
  rw [ReadMO3_eq _ _ _ _ _ h12, hu, hmagic, hsize, hver]
  simp only [Bool.true_eq_false, if_false, Nat.reduceLeDiff, Nat.reduceGT, Nat.lt_irrefl,
    not_true_eq_false, Bool.not_eq_true]
  rw [if_neg (by decide), hafter]

set_option maxRecDepth 1000000 in
theorem exampleSeekContainer_facts :
    (12 ≤ (exampleSeekContainer [0xE8, 0x03, 0, 0]).length ∧
     hasMagic (exampleSeekContainer [0xE8, 0x03, 0, 0]) = true ∧
     containerMusicSize (exampleSeekContainer [0xE8, 0x03, 0, 0]) = 553 ∧
     containerVersion (exampleSeekContainer [0xE8, 0x03, 0, 0]) = 5 ∧
     containerAfterMusic (exampleSeekContainer [0xE8, 0x03, 0, 0])
       ⟨exampleSeekContainer [0xE8, 0x03, 0, 0], 634⟩ =
         ⟨exampleSeekContainer [0xE8, 0x03, 0, 0], 634⟩) ∧
    (12 ≤ (exampleSeekContainer [0xFF, 0xFF, 0xFF, 0xFF]).length ∧
     hasMagic (exampleSeekContainer [0xFF, 0xFF, 0xFF, 0xFF]) = true ∧
     containerMusicSize (exampleSeekContainer [0xFF, 0xFF, 0xFF, 0xFF]) = 553 ∧
     containerVersion (exampleSeekContainer [0xFF, 0xFF, 0xFF, 0xFF]) = 5 ∧
     containerAfterMusic (exampleSeekContainer [0xFF, 0xFF, 0xFF, 0xFF])
       ⟨exampleSeekContainer [0xFF, 0xFF, 0xFF, 0xFF], 634⟩ =
         ⟨exampleSeekContainer [0xFF, 0xFF, 0xFF, 0xFF], 11⟩) := by
  decide

set_option maxRecDepth 1000000 in
theorem exampleSeekContainer_load :
    (loadMusicChunk openmptConstants exampleEnvironment ⟨true, true, true⟩ 5 exampleV5Chunk
      ⟨exampleSeekContainer [0xE8, 0x03, 0, 0], 634⟩).loaded.map
        (fun m => (m.samples.map (fun s => s.pSample), m.file.pos)) =
      some ([none, none, none, some [-1, -2]], 639) ∧
    (loadMusicChunk openmptConstants exampleEnvironment ⟨true, true, true⟩ 5 exampleV5Chunk
      ⟨exampleSeekContainer [0xFF, 0xFF, 0xFF, 0xFF], 11⟩).loaded.map
        (fun m => (m.samples.map (fun s => s.pSample), m.file.pos)) =
      some ([none, none, none, some [-1, -2]], 16) := by
  refine ⟨by decide, by decide⟩

set_option maxRecDepth 1000000 in
/-- C31 as stated fails. The container `exampleSeekContainer [0xE8, 0x03, 0, 0]` is the
639-byte revision 5 container of the worked example with the compressed-block size 1000
in its header: position 12 + 1000 = 1012 does not exist, the seek is refused, and the
sample loop starts where the decompressor stopped, at 634; the payload of sample 1 is
taken from 634, the payload of sample 3 from 637, the load succeeds and ends at 639.
With the size bytes FF FF FF FF the sum 12 + 4294967295 wraps to 11 in 32 bits: the
sample loop starts at 11 and the load ends at 16. -/
theorem ReadMO3_payloads_not_at_declared_position :
    5 ≤ containerVersion (exampleSeekContainer [0xE8, 0x03, 0, 0]) ∧
    12 + containerCompressedSize (exampleSeekContainer [0xE8, 0x03, 0, 0]) = 1012 ∧
    (exampleSeekContainer [0xE8, 0x03, 0, 0]).length = 639 ∧
    UnpackMO3Data (containerStream (exampleSeekContainer [0xE8, 0x03, 0, 0]))
        (containerMusicSize (exampleSeekContainer [0xE8, 0x03, 0, 0])) =
      some { ok := true, out := exampleV5Chunk,
             file := ⟨exampleSeekContainer [0xE8, 0x03, 0, 0], 634⟩ } ∧
    containerAfterMusic (exampleSeekContainer [0xE8, 0x03, 0, 0])
      ⟨exampleSeekContainer [0xE8, 0x03, 0, 0], 634⟩ =
        ⟨exampleSeekContainer [0xE8, 0x03, 0, 0], 634⟩ ∧
    (samplePasses exampleEnvironment MOD_TYPE_XM 5 ⟨true, true, true⟩ 2
      { samples := [ModSample.Initial], musicChunk := ⟨exampleV5Chunk, 424⟩,
        file := ⟨exampleSeekContainer [0xE8, 0x03, 0, 0], 634⟩,
        unsupportedSamples := false }).map
        (fun q => (q.1.map (fun h => h.compressedSize), q.2.file.pos)) =
      some ([3, -1], 637) ∧
    (ReadMO3 openmptConstants exampleEnvironment ⟨exampleSeekContainer [0xE8, 0x03, 0, 0], 0⟩
      ⟨true, true, true⟩).loaded.map
        (fun m => (m.samples.map (fun s => s.pSample), m.file.pos)) =
      some ([none, none, none, some [-1, -2]], 639) ∧
    12 + containerCompressedSize (exampleSeekContainer [0xFF, 0xFF, 0xFF, 0xFF]) =
      4294967307 ∧
    containerAfterMusic (exampleSeekContainer [0xFF, 0xFF, 0xFF, 0xFF])
      ⟨exampleSeekContainer [0xFF, 0xFF, 0xFF, 0xFF], 634⟩ =
        ⟨exampleSeekContainer [0xFF, 0xFF, 0xFF, 0xFF], 11⟩ ∧
    (ReadMO3 openmptConstants exampleEnvironment
      ⟨exampleSeekContainer [0xFF, 0xFF, 0xFF, 0xFF], 0⟩ ⟨true, true, true⟩).loaded.map
        (fun m => (m.samples.map (fun s => s.pSample), m.file.pos)) =
      some ([none, none, none, some [-1, -2]], 16) := by
  obtain ⟨⟨a1, a2, a3, a4, a5⟩, b1, b2, b3, b4, b5⟩ := exampleSeekContainer_facts
  obtain ⟨l1, l2⟩ := exampleSeekContainer_load
  rw [exampleSeekContainer_run [0xE8, 0x03, 0, 0] _ rfl a1 a2 a3 a4 a5,
    exampleSeekContainer_run [0xFF, 0xFF, 0xFF, 0xFF] _ rfl b1 b2 b3 b4 b5]
  refine ⟨by decide, by decide, by decide,
    exampleSeekContainer_unpack _ rfl a3 a4, a5, by decide, l1, by decide, b5, l2⟩

end MO3
